import Mathlib

/-!
# Widget tree of the UI toolkit (`src/framework/ui/uiwidget.cpp`)

A shallow embedding of `UIWidget`: widgets live in a heap indexed by
`WidgetId`; a null `UIWidgetPtr` is `none`.  Calls that can recurse without
bound (`setParent`/`addChild`/`removeChild`, the state cascade, the walks up
the parent chain) take a fuel argument and report `Fault.fuel` when it runs
out; a failed `assert` is `Fault.assertion`, a call through a null pointer is
`Fault.nullDeref`.

The state cascade comes twice.  `updateState` and the operations built on it
record the snapshot handed to `applyStyle` and leave `onStyleApply` out: that
is the code for widgets without `m_style` and, up to the members that only
style application writes, for every style application that neither alters the
tree nor stops the program.  `updateStateWith` and the operations named
`...With` run `onStyleApply` on the snapshot at every flip of a state bit, an
assertion or a null dereference in there included; `Tracks` relates the two.
-/

namespace UI

/-- Heap address of a widget (a non-null `UIWidgetPtr`). -/
abbrev WidgetId := Nat

/-- Ways a call can fail to return. -/
inductive Fault where
  | assertion
  | nullDeref
  | fuel
  deriving DecidableEq, Repr

/-- The value type `Point` (declared outside `src/`). -/
structure Point where
  x : Int
  y : Int
  deriving DecidableEq, Repr

/-- The value type `Rect`, position and size (declared outside `src/`). -/
structure Rect where
  x : Int
  y : Int
  width : Int
  height : Int
  deriving DecidableEq, Repr

/-- The enum `FocusReason`. -/
inductive FocusReason where
  | mouseFocusReason
  | tabFocusReason
  | activeFocusReason
  | otherFocusReason
  deriving DecidableEq, Repr

/-- The enum `WidgetState`; `updateState` treats every value other than the
five named bits through its final `else return`. -/
inductive WidgetState where
  | defaultState
  | activeState
  | focusState
  | hoverState
  | pressedState
  | disabledState
  deriving DecidableEq, Repr

/-- The bitset `m_states`, one flag per bit. -/
structure States where
  active : Bool
  focus : Bool
  hover : Bool
  pressed : Bool
  disabled : Bool
  deriving DecidableEq, Repr

/-- The constant `DefaultState`: no bit set. -/
def States.none : States := ⟨false, false, false, false, false⟩

/-- Reads one bit: `hasState(state)`. -/
def States.has (m : States) : WidgetState → Bool
  | .defaultState => false
  | .activeState => m.active
  | .focusState => m.focus
  | .hoverState => m.hover
  | .pressedState => m.pressed
  | .disabledState => m.disabled

/-- Writes one bit: `m_states |= state` for `true`, `m_states &= ~state` for `false`. -/
def States.assign (m : States) (b : Bool) : WidgetState → States
  | .defaultState => m
  | .activeState => { m with active := b }
  | .focusState => { m with focus := b }
  | .hoverState => { m with hover := b }
  | .pressedState => { m with pressed := b }
  | .disabledState => { m with disabled := b }

/-- Modelled from the spec: `OTMLNode` is declared in `framework/otml`, not
under `src/`.  A style node is a tag, a scalar value and tagged children; it
supports lookup of a child by tag, clone, and merge with override semantics. -/
inductive OTMLNode where
  | mk (tag : String) (value : String) (children : List OTMLNode)

namespace OTMLNode

/-- Tag of a node. -/
def tag : OTMLNode → String
  | mk t _ _ => t

/-- Scalar value of a node. -/
def value : OTMLNode → String
  | mk _ v _ => v

/-- Children of a node, in declaration order. -/
def children : OTMLNode → List OTMLNode
  | mk _ _ cs => cs

/-- Modelled from the spec: `OTMLNode::create()`, an empty node. -/
def create : OTMLNode := mk "" "" []

/-- Modelled from the spec: `get(tag)`, the child carrying the tag, if any. -/
def get (n : OTMLNode) (t : String) : Option OTMLNode :=
  n.children.find? (fun c => c.tag == t)

/-- Modelled from the spec: `clone()`; values have no identity here. -/
def clone (n : OTMLNode) : OTMLNode := n

/-- Modelled from the spec: `addChild(node)` appends a child declaration. -/
def addChild (n : OTMLNode) (c : OTMLNode) : OTMLNode :=
  mk n.tag n.value (n.children ++ [c])

/-- Key-wise override of one declaration: a child with the same tag is
replaced in place, otherwise the declaration is appended. -/
def override : List OTMLNode → OTMLNode → List OTMLNode
  | [], c => [c]
  | d :: ds, c => if d.tag == c.tag then c :: ds else d :: override ds c

/-- Modelled from the spec: `merge(other)` with override semantics: every
child of `other`, in order, overrides the child of the same tag. -/
def merge (n : OTMLNode) (other : OTMLNode) : OTMLNode :=
  mk n.tag n.value (other.children.foldl override n.children)

end OTMLNode

/-- Modelled from the spec: the layout engines (`UIAnchorLayout`,
`UIVerticalLayout`) are not under `src/`.  A layout keeps the widgets
registered with it; recomputing their rectangles is not modelled. -/
structure Layout where
  vertical : Bool
  widgets : List WidgetId
  deriving DecidableEq, Repr

/-- The call `new UIAnchorLayout(asUIWidget())`. -/
def Layout.anchor : Layout := ⟨false, []⟩

/-- The call `addWidget(child)`. -/
def Layout.addWidget (l : Layout) (c : WidgetId) : Layout :=
  { l with widgets := l.widgets ++ [c] }

/-- The call `removeWidget(child)`. -/
def Layout.removeWidget (l : Layout) (c : WidgetId) : Layout :=
  { l with widgets := l.widgets.erase c }

/-- Structural members of `UIWidget`: the tree links, the explicit flags and
the geometry.  The members rewritten by the state cascade are in `Visual`. -/
structure Widget where
  parent : Option WidgetId
  children : List WidgetId
  focusedChild : Option WidgetId
  lockedChildren : List WidgetId
  layout : Option Layout
  enabled : Bool
  visible : Bool
  focusable : Bool
  pressed : Bool
  rect : Rect
  lastFocusReason : FocusReason
  updateEventScheduled : Bool
  style : Option OTMLNode

/-- Members of `UIWidget` rewritten by `updateState`/`updateStyle`:
`m_states`, `m_stateStyle`, and the nodes handed to `applyStyle` over
recorded styles, oldest first. -/
structure Visual where
  states : States
  stateStyle : Option OTMLNode
  applied : List OTMLNode

/-- Calls of the virtual notification hooks, whose base bodies are empty. -/
inductive Notification where
  | geometryUpdate (w : WidgetId) (oldRect newRect : Rect)
  | focusChange (w : WidgetId) (focused : Bool) (reason : FocusReason)
  | hoverChange (w : WidgetId) (hovered : Bool)
  deriving DecidableEq, Repr

/-- The closure queued by `setRect`: it captures `self` and `oldRect`. -/
structure GeometryEvent where
  self : WidgetId
  oldRect : Rect
  deriving DecidableEq, Repr

/-- The structural members of every widget. -/
abbrev Heap := WidgetId → Widget

/-- Rewrites one entry of a heap. -/
def hmodify (h : Heap) (w : WidgetId) (f : Widget → Widget) : Heap :=
  fun i => if i = w then f (h i) else h i

/-- The heap of widgets with the globals the widget code reads:
`g_platform.getMouseCursorPos()` and the queue of `g_dispatcher`. -/
structure State where
  widgets : Heap
  visuals : WidgetId → Visual
  mousePos : Point
  events : List GeometryEvent
  notified : List Notification

/-- Rewrites the structural members of one widget. -/
def State.modify (s : State) (w : WidgetId) (f : Widget → Widget) : State :=
  { s with widgets := hmodify s.widgets w f }

/-- Rewrites the cascade members of one widget. -/
def State.modifyVisual (s : State) (w : WidgetId) (f : Visual → Visual) : State :=
  { s with visuals := fun i => if i = w then f (s.visuals i) else s.visuals i }

/-- Appends a hook call to the record of notifications. -/
def State.notify (s : State) (n : Notification) : State :=
  { s with notified := s.notified ++ [n] }

/-- The getter `getParent()`. -/
def getParent (s : State) (w : WidgetId) : Option WidgetId := (s.widgets w).parent

/-- The getter `getFocusedChild()`. -/
def getFocusedChild (s : State) (w : WidgetId) : Option WidgetId := (s.widgets w).focusedChild

/-- The getter `isExplicitlyEnabled()`. -/
def isExplicitlyEnabled (s : State) (w : WidgetId) : Bool := (s.widgets w).enabled

/-- The getter `isExplicitlyVisible()`. -/
def isExplicitlyVisible (s : State) (w : WidgetId) : Bool := (s.widgets w).visible

/-- The getter `isFocusable()`. -/
def isFocusable (s : State) (w : WidgetId) : Bool := (s.widgets w).focusable

/-- The getter `isPressed()`. -/
def isPressed (s : State) (w : WidgetId) : Bool := (s.widgets w).pressed

/-- The getter `getRect()`. -/
def getRect (s : State) (w : WidgetId) : Rect := (s.widgets w).rect

/-- The getter `hasState(state)`. -/
def hasState (s : State) (w : WidgetId) (state : WidgetState) : Bool :=
  (s.visuals w).states.has state

/-- Method `UIWidget::hasChild`: `std::find` over `m_children`; a null pointer is
never stored in the list. -/
def hasChild (s : State) (w : WidgetId) (child : Option WidgetId) : Bool :=
  match child with
  | none => false
  | some c => (s.widgets w).children.contains c

/-- Method `UIWidget::getChildByPos`: the last child in list order that is
explicitly visible and whose rectangle contains the point.  `contains` is
`Rect::contains`, declared outside `src/`. -/
def getChildByPos (contains : Rect → Point → Bool) (s : State) (w : WidgetId)
    (childPos : Point) : Option WidgetId :=
  (s.widgets w).children.reverse.find?
    (fun c => isExplicitlyVisible s c && contains (getRect s c) childPos)

/-- Method `UIWidget::applyStyle` with `onStyleApply` left out: the node handed over
is recorded in the applied-log and nothing else happens.  This is the call for
a style application that neither alters the tree nor stops the program;
`applyStyleWith` runs `onStyleApply` on the node. -/
def applyStyle (s : State) (w : WidgetId) (styleNode : OTMLNode) : State :=
  s.modifyVisual w (fun v => { v with applied := v.applied ++ [styleNode] })

/-- One step of `updateStyle`: `style = m_style->get(tag); if(style &&
hasState(state)) newStateStyle->merge(style)`. -/
def mergeStateStyle (style : OTMLNode) (has : Bool) (t : String) (acc : OTMLNode) : OTMLNode :=
  match style.get t with
  | some block => if has then acc.merge block else acc
  | none => acc

/-- The node built by `UIWidget::updateStyle` from `m_style`, the previous
`m_stateStyle` and the state bits. -/
def newStateStyle (style : OTMLNode) (stateStyle : Option OTMLNode) (m : States) : OTMLNode :=
  let carried : OTMLNode :=
    match stateStyle with
    | some old =>
      old.children.foldl
        (fun acc node =>
          match style.get node.tag with
          | some otherNode => acc.addChild otherNode.clone
          | none => acc)
        OTMLNode.create
    | none => OTMLNode.create
  let n1 := mergeStateStyle style (m.has .activeState) "state.active" carried
  let n2 := mergeStateStyle style (m.has .focusState) "state.focus" n1
  let n3 := mergeStateStyle style (m.has .hoverState) "state.hover" n2
  let n4 := mergeStateStyle style (m.has .pressedState) "state.pressed" n3
  mergeStateStyle style (m.has .disabledState) "state.disabled" n4

/-- Method `UIWidget::updateStyle` over recorded styles (`updateStyleWith` applies
the snapshot). -/
def updateStyle (s : State) (w : WidgetId) : State :=
  match (s.widgets w).style with
  | none => s
  | some style =>
    let node := newStateStyle style (s.visuals w).stateStyle (s.visuals w).states
    (applyStyle s w node).modifyVisual w (fun v => { v with stateStyle := some node })

/-- The `do ... while(widget = parent)` walk of the `ActiveState` branch of
`updateState`; one unit of fuel per iteration. -/
def activeWalk : Nat → State → WidgetId → Except Fault Bool
  | 0, _, _ => .error .fuel
  | n + 1, s, widget =>
    let parent := getParent s widget
    if !isExplicitlyEnabled s widget ||
        (match parent with
         | some p => getFocusedChild s p != some widget
         | none => false) then
      .ok false
    else
      match parent with
      | some p => activeWalk n s p
      | none => .ok true

/-- The walk of the `HoverState` branch of `updateState`. -/
def hoverWalk (contains : Rect → Point → Bool) : Nat → State → WidgetId → Except Fault Bool
  | 0, _, _ => .error .fuel
  | n + 1, s, widget =>
    let parent := getParent s widget
    if !contains (getRect s widget) s.mousePos ||
        (match parent with
         | some p => some widget != getChildByPos contains s p s.mousePos
         | none => false) then
      .ok false
    else
      match parent with
      | some p => hoverWalk contains n s p
      | none => .ok true

/-- The walk of the `DisabledState` branch of `updateState`. -/
def disabledWalk : Nat → State → WidgetId → Except Fault Bool
  | 0, _, _ => .error .fuel
  | n + 1, s, widget =>
    if !isExplicitlyEnabled s widget then
      .ok false
    else
      match getParent s widget with
      | some p => disabledWalk n s p
      | none => .ok true

/-- First half of `updateState`: `newStatus` and `updateChildren` for the
requested bit, or `none` for the final `else return`. -/
def deriveStatus (contains : Rect → Point → Bool) (fuel : Nat) (s : State) (w : WidgetId) :
    WidgetState → Except Fault (Option (Bool × Bool))
  | .activeState => (activeWalk fuel s w).map (fun b => some (b, true))
  | .focusState =>
    .ok (some ((match getParent s w with
                | some p => getFocusedChild s p == some w
                | none => false), false))
  | .hoverState => (hoverWalk contains fuel s w).map (fun b => some (b, true))
  | .pressedState => .ok (some ((s.widgets w).pressed, false))
  | .disabledState => (disabledWalk fuel s w).map (fun b => some (b, true))
  | .defaultState => .ok none

/-- Last part of `updateState` over recorded styles: when the status changed,
flip the bit, call `updateStyle()` and fire the focus or hover hook. -/
def commitStatus (s : State) (w : WidgetId) (state : WidgetState)
    (newStatus oldStatus : Bool) : State :=
  if newStatus != oldStatus then
    let s1 := s.modifyVisual w (fun v => { v with states := v.states.assign newStatus state })
    let s2 := updateStyle s1 w
    match state with
    | .focusState => s2.notify (.focusChange w newStatus (s2.widgets w).lastFocusReason)
    | .hoverState => s2.notify (.hoverChange w newStatus)
    | _ => s2
  else s

/-- Method `UIWidget::updateState` over recorded styles. -/
def updateState (contains : Rect → Point → Bool) :
    Nat → State → WidgetId → WidgetState → Except Fault State
  | 0, _, _, _ => .error .fuel
  | n + 1, s, w, state =>
    let oldStatus := hasState s w state
    match deriveStatus contains n s w state with
    | .error e => .error e
    | .ok none => .ok s
    | .ok (some (newStatus, updateChildren)) =>
      match (if updateChildren then
               (s.widgets w).children.foldlM (fun acc child => updateState contains n acc child state) s
             else .ok s) with
      | .error e => .error e
      | .ok s1 => .ok (commitStatus s1 w state newStatus oldStatus)

/-- Method `UIWidget::updateStates`. -/
def updateStates (contains : Rect → Point → Bool) (fuel : Nat) (s : State) (w : WidgetId) :
    Except Fault State := do
  let s1 ← updateState contains fuel s w .activeState
  let s2 ← updateState contains fuel s1 w .focusState
  let s3 ← updateState contains fuel s2 w .disabledState
  updateState contains fuel s3 w .hoverState

/-- Modelled from the spec: `setEnabled` is defined in `uiwidget.h`, not under
`src/`; it sets the explicit enabled flag. -/
def setEnabled (s : State) (w : WidgetId) (enabled : Bool) : State :=
  s.modify w (fun d => { d with enabled := enabled })

/-- Modelled from the spec: `setLastFocusReason` is defined in `uiwidget.h`;
it stores the reason of the latest focus change. -/
def setLastFocusReason (s : State) (w : WidgetId) (reason : FocusReason) : State :=
  s.modify w (fun d => { d with lastFocusReason := reason })

/-- The block `w->setLastFocusReason(reason); w->updateState(FocusState);
w->updateState(ActiveState);` that `focusChild` runs for the new and for the
old focused child, each guarded by a null test. -/
def refocus (contains : Rect → Point → Bool) (fuel : Nat) (s : State) (w : Option WidgetId)
    (reason : FocusReason) : Except Fault State :=
  match w with
  | some c => do
    let a ← updateState contains fuel (setLastFocusReason s c reason) c .focusState
    updateState contains fuel a c .activeState
  | none => .ok s

/-- Method `UIWidget::focusChild`. -/
def focusChild (contains : Rect → Point → Bool) (fuel : Nat) (s : State) (self : WidgetId)
    (child : Option WidgetId) (reason : FocusReason) : Except Fault State :=
  if child.isSome && !hasChild s self child then
    .ok s
  else if child != (s.widgets self).focusedChild then do
    let oldFocused := (s.widgets self).focusedChild
    let s1 := s.modify self (fun d => { d with focusedChild := child })
    let s2 ← refocus contains fuel s1 child reason
    refocus contains fuel s2 oldFocused reason
  else
    .ok s

/-- The loop over `m_children` shared by `lockChild` and `unlockChild`: with
a locked child, `if(otherChild == lockedChild) lockedChild->setEnabled(true);
else otherChild->setEnabled(false);`, without one,
`otherChild->setEnabled(true)`. -/
def enableOnly (s : State) (children : List WidgetId) (lockedChild : Option WidgetId) : State :=
  children.foldl
    (fun acc otherChild =>
      match lockedChild with
      | some l => if otherChild = l then setEnabled acc l true else setEnabled acc otherChild false
      | none => setEnabled acc otherChild true)
    s

/-- Method `UIWidget::unlockChild`. -/
def unlockChild (s : State) (self : WidgetId) (child : Option WidgetId) : Except Fault State :=
  match child with
  | none => .ok s
  | some c =>
    if !hasChild s self (some c) then .error .assertion
    else if !(s.widgets self).lockedChildren.contains c then .ok s
    else
      let s1 := s.modify self (fun d => { d with lockedChildren := d.lockedChildren.erase c })
      let lockedChild := (s1.widgets self).lockedChildren.head?
      .ok (enableOnly s1 (s1.widgets self).children lockedChild)

/-- Method `UIWidget::moveChildToTop`. -/
def moveChildToTop (s : State) (self : WidgetId) (child : Option WidgetId) : Except Fault State :=
  match child with
  | none => .ok s
  | some c =>
    if !(s.widgets self).children.contains c then .error .assertion
    else .ok (s.modify self (fun d => { d with children := d.children.erase c ++ [c] }))

/-- Method `UIWidget::lockChild`. -/
def lockChild (contains : Rect → Point → Bool) (fuel : Nat) (s : State) (self : WidgetId)
    (child : Option WidgetId) : Except Fault State :=
  match child with
  | none => .ok s
  | some c =>
    if !hasChild s self (some c) then .error .assertion
    else do
      let s1 ← unlockChild s self (some c)
      let s2 := enableOnly s1 (s1.widgets self).children (some c)
      let s3 := s2.modify self (fun d => { d with lockedChildren := c :: d.lockedChildren })
      let s4 ← (if isFocusable s3 c then focusChild contains fuel s3 self (some c) .activeFocusReason
                else .ok s3)
      moveChildToTop s4 self (some c)

/-- Method `UIWidget::focusNextChild`: `std::rotate` brings the focused child to the
front of the copy, `pop_front` drops it. -/
def focusNextChild (contains : Rect → Point → Bool) (fuel : Nat) (s : State) (self : WidgetId)
    (reason : FocusReason) : Except Fault State :=
  let children := (s.widgets self).children
  let rotatedChildren :=
    match (s.widgets self).focusedChild with
    | some f =>
      if children.contains f then (children.rotate (children.indexOf f)).tail else children
    | none => children
  match rotatedChildren.find? (fun child => isFocusable s child) with
  | some toFocus => focusChild contains fuel s self (some toFocus) reason
  | none => .ok s

/-- The statements `if(!m_layout) m_layout = UILayoutPtr(new UIAnchorLayout(...));
m_layout->addWidget(child)` shared by `addChild` and `insertChild`. -/
def registerWithLayout (s : State) (self : WidgetId) (c : WidgetId) : State :=
  s.modify self (fun d =>
    { d with layout := some (((d.layout).getD Layout.anchor).addWidget c) })

mutual

/-- Method `UIWidget::setParent`. -/
def setParent (contains : Rect → Point → Bool) :
    Nat → State → WidgetId → Option WidgetId → Except Fault State
  | 0, _, _, _ => .error .fuel
  | n + 1, s, self, parent => do
    let s1 ← (match getParent s self with
      | some oldParent =>
        if hasChild s oldParent (some self) then removeChild contains n s oldParent (some self)
        else .ok s
      | none => .ok s)
    let s2 := s1.modify self (fun d => { d with parent := none })
    match parent with
    | some p =>
      let s3 := s2.modify self (fun d => { d with parent := some p })
      if !hasChild s3 p (some self) then addChild contains n s3 p (some self) else .ok s3
    | none => .ok s2

/-- Method `UIWidget::addChild`. -/
def addChild (contains : Rect → Point → Bool) :
    Nat → State → WidgetId → Option WidgetId → Except Fault State
  | 0, _, _, _ => .error .fuel
  | n + 1, s, self, child =>
    match child with
    | none => .ok s
    | some c =>
      if hasChild s self (some c) then .ok s
      else do
        let s1 := s.modify self (fun d => { d with children := d.children ++ [c] })
        let s2 ← setParent contains n s1 c (some self)
        let s3 ← (if isFocusable s2 c && isExplicitlyVisible s2 c && isExplicitlyEnabled s2 c then
                    focusChild contains n s2 self (some c) .activeFocusReason
                  else .ok s2)
        updateStates contains n (registerWithLayout s3 self c) c

/-- Method `UIWidget::removeChild`. -/
def removeChild (contains : Rect → Point → Bool) :
    Nat → State → WidgetId → Option WidgetId → Except Fault State
  | 0, _, _, _ => .error .fuel
  | n + 1, s, self, child =>
    match child with
    | none => .ok s
    | some c =>
      if (s.widgets self).children.contains c then do
        let s1 ← (if (s.widgets self).focusedChild == some c then
                    focusChild contains n s self none .activeFocusReason
                  else .ok s)
        let s2 ← unlockChild s1 self (some c)
        let s3 := s2.modify self (fun d => { d with children := d.children.erase c })
        if getParent s3 c != some self then .error .assertion
        else do
          let s4 ← setParent contains n s3 c none
          match (s4.widgets self).layout with
          | none => .error .nullDeref
          | some l =>
            updateStates contains n (s4.modify self (fun d => { d with layout := some (l.removeWidget c) })) c
      else .ok s

end

/-- Method `UIWidget::insertChild`; `index` is the C `int` argument. -/
def insertChild (contains : Rect → Point → Bool) (fuel : Nat) (s : State) (self : WidgetId)
    (index : Int) (child : Option WidgetId) : Except Fault State :=
  match child with
  | none => .ok s
  | some c =>
    if hasChild s self (some c) then .ok s
    else
      let size : Int := (s.widgets self).children.length
      let index := if index ≤ 0 then size + index else index - 1
      if !(decide (0 ≤ index) && decide (index ≤ size)) then .error .assertion
      else do
        let s1 := s.modify self (fun d => { d with children := d.children.insertIdx index.toNat c })
        let s2 ← setParent contains fuel s1 c (some self)
        updateStates contains fuel (registerWithLayout s2 self c) c


/-- The `k`-th ancestor of a widget along the parent references. -/
def up (h : Heap) : Nat → WidgetId → Option WidgetId
  | 0, w => some w
  | k + 1, w => (up h k w).bind (fun v => (h v).parent)

/-- A rank that grows strictly from child to parent, along the children
sequences and along the parent references, and stays below `N`: the links
hold no cycle and every chain has at most `N + 1` widgets. -/
def Ranked (h : Heap) (rk : WidgetId → Nat) (N : Nat) : Prop :=
  (∀ w, rk w ≤ N) ∧
  (∀ p c, c ∈ (h p).children → rk c < rk p) ∧
  (∀ w p, (h w).parent = some p → rk w < rk p)

/-- Parent references and children sequences agree. -/
def Integrity (h : Heap) : Prop :=
  ∀ w p, w ∈ (h p).children ↔ (h w).parent = some p

/-- No children sequence lists a widget twice. -/
def NodupChildren (h : Heap) : Prop :=
  ∀ p, (h p).children.Nodup

/-- A widget that has children owns a layout. -/
def LayoutPresent (h : Heap) : Prop :=
  ∀ p, (h p).children ≠ [] → (h p).layout.isSome = true

/-- A well-formed widget tree. -/
structure WellFormed (h : Heap) : Prop where
  integrity : Integrity h
  nodup : NodupChildren h
  layout : LayoutPresent h
  ranked : ∃ rk N, Ranked h rk N

/-- A call meets a specification: whenever it returns, the result satisfies
`Q`, and under the side condition `T` it does return. -/
def Spec (x : Except Fault State) (T : Prop) (Q : State → Prop) : Prop :=
  (∀ s', x = .ok s' → Q s') ∧ (T → ∃ s', x = .ok s')

/-- The state `s'` carries the heap `h` and the globals of `s`. -/
def Outcome (s s' : State) (h : Heap) : Prop :=
  s'.widgets = h ∧ s'.mousePos = s.mousePos ∧ s'.events = s.events

/-- Effect of the `enableOnly` loop on the structural members. -/
def enableOnlyH (h : Heap) (children : List WidgetId) (lockedChild : Option WidgetId) : Heap :=
  fun w =>
    if w ∈ children then { h w with enabled := lockedChild.isNone || lockedChild == some w }
    else h w

/-- The test `hasChild` on a heap. -/
def hasChildH (h : Heap) (w : WidgetId) (child : Option WidgetId) : Bool :=
  match child with
  | none => false
  | some c => (h w).children.contains c

/-- Effect of `refocus` on the structural members. -/
def refocusH (h : Heap) (w : Option WidgetId) (reason : FocusReason) : Heap :=
  match w with
  | some c => hmodify h c (fun d => { d with lastFocusReason := reason })
  | none => h

/-- Effect of `focusChild` on the structural members. -/
def focusChildH (h : Heap) (self : WidgetId) (child : Option WidgetId) (reason : FocusReason) :
    Heap :=
  if child.isSome && !hasChildH h self child then h
  else if child != (h self).focusedChild then
    refocusH (refocusH (hmodify h self (fun d => { d with focusedChild := child })) child reason)
      (h self).focusedChild reason
  else h

/-- Effect of `unlockChild` on the structural members, for a child of `self`. -/
def unlockChildH (h : Heap) (self : WidgetId) (c : WidgetId) : Heap :=
  if (h self).lockedChildren.contains c then
    let h1 := hmodify h self (fun d => { d with lockedChildren := d.lockedChildren.erase c })
    enableOnlyH h1 (h1 self).children (h1 self).lockedChildren.head?
  else h

/-- Effect of the statement `if(m_focusedChild == child) focusChild(nullptr,
ActiveFocusReason)` of `removeChild`. -/
def defocusH (h : Heap) (self : WidgetId) (c : WidgetId) : Heap :=
  if (h self).focusedChild == some c then focusChildH h self none .activeFocusReason else h

/-- Effect of `removeChild` on the structural members, for a child `c` of
`self` whose parent reference is `self`. -/
def removeChildH (h : Heap) (self : WidgetId) (c : WidgetId) : Heap :=
  let h2 := unlockChildH (defocusH h self c) self c
  let h3 := hmodify h2 self (fun d => { d with children := d.children.erase c })
  let h4 := hmodify h3 c (fun d => { d with parent := none })
  hmodify h4 self (fun d => { d with layout := d.layout.map (fun l => l.removeWidget c) })

/-- Effect of `setParent(self)` called from `addChild`/`insertChild` on the
structural members: the child leaves its old parent and points to `self`. -/
def adoptH (h : Heap) (self : WidgetId) (c : WidgetId) : Heap :=
  let h1 := match (h c).parent with
    | some q => if (h q).children.contains c then removeChildH h q c else h
    | none => h
  hmodify h1 c (fun d => { d with parent := some self })

/-- Effect of the layout statements of `addChild`/`insertChild`. -/
def registerH (h : Heap) (self : WidgetId) (c : WidgetId) : Heap :=
  hmodify h self (fun d => { d with layout := some ((d.layout.getD Layout.anchor).addWidget c) })

/-- Effect of the part shared by `addChild` and `insertChild` on the
structural members: `setParent`, the focus step of `addChild` (`focus`), the
layout statements.  `h` is the heap after the child was put into the children
sequence. -/
def attachH (h : Heap) (self : WidgetId) (c : WidgetId) (focus : Bool) : Heap :=
  registerH
    (if focus && (((adoptH h self c) c).focusable && ((adoptH h self c) c).visible &&
          ((adoptH h self c) c).enabled) then
      focusChildH (adoptH h self c) self (some c) .activeFocusReason
    else adoptH h self c) self c

/-- Effect of `addChild` on the structural members, for `c` not yet a child
of `self`. -/
def addChildH (h : Heap) (self : WidgetId) (c : WidgetId) : Heap :=
  attachH (hmodify h self (fun d => { d with children := d.children ++ [c] })) self c true

/-- Effect of `insertChild` at 0-based position `i` on the structural
members, for `c` not yet a child of `self`. -/
def insertChildH (h : Heap) (self : WidgetId) (i : Nat) (c : WidgetId) : Heap :=
  attachH (hmodify h self (fun d => { d with children := d.children.insertIdx i c })) self c false

/-- Two heaps with the same links. -/
def SameLinks (h' h : Heap) : Prop :=
  ∀ w, (h' w).children = (h w).children ∧ (h' w).parent = (h w).parent

/-- Side condition under which the state cascade returns on heap `h` with
fuel `n`. -/
def Cascades (h : Heap) (n : Nat) : Prop := ∃ rk N, Ranked h rk N ∧ 2 * N + 1 < n

/-- Links of `h'` are links of `h`. -/
def LinksLE (h' h : Heap) : Prop :=
  (∀ w x, x ∈ (h' w).children → x ∈ (h w).children) ∧
  (∀ w q, (h' w).parent = some q → (h w).parent = some q)

/-- Links of `h'` are links of `h`, or the one link between child `c` and
parent `p`. -/
def LinksIn (h' h : Heap) (p c : WidgetId) : Prop :=
  (∀ w x, x ∈ (h' w).children → x ∈ (h w).children ∨ (w = p ∧ x = c)) ∧
  (∀ w q, (h' w).parent = some q → (h w).parent = some q ∨ (w = c ∧ q = p))

/-- Side condition under which the state cascade returns, with fuel `n`, on
every heap whose links are those of `h` or the link between child `c` and
parent `p`. -/
def RankedEdge (h : Heap) (p c : WidgetId) (n : Nat) : Prop :=
  ∃ rk N, Ranked h rk N ∧ rk c < rk p ∧ 2 * N + 1 < n

/-- The calls of the tree-integrity property, with their arguments. -/
inductive TreeOp where
  | addChild (p : WidgetId) (c : Option WidgetId)
  | insertChild (p : WidgetId) (index : Int) (c : Option WidgetId)
  | removeChild (p : WidgetId) (c : Option WidgetId)

/-- Runs one call. -/
def TreeOp.run (contains : Rect → Point → Bool) (fuel : Nat) (s : State) :
    TreeOp → Except Fault State
  | .addChild p c => UI.addChild contains fuel s p c
  | .insertChild p index c => UI.insertChild contains fuel s p index c
  | .removeChild p c => UI.removeChild contains fuel s p c

/-- The index passes the `assert` of `insertChild` on a sequence of `size`
children. -/
def IndexInRange (size : Nat) (index : Int) : Prop :=
  0 ≤ (if index ≤ 0 then (size : Int) + index else index - 1) ∧
  (if index ≤ 0 then (size : Int) + index else index - 1) ≤ size

/-- A call that adds no widget to itself or to one of its own descendants
(`c` is not `p` and not an ancestor of `p`), and inserts at an index in
range. -/
def TreeOp.Admissible (h : Heap) : TreeOp → Prop
  | .addChild p (some c) => ∀ k, up h k p ≠ some c
  | .insertChild p index (some c) =>
    (∀ k, up h k p ≠ some c) ∧ IndexInRange (h p).children.length index
  | _ => True

/-- Every widget is detached: no parent, no children. -/
def Detached (h : Heap) : Prop :=
  ∀ w, (h w).parent = none ∧ (h w).children = []

/-- States reached from detached widgets by admissible `addChild`,
`insertChild` and `removeChild` calls that returned. -/
inductive Reachable (contains : Rect → Point → Bool) : State → Prop where
  | init (s : State) (h : Detached s.widgets) : Reachable contains s
  | step (s s' : State) (op : TreeOp) (fuel : Nat) (hs : Reachable contains s)
      (ha : op.Admissible s.widgets) (hrun : op.run contains fuel s = .ok s') :
      Reachable contains s'

/-- A widget as left by the constructor and `setup()`: detached, enabled,
visible, focusable, with the given rectangle. -/
def sampleWidget (r : Rect) : Widget :=
  { parent := none, children := [], focusedChild := none, lockedChildren := [], layout := none,
    enabled := true, visible := true, focusable := true, pressed := false, rect := r,
    lastFocusReason := .activeFocusReason, updateEventScheduled := false, style := none }

/-- A containment test for rectangles given as position and size. -/
def sampleContains (r : Rect) (p : Point) : Bool :=
  decide (r.x ≤ p.x) && decide (p.x < r.x + r.width) &&
    decide (r.y ≤ p.y) && decide (p.y < r.y + r.height)

/-- A state in which every widget is detached. -/
def sampleState : State :=
  { widgets := fun _ => sampleWidget ⟨0, 0, 10, 10⟩,
    visuals := fun _ => ⟨States.none, none, []⟩,
    mousePos := ⟨5, 5⟩, events := [], notified := [] }

/-- The state of a call that returned, `s` otherwise. -/
def resultOr (s : State) (r : Except Fault State) : State :=
  match r with
  | .ok t => t
  | .error _ => s

/-- The sample state after widget 1 adopted widget 2. -/
def sampleTree : State :=
  resultOr sampleState (addChild sampleContains 10 sampleState 1 (some 2))

/-- Effect of `lockChild` on the structural members, for a child of `self`. -/
def lockChildH (h : Heap) (self : WidgetId) (c : WidgetId) : Heap :=
  let h1 := unlockChildH h self c
  let h2 := enableOnlyH h1 (h1 self).children (some c)
  let h3 := hmodify h2 self (fun d => { d with lockedChildren := c :: d.lockedChildren })
  let h4 := if (h3 c).focusable then focusChildH h3 self (some c) .activeFocusReason else h3
  hmodify h4 self (fun d => { d with children := d.children.erase c ++ [c] })

/-- The focus target of `focusNextChild`: the first focusable widget of the
rotated copy of the children. -/
def nextFocus (h : Heap) (self : WidgetId) : Option WidgetId :=
  let children := (h self).children
  let rotatedChildren :=
    match (h self).focusedChild with
    | some f =>
      if children.contains f then (children.rotate (children.indexOf f)).tail else children
    | none => children
  rotatedChildren.find? (fun child => (h child).focusable)

/-- Focused children are children. -/
def FocusValid (h : Heap) : Prop :=
  ∀ p c, (h p).focusedChild = some c → c ∈ (h p).children

/-- The calls of the focus-validity property, with their arguments. -/
inductive WidgetOp where
  | addChild (p : WidgetId) (c : Option WidgetId)
  | insertChild (p : WidgetId) (index : Int) (c : Option WidgetId)
  | removeChild (p : WidgetId) (c : Option WidgetId)
  | focusChild (p : WidgetId) (c : Option WidgetId) (reason : FocusReason)
  | focusNextChild (p : WidgetId) (reason : FocusReason)
  | lockChild (p : WidgetId) (c : Option WidgetId)
  | unlockChild (p : WidgetId) (c : Option WidgetId)
  | moveChildToTop (p : WidgetId) (c : Option WidgetId)

/-- Runs one call. -/
def WidgetOp.run (contains : Rect → Point → Bool) (fuel : Nat) (s : State) :
    WidgetOp → Except Fault State
  | .addChild p c => UI.addChild contains fuel s p c
  | .insertChild p index c => UI.insertChild contains fuel s p index c
  | .removeChild p c => UI.removeChild contains fuel s p c
  | .focusChild p c reason => UI.focusChild contains fuel s p c reason
  | .focusNextChild p reason => UI.focusNextChild contains fuel s p reason
  | .lockChild p c => UI.lockChild contains fuel s p c
  | .unlockChild p c => UI.unlockChild s p c
  | .moveChildToTop p c => UI.moveChildToTop s p c

/-- Every widget is as the constructor leaves it: no parent, no children, no
focused child, no locked child. -/
def Fresh (h : Heap) : Prop :=
  ∀ w, (h w).parent = none ∧ (h w).children = [] ∧ (h w).focusedChild = none ∧
    (h w).lockedChildren = []

/-- States reached from fresh widgets by calls of `addChild`, `insertChild`,
`removeChild`, `focusChild`, `focusNextChild`, `lockChild`, `unlockChild` and
`moveChildToTop` that returned. -/
inductive FocusReachable (contains : Rect → Point → Bool) : State → Prop where
  | init (s : State) (h : Fresh s.widgets) : FocusReachable contains s
  | step (s s' : State) (op : WidgetOp) (fuel : Nat) (hs : FocusReachable contains s)
      (hrun : op.run contains fuel s = .ok s') : FocusReachable contains s'

/-- The invariant behind focus validity. -/
structure FocusInv (h : Heap) : Prop where
  integrity : Integrity h
  nodup : NodupChildren h
  focus : FocusValid h

/-- The condition derived by the `ActiveState` walk: every widget on the
parent chain from `d` up to the root is explicitly enabled, and every widget
on it that has a parent is the focused child of that parent. -/
def ActiveChain (h : Heap) (d : WidgetId) : Prop :=
  ∀ k v, up h k d = some v →
    (h v).enabled = true ∧ ∀ q, (h v).parent = some q → (h q).focusedChild = some v

/-- Every widget on the parent chain from `d` up to the root is explicitly
enabled: what the `DisabledState` walk of `updateState` derives. -/
def AllEnabled (h : Heap) (d : WidgetId) : Prop :=
  ∀ k v, up h k d = some v → (h v).enabled = true

/-- The sample state after widget 1 adopted widgets 2 and 3. -/
def sampleFamily : State :=
  resultOr sampleTree (addChild sampleContains 10 sampleTree 1 (some 3))

/-- The state blocks that `updateStyle` merges, in merge order: the blocks
`state.active`, `state.focus`, `state.hover`, `state.pressed`,
`state.disabled` of the base style that exist and whose bit is set. -/
def stateBlocks (style : OTMLNode) (m : States) : List OTMLNode :=
  [(m.has .activeState, "state.active"), (m.has .focusState, "state.focus"),
    (m.has .hoverState, "state.hover"), (m.has .pressedState, "state.pressed"),
    (m.has .disabledState, "state.disabled")].filterMap
    (fun e => if e.1 then style.get e.2 else none)

/-- The declarations of a node carry pairwise distinct tags. -/
def OTMLNode.UniqueTags (n : OTMLNode) : Prop :=
  (n.children.map OTMLNode.tag).Nodup

/-- The part of the snapshot carried over from the previous snapshot: the
base-style declarations whose tag the previous snapshot listed. -/
def carriedStyle (style : OTMLNode) (stateStyle : Option OTMLNode) : OTMLNode :=
  match stateStyle with
  | some old =>
    old.children.foldl
      (fun acc node =>
        match style.get node.tag with
        | some otherNode => acc.addChild otherNode.clone
        | none => acc)
      OTMLNode.create
  | none => OTMLNode.create

/-- A base style with a hover block and a pressed block that both set `color`. -/
def sampleStyle : OTMLNode :=
  .mk "Button" "" [
    .mk "color" "white" [],
    .mk "state.hover" "" [.mk "color" "yellow" [], .mk "opacity" "200" []],
    .mk "state.pressed" "" [.mk "color" "red" []],
    .mk "state.disabled" "" [.mk "color" "gray" []]]

/-- Modelled from the spec: `setPressed` is defined in `uiwidget.h`, not
under `src/`; it sets the tracked pressed flag. -/
def setPressed (s : State) (w : WidgetId) (pressed : Bool) : State :=
  s.modify w (fun d => { d with pressed := pressed })

/-- The first loop of `UIWidget::onMousePress` (and of `onMouseWheel`): the
backup list of the children that are explicitly enabled and visible, contain
the position and are the result of `getChildByPos`. -/
def mousePressTargets (contains : Rect → Point → Bool) (s : State) (self : WidgetId)
    (mousePos : Point) : List WidgetId :=
  (s.widgets self).children.filter (fun child =>
    !(!isExplicitlyEnabled s child || !isExplicitlyVisible s child) &&
      (contains (getRect s child) mousePos &&
        (some child == getChildByPos contains s self mousePos)))

/-- Outcome of a routing call: the value returned, the children whose handler
was called with the answer of each (oldest first), and the state. -/
structure Routed where
  handled : Bool
  offered : List (WidgetId × Bool)
  state : State

/-- The second loop of `UIWidget::onMousePress` over the backup list.
`handler child` is the virtual call `child->onMousePress(mousePos, button)`. -/
def dispatchPress (contains : Rect → Point → Bool)
    (handler : WidgetId → State → Except Fault (Bool × State)) (fuel : Nat) (self : WidgetId)
    (mousePos : Point) : List WidgetId → List (WidgetId × Bool) → State → Except Fault Routed
  | [], offered, s => .ok ⟨false, offered, s⟩
  | child :: rest, offered, s => do
    let s1 ← (if isFocusable s child then
                focusChild contains fuel s self (some child) .mouseFocusReason
              else .ok s)
    let r ← handler child s1
    let mustEnd := r.1
    let s2 := r.2
    let s3 := if (getChildByPos contains s2 child mousePos).isNone && !isPressed s2 child then
        setPressed s2 child true
      else s2
    if mustEnd then .ok ⟨true, offered ++ [(child, mustEnd)], s3⟩
    else dispatchPress contains handler fuel self mousePos rest (offered ++ [(child, mustEnd)]) s3

/-- Method `UIWidget::onMousePress` with the handlers of the children given. -/
def onMousePressWith (contains : Rect → Point → Bool)
    (handler : WidgetId → State → Except Fault (Bool × State)) (fuel : Nat) (s : State)
    (self : WidgetId) (mousePos : Point) : Except Fault Routed :=
  dispatchPress contains handler fuel self mousePos
    (mousePressTargets contains s self mousePos) [] s

/-- Method `UIWidget::onMousePress` when every child runs the base implementation. -/
def onMousePress (contains : Rect → Point → Bool) :
    Nat → State → WidgetId → Point → Except Fault (Bool × State)
  | 0, _, _, _ => .error .fuel
  | n + 1, s, self, mousePos =>
    (onMousePressWith contains
      (fun child t => onMousePress contains n t child mousePos) n s self mousePos).map
      (fun r => (r.handled, r.state))

/-- A child handler that reports every event as handled. -/
def acceptingHandler : WidgetId → State → Except Fault (Bool × State) :=
  fun _ t => .ok (true, t)

/-- Method `UIWidget::updateLayout`: `if(m_layout) m_layout->update()`.  The layout
engines are not under `src/`; `layoutUpdate w` is the effect of the `update()`
call of the layout owned by `w`. -/
def updateLayout (layoutUpdate : WidgetId → State → State) (s : State) (w : WidgetId) : State :=
  if (s.widgets w).layout.isSome then layoutUpdate w s else s

/-- Method `UIWidget::setRect`. -/
def setRect (layoutUpdate : WidgetId → State → State) (s : State) (self : WidgetId)
    (rect : Rect) : State :=
  let oldRect := (s.widgets self).rect
  if rect = oldRect then s
  else
    let s1 := s.modify self (fun d => { d with rect := rect })
    let s2 := updateLayout layoutUpdate s1 self
    let s3 := if !(s2.widgets self).updateEventScheduled then
        { s2 with events := s2.events ++ [⟨self, oldRect⟩] }
      else s2
    s3.modify self (fun d => { d with updateEventScheduled := true })

/-- Running the closure queued by `setRect`:
`self->m_updateEventScheduled = false;
self->onGeometryUpdate(oldRect, self->getRect())`. -/
def runGeometryEvent (s : State) (e : GeometryEvent) : State :=
  let s1 := s.modify e.self (fun d => { d with updateEventScheduled := false })
  s1.notify (.geometryUpdate e.self e.oldRect (getRect s1 e.self))

/-- A sequence of `setRect` calls on one widget, the dispatcher not running
in between. -/
def setRects (layoutUpdate : WidgetId → State → State) (s : State) (self : WidgetId)
    (rects : List Rect) : State :=
  rects.foldl (fun t r => setRect layoutUpdate t self r) s

/-- The events of the queue that belong to widget `w`. -/
def eventsOf (s : State) (w : WidgetId) : List GeometryEvent :=
  s.events.filter (fun e => e.self == w)

/-- What a layout update is taken to leave alone: the rectangle and the
update-scheduled flag of the owner, and the owner's events in the queue. -/
def LayoutKeeps (layoutUpdate : WidgetId → State → State) (w : WidgetId) : Prop :=
  ∀ t, ((layoutUpdate w t).widgets w).rect = (t.widgets w).rect ∧
    ((layoutUpdate w t).widgets w).updateEventScheduled = (t.widgets w).updateEventScheduled ∧
    eventsOf (layoutUpdate w t) w = eventsOf t w

/-- A layout update that changes nothing (a widget without members to move). -/
def idleLayout : WidgetId → State → State := fun _ t => t

/-- Three rectangles for three `setRect` calls in a row. -/
def sampleRects : List Rect := [⟨0, 0, 20, 20⟩, ⟨0, 0, 30, 30⟩, ⟨1, 1, 30, 30⟩]

/-- The sample state after widget 1 adopted widgets 2, 3 and 4. -/
def sampleTrio : State :=
  resultOr sampleFamily (addChild sampleContains 10 sampleFamily 1 (some 4))

/-- The children of widget 1 after `insertChild(index, 5)` on `sampleTrio`,
or the empty list when the call fails. -/
def trioAfterInsert (index : Int) : List WidgetId :=
  match insertChild sampleContains 12 sampleTrio 1 index (some 5) with
  | .ok s => (s.widgets 1).children
  | .error _ => []

/-- The hit test of `getChildByPos` read off a heap. -/
def hitTest (contains : Rect → Point → Bool) (h : Heap) (w : WidgetId) (pos : Point) :
    Option WidgetId :=
  (h w).children.reverse.find? (fun c => (h c).visible && contains (h c).rect pos)

/-- The condition derived by the `HoverState` walk: every widget on the
parent chain from `d` up to the root, the root included, has a rectangle that
contains the position, and every widget on it that has a parent is the result
of that parent's `getChildByPos`. -/
def HoverChain (contains : Rect → Point → Bool) (h : Heap) (m : Point) (d : WidgetId) : Prop :=
  ∀ k v, up h k d = some v →
    contains (h v).rect m = true ∧ ∀ q, (h v).parent = some q → hitTest contains h q m = some v

/-- The hover condition with no test of the rectangles above the widget:
the rectangle of `w` contains the position, and every widget on the parent
chain of `w` that has a parent is the result of that parent's
`getChildByPos`. -/
def HitChain (contains : Rect → Point → Bool) (h : Heap) (m : Point) (w : WidgetId) : Prop :=
  contains (h w).rect m = true ∧
    ∀ k v, up h k w = some v → ∀ q, (h v).parent = some q → hitTest contains h q m = some v

/-- The sample tree with the rectangle of the root 1 moved away from the
pointer; the rectangle of the child 2 still contains it. -/
def hoverSample : State :=
  sampleTree.modify 1 (fun d => { d with rect := ⟨20, 20, 5, 5⟩ })

/-- The wrap-around order of `focusNextChild` in the words of the
specification: the children after position `i`, then the children before
it. -/
def wrapAround (l : List WidgetId) (i : Nat) : List WidgetId :=
  l.drop (i + 1) ++ l.take i

/-- The second loop of `UIWidget::onMouseWheel` over the backup list.
`handler child` is the virtual call `child->onMouseWheel(mousePos, direction)`. -/
def dispatchWheel (handler : WidgetId → State → Except Fault (Bool × State)) :
    List WidgetId → List (WidgetId × Bool) → State → Except Fault Routed
  | [], offered, s => .ok ⟨false, offered, s⟩
  | child :: rest, offered, s => do
    let r ← handler child s
    if r.1 then .ok ⟨true, offered ++ [(child, r.1)], r.2⟩
    else dispatchWheel handler rest (offered ++ [(child, r.1)]) r.2

/-- Method `UIWidget::onMouseWheel` with the handlers of the children given; its
first loop is that of `onMousePress`. -/
def onMouseWheelWith (contains : Rect → Point → Bool)
    (handler : WidgetId → State → Except Fault (Bool × State)) (s : State) (self : WidgetId)
    (mousePos : Point) : Except Fault Routed :=
  dispatchWheel handler (mousePressTargets contains s self mousePos) [] s

/-- Method `UIWidget::onMouseWheel` when every child runs the base implementation. -/
def onMouseWheel (contains : Rect → Point → Bool) :
    Nat → State → WidgetId → Point → Except Fault (Bool × State)
  | 0, _, _, _ => .error .fuel
  | n + 1, s, self, mousePos =>
    (onMouseWheelWith contains
      (fun child t => onMouseWheel contains n t child mousePos) s self mousePos).map
      (fun r => (r.handled, r.state))

/-- The target of pointer-down and wheel events in the words of the
specification: the last child in list order among the children that are
explicitly enabled, explicitly visible and whose rectangle contains the
position. -/
def lastEligible (contains : Rect → Point → Bool) (s : State) (self : WidgetId)
    (mousePos : Point) : Option WidgetId :=
  ((s.widgets self).children.filter (fun child =>
    isExplicitlyEnabled s child && isExplicitlyVisible s child &&
      contains (getRect s child) mousePos)).getLast?

/-- The sample state with the children 2 and 3 of widget 1, the upper child 3
explicitly disabled. -/
def blockedSample : State := setEnabled sampleFamily 3 false

/-- The first loop of `UIWidget::onMouseRelease`: the backup list of the children
that are explicitly enabled and explicitly visible. -/
def mouseReleaseTargets (s : State) (self : WidgetId) : List WidgetId :=
  (s.widgets self).children.filter (fun child =>
    !(!isExplicitlyEnabled s child || !isExplicitlyVisible s child))

/-- The second loop of `UIWidget::onMouseRelease` over the backup list.
`handler child` is the virtual call `child->onMouseRelease(mousePos, button)`. -/
def dispatchRelease (handler : WidgetId → State → Except Fault (Bool × State)) :
    List WidgetId → List (WidgetId × Bool) → State → Except Fault Routed
  | [], offered, s => .ok ⟨false, offered, s⟩
  | child :: rest, offered, s => do
    let r ← handler child s
    let mustEnd := r.1
    let s1 := r.2
    let s2 := if isPressed s1 child then setPressed s1 child false else s1
    if mustEnd then .ok ⟨true, offered ++ [(child, mustEnd)], s2⟩
    else dispatchRelease handler rest (offered ++ [(child, mustEnd)]) s2

/-- Method `UIWidget::onMouseRelease` with the handlers of the children given. -/
def onMouseReleaseWith (handler : WidgetId → State → Except Fault (Bool × State)) (s : State)
    (self : WidgetId) : Except Fault Routed :=
  dispatchRelease handler (mouseReleaseTargets s self) [] s

/-- Method `UIWidget::onMouseRelease` when every child runs the base implementation;
the position is handed down unread. -/
def onMouseRelease : Nat → State → WidgetId → Point → Except Fault (Bool × State)
  | 0, _, _, _ => .error .fuel
  | n + 1, s, self, mousePos =>
    (onMouseReleaseWith (fun child t => onMouseRelease n t child mousePos) s self).map
      (fun r => (r.handled, r.state))

/-- What a child handler that does not alter the tree keeps: the children
sequences and the explicit enabled and visible flags of all widgets; and it
presses no widget. -/
def KeepsTree (s t : State) : Prop :=
  ∀ x, (t.widgets x).children = (s.widgets x).children ∧
    (t.widgets x).enabled = (s.widgets x).enabled ∧
    (t.widgets x).visible = (s.widgets x).visible ∧
    ((t.widgets x).pressed = true → (s.widgets x).pressed = true)

/-- Every call of the handler that returns keeps the tree. -/
def HandlerKeepsTree (handler : WidgetId → State → Except Fault (Bool × State)) : Prop :=
  ∀ c t r, handler c t = .ok r → KeepsTree t r.2

/-- The sample state with the children 2 and 3 of widget 1 both pressed. -/
def pressedSample : State := setPressed (setPressed sampleFamily 2 true) 3 true

/-- A call whose only failure is running out of fuel: it raises no
assertion and dereferences no null pointer. -/
def OnlyFuel {α : Type} (x : Except Fault α) : Prop :=
  ∀ e, x = .error e → e = .fuel

/-- Class `Color` of `color.h`: one `uint32` word, `RGBA color`. -/
structure Color where
  color : Nat
  deriving DecidableEq, Repr

namespace Color

/-- The word `((a & 0xff)<<24) | ((b & 0xff)<<16) | ((g & 0xff)<<8) | (r & 0xff)`
stored by the constructor and by `setRGBA`, as a 32-bit word. -/
def pack (r g b a : Nat) : Nat :=
  (((a &&& 0xff) <<< 24) ||| ((b &&& 0xff) <<< 16) ||| ((g &&& 0xff) <<< 8) ||| (r &&& 0xff))
    % 2 ^ 32

/-- The constructor `Color(uint8 r, uint8 g, uint8 b, uint8 a)`. -/
def ofRGBA (r g b a : Nat) : Color := ⟨pack r g b a⟩

/-- The constructor `Color(r, g, b)` with the default `a = 0xFF`. -/
def ofRGB (r g b : Nat) : Color := ofRGBA r g b 0xFF

/-- The getter `a()`: `(color >> 24) & 0xFF` returned as `uint8`. -/
def a (c : Color) : Nat := ((c.color >>> 24) &&& 0xFF) % 2 ^ 8

/-- The getter `b()`: `(color >> 16) & 0xFF`. -/
def b (c : Color) : Nat := ((c.color >>> 16) &&& 0xFF) % 2 ^ 8

/-- The getter `g()`: `(color >> 8) & 0xFF`. -/
def g (c : Color) : Nat := ((c.color >>> 8) &&& 0xFF) % 2 ^ 8

/-- The getter `r()`: `color & 0xFF`. -/
def r (c : Color) : Nat := (c.color &&& 0xFF) % 2 ^ 8

/-- The getter `rgba()`. -/
def rgba (c : Color) : Nat := c.color

/-- The setter `setRGBA(uint8 r, uint8 g, uint8 b, uint8 a)`; the old word
is overwritten. -/
def setRGBA (_c : Color) (r g b a : Nat) : Color := ⟨pack r g b a⟩

end Color

/-- Method `UIWidget::getChildByIndex`; `index` is the C `int` argument, the
children count stays below `2^31`. -/
def getChildByIndex (s : State) (self : WidgetId) (index : Int) : Option WidgetId :=
  let size : Int := (s.widgets self).children.length
  let index := if index ≤ 0 then size + index else index - 1
  if decide (0 ≤ index) && decide (index < size) then
    (s.widgets self).children[index.toNat]?
  else none

/-- The lock stacks are valid: no stack lists a widget twice and every
entry of the stack of `p` is a child of `p`. -/
def LockValid (h : Heap) : Prop :=
  ∀ p, (h p).lockedChildren.Nodup ∧ ∀ l ∈ (h p).lockedChildren, l ∈ (h p).children

/-- The sample state with the children 2 and 3 of widget 1 after
`lockChild(2)`. -/
def lockedSample : State :=
  resultOr sampleFamily (lockChild sampleContains 10 sampleFamily 1 (some 2))

/-- A branch `setX(<argument read from the node>)` of `onStyleApply`, with
the reader (`node->value<T>()`, `Image::loadFromOTML`, `g_fonts.getFont`) and
the setter of `uiwidget.h` defined outside `src/`: reading the argument
either throws, with a message, before the setter is called, or hands the
setter its argument. -/
abbrev Declared := OTMLNode → Except String (WidgetId → State → State)

/-- The collaborators of `onStyleApply` that are defined outside `src/`:
the setters with their argument readers, `fw::translateAnchorEdge` (`none` is
`AnchorNone`) and the calls into the parent's anchor layout. -/
structure StyleEnv where
  setId : WidgetId → String → State → State
  setImage : Declared
  setBorderImage : Declared
  setFont : Declared
  setForegroundColor : Declared
  setBackgroundColor : Declared
  setOpacity : Declared
  setFocusable : Declared
  resize : Declared
  setWidth : Declared
  setHeight : Declared
  setSizeFixed : Declared
  moveTo : Declared
  setX : Declared
  setY : Declared
  setMarginLeft : Declared
  setMarginRight : Declared
  setMarginTop : Declared
  setMarginBottom : Declared
  translateAnchorEdge : String → Option Nat
  fill : WidgetId → WidgetId → String → State → State
  centerIn : WidgetId → WidgetId → String → State → State
  addAnchor : WidgetId → WidgetId → Nat → String → Nat → State → State

/-- How a run of `onStyleApply` ends: it returns, it throws an exception
(with the state reached at the throw and `e.what()`), or an assertion or a
null dereference stops the program. -/
inductive StyleResult where
  | done (s : State)
  | raised (s : State) (what : String)
  | fatal (f : Fault)

/-- The test `boost::starts_with(text, start)` on character lists. -/
def startsWith : List Char → List Char → Bool
  | _, [] => true
  | [], _ :: _ => false
  | c :: cs, d :: ds => c == d && startsWith cs ds

/-- The call `boost::split(split, text, boost::is_any_of("."))`: the pieces
between the separators, one piece for a text without separator. -/
def splitOnDot : List Char → List (List Char)
  | [] => [[]]
  | c :: cs =>
    if c = '.' then [] :: splitOnDot cs
    else
      match splitOnDot cs with
      | [] => [[c]]
      | w :: ws => (c :: w) :: ws

/-- Modelled from the spec: `setLayout` is defined in `uiwidget.h`, not
under `src/`; it stores the layout. -/
def setLayout (s : State) (w : WidgetId) (layout : Layout) : State :=
  s.modify w (fun d => { d with layout := some layout })

/-- The branches of the loop of `onStyleApply` that read one argument and
call one setter, in the order of the source. -/
def simpleDeclaration (env : StyleEnv) (tag : String) : Option Declared :=
  if tag == "image" then some env.setImage
  else if tag == "border-image" then some env.setBorderImage
  else if tag == "font" then some env.setFont
  else if tag == "color" then some env.setForegroundColor
  else if tag == "background-color" then some env.setBackgroundColor
  else if tag == "opacity" then some env.setOpacity
  else if tag == "focusable" then some env.setFocusable
  else if tag == "size" then some env.resize
  else if tag == "width" then some env.setWidth
  else if tag == "height" then some env.setHeight
  else if tag == "size fixed" then some env.setSizeFixed
  else if tag == "position" then some env.moveTo
  else if tag == "x" then some env.setX
  else if tag == "y" then some env.setY
  else if tag == "margin.left" then some env.setMarginLeft
  else if tag == "margin.right" then some env.setMarginRight
  else if tag == "margin.top" then some env.setMarginTop
  else if tag == "margin.bottom" then some env.setMarginBottom
  else none

/-- The branch `anchors.*` of the loop of `onStyleApply`. -/
def applyAnchor (env : StyleEnv) (s : State) (self : WidgetId) (node : OTMLNode) : StyleResult :=
  match getParent s self with
  | none => .raised s "cannot create anchor, there is no parent widget!"
  | some parent =>
    match (s.widgets parent).layout with
    | none => .fatal .nullDeref
    | some l =>
      if l.vertical then
        .raised s "cannot create anchor, the parent widget doesn't use anchor layout!"
      else
        let what := String.mk (node.tag.data.drop 8)
        if what == "fill" then .done (env.fill parent self node.value s)
        else if what == "centerIn" then .done (env.centerIn parent self node.value s)
        else
          let anchoredEdge := env.translateAnchorEdge what
          let split := splitOnDot node.value.data
          match split with
          | [hookedWidgetId, edge] =>
            let hookedEdge := env.translateAnchorEdge (String.mk edge)
            match anchoredEdge with
            | none => .raised s "invalid anchor edge"
            | some a =>
              match hookedEdge with
              | none => .raised s "invalid anchor target edge"
              | some e => .done (env.addAnchor parent self a (String.mk hookedWidgetId) e s)
          | _ => .raised s "invalid anchor description"

/-- The body of the loop of `UIWidget::onStyleApply` for one declaration. -/
def applyDeclaration (env : StyleEnv) (s : State) (self : WidgetId) (node : OTMLNode) :
    StyleResult :=
  match simpleDeclaration env node.tag with
  | some declared =>
    match declared node with
    | .ok setter => .done (setter self s)
    | .error what => .raised s what
  | none =>
    if node.tag == "layout" then
      if (s.widgets self).layout.isSome then .fatal .assertion
      else if node.value == "verticalBox" then .done (setLayout s self ⟨true, []⟩)
      else if node.value == "anchor" then .done (setLayout s self Layout.anchor)
      else .done s
    else if startsWith node.tag.data "anchors.".data then applyAnchor env s self node
    else .done s

/-- The loop of `UIWidget::onStyleApply` over the declarations; an exception or a
failed assertion ends it. -/
def applyDeclarations (env : StyleEnv) (self : WidgetId) : List OTMLNode → State → StyleResult
  | [], s => .done s
  | node :: rest, s =>
    match applyDeclaration env s self node with
    | .done s1 => applyDeclarations env self rest s1
    | .raised s1 what => .raised s1 what
    | .fatal f => .fatal f

/-- The first statement of `UIWidget::onStyleApply`: `if(node = styleNode->get("id"))
setId(node->value())`. -/
def applyId (env : StyleEnv) (s : State) (self : WidgetId) (styleNode : OTMLNode) : State :=
  match styleNode.get "id" with
  | some node => env.setId self node.value s
  | none => s

/-- Method `UIWidget::onStyleApply` with the collaborators given. -/
def onStyleApplyWith (env : StyleEnv) (s : State) (self : WidgetId) (styleNode : OTMLNode) :
    StyleResult :=
  applyDeclarations env self styleNode.children (applyId env s self styleNode)

/-- Method `UIWidget::applyStyle` with `onStyleApply` interpreted: an exception is
caught and logged, the state reached at the throw stays. -/
def applyStyleWith (env : StyleEnv) (s : State) (self : WidgetId) (styleNode : OTMLNode) :
    Except Fault State :=
  match onStyleApplyWith env s self styleNode with
  | .done s1 => .ok s1
  | .raised s1 _ => .ok s1
  | .fatal f => .error f

/-- A collaborator that reads nothing and sets nothing. -/
def idleDeclared : Declared := fun _ => .ok (fun _ s => s)

/-- Sample collaborators: `setId` records the id in the applied-log of the
widget, the `focusable` branch reads `true` or `false` and sets the flag and
throws on any other value, four edge names are known, every other collaborator
sets nothing. -/
def sampleEnv : StyleEnv where
  setId := fun w v s => s.modifyVisual w (fun d => { d with applied := d.applied ++ [.mk "id" v []] })
  setImage := idleDeclared
  setBorderImage := idleDeclared
  setFont := idleDeclared
  setForegroundColor := idleDeclared
  setBackgroundColor := idleDeclared
  setOpacity := idleDeclared
  setFocusable := fun node =>
    if node.value == "true" then .ok (fun w s => s.modify w (fun d => { d with focusable := true }))
    else if node.value == "false" then
      .ok (fun w s => s.modify w (fun d => { d with focusable := false }))
    else .error "failed to cast node value"
  resize := idleDeclared
  setWidth := idleDeclared
  setHeight := idleDeclared
  setSizeFixed := idleDeclared
  moveTo := idleDeclared
  setX := idleDeclared
  setY := idleDeclared
  setMarginLeft := idleDeclared
  setMarginRight := idleDeclared
  setMarginTop := idleDeclared
  setMarginBottom := idleDeclared
  translateAnchorEdge := fun e =>
    if e == "left" then some 1 else if e == "right" then some 2
    else if e == "top" then some 3 else if e == "bottom" then some 4 else none
  fill := fun _ _ _ s => s
  centerIn := fun _ _ _ s => s
  addAnchor := fun _ _ _ _ _ s => s

/-- A style whose second declaration is an edge anchor without the
`target.edge` form; the `id` declaration comes last. -/
def brokenStyle : OTMLNode :=
  .mk "Button" "" [
    .mk "focusable" "false" [],
    .mk "anchors.left" "parent" [],
    .mk "focusable" "true" [],
    .mk "id" "okButton" []]

/-- A style that selects a layout. -/
def layoutStyle : OTMLNode :=
  .mk "Panel" "" [.mk "layout" "anchor" []]

/-- Method `UIWidget::updateStyle` with `applyStyle` run on the declarations: without
`m_style` the method returns at once; otherwise the snapshot is built, applied
through `onStyleApply` (an assertion or a null dereference in there stops the
program) and stored in `m_stateStyle`. -/
def updateStyleWith (env : StyleEnv) (s : State) (w : WidgetId) : Except Fault State :=
  match (s.widgets w).style with
  | none => .ok s
  | some style =>
    let node := newStateStyle style (s.visuals w).stateStyle (s.visuals w).states
    match applyStyleWith env s w node with
    | .error e => .error e
    | .ok s1 => .ok (s1.modifyVisual w (fun v => { v with stateStyle := some node }))

/-- Last part of `updateState` with the style applied: when the status
changed, flip the bit, call `updateStyle()` and fire the focus or hover
hook. -/
def commitStatusWith (env : StyleEnv) (s : State) (w : WidgetId) (state : WidgetState)
    (newStatus oldStatus : Bool) : Except Fault State :=
  if newStatus != oldStatus then
    let s1 := s.modifyVisual w (fun v => { v with states := v.states.assign newStatus state })
    match updateStyleWith env s1 w with
    | .error e => .error e
    | .ok s2 =>
      match state with
      | .focusState => .ok (s2.notify (.focusChange w newStatus (s2.widgets w).lastFocusReason))
      | .hoverState => .ok (s2.notify (.hoverChange w newStatus))
      | _ => .ok s2
  else .ok s

/-- Method `UIWidget::updateState` with the style applied at every flip. -/
def updateStateWith (env : StyleEnv) (contains : Rect → Point → Bool) :
    Nat → State → WidgetId → WidgetState → Except Fault State
  | 0, _, _, _ => .error .fuel
  | n + 1, s, w, state =>
    let oldStatus := hasState s w state
    match deriveStatus contains n s w state with
    | .error e => .error e
    | .ok none => .ok s
    | .ok (some (newStatus, updateChildren)) =>
      match (if updateChildren then
               (s.widgets w).children.foldlM
                 (fun acc child => updateStateWith env contains n acc child state) s
             else .ok s) with
      | .error e => .error e
      | .ok s1 => commitStatusWith env s1 w state newStatus oldStatus

/-- Method `UIWidget::updateStates` with the style applied at every flip. -/
def updateStatesWith (env : StyleEnv) (contains : Rect → Point → Bool) (fuel : Nat) (s : State)
    (w : WidgetId) : Except Fault State := do
  let s1 ← updateStateWith env contains fuel s w .activeState
  let s2 ← updateStateWith env contains fuel s1 w .focusState
  let s3 ← updateStateWith env contains fuel s2 w .disabledState
  updateStateWith env contains fuel s3 w .hoverState

/-- The block `w->setLastFocusReason(reason); w->updateState(FocusState);
w->updateState(ActiveState);` of `focusChild`, with the style applied at every
flip. -/
def refocusWith (env : StyleEnv) (contains : Rect → Point → Bool) (fuel : Nat) (s : State)
    (w : Option WidgetId) (reason : FocusReason) : Except Fault State :=
  match w with
  | some c => do
    let a ← updateStateWith env contains fuel (setLastFocusReason s c reason) c .focusState
    updateStateWith env contains fuel a c .activeState
  | none => .ok s

/-- Method `UIWidget::focusChild` with the style applied at every flip. -/
def focusChildWith (env : StyleEnv) (contains : Rect → Point → Bool) (fuel : Nat) (s : State)
    (self : WidgetId) (child : Option WidgetId) (reason : FocusReason) : Except Fault State :=
  if child.isSome && !hasChild s self child then
    .ok s
  else if child != (s.widgets self).focusedChild then do
    let oldFocused := (s.widgets self).focusedChild
    let s1 := s.modify self (fun d => { d with focusedChild := child })
    let s2 ← refocusWith env contains fuel s1 child reason
    refocusWith env contains fuel s2 oldFocused reason
  else
    .ok s

/-- Method `UIWidget::lockChild` with the style applied at every flip. -/
def lockChildWith (env : StyleEnv) (contains : Rect → Point → Bool) (fuel : Nat) (s : State)
    (self : WidgetId) (child : Option WidgetId) : Except Fault State :=
  match child with
  | none => .ok s
  | some c =>
    if !hasChild s self (some c) then .error .assertion
    else do
      let s1 ← unlockChild s self (some c)
      let s2 := enableOnly s1 (s1.widgets self).children (some c)
      let s3 := s2.modify self (fun d => { d with lockedChildren := c :: d.lockedChildren })
      let s4 ← (if isFocusable s3 c then
                  focusChildWith env contains fuel s3 self (some c) .activeFocusReason
                else .ok s3)
      moveChildToTop s4 self (some c)

/-- Method `UIWidget::focusNextChild` with the style applied at every flip. -/
def focusNextChildWith (env : StyleEnv) (contains : Rect → Point → Bool) (fuel : Nat) (s : State)
    (self : WidgetId) (reason : FocusReason) : Except Fault State :=
  let children := (s.widgets self).children
  let rotatedChildren :=
    match (s.widgets self).focusedChild with
    | some f =>
      if children.contains f then (children.rotate (children.indexOf f)).tail else children
    | none => children
  match rotatedChildren.find? (fun child => isFocusable s child) with
  | some toFocus => focusChildWith env contains fuel s self (some toFocus) reason
  | none => .ok s

mutual

/-- Method `UIWidget::setParent` with the style applied at every flip. -/
def setParentWith (env : StyleEnv) (contains : Rect → Point → Bool) :
    Nat → State → WidgetId → Option WidgetId → Except Fault State
  | 0, _, _, _ => .error .fuel
  | n + 1, s, self, parent => do
    let s1 ← (match getParent s self with
      | some oldParent =>
        if hasChild s oldParent (some self) then
          removeChildWith env contains n s oldParent (some self)
        else .ok s
      | none => .ok s)
    let s2 := s1.modify self (fun d => { d with parent := none })
    match parent with
    | some p =>
      let s3 := s2.modify self (fun d => { d with parent := some p })
      if !hasChild s3 p (some self) then addChildWith env contains n s3 p (some self) else .ok s3
    | none => .ok s2

/-- Method `UIWidget::addChild` with the style applied at every flip. -/
def addChildWith (env : StyleEnv) (contains : Rect → Point → Bool) :
    Nat → State → WidgetId → Option WidgetId → Except Fault State
  | 0, _, _, _ => .error .fuel
  | n + 1, s, self, child =>
    match child with
    | none => .ok s
    | some c =>
      if hasChild s self (some c) then .ok s
      else do
        let s1 := s.modify self (fun d => { d with children := d.children ++ [c] })
        let s2 ← setParentWith env contains n s1 c (some self)
        let s3 ← (if isFocusable s2 c && isExplicitlyVisible s2 c && isExplicitlyEnabled s2 c then
                    focusChildWith env contains n s2 self (some c) .activeFocusReason
                  else .ok s2)
        updateStatesWith env contains n (registerWithLayout s3 self c) c

/-- Method `UIWidget::removeChild` with the style applied at every flip. -/
def removeChildWith (env : StyleEnv) (contains : Rect → Point → Bool) :
    Nat → State → WidgetId → Option WidgetId → Except Fault State
  | 0, _, _, _ => .error .fuel
  | n + 1, s, self, child =>
    match child with
    | none => .ok s
    | some c =>
      if (s.widgets self).children.contains c then do
        let s1 ← (if (s.widgets self).focusedChild == some c then
                    focusChildWith env contains n s self none .activeFocusReason
                  else .ok s)
        let s2 ← unlockChild s1 self (some c)
        let s3 := s2.modify self (fun d => { d with children := d.children.erase c })
        if getParent s3 c != some self then .error .assertion
        else do
          let s4 ← setParentWith env contains n s3 c none
          match (s4.widgets self).layout with
          | none => .error .nullDeref
          | some l =>
            updateStatesWith env contains n
              (s4.modify self (fun d => { d with layout := some (l.removeWidget c) })) c
      else .ok s

end

/-- Method `UIWidget::insertChild` with the style applied at every flip; `index` is
the C `int` argument. -/
def insertChildWith (env : StyleEnv) (contains : Rect → Point → Bool) (fuel : Nat) (s : State)
    (self : WidgetId) (index : Int) (child : Option WidgetId) : Except Fault State :=
  match child with
  | none => .ok s
  | some c =>
    if hasChild s self (some c) then .ok s
    else
      let size : Int := (s.widgets self).children.length
      let index := if index ≤ 0 then size + index else index - 1
      if !(decide (0 ≤ index) && decide (index ≤ size)) then .error .assertion
      else do
        let s1 := s.modify self (fun d => { d with children := d.children.insertIdx index.toNat c })
        let s2 ← setParentWith env contains fuel s1 c (some self)
        updateStatesWith env contains fuel (registerWithLayout s2 self c) c

/-- Two states with the same structural members, pointer position and state
bits: what is left of a state when the members that only style application
writes are ignored. -/
def Agree (t s : State) : Prop :=
  t.widgets = s.widgets ∧ t.mousePos = s.mousePos ∧
    ∀ d, (t.visuals d).states = (s.visuals d).states

/-- Style application that does not alter the tree and does not stop the
program, for widgets whose `m_style` is given by `style`: applying any snapshot
that `updateStyle` can build from the style of a widget returns, with the
structural members of every widget, the pointer position and the state bits
as before.  A widget without style meets the condition: `updateStyle` leaves
it at once. -/
def StyleQuiet (env : StyleEnv) (style : WidgetId → Option OTMLNode) : Prop :=
  ∀ w node, style w = some node → ∀ (t : State) (old : Option OTMLNode) (m : States),
    ∃ t', applyStyleWith env t w (newStateStyle node old m) = .ok t' ∧ Agree t' t

/-- The widgets of the heap carry the styles `style`. -/
def HasStyles (style : WidgetId → Option OTMLNode) (h : Heap) : Prop :=
  ∀ w, (h w).style = style w

/-- The run `x` over applied styles and the run `y` over recorded styles end
alike: both return, in states that agree and keep the styles, or both stop
with the same fault. -/
def Tracks (style : WidgetId → Option OTMLNode) :
    Except Fault State → Except Fault State → Prop
  | .ok t, .ok s => Agree t s ∧ HasStyles style s.widgets
  | .error e, .error f => e = f
  | _, _ => False

/-- A base style whose `state.active`, `state.focus` and `state.hover` blocks
each select a layout. -/
def stateLayoutStyle : OTMLNode :=
  .mk "Panel" "" [
    .mk "state.active" "" [.mk "layout" "anchor" []],
    .mk "state.focus" "" [.mk "layout" "anchor" []],
    .mk "state.hover" "" [.mk "layout" "anchor" []]]

/-- The widget 2 given the style `stateLayoutStyle` and a layout of its
own. -/
def styled (s : State) : State :=
  s.modify 2 (fun d => { d with style := some stateLayoutStyle, layout := some Layout.anchor })

/-- Tags of the declarations of `sampleStyle` and of its state blocks: the
sample collaborators apply a declaration with one of these tags without
touching the state. -/
def inertTags : List String :=
  ["color", "opacity", "state.hover", "state.pressed", "state.disabled"]

/-- The widget `x` given the style `sampleStyle`. -/
def painted (x : WidgetId) (s : State) : State :=
  s.modify x (fun d => { d with style := some sampleStyle })

/-- The parent of `w`, if `w` has one, owns a layout: what `addChild` and
`insertChild` establish for the parent of every child. -/
def ParentLayout (w : WidgetId) (t : State) : Prop :=
  ∀ p, (t.widgets w).parent = some p → (t.widgets p).layout.isSome = true

/-- Collaborators of `onStyleApply` that leave the parent of `w` with its
layout: the setters of `uiwidget.h` and the calls into the anchor layout,
applied on behalf of `w`, neither move `w` to a parent without layout nor take
the layout of its parent away. -/
def StyleEnv.KeepsParentLayout (env : StyleEnv) (w : WidgetId) : Prop :=
  (∀ v t, ParentLayout w t → ParentLayout w (env.setId w v t)) ∧
  (∀ tag declared node setter t, simpleDeclaration env tag = some declared →
    declared node = .ok setter → ParentLayout w t → ParentLayout w (setter w t)) ∧
  (∀ p v t, ParentLayout w t → ParentLayout w (env.fill p w v t)) ∧
  (∀ p v t, ParentLayout w t → ParentLayout w (env.centerIn p w v t)) ∧
  (∀ p a h e t, ParentLayout w t → ParentLayout w (env.addAnchor p w a h e t))

/-- The sample family next to a second tree, widget 5 with the child 4, and
with the focused child of widget 1 set to 4: parent references and children
sequences agree, but the focused child of 1 is a child of 5. -/
def strayFocus : State :=
  (resultOr sampleFamily (addChild sampleContains 10 sampleFamily 5 (some 4))).modify 1
    (fun d => { d with focusedChild := some 4 })

/-- The run `y` ends like the run `x` unless `x` stopped for lack of fuel:
the relation between a call and the same call with more fuel. -/
def Grows {α : Type} (x y : Except Fault α) : Prop :=
  ∀ r, x = r → r ≠ .error .fuel → y = r

/-! ## Theorems -/


theorem ok_bind {α β : Type} (a : α) (f : α → Except Fault β) :
    ((Except.ok a : Except Fault α) >>= f) = f a := rfl

theorem error_bind {α β : Type} (e : Fault) (f : α → Except Fault β) :
    ((Except.error e : Except Fault α) >>= f) = Except.error e := rfl

theorem bind_eq_ok {α β : Type} (x : Except Fault α) (f : α → Except Fault β) (b : β) :
    (x >>= f) = Except.ok b ↔ ∃ a, x = Except.ok a ∧ f a = Except.ok b := by
  cases x with
  | error e => simp [error_bind]
  | ok a => simp [ok_bind]

@[simp] theorem modify_widgets (s : State) (w : WidgetId) (f : Widget → Widget) :
    (s.modify w f).widgets = hmodify s.widgets w f := rfl

@[simp] theorem modify_visuals (s : State) (w : WidgetId) (f : Widget → Widget) :
    (s.modify w f).visuals = s.visuals := rfl

@[simp] theorem modifyVisual_widgets (s : State) (w : WidgetId) (f : Visual → Visual) :
    (s.modifyVisual w f).widgets = s.widgets := rfl

@[simp] theorem notify_widgets (s : State) (n : Notification) :
    (s.notify n).widgets = s.widgets := rfl

@[simp] theorem applyStyle_widgets (s : State) (w : WidgetId) (n : OTMLNode) :
    (applyStyle s w n).widgets = s.widgets := rfl

@[simp] theorem updateStyle_widgets (s : State) (w : WidgetId) :
    (updateStyle s w).widgets = s.widgets := by
  unfold updateStyle
  split <;> rfl

@[simp] theorem commitStatus_widgets (s : State) (w : WidgetId) (st : WidgetState) (a b : Bool) :
    (commitStatus s w st a b).widgets = s.widgets := by
  unfold commitStatus
  split
  · cases st <;> simp
  · rfl

/-- Fold of a fallible step over a list: when every step keeps a property of
the state, so does the fold. -/
theorem foldlM_keeps {α : Type} (P : State → Prop) (f : State → α → Except Fault State)
    (l : List α) (hf : ∀ a ∈ l, ∀ s s', P s → f s a = .ok s' → P s') :
    ∀ s s', P s → l.foldlM f s = .ok s' → P s' := by
  induction l with
  | nil =>
    intro s s' hs h
    simp [pure, Except.pure] at h
    exact h ▸ hs
  | cons a l ih =>
    intro s s' hs h
    rw [List.foldlM_cons, bind_eq_ok] at h
    obtain ⟨s1, h1, h2⟩ := h
    exact ih (fun b hb => hf b (List.mem_cons_of_mem _ hb)) s1 s'
      (hf a (List.mem_cons_self _ _) s s1 hs h1) h2

@[simp] theorem modify_mousePos (s : State) (w : WidgetId) (f : Widget → Widget) :
    (s.modify w f).mousePos = s.mousePos := rfl

@[simp] theorem modify_events (s : State) (w : WidgetId) (f : Widget → Widget) :
    (s.modify w f).events = s.events := rfl

@[simp] theorem commitStatus_mousePos (s : State) (w : WidgetId) (st : WidgetState) (a b : Bool) :
    (commitStatus s w st a b).mousePos = s.mousePos := by
  unfold commitStatus updateStyle
  split
  · cases st <;> simp only [] <;> split <;> rfl
  · rfl

@[simp] theorem commitStatus_events (s : State) (w : WidgetId) (st : WidgetState) (a b : Bool) :
    (commitStatus s w st a b).events = s.events := by
  unfold commitStatus updateStyle
  split
  · cases st <;> simp only [] <;> split <;> rfl
  · rfl


/-- What the state cascade leaves unchanged: the structural members, the
pointer position and the dispatcher queue. -/
theorem updateState_frame (ct : Rect → Point → Bool) :
    ∀ (n : Nat) (s : State) (w : WidgetId) (st : WidgetState) (s' : State),
      updateState ct n s w st = .ok s' →
        s'.widgets = s.widgets ∧ s'.mousePos = s.mousePos ∧ s'.events = s.events := by
  intro n
  induction n with
  | zero => intro s w st s' h; simp [updateState] at h
  | succ n ih =>
    intro s w st s' h
    rw [updateState] at h
    split at h
    · simp at h
    · simp at h; rw [h]; exact ⟨rfl, rfl, rfl⟩
    · rename_i newStatus updateChildren hd
      split at h
      · simp at h
      · rename_i s1 h1
        simp at h
        subst h
        rw [commitStatus_widgets, commitStatus_mousePos, commitStatus_events]
        split at h1
        · exact foldlM_keeps
            (fun t => t.widgets = s.widgets ∧ t.mousePos = s.mousePos ∧ t.events = s.events) _ _
            (fun c _ t t' ht hstep =>
              have hk := ih t c st t' hstep
              ⟨hk.1.trans ht.1, hk.2.1.trans ht.2.1, hk.2.2.trans ht.2.2⟩) s s1 ⟨rfl, rfl, rfl⟩ h1
        · simp at h1; rw [h1]; exact ⟨rfl, rfl, rfl⟩

theorem activeWalk_congr (s t : State) (h : t.widgets = s.widgets) :
    ∀ (n : Nat) (w : WidgetId), activeWalk n t w = activeWalk n s w := by
  intro n
  induction n with
  | zero => intro w; rfl
  | succ n ih =>
    intro w
    simp only [activeWalk, getParent, getFocusedChild, isExplicitlyEnabled, h, ih]

theorem disabledWalk_congr (s t : State) (h : t.widgets = s.widgets) :
    ∀ (n : Nat) (w : WidgetId), disabledWalk n t w = disabledWalk n s w := by
  intro n
  induction n with
  | zero => intro w; rfl
  | succ n ih =>
    intro w
    simp only [disabledWalk, getParent, isExplicitlyEnabled, h, ih]

theorem getChildByPos_congr (ct : Rect → Point → Bool) (s t : State) (h : t.widgets = s.widgets)
    (w : WidgetId) (pos : Point) : getChildByPos ct t w pos = getChildByPos ct s w pos := by
  simp only [getChildByPos, isExplicitlyVisible, getRect, h]

theorem hoverWalk_congr (ct : Rect → Point → Bool) (s t : State) (h : t.widgets = s.widgets)
    (hm : t.mousePos = s.mousePos) :
    ∀ (n : Nat) (w : WidgetId), hoverWalk ct n t w = hoverWalk ct n s w := by
  intro n
  induction n with
  | zero => intro w; rfl
  | succ n ih =>
    intro w
    simp only [hoverWalk, getParent, getRect, h, hm, ih, getChildByPos_congr ct s t h]

theorem activeWalk_total (s : State) (rk : WidgetId → Nat) (N : Nat) (hr : Ranked s.widgets rk N) :
    ∀ (n : Nat) (w : WidgetId), N - rk w < n → ∃ b, activeWalk n s w = .ok b := by
  intro n
  induction n with
  | zero => intro w h; omega
  | succ n ih =>
    intro w h
    rw [activeWalk]
    split
    · exact ⟨false, rfl⟩
    · split
      · rename_i p hp
        have h1 := hr.2.2 w p hp
        have h2 := hr.1 p
        exact ih p (by omega)
      · exact ⟨true, rfl⟩

theorem hoverWalk_total (ct : Rect → Point → Bool) (s : State) (rk : WidgetId → Nat) (N : Nat)
    (hr : Ranked s.widgets rk N) :
    ∀ (n : Nat) (w : WidgetId), N - rk w < n → ∃ b, hoverWalk ct n s w = .ok b := by
  intro n
  induction n with
  | zero => intro w h; omega
  | succ n ih =>
    intro w h
    rw [hoverWalk]
    split
    · exact ⟨false, rfl⟩
    · split
      · rename_i p hp
        have h1 := hr.2.2 w p hp
        have h2 := hr.1 p
        exact ih p (by omega)
      · exact ⟨true, rfl⟩

theorem disabledWalk_total (s : State) (rk : WidgetId → Nat) (N : Nat) (hr : Ranked s.widgets rk N) :
    ∀ (n : Nat) (w : WidgetId), N - rk w < n → ∃ b, disabledWalk n s w = .ok b := by
  intro n
  induction n with
  | zero => intro w h; omega
  | succ n ih =>
    intro w h
    rw [disabledWalk]
    split
    · exact ⟨false, rfl⟩
    · split
      · rename_i p hp
        have h1 := hr.2.2 w p hp
        have h2 := hr.1 p
        exact ih p (by omega)
      · exact ⟨true, rfl⟩

theorem deriveStatus_total (ct : Rect → Point → Bool) (s : State) (rk : WidgetId → Nat) (N : Nat)
    (hr : Ranked s.widgets rk N) (n : Nat) (w : WidgetId) (hn : N - rk w < n) (st : WidgetState) :
    ∃ r, deriveStatus ct n s w st = .ok r := by
  cases st
  · exact ⟨_, rfl⟩
  · obtain ⟨b, hb⟩ := activeWalk_total s rk N hr n w hn
    exact ⟨_, by simp only [deriveStatus, hb]; rfl⟩
  · exact ⟨_, rfl⟩
  · obtain ⟨b, hb⟩ := hoverWalk_total ct s rk N hr n w hn
    exact ⟨_, by simp only [deriveStatus, hb]; rfl⟩
  · exact ⟨_, rfl⟩
  · obtain ⟨b, hb⟩ := disabledWalk_total s rk N hr n w hn
    exact ⟨_, by simp only [deriveStatus, hb]; rfl⟩

/-- Fold of a fallible step over a list: when every step returns from a state
with property `P` and keeps `P`, the fold returns. -/
theorem foldlM_total {α : Type} (P : State → Prop) (f : State → α → Except Fault State)
    (l : List α) (hf : ∀ a ∈ l, ∀ s, P s → ∃ s', f s a = .ok s' ∧ P s') :
    ∀ s, P s → ∃ s', l.foldlM f s = .ok s' ∧ P s' := by
  induction l with
  | nil => intro s hs; exact ⟨s, rfl, hs⟩
  | cons a l ih =>
    intro s hs
    obtain ⟨s1, h1, hp1⟩ := hf a (List.mem_cons_self _ _) s hs
    obtain ⟨s2, h2, hp2⟩ := ih (fun b hb => hf b (List.mem_cons_of_mem _ hb)) s1 hp1
    exact ⟨s2, by rw [List.foldlM_cons, h1, ok_bind, h2], hp2⟩

/-- The state cascade returns on a ranked heap, given fuel beyond the rank of
the widget plus the rank bound. -/
theorem updateState_total (ct : Rect → Point → Bool) (h : Heap) (rk : WidgetId → Nat) (N : Nat)
    (hr : Ranked h rk N) (st : WidgetState) :
    ∀ (n : Nat) (s : State) (w : WidgetId), s.widgets = h → rk w + N + 1 < n →
      ∃ s', updateState ct n s w st = .ok s' := by
  intro n
  induction n with
  | zero => intro s w _ hn; omega
  | succ n ih =>
    intro s w hs hn
    subst hs
    have hw := hr.1 w
    obtain ⟨r, hd⟩ := deriveStatus_total ct s rk N hr n w (by omega) st
    rw [updateState, hd]
    cases r with
    | none => exact ⟨s, rfl⟩
    | some r =>
      obtain ⟨newStatus, updateChildren⟩ := r
      simp only []
      cases updateChildren with
      | false => exact ⟨_, rfl⟩
      | true =>
        simp only [if_true]
        obtain ⟨s1, h1, _⟩ := foldlM_total (fun t => t.widgets = s.widgets)
          (fun acc child => updateState ct n acc child st) (s.widgets w).children
          (fun c hc t ht => by
            have hlt := hr.2.1 w c hc
            obtain ⟨t', ht'⟩ := ih t c ht (by omega)
            exact ⟨t', ht', ((updateState_frame ct n t c st t' ht').1).trans ht⟩) s rfl
        rw [h1]
        exact ⟨_, rfl⟩

theorem Spec.ok_intro {s : State} {T : Prop} {Q : State → Prop} (h : Q s) :
    Spec (.ok s) T Q :=
  ⟨fun s' hs => (by cases hs; exact h), fun _ => ⟨s, rfl⟩⟩

theorem Spec.error_intro {e : Fault} {T : Prop} {Q : State → Prop} (h : ¬T) :
    Spec (.error e) T Q :=
  ⟨fun s' hs => (by cases hs), fun t => absurd t h⟩

theorem Spec.bind {x : Except Fault State} {f : State → Except Fault State} {T : Prop}
    {Q R : State → Prop} (hx : Spec x T Q) (hf : ∀ a, Q a → Spec (f a) T R) :
    Spec (x >>= f) T R := by
  constructor
  · intro s' hs
    rw [bind_eq_ok] at hs
    obtain ⟨a, ha, hfa⟩ := hs
    exact (hf a (hx.1 a ha)).1 s' hfa
  · intro t
    obtain ⟨a, ha⟩ := hx.2 t
    obtain ⟨b, hb⟩ := (hf a (hx.1 a ha)).2 t
    exact ⟨b, by rw [ha, ok_bind, hb]⟩

theorem Spec.weaken {x : Except Fault State} {T T' : Prop} {Q Q' : State → Prop}
    (h : Spec x T Q) (ht : T' → T) (hq : ∀ s, Q s → Q' s) : Spec x T' Q' :=
  ⟨fun s' hs => hq s' (h.1 s' hs), fun t => h.2 (ht t)⟩

/-- A specification may use its side condition as a hypothesis for the
termination half only; this form lets a proof assume it throughout when the
partial half is already known. -/
theorem Spec.of_parts {x : Except Fault State} {T : Prop} {Q : State → Prop}
    (hp : ∀ s', x = .ok s' → Q s') (ht : T → ∃ s', x = .ok s') : Spec x T Q := ⟨hp, ht⟩

theorem updateState_spec (ct : Rect → Point → Bool) (n : Nat) (s : State) (w : WidgetId)
    (st : WidgetState) :
    Spec (updateState ct n s w st) (∃ rk N, Ranked s.widgets rk N ∧ 2 * N + 1 < n)
      (fun s' => Outcome s s' s.widgets) := by
  constructor
  · intro s' h
    exact updateState_frame ct n s w st s' h
  · rintro ⟨rk, N, hr, hn⟩
    have := hr.1 w
    exact updateState_total ct s.widgets rk N hr st n s w rfl (by omega)

theorem Outcome.unchanged (s : State) : Outcome s s s.widgets := ⟨rfl, rfl, rfl⟩

theorem Outcome.followedBy {s t u : State} {h k : Heap} (h1 : Outcome s t h) (h2 : Outcome t u k) :
    Outcome s u k := ⟨h2.1, h2.2.1.trans h1.2.1, h2.2.2.trans h1.2.2⟩

theorem updateStates_spec (ct : Rect → Point → Bool) (n : Nat) (s : State) (w : WidgetId) :
    Spec (updateStates ct n s w) (∃ rk N, Ranked s.widgets rk N ∧ 2 * N + 1 < n)
      (fun s' => Outcome s s' s.widgets) := by
  unfold updateStates
  refine Spec.bind (updateState_spec ct n s w _) (fun a ha => ?_)
  refine Spec.bind ((updateState_spec ct n a w _).weaken (by rw [ha.1]; exact id)
    (fun t ht => Outcome.followedBy ha ht)) (fun b hb => ?_)
  rw [ha.1] at hb
  refine Spec.bind ((updateState_spec ct n b w _).weaken (by rw [hb.1]; exact id)
    (fun t ht => Outcome.followedBy hb ht)) (fun c hc => ?_)
  rw [hb.1] at hc
  exact (updateState_spec ct n c w _).weaken (by rw [hc.1]; exact id)
    (fun t ht => by have := Outcome.followedBy hc ht; rwa [hc.1] at this)

theorem hmodify_apply (h : Heap) (w : WidgetId) (f : Widget → Widget) (x : WidgetId) :
    hmodify h w f x = if x = w then f (h x) else h x := rfl

theorem hasChild_eq (s : State) (w : WidgetId) (child : Option WidgetId) :
    hasChild s w child = hasChildH s.widgets w child := rfl

theorem Ranked.of_le {h h' : Heap} {rk : WidgetId → Nat} {N : Nat} (hr : Ranked h rk N)
    (hc : ∀ w x, x ∈ (h' w).children → x ∈ (h w).children)
    (hp : ∀ w q, (h' w).parent = some q → (h w).parent = some q) : Ranked h' rk N :=
  ⟨hr.1, fun p c hx => hr.2.1 p c (hc p c hx), fun w q hx => hr.2.2 w q (hp w q hx)⟩

/-- Links of `h'` are links of `h`, or the one link from `c` to `p`. -/
theorem Ranked.of_le_edge {h h' : Heap} {rk : WidgetId → Nat} {N : Nat} (hr : Ranked h rk N)
    (p c : WidgetId) (hlt : rk c < rk p)
    (hc : ∀ w x, x ∈ (h' w).children → x ∈ (h w).children ∨ (w = p ∧ x = c))
    (hp : ∀ w q, (h' w).parent = some q → (h w).parent = some q ∨ (w = c ∧ q = p)) :
    Ranked h' rk N := by
  refine ⟨hr.1, fun a b hx => ?_, fun w q hx => ?_⟩
  · rcases hc a b hx with h1 | ⟨rfl, rfl⟩
    · exact hr.2.1 a b h1
    · exact hlt
  · rcases hp w q hx with h1 | ⟨rfl, rfl⟩
    · exact hr.2.2 w q h1
    · exact hlt

theorem SameLinks.same (h : Heap) : SameLinks h h := fun _ => ⟨rfl, rfl⟩

theorem SameLinks.andThen {a b c : Heap} (h1 : SameLinks a b) (h2 : SameLinks b c) :
    SameLinks a c := fun w => ⟨(h1 w).1.trans (h2 w).1, (h1 w).2.trans (h2 w).2⟩

theorem SameLinks.of_hmodify (h : Heap) (w : WidgetId) (f : Widget → Widget)
    (hf : ∀ d, (f d).children = d.children ∧ (f d).parent = d.parent) :
    SameLinks (hmodify h w f) h := by
  intro x
  rw [hmodify_apply]
  split
  · exact hf _
  · exact ⟨rfl, rfl⟩

theorem Ranked.of_sameLinks {h h' : Heap} {rk : WidgetId → Nat} {N : Nat} (hr : Ranked h rk N)
    (hl : SameLinks h' h) : Ranked h' rk N :=
  hr.of_le (fun w _ hx => (hl w).1 ▸ hx) (fun w _ hx => (hl w).2 ▸ hx)

theorem refocusH_sameLinks (h : Heap) (w : Option WidgetId) (reason : FocusReason) :
    SameLinks (refocusH h w reason) h := by
  cases w with
  | none => exact SameLinks.same h
  | some c => exact SameLinks.of_hmodify _ _ _ (fun _ => ⟨rfl, rfl⟩)

theorem focusChildH_sameLinks (h : Heap) (self : WidgetId) (child : Option WidgetId)
    (reason : FocusReason) : SameLinks (focusChildH h self child reason) h := by
  unfold focusChildH
  split
  · exact SameLinks.same h
  · split
    · exact (refocusH_sameLinks _ _ _).andThen ((refocusH_sameLinks _ _ _).andThen
        (SameLinks.of_hmodify _ _ _ (fun _ => ⟨rfl, rfl⟩)))
    · exact SameLinks.same h

theorem Cascades.of_same {h h' : Heap} {n : Nat} (hc : Cascades h n) (hl : SameLinks h' h) :
    Cascades h' n := by
  obtain ⟨rk, N, hr, hn⟩ := hc
  exact ⟨rk, N, hr.of_sameLinks hl, hn⟩

theorem refocus_spec (ct : Rect → Point → Bool) (n : Nat) (t : State) (w : Option WidgetId)
    (reason : FocusReason) :
    Spec (refocus ct n t w reason) (Cascades t.widgets n)
      (fun s' => Outcome t s' (refocusH t.widgets w reason)) := by
  cases w with
  | none => exact Spec.ok_intro (Outcome.unchanged t)
  | some c =>
    unfold refocus refocusH
    refine Spec.bind ((updateState_spec ct n _ c _).weaken
      (fun hc => hc.of_same (SameLinks.of_hmodify _ _ _ (fun _ => ⟨rfl, rfl⟩))) (fun _ h => h))
      (fun a ha => ?_)
    exact (updateState_spec ct n a c _).weaken
      (fun hc => by
        rw [ha.1]
        exact hc.of_same (SameLinks.of_hmodify _ _ _ (fun _ => ⟨rfl, rfl⟩)))
      (fun u hu => ⟨hu.1.trans ha.1, hu.2.1.trans ha.2.1, hu.2.2.trans ha.2.2⟩)

theorem focusChild_spec (ct : Rect → Point → Bool) (n : Nat) (s : State) (self : WidgetId)
    (child : Option WidgetId) (reason : FocusReason) :
    Spec (focusChild ct n s self child reason) (Cascades s.widgets n)
      (fun s' => Outcome s s' (focusChildH s.widgets self child reason)) := by
  unfold focusChild focusChildH
  rw [hasChild_eq]
  split
  · exact Spec.ok_intro (Outcome.unchanged s)
  · split
    · refine Spec.bind ((refocus_spec ct n _ child reason).weaken
        (fun hc => hc.of_same (SameLinks.of_hmodify _ _ _ (fun _ => ⟨rfl, rfl⟩)))
        (fun _ h => h)) (fun a ha => ?_)
      refine (refocus_spec ct n a _ reason).weaken (fun hc => ?_) (fun u hu => ?_)
      · rw [ha.1]
        exact hc.of_same ((refocusH_sameLinks _ _ _).andThen
          (SameLinks.of_hmodify _ _ _ (fun _ => ⟨rfl, rfl⟩)))
      · refine ⟨?_, hu.2.1.trans ha.2.1, hu.2.2.trans ha.2.2⟩
        rw [hu.1, ha.1]
        rfl
    · exact Spec.ok_intro (Outcome.unchanged s)

theorem hmodify_field {β : Type} (π : Widget → β) (h : Heap) (w : WidgetId) (f : Widget → Widget)
    (hf : ∀ d, π (f d) = π d) (x : WidgetId) : π (hmodify h w f x) = π (h x) := by
  rw [hmodify_apply]
  split
  · exact hf _
  · rfl

theorem refocusH_field {β : Type} (π : Widget → β)
    (hπ : ∀ (d : Widget) (r : FocusReason), π { d with lastFocusReason := r } = π d)
    (h : Heap) (w : Option WidgetId) (reason : FocusReason) (x : WidgetId) :
    π (refocusH h w reason x) = π (h x) := by
  cases w with
  | none => rfl
  | some c => exact hmodify_field π h c _ (fun d => hπ d reason) x

/-- The members other than `focusedChild` and `lastFocusReason` are
untouched by `focusChild`. -/
theorem focusChildH_field {β : Type} (π : Widget → β)
    (hπ : ∀ (d : Widget) (r : FocusReason), π { d with lastFocusReason := r } = π d)
    (hφ : ∀ (d : Widget) (c : Option WidgetId), π { d with focusedChild := c } = π d)
    (h : Heap) (self : WidgetId) (child : Option WidgetId) (reason : FocusReason) (x : WidgetId) :
    π (focusChildH h self child reason x) = π (h x) := by
  unfold focusChildH
  split
  · rfl
  · split
    · rw [refocusH_field π hπ, refocusH_field π hπ]
      exact hmodify_field π h self _ (fun d => hφ d child) x
    · rfl

theorem enableOnlyH_field {β : Type} (π : Widget → β)
    (hπ : ∀ (d : Widget) (b : Bool), π { d with enabled := b } = π d)
    (h : Heap) (cs : List WidgetId) (only : Option WidgetId) (x : WidgetId) :
    π (enableOnlyH h cs only x) = π (h x) := by
  unfold enableOnlyH
  split
  · exact hπ _ _
  · rfl

/-- The members other than `lockedChildren` and `enabled` are untouched by
`unlockChild`. -/
theorem unlockChildH_field {β : Type} (π : Widget → β)
    (hπ : ∀ (d : Widget) (b : Bool), π { d with enabled := b } = π d)
    (hφ : ∀ (d : Widget) (l : List WidgetId), π { d with lockedChildren := l } = π d)
    (h : Heap) (self : WidgetId) (c : WidgetId) (x : WidgetId) :
    π (unlockChildH h self c x) = π (h x) := by
  unfold unlockChildH
  split
  · simp only []
    rw [enableOnlyH_field π hπ]
    exact hmodify_field π h self _ (fun d => hφ d _) x
  · rfl

theorem contains_decide (l : List WidgetId) (a : WidgetId) : l.contains a = decide (a ∈ l) :=
  List.elem_eq_mem a l

theorem enableOnly_cons (s : State) (only : Option WidgetId) (a : WidgetId) (l : List WidgetId) :
    enableOnly s (a :: l) only
      = enableOnly (setEnabled s a (only.isNone || only == some a)) l only := by
  unfold enableOnly
  rw [List.foldl_cons]
  congr 1
  cases only with
  | none => rfl
  | some l =>
    by_cases h : a = l
    · subst h; simp
    · have : (some l == some a) = false := by simp; exact fun e => h e.symm
      simp [h, this]

theorem enableOnly_eq (cs : List WidgetId) (only : Option WidgetId) :
    ∀ s : State, enableOnly s cs only = { s with widgets := enableOnlyH s.widgets cs only } := by
  induction cs with
  | nil =>
    intro s
    have : enableOnlyH s.widgets [] only = s.widgets := by
      funext w; simp [enableOnlyH]
    rw [this]; rfl
  | cons a l ih =>
    intro s
    rw [enableOnly_cons, ih]
    have : enableOnlyH (setEnabled s a (only.isNone || only == some a)).widgets l only
        = enableOnlyH s.widgets (a :: l) only := by
      funext w
      simp only [enableOnlyH, setEnabled, modify_widgets, hmodify_apply, List.mem_cons]
      by_cases hw : w = a
      · subst hw
        by_cases hl : w ∈ l <;> simp [hl]
      · by_cases hl : w ∈ l <;> simp [hl, hw]
    rw [this]
    rfl

theorem unlockChild_eq (s : State) (self c : WidgetId) (hc : c ∈ (s.widgets self).children) :
    unlockChild s self (some c) = .ok { s with widgets := unlockChildH s.widgets self c } := by
  unfold unlockChild unlockChildH
  simp only [hasChild, contains_decide, hc, decide_True, Bool.not_true, Bool.false_eq_true,
    if_false]
  by_cases h : c ∈ (s.widgets self).lockedChildren
  · simp only [h, decide_True, Bool.not_true, Bool.false_eq_true, if_false, if_true,
      enableOnly_eq, modify_widgets]
    rfl
  · simp [h]

theorem defocusH_field {β : Type} (π : Widget → β)
    (hπ : ∀ (d : Widget) (r : FocusReason), π { d with lastFocusReason := r } = π d)
    (hφ : ∀ (d : Widget) (c : Option WidgetId), π { d with focusedChild := c } = π d)
    (h : Heap) (self c : WidgetId) (x : WidgetId) :
    π (defocusH h self c x) = π (h x) := by
  unfold defocusH
  split
  · exact focusChildH_field π hπ hφ h self none _ x
  · rfl

theorem setParent_none_eq (ct : Rect → Point → Bool) (n : Nat) (s : State) (c self : WidgetId)
    (hp : (s.widgets c).parent = some self) (hnc : c ∉ (s.widgets self).children) :
    setParent ct (n + 1) s c none = .ok (s.modify c (fun d => { d with parent := none })) := by
  rw [setParent]
  simp only [getParent, hp, hasChild, contains_decide, hnc, decide_False, Bool.false_eq_true,
    if_false, ok_bind]

theorem setParent_none_eq_of_root (ct : Rect → Point → Bool) (n : Nat) (s : State) (c : WidgetId)
    (hp : (s.widgets c).parent = none) :
    setParent ct (n + 1) s c none = .ok (s.modify c (fun d => { d with parent := none })) := by
  rw [setParent]
  simp only [getParent, hp, ok_bind]

/-- Links of the heap kept in the middle of `removeChild`, before the child
is erased. -/
theorem unlock_defocus_children (h : Heap) (self c x : WidgetId) :
    (unlockChildH (defocusH h self c) self c x).children = (h x).children := by
  rw [unlockChildH_field (fun d => d.children) (fun _ _ => rfl) (fun _ _ => rfl),
    defocusH_field (fun d => d.children) (fun _ _ => rfl) (fun _ _ => rfl)]

theorem unlock_defocus_parent (h : Heap) (self c x : WidgetId) :
    (unlockChildH (defocusH h self c) self c x).parent = (h x).parent := by
  rw [unlockChildH_field (fun d => d.parent) (fun _ _ => rfl) (fun _ _ => rfl),
    defocusH_field (fun d => d.parent) (fun _ _ => rfl) (fun _ _ => rfl)]

theorem unlock_defocus_layout (h : Heap) (self c x : WidgetId) :
    (unlockChildH (defocusH h self c) self c x).layout = (h x).layout := by
  rw [unlockChildH_field (fun d => d.layout) (fun _ _ => rfl) (fun _ _ => rfl),
    defocusH_field (fun d => d.layout) (fun _ _ => rfl) (fun _ _ => rfl)]

theorem hmodify_proj {β : Type} (π : Widget → β) (h : Heap) (w : WidgetId) (f : Widget → Widget)
    (x : WidgetId) : π (hmodify h w f x) = if x = w then π (f (h x)) else π (h x) := by
  rw [hmodify_apply]
  split <;> rfl

theorem hmodify_children (h : Heap) (w : WidgetId) (f : Widget → Widget) (x : WidgetId) :
    (hmodify h w f x).children = if x = w then (f (h x)).children else (h x).children :=
  hmodify_proj (fun d => d.children) h w f x

theorem hmodify_parent (h : Heap) (w : WidgetId) (f : Widget → Widget) (x : WidgetId) :
    (hmodify h w f x).parent = if x = w then (f (h x)).parent else (h x).parent :=
  hmodify_proj (fun d => d.parent) h w f x

theorem hmodify_layout (h : Heap) (w : WidgetId) (f : Widget → Widget) (x : WidgetId) :
    (hmodify h w f x).layout = if x = w then (f (h x)).layout else (h x).layout :=
  hmodify_proj (fun d => d.layout) h w f x

theorem hmodify_focusedChild (h : Heap) (w : WidgetId) (f : Widget → Widget) (x : WidgetId) :
    (hmodify h w f x).focusedChild
      = if x = w then (f (h x)).focusedChild else (h x).focusedChild :=
  hmodify_proj (fun d => d.focusedChild) h w f x

theorem hmodify_lockedChildren (h : Heap) (w : WidgetId) (f : Widget → Widget) (x : WidgetId) :
    (hmodify h w f x).lockedChildren
      = if x = w then (f (h x)).lockedChildren else (h x).lockedChildren :=
  hmodify_proj (fun d => d.lockedChildren) h w f x

theorem hmodify_enabled (h : Heap) (w : WidgetId) (f : Widget → Widget) (x : WidgetId) :
    (hmodify h w f x).enabled = if x = w then (f (h x)).enabled else (h x).enabled :=
  hmodify_proj (fun d => d.enabled) h w f x

theorem hmodify_visible (h : Heap) (w : WidgetId) (f : Widget → Widget) (x : WidgetId) :
    (hmodify h w f x).visible = if x = w then (f (h x)).visible else (h x).visible :=
  hmodify_proj (fun d => d.visible) h w f x

theorem hmodify_focusable (h : Heap) (w : WidgetId) (f : Widget → Widget) (x : WidgetId) :
    (hmodify h w f x).focusable = if x = w then (f (h x)).focusable else (h x).focusable :=
  hmodify_proj (fun d => d.focusable) h w f x

theorem removeChildH_children (h : Heap) (self c x : WidgetId) :
    (removeChildH h self c x).children
      = if x = self then (h x).children.erase c else (h x).children := by
  simp only [removeChildH, hmodify_children, ite_self, unlock_defocus_children]

theorem removeChildH_parent (h : Heap) (self c x : WidgetId) :
    (removeChildH h self c x).parent = if x = c then none else (h x).parent := by
  simp only [removeChildH, hmodify_parent, ite_self, unlock_defocus_parent]

theorem removeChildH_layout (h : Heap) (self c x : WidgetId) :
    (removeChildH h self c x).layout
      = if x = self then (h x).layout.map (fun l => l.removeWidget c) else (h x).layout := by
  simp only [removeChildH, hmodify_layout, ite_self, unlock_defocus_layout]

theorem Cascades.of_links_le {h h' : Heap} {n : Nat} (hcs : Cascades h n)
    (hc : ∀ w x, x ∈ (h' w).children → x ∈ (h w).children)
    (hp : ∀ w q, (h' w).parent = some q → (h w).parent = some q) : Cascades h' n := by
  obtain ⟨rk, N, hr, hn⟩ := hcs
  exact ⟨rk, N, hr.of_le hc hp, hn⟩

theorem removeChildH_links_le (h : Heap) (self c : WidgetId) :
    (∀ w x, x ∈ (removeChildH h self c w).children → x ∈ (h w).children) ∧
    (∀ w q, (removeChildH h self c w).parent = some q → (h w).parent = some q) := by
  constructor
  · intro w x hx
    rw [removeChildH_children] at hx
    split at hx
    · exact List.mem_of_mem_erase hx
    · exact hx
  · intro w q hq
    rw [removeChildH_parent] at hq
    split at hq
    · cases hq
    · exact hq

theorem removeChild_spec (ct : Rect → Point → Bool) (n : Nat) (s : State) (self c : WidgetId)
    (hc : c ∈ (s.widgets self).children) (hnd : (s.widgets self).children.Nodup) :
    Spec (removeChild ct n s self (some c))
      ((s.widgets c).parent = some self ∧ (s.widgets self).layout.isSome = true ∧
        Cascades s.widgets (n - 1))
      (fun s' => Outcome s s' (removeChildH s.widgets self c)) := by
  cases n with
  | zero =>
    rw [removeChild]
    exact Spec.error_intro (fun ⟨_, _, rk, N, _, hn⟩ => by omega)
  | succ n =>
    rw [removeChild]
    simp only [contains_decide, hc, decide_True, if_true, Nat.add_sub_cancel]
    refine Spec.bind (Q := fun s1 => Outcome s s1 (defocusH s.widgets self c)) ?_ (fun s1 h1 => ?_)
    · unfold defocusH
      split
      · exact (focusChild_spec ct n s self none _).weaken (fun t => t.2.2) (fun _ h => h)
      · exact Spec.ok_intro (Outcome.unchanged s)
    · have hc1 : c ∈ (s1.widgets self).children := by
        rw [h1.1, defocusH_field (fun d => d.children) (fun _ _ => rfl) (fun _ _ => rfl)]
        exact hc
      rw [unlockChild_eq s1 self c hc1, ok_bind, h1.1]
      have hpar : getParent (State.modify
          { s1 with widgets := unlockChildH (defocusH s.widgets self c) self c } self
          (fun d => { d with children := d.children.erase c })) c = (s.widgets c).parent := by
        simp only [getParent, modify_widgets]
        simp only [hmodify_parent, ite_self, unlock_defocus_parent]
      split
      · rename_i hne
        refine Spec.error_intro (fun ⟨hp, _, _⟩ => ?_)
        rw [hpar, hp] at hne
        simp at hne
      · rename_i hne
        rw [hpar] at hne
        simp only [bne_iff_ne, ne_eq, not_not] at hne
        cases n with
        | zero =>
          rw [setParent]
          exact Spec.error_intro (fun ⟨_, _, rk, N, _, hn⟩ => by omega)
        | succ m =>
          rw [setParent_none_eq ct m _ c self (by rw [← hne]; exact hpar)
            (by
              simp only [modify_widgets, hmodify_apply, if_true]
              rw [unlock_defocus_children]
              exact hnd.not_mem_erase), ok_bind]
          have hlay : ((State.modify (State.modify
              { s1 with widgets := unlockChildH (defocusH s.widgets self c) self c } self
              (fun d => { d with children := d.children.erase c })) c
              (fun d => { d with parent := none })).widgets self).layout
              = (s.widgets self).layout := by
            simp only [modify_widgets]
            simp only [hmodify_layout, ite_self, unlock_defocus_layout]
          split
          · rename_i hnone
            refine Spec.error_intro (fun ⟨_, hl, _⟩ => ?_)
            rw [hlay] at hnone
            rw [hnone] at hl
            simp at hl
          · rename_i l hl
            have hheap : (State.modify (State.modify (State.modify
                { s1 with widgets := unlockChildH (defocusH s.widgets self c) self c } self
                (fun d => { d with children := d.children.erase c })) c
                (fun d => { d with parent := none })) self
                (fun d => { d with layout := some (l.removeWidget c) })).widgets
                = removeChildH s.widgets self c := by
              simp only [modify_widgets] at hl ⊢
              unfold removeChildH
              funext x
              simp only [hmodify_apply] at hl ⊢
              by_cases hx : x = self
              · subst hx
                simp only [if_true] at hl ⊢
                split at hl <;> simp_all
              · simp [hx]
            refine (updateStates_spec ct (m + 1) _ c).weaken ?_ ?_
            · rintro ⟨_, _, hcs⟩
              rw [hheap]
              exact hcs.of_links_le (removeChildH_links_le _ _ _).1 (removeChildH_links_le _ _ _).2
            · intro u hu
              rw [hheap] at hu
              exact ⟨hu.1, hu.2.1.trans h1.2.1, hu.2.2.trans h1.2.2⟩

theorem adoptH_children (h : Heap) (self c x : WidgetId) :
    (adoptH h self c x).children
      = if (h c).parent = some x ∧ c ∈ (h x).children then (h x).children.erase c
        else (h x).children := by
  unfold adoptH
  simp only [hmodify_children, ite_self]
  cases hp : (h c).parent with
  | none => simp
  | some q =>
    simp only [contains_decide, decide_eq_true_eq, Option.some.injEq]
    by_cases hq : c ∈ (h q).children
    · simp only [hq, if_true, removeChildH_children]
      by_cases hx : x = q
      · subst hx; simp [hq]
      · have : ¬ q = x := fun e => hx e.symm
        simp [hx, this]
    · simp only [hq, if_false]
      by_cases hx : q = x
      · subst hx; simp [hq]
      · simp [hx]

theorem adoptH_parent (h : Heap) (self c x : WidgetId) :
    (adoptH h self c x).parent = if x = c then some self else (h x).parent := by
  unfold adoptH
  simp only [hmodify_parent]
  by_cases hx : x = c
  · simp [hx]
  · simp only [hx, if_false]
    cases hp : (h c).parent with
    | none => rfl
    | some q =>
      simp only []
      split
      · rw [removeChildH_parent]; simp [hx]
      · rfl

theorem adoptH_layout_isSome (h : Heap) (self c x : WidgetId) :
    (adoptH h self c x).layout.isSome = (h x).layout.isSome := by
  unfold adoptH
  simp only [hmodify_layout, ite_self]
  cases hp : (h c).parent with
  | none => rfl
  | some q =>
    simp only []
    split
    · rw [removeChildH_layout]
      split <;> simp
    · rfl

theorem hmodify_hmodify (h : Heap) (w : WidgetId) (f g : Widget → Widget) :
    hmodify (hmodify h w f) w g = hmodify h w (fun d => g (f d)) := by
  funext x
  simp only [hmodify_apply]
  split <;> rfl

theorem adopt_spec (ct : Rect → Point → Bool) (n : Nat) (s : State) (self c : WidgetId)
    (hc : c ∈ (s.widgets self).children) (hpc : (s.widgets c).parent ≠ some self)
    (hnd : ∀ q, (s.widgets c).parent = some q → (s.widgets q).children.Nodup) :
    Spec (setParent ct n s c (some self))
      ((∀ q, (s.widgets c).parent = some q → c ∈ (s.widgets q).children →
          (s.widgets q).layout.isSome = true) ∧ Cascades s.widgets (n - 2))
      (fun s' => Outcome s s' (adoptH s.widgets self c)) := by
  cases n with
  | zero =>
    rw [setParent]
    exact Spec.error_intro (fun ⟨_, rk, N, _, hn⟩ => by omega)
  | succ n =>
    rw [setParent]
    have hfin : ∀ (s1 : State) (h1 : Heap), Outcome s s1 h1 → c ∈ (h1 self).children →
        Spec (let s3 := State.modify (State.modify s1 c (fun d => { d with parent := none })) c
                (fun d => { d with parent := some self })
              if (!hasChild s3 self (some c)) = true then addChild ct n s3 self (some c)
              else Except.ok s3)
          ((∀ q, (s.widgets c).parent = some q → c ∈ (s.widgets q).children →
              (s.widgets q).layout.isSome = true) ∧ Cascades s.widgets (n + 1 - 2))
          (fun s' => Outcome s s' (hmodify h1 c (fun d => { d with parent := some self }))) := by
      intro s1 h1 ho hmem
      simp only [hasChild, contains_decide, modify_widgets, hmodify_children, ite_self, ho.1, hmem,
        decide_True, Bool.not_true, Bool.false_eq_true, if_false]
      refine Spec.ok_intro ⟨?_, ho.2.1, ho.2.2⟩
      simp only [modify_widgets, ho.1, hmodify_hmodify]
    cases hp : getParent s c with
    | none =>
      simp only [ok_bind]
      refine (hfin s s.widgets (Outcome.unchanged s) hc).weaken id (fun u hu => ?_)
      unfold adoptH
      simp only [getParent] at hp
      simp only [hp]
      exact hu
    | some q =>
      simp only [getParent] at hp
      have hq : q ≠ self := fun e => hpc (by rw [hp, e])
      have hhas : hasChild s q (some c) = decide (c ∈ (s.widgets q).children) :=
        contains_decide _ _
      simp only [hhas, decide_eq_true_eq]
      by_cases hcq : c ∈ (s.widgets q).children
      · simp only [hcq, if_true]
        refine Spec.bind ((removeChild_spec ct n s q c hcq (hnd q hp)).weaken
          (fun t => ⟨hp, t.1 q hp hcq, by
            have := t.2
            rwa [show n + 1 - 2 = n - 1 by omega] at this⟩) (fun _ h => h)) (fun s1 h1 => ?_)
        refine (hfin s1 _ h1 ?_).weaken id (fun u hu => ?_)
        · rw [removeChildH_children]; simp [hq.symm, hc]
        · unfold adoptH
          simp only [hp, contains_decide, hcq, decide_True, if_true]
          exact hu
      · simp only [hcq, if_false, ok_bind]
        refine (hfin s s.widgets (Outcome.unchanged s) hc).weaken id (fun u hu => ?_)
        unfold adoptH
        simp only [hp, contains_decide, hcq, decide_False, Bool.false_eq_true, if_false]
        exact hu

theorem LinksIn.within {a b d : Heap} {p c : WidgetId} (h1 : LinksIn a b p c)
    (h2 : LinksIn b d p c) : LinksIn a d p c := by
  constructor
  · intro w x hx
    rcases h1.1 w x hx with h | h
    · exact h2.1 w x h
    · exact Or.inr h
  · intro w q hq
    rcases h1.2 w q hq with h | h
    · exact h2.2 w q h
    · exact Or.inr h

theorem LinksIn.of_same_links {a b : Heap} (p c : WidgetId) (h : SameLinks a b) :
    LinksIn a b p c :=
  ⟨fun w _ hx => Or.inl ((h w).1 ▸ hx), fun w _ hq => Or.inl ((h w).2 ▸ hq)⟩

theorem RankedEdge.cascades {h h' : Heap} {p c : WidgetId} {n m : Nat} (hr : RankedEdge h p c n)
    (hl : LinksIn h' h p c) (hnm : n ≤ m) : Cascades h' m := by
  obtain ⟨rk, N, hrk, hlt, hn⟩ := hr
  exact ⟨rk, N, hrk.of_le_edge p c hlt hl.1 hl.2, by omega⟩

theorem adoptH_linksIn (h : Heap) (self c : WidgetId) : LinksIn (adoptH h self c) h self c := by
  constructor
  · intro w x hx
    rw [adoptH_children] at hx
    split at hx
    · exact Or.inl (List.mem_of_mem_erase hx)
    · exact Or.inl hx
  · intro w q hq
    rw [adoptH_parent] at hq
    split at hq
    · rename_i hw
      cases hq
      exact Or.inr ⟨hw, rfl⟩
    · exact Or.inl hq

theorem registerH_sameLinks (h : Heap) (self c : WidgetId) : SameLinks (registerH h self c) h :=
  SameLinks.of_hmodify _ _ _ (fun _ => ⟨rfl, rfl⟩)

/-- The tail shared by `addChild` and `insertChild`, from `setParent` on:
`s1` is the state after the child was put into the children sequence. -/
theorem attach_spec (ct : Rect → Point → Bool) (n : Nat) (s s1 : State) (self c : WidgetId)
    (hs1 : Outcome s s1 s1.widgets)
    (hlinks : LinksIn s1.widgets s.widgets self c)
    (hc : c ∈ (s1.widgets self).children) (hpc : (s1.widgets c).parent ≠ some self)
    (hnd : ∀ q, (s1.widgets c).parent = some q → (s1.widgets q).children.Nodup)
    (focus : Bool) :
    Spec (setParent ct n s1 c (some self) >>= fun s2 =>
        (if focus && (isFocusable s2 c && isExplicitlyVisible s2 c && isExplicitlyEnabled s2 c) then
            focusChild ct n s2 self (some c) .activeFocusReason
          else Except.ok s2) >>= fun s3 =>
        updateStates ct n (registerWithLayout s3 self c) c)
      ((∀ q, (s1.widgets c).parent = some q → c ∈ (s1.widgets q).children →
          (s1.widgets q).layout.isSome = true) ∧ RankedEdge s.widgets self c (n - 2))
      (fun s' => Outcome s s' (attachH s1.widgets self c focus)) := by
  unfold attachH
  refine Spec.bind ((adopt_spec ct n s1 self c hc hpc hnd).weaken
    (fun t => ⟨t.1, t.2.cascades hlinks (le_refl _)⟩) (fun _ h => h)) (fun s2 h2 => ?_)
  have hl2 : LinksIn s2.widgets s.widgets self c := by
    rw [h2.1]; exact (adoptH_linksIn _ _ _).within hlinks
  refine Spec.bind (Q := fun s3 => Outcome s1 s3
      (if focus && (((adoptH s1.widgets self c) c).focusable &&
            ((adoptH s1.widgets self c) c).visible && ((adoptH s1.widgets self c) c).enabled) then
        focusChildH (adoptH s1.widgets self c) self (some c) .activeFocusReason
      else adoptH s1.widgets self c)) ?_ (fun s3 h3 => ?_)
  · simp only [isFocusable, isExplicitlyVisible, isExplicitlyEnabled, h2.1]
    split
    · refine (focusChild_spec ct n s2 self (some c) _).weaken
        (fun t => t.2.cascades hl2 (Nat.sub_le _ _)) (fun u hu => ?_)
      rw [h2.1] at hu
      exact Outcome.followedBy h2 hu
    · exact Spec.ok_intro h2
  · have hl3 : LinksIn s3.widgets s.widgets self c := by
      rw [h3.1]
      split
      · exact (LinksIn.of_same_links _ _ (focusChildH_sameLinks _ _ _ _)).within
          ((adoptH_linksIn _ _ _).within hlinks)
      · exact (adoptH_linksIn _ _ _).within hlinks
    refine (updateStates_spec ct n _ c).weaken
      (fun t => t.2.cascades ((LinksIn.of_same_links _ _ (registerH_sameLinks _ _ _)).within hl3)
        (Nat.sub_le _ _)) (fun u hu => ?_)
    refine ⟨?_, (hu.2.1.trans h3.2.1).trans hs1.2.1, (hu.2.2.trans h3.2.2).trans hs1.2.2⟩
    rw [hu.1, ← h3.1]
    rfl

theorem addChild_spec (ct : Rect → Point → Bool) (n : Nat) (s : State) (self c : WidgetId)
    (hnc : c ∉ (s.widgets self).children) (hpc : (s.widgets c).parent ≠ some self)
    (hnd : ∀ q, (s.widgets c).parent = some q → (s.widgets q).children.Nodup) :
    Spec (addChild ct n s self (some c))
      ((∀ q, (s.widgets c).parent = some q → c ∈ (s.widgets q).children →
          (s.widgets q).layout.isSome = true) ∧ RankedEdge s.widgets self c (n - 3))
      (fun s' => Outcome s s' (addChildH s.widgets self c)) := by
  cases n with
  | zero =>
    rw [addChild]
    exact Spec.error_intro (fun ⟨_, rk, N, _, _, hn⟩ => by omega)
  | succ n =>
    rw [addChild]
    simp only [hasChild, contains_decide, hnc, decide_False, Bool.false_eq_true, if_false]
    have hpar : ∀ x, ((State.modify s self (fun d => { d with children := d.children ++ [c] })).widgets
        x).parent = (s.widgets x).parent := by
      intro x; simp only [modify_widgets, hmodify_parent, ite_self]
    have hch : ∀ x, ((State.modify s self (fun d => { d with children := d.children ++ [c] })).widgets
        x).children = if x = self then (s.widgets x).children ++ [c] else (s.widgets x).children := by
      intro x; simp only [modify_widgets, hmodify_children]
    have hlay : ∀ x, ((State.modify s self (fun d => { d with children := d.children ++ [c] })).widgets
        x).layout = (s.widgets x).layout := by
      intro x; simp only [modify_widgets, hmodify_layout, ite_self]
    have hne : ∀ q, (s.widgets c).parent = some q → q ≠ self := fun q hq e => hpc (by rw [hq, e])
    have key := attach_spec ct n s (State.modify s self (fun d => { d with children := d.children ++ [c] }))
      self c ⟨rfl, rfl, rfl⟩
      ⟨fun w x hx => by
          rw [hch] at hx
          split at hx
          · rename_i hw
            rcases List.mem_append.mp hx with h | h
            · exact Or.inl h
            · exact Or.inr ⟨hw, by simpa using h⟩
          · exact Or.inl hx,
        fun w q hq => Or.inl (by rwa [hpar] at hq)⟩
      (by rw [hch]; simp)
      (by rw [hpar]; exact hpc)
      (fun q hq => by
        rw [hpar] at hq
        rw [hch, if_neg (hne q hq)]
        exact hnd q hq)
      true
    simp only [Bool.true_and] at key
    unfold addChildH
    refine key.weaken (fun t => ⟨fun q hq hcq => ?_, ?_⟩) (fun u hu => hu)
    · rw [hpar] at hq
      rw [hch, if_neg (hne q hq)] at hcq
      rw [hlay]
      exact t.1 q hq hcq
    · have := t.2
      rwa [show n + 1 - 3 = n - 2 by omega] at this

theorem insertChild_spec (ct : Rect → Point → Bool) (n : Nat) (s : State) (self c : WidgetId)
    (index : Int) (i : Nat)
    (hidx : (if index ≤ 0 then ((s.widgets self).children.length : Int) + index else index - 1) = i)
    (hi : i ≤ (s.widgets self).children.length)
    (hnc : c ∉ (s.widgets self).children) (hpc : (s.widgets c).parent ≠ some self)
    (hnd : ∀ q, (s.widgets c).parent = some q → (s.widgets q).children.Nodup) :
    Spec (insertChild ct n s self index (some c))
      ((∀ q, (s.widgets c).parent = some q → c ∈ (s.widgets q).children →
          (s.widgets q).layout.isSome = true) ∧ RankedEdge s.widgets self c (n - 2))
      (fun s' => Outcome s s' (insertChildH s.widgets self i c)) := by
  unfold insertChild
  simp only [hasChild, contains_decide, hnc, decide_False, Bool.false_eq_true, if_false, hidx]
  have hrange : (!(decide (0 ≤ (i : Int)) && decide ((i : Int) ≤ ((s.widgets self).children.length : Int))))
      = false := by
    simp only [Bool.not_eq_false', Bool.and_eq_true, decide_eq_true_eq]
    exact ⟨Int.natCast_nonneg i, by exact_mod_cast hi⟩
  simp only [hrange, Bool.false_eq_true, if_false, Int.toNat_ofNat]
  have hpar : ∀ x, ((State.modify s self
      (fun d => { d with children := d.children.insertIdx i c })).widgets x).parent
        = (s.widgets x).parent := by
    intro x; simp only [modify_widgets, hmodify_parent, ite_self]
  have hch : ∀ x, ((State.modify s self
      (fun d => { d with children := d.children.insertIdx i c })).widgets x).children
        = if x = self then (s.widgets x).children.insertIdx i c else (s.widgets x).children := by
    intro x; simp only [modify_widgets, hmodify_children]
  have hlay : ∀ x, ((State.modify s self
      (fun d => { d with children := d.children.insertIdx i c })).widgets x).layout
        = (s.widgets x).layout := by
    intro x; simp only [modify_widgets, hmodify_layout, ite_self]
  have hne : ∀ q, (s.widgets c).parent = some q → q ≠ self := fun q hq e => hpc (by rw [hq, e])
  have key := attach_spec ct n s
    (State.modify s self (fun d => { d with children := d.children.insertIdx i c }))
    self c ⟨rfl, rfl, rfl⟩
    ⟨fun w x hx => by
        rw [hch] at hx
        split at hx
        · rename_i hw
          subst hw
          rcases (List.mem_insertIdx hi).mp hx with h | h
          · exact Or.inr ⟨rfl, h⟩
          · exact Or.inl h
        · exact Or.inl hx,
      fun w q hq => Or.inl (by rwa [hpar] at hq)⟩
    (by rw [hch, if_pos rfl]; exact (List.mem_insertIdx hi).mpr (Or.inl rfl))
    (by rw [hpar]; exact hpc)
    (fun q hq => by
      rw [hpar] at hq
      rw [hch, if_neg (hne q hq)]
      exact hnd q hq)
    false
  simp only [Bool.false_and, Bool.false_eq_true, if_false, ok_bind] at key
  unfold insertChildH
  refine key.weaken (fun t => ⟨fun q hq hcq => ?_, t.2⟩) (fun u hu => hu)
  rw [hpar] at hq
  rw [hch, if_neg (hne q hq)] at hcq
  rw [hlay]
  exact t.1 q hq hcq

theorem up_succ_bottom (h : Heap) (k : Nat) (w : WidgetId) :
    up h (k + 1) w = (h w).parent.bind (up h k) := by
  induction k with
  | zero =>
    simp only [up, Option.some_bind]
    cases (h w).parent <;> rfl
  | succ k ih =>
    rw [up, ih]
    cases hp : (h w).parent with
    | none => rfl
    | some q => simp only [Option.some_bind, up]

theorem up_of_parent (h : Heap) (k : Nat) (w q : WidgetId) (hp : (h w).parent = some q) :
    up h (k + 1) w = up h k q := by
  rw [up_succ_bottom, hp, Option.some_bind]

/-- A ranked heap in which `c` is neither `p` nor an ancestor of `p` has a
rank that also puts `c` below `p`. -/
theorem rerank (h : Heap) (hint : Integrity h) (rk : WidgetId → Nat) (N : Nat)
    (hr : Ranked h rk N) (p c : WidgetId) (hna : ∀ k, up h k p ≠ some c) :
    ∃ rk', Ranked h rk' (2 * N + 1) ∧ rk' c < rk' p := by
  classical
  have hsub : ∀ w q, (h w).parent = some q → (∃ k, up h k q = some c) → ∃ k, up h k w = some c := by
    rintro w q hp ⟨k, hk⟩
    exact ⟨k + 1, by rw [up_of_parent h k w q hp, hk]⟩
  refine ⟨fun x => if ∃ k, up h k x = some c then rk x else rk x + N + 1, ⟨?_, ?_, ?_⟩, ?_⟩
  · intro w
    have := hr.1 w
    simp only []
    split <;> omega
  · intro a b hb
    have hlt := hr.2.1 a b hb
    have hpb : (h b).parent = some a := (hint b a).mp hb
    have hNa := hr.1 a
    have hNb := hr.1 b
    simp only []
    by_cases ha : ∃ k, up h k a = some c
    · have hb' := hsub b a hpb ha
      rw [if_pos ha, if_pos hb']
      exact hlt
    · rw [if_neg ha]
      split <;> omega
  · intro w q hp
    have hlt := hr.2.2 w q hp
    have hNq := hr.1 q
    have hNw := hr.1 w
    simp only []
    by_cases hq : ∃ k, up h k q = some c
    · have hw' := hsub w q hp hq
      rw [if_pos hq, if_pos hw']
      exact hlt
    · rw [if_neg hq]
      split <;> omega
  · have hc : ∃ k, up h k c = some c := ⟨0, rfl⟩
    have hp : ¬ ∃ k, up h k p = some c := fun ⟨k, hk⟩ => hna k hk
    have hNc := hr.1 c
    simp only []
    rw [if_pos hc, if_neg hp]
    omega

theorem registerH_children (h : Heap) (self c x : WidgetId) :
    (registerH h self c x).children = (h x).children := by
  simp only [registerH, hmodify_children, ite_self]

theorem registerH_parent (h : Heap) (self c x : WidgetId) :
    (registerH h self c x).parent = (h x).parent := by
  simp only [registerH, hmodify_parent, ite_self]

theorem registerH_layout_isSome (h : Heap) (self c x : WidgetId) :
    (registerH h self c x).layout.isSome = if x = self then true else (h x).layout.isSome := by
  simp only [registerH, hmodify_layout]
  split <;> simp

theorem attachH_children (h : Heap) (self c : WidgetId) (focus : Bool) (x : WidgetId) :
    (attachH h self c focus x).children = (adoptH h self c x).children := by
  unfold attachH
  rw [registerH_children]
  split
  · exact focusChildH_field (fun d => d.children) (fun _ _ => rfl) (fun _ _ => rfl) _ _ _ _ x
  · rfl

theorem attachH_parent (h : Heap) (self c : WidgetId) (focus : Bool) (x : WidgetId) :
    (attachH h self c focus x).parent = (adoptH h self c x).parent := by
  unfold attachH
  rw [registerH_parent]
  split
  · exact focusChildH_field (fun d => d.parent) (fun _ _ => rfl) (fun _ _ => rfl) _ _ _ _ x
  · rfl

theorem attachH_layout_isSome (h : Heap) (self c : WidgetId) (focus : Bool) (x : WidgetId) :
    (attachH h self c focus x).layout.isSome
      = if x = self then true else (h x).layout.isSome := by
  unfold attachH
  rw [registerH_layout_isSome]
  split
  · rfl
  · split
    · rw [focusChildH_field (fun d => d.layout) (fun _ _ => rfl) (fun _ _ => rfl),
        adoptH_layout_isSome]
    · rw [adoptH_layout_isSome]

theorem attachH_linksIn (h : Heap) (self c : WidgetId) (focus : Bool) :
    LinksIn (attachH h self c focus) h self c := by
  constructor
  · intro w x hx
    rw [attachH_children] at hx
    exact (adoptH_linksIn h self c).1 w x hx
  · intro w q hq
    rw [attachH_parent] at hq
    exact (adoptH_linksIn h self c).2 w q hq

theorem placed_children (h : Heap) (p : WidgetId) (l : List WidgetId) (x : WidgetId) :
    (hmodify h p (fun d => { d with children := l }) x).children
      = if x = p then l else (h x).children := by
  simp only [hmodify_children]

theorem placed_parent (h : Heap) (p : WidgetId) (l : List WidgetId) (x : WidgetId) :
    (hmodify h p (fun d => { d with children := l }) x).parent = (h x).parent := by
  simp only [hmodify_parent, ite_self]

theorem placed_layout (h : Heap) (p : WidgetId) (l : List WidgetId) (x : WidgetId) :
    (hmodify h p (fun d => { d with children := l }) x).layout = (h x).layout := by
  simp only [hmodify_layout, ite_self]

/-- Children sequences after a widget `c` was put into the children of `p`
(sequence `l`) and adopted. -/
theorem attached_children (h : Heap) (hint : Integrity h) (p c : WidgetId) (l : List WidgetId)
    (hnc : c ∉ (h p).children) (focus : Bool) (w : WidgetId) :
    (attachH (hmodify h p (fun d => { d with children := l })) p c focus w).children
      = if w = p then l
        else if (h c).parent = some w then (h w).children.erase c else (h w).children := by
  have hpc : (h c).parent ≠ some p := fun e => hnc ((hint c p).mpr e)
  rw [attachH_children, adoptH_children, placed_parent, placed_children]
  by_cases hw : w = p
  · subst hw
    simp [hpc]
  · simp only [hw, if_false]
    by_cases hcw : (h c).parent = some w
    · simp [hcw, (hint c w).mpr hcw]
    · simp [hcw]

theorem attached_parent (h : Heap) (p c : WidgetId) (l : List WidgetId) (focus : Bool)
    (x : WidgetId) :
    (attachH (hmodify h p (fun d => { d with children := l })) p c focus x).parent
      = if x = c then some p else (h x).parent := by
  rw [attachH_parent, adoptH_parent, placed_parent]

theorem attached_layout_isSome (h : Heap) (p c : WidgetId) (l : List WidgetId) (focus : Bool)
    (x : WidgetId) :
    (attachH (hmodify h p (fun d => { d with children := l })) p c focus x).layout.isSome
      = if x = p then true else (h x).layout.isSome := by
  rw [attachH_layout_isSome, placed_layout]

theorem attached_wellFormed (h : Heap) (hw : WellFormed h) (p c : WidgetId) (l : List WidgetId)
    (hl : ∀ x, x ∈ l ↔ (x = c ∨ x ∈ (h p).children)) (hnd : l.Nodup)
    (hnc : c ∉ (h p).children) (hna : ∀ k, up h k p ≠ some c) (focus : Bool) :
    WellFormed (attachH (hmodify h p (fun d => { d with children := l })) p c focus) := by
  have hint := hw.integrity
  refine ⟨?_, ?_, ?_, ?_⟩
  · intro x w
    rw [attached_children h hint p c l hnc, attached_parent]
    by_cases hwp : w = p
    · subst hwp
      simp only [if_true, hl]
      by_cases hx : x = c
      · simp [hx]
      · simp [hx, hint x w]
    · simp only [hwp, if_false]
      by_cases hx : x = c
      · subst hx
        have : ¬ p = w := fun e => hwp e.symm
        by_cases hcw : (h x).parent = some w
        · simp [hcw, this, (hw.nodup w).not_mem_erase]
        · simp [hcw, this, hint x w]
      · by_cases hcw : (h c).parent = some w
        · simp [hcw, hx, (hw.nodup w).mem_erase_iff, hint x w]
        · simp [hcw, hx, hint x w]
  · intro w
    rw [attached_children h hint p c l hnc]
    split
    · exact hnd
    · split
      · exact (hw.nodup w).erase c
      · exact hw.nodup w
  · intro w hne
    rw [attached_layout_isSome]
    rw [attached_children h hint p c l hnc] at hne
    by_cases hwp : w = p
    · simp [hwp]
    · simp only [hwp, if_false] at hne ⊢
      apply hw.layout w
      intro hnil
      rw [hnil] at hne
      split at hne <;> simp at hne
  · obtain ⟨rk, N, hr⟩ := hw.ranked
    obtain ⟨rk', hr', hlt⟩ := rerank h hint rk N hr p c hna
    refine ⟨rk', 2 * N + 1, hr'.of_le_edge p c hlt ?_ ?_⟩
    · intro w x hx
      rw [attached_children h hint p c l hnc] at hx
      by_cases hwp : w = p
      · subst hwp
        simp only [if_true] at hx
        rcases (hl x).mp hx with h1 | h1
        · exact Or.inr ⟨rfl, h1⟩
        · exact Or.inl h1
      · simp only [hwp, if_false] at hx
        split at hx
        · exact Or.inl (List.mem_of_mem_erase hx)
        · exact Or.inl hx
    · intro w q hq
      rw [attached_parent] at hq
      split at hq
      · rename_i hwc
        cases hq
        exact Or.inr ⟨hwc, rfl⟩
      · exact Or.inl hq

theorem hmodify_congr (h : Heap) (w : WidgetId) (f g : Widget → Widget) (hfg : f (h w) = g (h w)) :
    hmodify h w f = hmodify h w g := by
  funext x
  simp only [hmodify_apply]
  split
  · rename_i hx; subst hx; exact hfg
  · rfl

theorem addChildH_eq (h : Heap) (p c : WidgetId) :
    addChildH h p c
      = attachH (hmodify h p (fun d => { d with children := (h p).children ++ [c] })) p c true := by
  unfold addChildH
  rw [hmodify_congr h p _ (fun d => { d with children := (h p).children ++ [c] }) rfl]

theorem insertChildH_eq (h : Heap) (p : WidgetId) (i : Nat) (c : WidgetId) :
    insertChildH h p i c
      = attachH (hmodify h p (fun d => { d with children := (h p).children.insertIdx i c })) p c
          false := by
  unfold insertChildH
  rw [hmodify_congr h p _ (fun d => { d with children := (h p).children.insertIdx i c }) rfl]

theorem addChildH_wellFormed (h : Heap) (hw : WellFormed h) (p c : WidgetId)
    (hnc : c ∉ (h p).children) (hna : ∀ k, up h k p ≠ some c) :
    WellFormed (addChildH h p c) := by
  rw [addChildH_eq]
  refine attached_wellFormed h hw p c _ (fun x => ?_) ?_ hnc hna true
  · simp only [List.mem_append, List.mem_singleton]
    exact Or.comm
  · exact List.Nodup.append (hw.nodup p) (List.nodup_singleton c)
      (by simpa using hnc)

theorem insertChildH_wellFormed (h : Heap) (hw : WellFormed h) (p : WidgetId) (i : Nat)
    (hi : i ≤ (h p).children.length) (c : WidgetId)
    (hnc : c ∉ (h p).children) (hna : ∀ k, up h k p ≠ some c) :
    WellFormed (insertChildH h p i c) := by
  rw [insertChildH_eq]
  refine attached_wellFormed h hw p c _ (fun x => List.mem_insertIdx hi) ?_ hnc hna false
  exact (List.perm_insertIdx c (h p).children hi).nodup_iff.mpr
    (List.nodup_cons.mpr ⟨hnc, hw.nodup p⟩)

theorem removeChildH_wellFormed (h : Heap) (hw : WellFormed h) (p c : WidgetId)
    (hc : c ∈ (h p).children) : WellFormed (removeChildH h p c) := by
  have hint := hw.integrity
  have hpc : (h c).parent = some p := (hint c p).mp hc
  refine ⟨?_, ?_, ?_, ?_⟩
  · intro x w
    rw [removeChildH_children, removeChildH_parent]
    by_cases hwp : w = p
    · subst hwp
      by_cases hx : x = c
      · subst hx
        simp [(hw.nodup w).not_mem_erase]
      · simp [hx, (hw.nodup w).mem_erase_iff, hint x w]
    · by_cases hx : x = c
      · subst hx
        have : ¬ p = w := fun e => hwp e.symm
        simp [hwp, hint x w, hpc, this]
      · simp [hwp, hx, hint x w]
  · intro w
    rw [removeChildH_children]
    split
    · exact (hw.nodup w).erase c
    · exact hw.nodup w
  · intro w hne
    rw [removeChildH_children] at hne
    rw [removeChildH_layout]
    have hne' : (h w).children ≠ [] := by
      intro hnil
      rw [hnil] at hne
      split at hne <;> simp at hne
    have := hw.layout w hne'
    split
    · simp [this]
    · exact this
  · obtain ⟨rk, N, hr⟩ := hw.ranked
    exact ⟨rk, N, hr.of_le (removeChildH_links_le h p c).1 (removeChildH_links_le h p c).2⟩

theorem addChild_none (ct : Rect → Point → Bool) (n : Nat) (s : State) (p : WidgetId) :
    addChild ct (n + 1) s p none = .ok s := by
  rw [addChild]

theorem addChild_present (ct : Rect → Point → Bool) (n : Nat) (s : State) (p c : WidgetId)
    (hc : c ∈ (s.widgets p).children) : addChild ct (n + 1) s p (some c) = .ok s := by
  rw [addChild]
  simp only [hasChild, contains_decide, hc, decide_True, if_true]

theorem removeChild_none (ct : Rect → Point → Bool) (n : Nat) (s : State) (p : WidgetId) :
    removeChild ct (n + 1) s p none = .ok s := by
  rw [removeChild]

theorem removeChild_absent (ct : Rect → Point → Bool) (n : Nat) (s : State) (p c : WidgetId)
    (hc : c ∉ (s.widgets p).children) : removeChild ct (n + 1) s p (some c) = .ok s := by
  rw [removeChild]
  simp only [contains_decide, hc, decide_False, Bool.false_eq_true, if_false]

theorem insertChild_none (ct : Rect → Point → Bool) (n : Nat) (s : State) (p : WidgetId)
    (index : Int) : insertChild ct n s p index none = .ok s := rfl

theorem insertChild_present (ct : Rect → Point → Bool) (n : Nat) (s : State) (p c : WidgetId)
    (index : Int) (hc : c ∈ (s.widgets p).children) :
    insertChild ct n s p index (some c) = .ok s := by
  unfold insertChild
  simp only [hasChild, contains_decide, hc, decide_True, if_true]

theorem addChild_zero (ct : Rect → Point → Bool) (s : State) (p : WidgetId)
    (c : Option WidgetId) : addChild ct 0 s p c = .error .fuel := by
  rw [addChild]

theorem removeChild_zero (ct : Rect → Point → Bool) (s : State) (p : WidgetId)
    (c : Option WidgetId) : removeChild ct 0 s p c = .error .fuel := by
  rw [removeChild]

theorem detached_wellFormed (h : Heap) (hd : Detached h) : WellFormed h := by
  refine ⟨?_, ?_, ?_, ⟨fun _ => 0, 0, ?_, ?_, ?_⟩⟩
  · intro w p; simp [(hd p).2, (hd w).1]
  · intro p; simp [NodupChildren, (hd p).2]
  · intro p hp; exact absurd (hd p).2 hp
  · intro w; exact le_refl _
  · intro p c hc; simp [(hd p).2] at hc
  · intro w p hp; simp [(hd w).1] at hp

/-- An index in range, as a position. -/
theorem IndexInRange.position {size : Nat} {index : Int} (h : IndexInRange size index) :
    ∃ i : Nat, (if index ≤ 0 then (size : Int) + index else index - 1) = i ∧ i ≤ size := by
  obtain ⟨h0, h1⟩ := h
  refine ⟨(if index ≤ 0 then (size : Int) + index else index - 1).toNat, ?_, ?_⟩
  · exact (Int.toNat_of_nonneg h0).symm
  · have := Int.toNat_of_nonneg h0
    omega

/-- An admissible call that returns keeps the tree well formed. -/
theorem TreeOp.run_wellFormed (ct : Rect → Point → Bool) (fuel : Nat) (s s' : State) (op : TreeOp)
    (hw : WellFormed s.widgets) (ha : op.Admissible s.widgets)
    (hrun : op.run ct fuel s = .ok s') : WellFormed s'.widgets := by
  have hint := hw.integrity
  cases op with
  | addChild p c =>
    simp only [TreeOp.run] at hrun
    cases fuel with
    | zero => rw [addChild_zero] at hrun; cases hrun
    | succ n =>
      cases c with
      | none => rw [addChild_none] at hrun; cases hrun; exact hw
      | some c =>
        by_cases hc : c ∈ (s.widgets p).children
        · rw [addChild_present ct n s p c hc] at hrun; cases hrun; exact hw
        · have hsp := addChild_spec ct (n + 1) s p c hc (fun e => hc ((hint c p).mpr e))
            (fun q _ => hw.nodup q)
          rw [(hsp.1 s' hrun).1]
          exact addChildH_wellFormed _ hw p c hc ha
  | insertChild p index c =>
    simp only [TreeOp.run] at hrun
    cases c with
    | none => rw [insertChild_none] at hrun; cases hrun; exact hw
    | some c =>
      by_cases hc : c ∈ (s.widgets p).children
      · rw [insertChild_present ct fuel s p c index hc] at hrun; cases hrun; exact hw
      · obtain ⟨i, hi, hle⟩ := ha.2.position
        have hsp := insertChild_spec ct fuel s p c index i hi hle hc
          (fun e => hc ((hint c p).mpr e)) (fun q _ => hw.nodup q)
        rw [(hsp.1 s' hrun).1]
        exact insertChildH_wellFormed _ hw p i hle c hc ha.1
  | removeChild p c =>
    simp only [TreeOp.run] at hrun
    cases fuel with
    | zero => rw [removeChild_zero] at hrun; cases hrun
    | succ n =>
      cases c with
      | none => rw [removeChild_none] at hrun; cases hrun; exact hw
      | some c =>
        by_cases hc : c ∈ (s.widgets p).children
        · have hsp := removeChild_spec ct (n + 1) s p c hc (hw.nodup p)
          rw [(hsp.1 s' hrun).1]
          exact removeChildH_wellFormed _ hw p c hc
        · rw [removeChild_absent ct n s p c hc] at hrun; cases hrun; exact hw

/-- An admissible call on a well-formed tree returns, given enough fuel. -/
theorem TreeOp.run_total (ct : Rect → Point → Bool) (s : State) (op : TreeOp)
    (hw : WellFormed s.widgets) (ha : op.Admissible s.widgets) :
    ∃ F, ∀ fuel, F ≤ fuel → ∃ s', op.run ct fuel s = .ok s' := by
  have hint := hw.integrity
  obtain ⟨rk, N, hr⟩ := hw.ranked
  have hlay : ∀ (c q : WidgetId), (s.widgets c).parent = some q → c ∈ (s.widgets q).children →
      (s.widgets q).layout.isSome = true :=
    fun c q _ hcq => hw.layout q (List.ne_nil_of_mem hcq)
  cases op with
  | addChild p c =>
    cases c with
    | none =>
      exact ⟨1, fun fuel hf => by
        obtain ⟨n, rfl⟩ := Nat.exists_eq_add_of_le' hf
        exact ⟨s, addChild_none ct n s p⟩⟩
    | some c =>
      by_cases hc : c ∈ (s.widgets p).children
      · exact ⟨1, fun fuel hf => by
          obtain ⟨n, rfl⟩ := Nat.exists_eq_add_of_le' hf
          exact ⟨s, addChild_present ct n s p c hc⟩⟩
      · obtain ⟨rk', hr', hlt⟩ := rerank _ hint rk N hr p c ha
        refine ⟨2 * (2 * N + 1) + 5, fun fuel hf => ?_⟩
        exact (addChild_spec ct fuel s p c hc (fun e => hc ((hint c p).mpr e))
          (fun q _ => hw.nodup q)).2 ⟨hlay c, rk', 2 * N + 1, hr', hlt, by omega⟩
  | insertChild p index c =>
    cases c with
    | none => exact ⟨0, fun fuel _ => ⟨s, insertChild_none ct fuel s p index⟩⟩
    | some c =>
      by_cases hc : c ∈ (s.widgets p).children
      · exact ⟨0, fun fuel _ => ⟨s, insertChild_present ct fuel s p c index hc⟩⟩
      · obtain ⟨rk', hr', hlt⟩ := rerank _ hint rk N hr p c ha.1
        obtain ⟨i, hi, hle⟩ := ha.2.position
        refine ⟨2 * (2 * N + 1) + 4, fun fuel hf => ?_⟩
        exact (insertChild_spec ct fuel s p c index i hi hle hc (fun e => hc ((hint c p).mpr e))
          (fun q _ => hw.nodup q)).2 ⟨hlay c, rk', 2 * N + 1, hr', hlt, by omega⟩
  | removeChild p c =>
    cases c with
    | none =>
      exact ⟨1, fun fuel hf => by
        obtain ⟨n, rfl⟩ := Nat.exists_eq_add_of_le' hf
        exact ⟨s, removeChild_none ct n s p⟩⟩
    | some c =>
      by_cases hc : c ∈ (s.widgets p).children
      · refine ⟨2 * N + 3, fun fuel hf => ?_⟩
        exact (removeChild_spec ct fuel s p c hc (hw.nodup p)).2
          ⟨(hint c p).mp hc, hw.layout p (List.ne_nil_of_mem hc), rk, N, hr, by omega⟩
      · exact ⟨1, fun fuel hf => by
          obtain ⟨n, rfl⟩ := Nat.exists_eq_add_of_le' hf
          exact ⟨s, removeChild_absent ct n s p c hc⟩⟩

theorem reachable_wellFormed (ct : Rect → Point → Bool) (s : State) (hr : Reachable ct s) :
    WellFormed s.widgets := by
  induction hr with
  | init s h => exact detached_wellFormed _ h
  | step s s' op fuel _ ha hrun ih => exact TreeOp.run_wellFormed ct fuel s s' op ih ha hrun

theorem sampleState_detached : Detached sampleState.widgets := fun _ => ⟨rfl, rfl⟩

theorem sampleTree_run :
    (TreeOp.addChild 1 (some 2)).run sampleContains 10 sampleState = .ok sampleTree := by
  rfl

theorem sampleTree_reachable : Reachable sampleContains sampleTree :=
  Reachable.step sampleState sampleTree (.addChild 1 (some 2)) 10
    (Reachable.init _ sampleState_detached)
    (by
      intro k
      have h : up sampleState.widgets k 1 = if k = 0 then some 1 else none := by
        induction k with
        | zero => rfl
        | succ k ih =>
          rw [up, ih]
          split <;> rfl
      rw [h]
      split <;> simp)
    sampleTree_run

/-- C1 (tree integrity).  In every state reached from detached widgets by
`addChild`, `insertChild` with an index in range and `removeChild` calls that
add no widget to itself or to one of its own descendants, a widget `w` occurs
in the children of `p` exactly when the parent of `w` is `p`, it occurs there
exactly once, and it occurs in the children of no other widget; and every
such call does return (given enough fuel), so the sequence can go on. -/
theorem tree_integrity (ct : Rect → Point → Bool) (s : State) (hr : Reachable ct s) :
    (∀ w p : WidgetId,
      (w ∈ (s.widgets p).children ↔ (s.widgets w).parent = some p) ∧
      (w ∈ (s.widgets p).children → (s.widgets p).children.count w = 1) ∧
      (w ∈ (s.widgets p).children → ∀ q, q ≠ p → w ∉ (s.widgets q).children)) ∧
    (∀ op : TreeOp, op.Admissible s.widgets →
      ∃ F, ∀ fuel, F ≤ fuel → ∃ s', op.run ct fuel s = .ok s') := by
  have hw := reachable_wellFormed ct s hr
  refine ⟨fun w p => ⟨hw.integrity w p, fun hmem => ?_, fun hmem q hq hmem' => ?_⟩,
    fun op ha => TreeOp.run_total ct s op hw ha⟩
  · exact List.count_eq_one_of_mem (hw.nodup p) hmem
  · have h1 := (hw.integrity w p).mp hmem
    have h2 := (hw.integrity w q).mp hmem'
    rw [h1] at h2
    exact hq (Option.some.inj h2).symm

theorem tree_integrity_witness :
    Reachable sampleContains sampleTree ∧
    ((∀ w p : WidgetId,
      (w ∈ (sampleTree.widgets p).children ↔ (sampleTree.widgets w).parent = some p) ∧
      (w ∈ (sampleTree.widgets p).children → (sampleTree.widgets p).children.count w = 1) ∧
      (w ∈ (sampleTree.widgets p).children → ∀ q, q ≠ p → w ∉ (sampleTree.widgets q).children)) ∧
    (∀ op : TreeOp, op.Admissible sampleTree.widgets →
      ∃ F, ∀ fuel, F ≤ fuel → ∃ s', op.run sampleContains fuel sampleTree = .ok s')) :=
  ⟨sampleTree_reachable, tree_integrity sampleContains sampleTree sampleTree_reachable⟩

theorem focusChildH_focusedChild (h : Heap) (self : WidgetId) (child : Option WidgetId)
    (reason : FocusReason) (x : WidgetId) :
    (focusChildH h self child reason x).focusedChild
      = if x = self ∧ ¬ (child.isSome && !hasChildH h self child) = true then child
        else (h x).focusedChild := by
  unfold focusChildH
  by_cases hg : (child.isSome && !hasChildH h self child) = true
  · rw [if_pos hg, if_neg (fun hx => hx.2 hg)]
  · rw [if_neg hg]
    by_cases hne : (child != (h self).focusedChild) = true
    · rw [if_pos hne, refocusH_field (fun d => d.focusedChild) (fun _ _ => rfl),
        refocusH_field (fun d => d.focusedChild) (fun _ _ => rfl), hmodify_focusedChild]
      by_cases hx : x = self
      · rw [if_pos hx, if_pos ⟨hx, hg⟩]
      · rw [if_neg hx, if_neg (fun hy => hx hy.1)]
    · rw [if_neg hne]
      simp only [bne_iff_ne, ne_eq, not_not] at hne
      by_cases hx : x = self
      · rw [if_pos ⟨hx, hg⟩, hx, hne]
      · rw [if_neg (fun hy => hx hy.1)]

theorem unlockChildH_focusedChild (h : Heap) (self c x : WidgetId) :
    (unlockChildH h self c x).focusedChild = (h x).focusedChild :=
  unlockChildH_field (fun d => d.focusedChild) (fun _ _ => rfl) (fun _ _ => rfl) h self c x

theorem unlockChildH_children (h : Heap) (self c x : WidgetId) :
    (unlockChildH h self c x).children = (h x).children :=
  unlockChildH_field (fun d => d.children) (fun _ _ => rfl) (fun _ _ => rfl) h self c x

theorem unlockChildH_parent (h : Heap) (self c x : WidgetId) :
    (unlockChildH h self c x).parent = (h x).parent :=
  unlockChildH_field (fun d => d.parent) (fun _ _ => rfl) (fun _ _ => rfl) h self c x

theorem unlockChildH_sameLinks (h : Heap) (self c : WidgetId) :
    SameLinks (unlockChildH h self c) h :=
  fun x => ⟨unlockChildH_children h self c x, unlockChildH_parent h self c x⟩

theorem enableOnlyH_sameLinks (h : Heap) (cs : List WidgetId) (only : Option WidgetId) :
    SameLinks (enableOnlyH h cs only) h :=
  fun x => ⟨enableOnlyH_field (fun d => d.children) (fun _ _ => rfl) h cs only x,
    enableOnlyH_field (fun d => d.parent) (fun _ _ => rfl) h cs only x⟩

theorem moveChildToTop_eq (s : State) (self c : WidgetId) (hc : c ∈ (s.widgets self).children) :
    moveChildToTop s self (some c)
      = .ok (s.modify self (fun d => { d with children := d.children.erase c ++ [c] })) := by
  unfold moveChildToTop
  simp only [contains_decide, hc, decide_True, Bool.not_true, Bool.false_eq_true, if_false]

theorem moveChildToTop_absent (s : State) (self c : WidgetId)
    (hc : c ∉ (s.widgets self).children) :
    moveChildToTop s self (some c) = .error .assertion := by
  unfold moveChildToTop
  simp only [contains_decide, hc, decide_False, Bool.not_false, if_true]

theorem unlockChild_absent (s : State) (self c : WidgetId) (hc : c ∉ (s.widgets self).children) :
    unlockChild s self (some c) = .error .assertion := by
  unfold unlockChild
  simp only [hasChild, contains_decide, hc, decide_False, Bool.not_false, if_true]

theorem lockChild_absent (ct : Rect → Point → Bool) (n : Nat) (s : State) (self c : WidgetId)
    (hc : c ∉ (s.widgets self).children) :
    lockChild ct n s self (some c) = .error .assertion := by
  unfold lockChild
  simp only [hasChild, contains_decide, hc, decide_False, Bool.not_false, if_true]

theorem lockChild_spec (ct : Rect → Point → Bool) (n : Nat) (s : State) (self c : WidgetId)
    (hc : c ∈ (s.widgets self).children) :
    Spec (lockChild ct n s self (some c)) (Cascades s.widgets n)
      (fun s' => Outcome s s' (lockChildH s.widgets self c)) := by
  unfold lockChild lockChildH
  simp only [hasChild, contains_decide, hc, decide_True, Bool.not_true, Bool.false_eq_true,
    if_false]
  rw [unlockChild_eq s self c hc, ok_bind]
  simp only [enableOnly_eq, modify_widgets, isFocusable]
  have hl3 : SameLinks (hmodify (enableOnlyH (unlockChildH s.widgets self c)
      ((unlockChildH s.widgets self c self).children) (some c)) self
      (fun d => { d with lockedChildren := c :: d.lockedChildren })) s.widgets := by
    intro x
    constructor
    · simp only [hmodify_children, ite_self]
      rw [enableOnlyH_field (fun d => d.children) (fun _ _ => rfl), unlockChildH_children]
    · simp only [hmodify_parent, ite_self]
      rw [enableOnlyH_field (fun d => d.parent) (fun _ _ => rfl), unlockChildH_parent]
  refine Spec.bind (Q := fun s4 => Outcome s s4
    (if ((hmodify (enableOnlyH (unlockChildH s.widgets self c)
        ((unlockChildH s.widgets self c self).children) (some c)) self
        (fun d => { d with lockedChildren := c :: d.lockedChildren })) c).focusable = true then
      focusChildH (hmodify (enableOnlyH (unlockChildH s.widgets self c)
        ((unlockChildH s.widgets self c self).children) (some c)) self
        (fun d => { d with lockedChildren := c :: d.lockedChildren })) self (some c)
        .activeFocusReason
    else hmodify (enableOnlyH (unlockChildH s.widgets self c)
        ((unlockChildH s.widgets self c self).children) (some c)) self
        (fun d => { d with lockedChildren := c :: d.lockedChildren }))) ?_ (fun s4 h4 => ?_)
  · split
    · exact (focusChild_spec ct n _ self (some c) _).weaken (fun t => t.of_same hl3)
        (fun u hu => ⟨hu.1, hu.2.1, hu.2.2⟩)
    · exact Spec.ok_intro ⟨rfl, rfl, rfl⟩
  · have hc4 : c ∈ (s4.widgets self).children := by
      rw [h4.1]
      split
      · rw [focusChildH_field (fun d => d.children) (fun _ _ => rfl) (fun _ _ => rfl),
          (hl3 self).1]
        exact hc
      · rw [(hl3 self).1]; exact hc
    rw [moveChildToTop_eq s4 self c hc4]
    refine Spec.ok_intro ⟨?_, h4.2.1, h4.2.2⟩
    rw [modify_widgets, h4.1]

theorem focusNextChild_eq (ct : Rect → Point → Bool) (n : Nat) (s : State) (self : WidgetId)
    (reason : FocusReason) :
    focusNextChild ct n s self reason
      = match nextFocus s.widgets self with
        | some toFocus => focusChild ct n s self (some toFocus) reason
        | none => .ok s := rfl

/-- A heap with the same members in every children sequence, the same parent
references and focused children taken among the old children keeps the
focus invariant. -/
theorem FocusInv.of_members {h h' : Heap} (hj : FocusInv h)
    (hc : ∀ w x, x ∈ (h' w).children ↔ x ∈ (h w).children)
    (hn : ∀ w, (h' w).children.Nodup)
    (hp : ∀ w, (h' w).parent = (h w).parent)
    (hf : ∀ w x, (h' w).focusedChild = some x → x ∈ (h w).children) : FocusInv h' :=
  ⟨fun w p => by rw [hc, hp]; exact hj.integrity w p, hn,
    fun p c hpc => (hc p c).mpr (hf p c hpc)⟩

theorem defocusH_focusedChild (h : Heap) (p c x : WidgetId) :
    (defocusH h p c x).focusedChild
      = if x = p ∧ (h p).focusedChild = some c then none else (h x).focusedChild := by
  unfold defocusH
  by_cases hf : (h p).focusedChild = some c
  · have : ((h p).focusedChild == some c) = true := by rw [hf]; simp
    rw [if_pos this, focusChildH_focusedChild]
    by_cases hx : x = p
    · rw [if_pos ⟨hx, by simp⟩, if_pos ⟨hx, hf⟩]
    · rw [if_neg (fun e => hx e.1), if_neg (fun e => hx e.1)]
  · have : ¬ ((h p).focusedChild == some c) = true := by simpa using hf
    rw [if_neg this, if_neg (fun e => hf e.2)]

theorem removeChildH_focusedChild (h : Heap) (p c x : WidgetId) :
    (removeChildH h p c x).focusedChild
      = if x = p ∧ (h p).focusedChild = some c then none else (h x).focusedChild := by
  simp only [removeChildH, hmodify_focusedChild, ite_self]
  rw [unlockChildH_focusedChild, defocusH_focusedChild]

theorem adoptH_focusedChild_some (h : Heap) (self c x y : WidgetId)
    (hy : (adoptH h self c x).focusedChild = some y) :
    (h x).focusedChild = some y ∧
      ¬ ((h c).parent = some x ∧ c ∈ (h x).children ∧ y = c) := by
  unfold adoptH at hy
  simp only [hmodify_focusedChild, ite_self] at hy
  cases hp : (h c).parent with
  | none =>
    simp only [hp] at hy
    exact ⟨hy, fun e => by cases e.1⟩
  | some q =>
    simp only [hp, contains_decide, decide_eq_true_eq] at hy
    by_cases hcq : c ∈ (h q).children
    · rw [if_pos hcq, removeChildH_focusedChild] at hy
      split at hy
      · cases hy
      · rename_i hne
        refine ⟨hy, fun e => hne ?_⟩
        have hqx : q = x := Option.some.inj e.1
        subst hqx
        exact ⟨rfl, by rw [hy, e.2.2]⟩
    · rw [if_neg hcq] at hy
      refine ⟨hy, fun e => hcq ?_⟩
      have hqx : q = x := Option.some.inj e.1
      subst hqx
      exact e.2.1

theorem attachH_focusedChild_some (h : Heap) (self c : WidgetId) (focus : Bool) (x y : WidgetId)
    (hy : (attachH h self c focus x).focusedChild = some y) :
    (x = self ∧ y = c ∧ c ∈ (adoptH h self c self).children) ∨
      (adoptH h self c x).focusedChild = some y := by
  unfold attachH at hy
  simp only [registerH, hmodify_focusedChild, ite_self] at hy
  split at hy
  · rw [focusChildH_focusedChild] at hy
    split at hy
    · rename_i hg
      cases hy
      refine Or.inl ⟨hg.1, rfl, ?_⟩
      have := hg.2
      simp only [Option.isSome_some, hasChildH, contains_decide, Bool.true_and,
        Bool.not_eq_true', decide_eq_false_iff_not, not_not] at this
      exact this
    · exact Or.inr hy
  · exact Or.inr hy

theorem attached_focusInv (h : Heap) (hj : FocusInv h) (p c : WidgetId) (l : List WidgetId)
    (hl : ∀ x, x ∈ l ↔ (x = c ∨ x ∈ (h p).children)) (hnd : l.Nodup)
    (hnc : c ∉ (h p).children) (focus : Bool) :
    FocusInv (attachH (hmodify h p (fun d => { d with children := l })) p c focus) := by
  have hint := hj.integrity
  refine ⟨?_, ?_, ?_⟩
  · intro x w
    rw [attached_children h hint p c l hnc, attached_parent]
    by_cases hwp : w = p
    · subst hwp
      simp only [if_true, hl]
      by_cases hx : x = c
      · simp [hx]
      · simp [hx, hint x w]
    · simp only [hwp, if_false]
      by_cases hx : x = c
      · subst hx
        have : ¬ p = w := fun e => hwp e.symm
        by_cases hcw : (h x).parent = some w
        · simp [hcw, this, (hj.nodup w).not_mem_erase]
        · simp [hcw, this, hint x w]
      · by_cases hcw : (h c).parent = some w
        · simp [hcw, hx, (hj.nodup w).mem_erase_iff, hint x w]
        · simp [hcw, hx, hint x w]
  · intro w
    rw [attached_children h hint p c l hnc]
    split
    · exact hnd
    · split
      · exact (hj.nodup w).erase c
      · exact hj.nodup w
  · intro x y hy
    rw [attached_children h hint p c l hnc]
    rcases attachH_focusedChild_some _ p c focus x y hy with ⟨hx, hyc, _⟩ | hy'
    · rw [if_pos hx, hyc]
      exact (hl c).mpr (Or.inl rfl)
    · obtain ⟨hf, hnot⟩ := adoptH_focusedChild_some _ p c x y hy'
      simp only [hmodify_focusedChild, ite_self] at hf
      rw [placed_parent, placed_children] at hnot
      have hmem := hj.focus x y hf
      by_cases hxp : x = p
      · rw [if_pos hxp]
        subst hxp
        exact (hl y).mpr (Or.inr hmem)
      · rw [if_neg hxp]
        rw [if_neg hxp] at hnot
        split
        · rename_i hcx
          have hyc : y ≠ c := fun e => hnot ⟨hcx, (hint c x).mpr hcx, e⟩
          exact (List.mem_erase_of_ne hyc).mpr hmem
        · exact hmem

theorem removeChildH_focusInv (h : Heap) (hj : FocusInv h) (p c : WidgetId)
    (hc : c ∈ (h p).children) : FocusInv (removeChildH h p c) := by
  have hint := hj.integrity
  have hpc : (h c).parent = some p := (hint c p).mp hc
  refine ⟨?_, ?_, ?_⟩
  · intro x w
    rw [removeChildH_children, removeChildH_parent]
    by_cases hwp : w = p
    · subst hwp
      by_cases hx : x = c
      · subst hx
        simp [(hj.nodup w).not_mem_erase]
      · simp [hx, (hj.nodup w).mem_erase_iff, hint x w]
    · by_cases hx : x = c
      · subst hx
        have : ¬ p = w := fun e => hwp e.symm
        simp [hwp, hint x w, hpc, this]
      · simp [hwp, hx, hint x w]
  · intro w
    rw [removeChildH_children]
    split
    · exact (hj.nodup w).erase c
    · exact hj.nodup w
  · intro x y hy
    rw [removeChildH_focusedChild] at hy
    rw [removeChildH_children]
    split at hy
    · cases hy
    · rename_i hne
      have hmem := hj.focus x y hy
      split
      · rename_i hx
        have hyc : y ≠ c := fun e => hne ⟨hx, by rw [← hx, hy, e]⟩
        exact (List.mem_erase_of_ne hyc).mpr hmem
      · exact hmem

theorem focusChildH_focusInv (h : Heap) (hj : FocusInv h) (p : WidgetId)
    (child : Option WidgetId) (reason : FocusReason) :
    FocusInv (focusChildH h p child reason) := by
  refine hj.of_members (fun w x => ?_) (fun w => ?_) (fun w => ?_) (fun w x hx => ?_)
  · rw [(focusChildH_sameLinks h p child reason w).1]
  · rw [(focusChildH_sameLinks h p child reason w).1]; exact hj.nodup w
  · exact (focusChildH_sameLinks h p child reason w).2
  · rw [focusChildH_focusedChild] at hx
    split at hx
    · rename_i hg
      subst hx
      have := hg.2
      simp only [Option.isSome_some, hasChildH, contains_decide, Bool.true_and,
        Bool.not_eq_true', decide_eq_false_iff_not, not_not] at this
      rw [hg.1]
      exact this
    · exact hj.focus w x hx

theorem mem_erase_append_self (l : List WidgetId) (c x : WidgetId) (hc : c ∈ l) :
    x ∈ l.erase c ++ [c] ↔ x ∈ l := by
  rw [List.mem_append, List.mem_singleton]
  constructor
  · rintro (h | h)
    · exact List.mem_of_mem_erase h
    · rw [h]; exact hc
  · intro h
    by_cases hx : x = c
    · exact Or.inr hx
    · exact Or.inl ((List.mem_erase_of_ne hx).mpr h)

theorem nodup_erase_append_self (l : List WidgetId) (c : WidgetId) (hn : l.Nodup) :
    (l.erase c ++ [c]).Nodup :=
  List.Nodup.append (hn.erase c) (List.nodup_singleton c)
    (by
      intro a ha hb
      rw [List.mem_singleton] at hb
      subst hb
      exact hn.not_mem_erase ha)

theorem unlockChildH_focusInv (h : Heap) (hj : FocusInv h) (p c : WidgetId) :
    FocusInv (unlockChildH h p c) := by
  refine hj.of_members (fun w x => ?_) (fun w => ?_) (fun w => ?_) (fun w x hx => ?_)
  · rw [unlockChildH_children]
  · rw [unlockChildH_children]; exact hj.nodup w
  · exact unlockChildH_parent h p c w
  · rw [unlockChildH_focusedChild] at hx
    exact hj.focus w x hx

theorem moved_focusInv (h : Heap) (hj : FocusInv h) (p c : WidgetId) (hc : c ∈ (h p).children) :
    FocusInv (hmodify h p (fun d => { d with children := d.children.erase c ++ [c] })) := by
  refine hj.of_members (fun w x => ?_) (fun w => ?_) (fun w => ?_) (fun w x hx => ?_)
  · rw [hmodify_children]
    split
    · rename_i hw; subst hw; exact mem_erase_append_self _ c x hc
    · rfl
  · rw [hmodify_children]
    split
    · exact nodup_erase_append_self _ c (hj.nodup w)
    · exact hj.nodup w
  · simp only [hmodify_parent, ite_self]
  · simp only [hmodify_focusedChild, ite_self] at hx
    exact hj.focus w x hx

theorem lockChildH_focusInv (h : Heap) (hj : FocusInv h) (p c : WidgetId)
    (hc : c ∈ (h p).children) : FocusInv (lockChildH h p c) := by
  unfold lockChildH
  have h3 : FocusInv (hmodify (enableOnlyH (unlockChildH h p c) ((unlockChildH h p c p).children)
      (some c)) p (fun d => { d with lockedChildren := c :: d.lockedChildren })) := by
    refine (unlockChildH_focusInv h hj p c).of_members (fun w x => ?_) (fun w => ?_) (fun w => ?_)
      (fun w x hx => ?_)
    · simp only [hmodify_children, ite_self]
      rw [enableOnlyH_field (fun d => d.children) (fun _ _ => rfl)]
    · simp only [hmodify_children, ite_self]
      rw [enableOnlyH_field (fun d => d.children) (fun _ _ => rfl)]
      exact (unlockChildH_focusInv h hj p c).nodup w
    · simp only [hmodify_parent, ite_self]
      rw [enableOnlyH_field (fun d => d.parent) (fun _ _ => rfl)]
    · simp only [hmodify_focusedChild, ite_self] at hx
      rw [enableOnlyH_field (fun d => d.focusedChild) (fun _ _ => rfl)] at hx
      exact (unlockChildH_focusInv h hj p c).focus w x hx
  have hc3 : c ∈ ((hmodify (enableOnlyH (unlockChildH h p c) ((unlockChildH h p c p).children)
      (some c)) p (fun d => { d with lockedChildren := c :: d.lockedChildren })) p).children := by
    simp only [hmodify_children, ite_self]
    rw [enableOnlyH_field (fun d => d.children) (fun _ _ => rfl), unlockChildH_children]
    exact hc
  simp only []
  split
  · refine moved_focusInv _ (focusChildH_focusInv _ h3 p (some c) _) p c ?_
    rw [(focusChildH_sameLinks _ p (some c) _ p).1]
    exact hc3
  · exact moved_focusInv _ h3 p c hc3

theorem insertChild_out_of_range (ct : Rect → Point → Bool) (n : Nat) (s : State) (p c : WidgetId)
    (index : Int) (hc : c ∉ (s.widgets p).children)
    (hr : ¬ IndexInRange (s.widgets p).children.length index) :
    insertChild ct n s p index (some c) = .error .assertion := by
  unfold insertChild
  simp only [hasChild, contains_decide, hc, decide_False, Bool.false_eq_true, if_false]
  have : (!(decide (0 ≤ (if index ≤ 0 then ((s.widgets p).children.length : Int) + index
      else index - 1)) && decide ((if index ≤ 0 then ((s.widgets p).children.length : Int) + index
      else index - 1) ≤ ((s.widgets p).children.length : Int)))) = true := by
    simp only [Bool.not_eq_true', Bool.and_eq_false_iff, decide_eq_false_iff_not]
    unfold IndexInRange at hr
    by_cases h0 : 0 ≤ (if index ≤ 0 then ((s.widgets p).children.length : Int) + index
      else index - 1)
    · exact Or.inr (fun h1 => hr ⟨h0, h1⟩)
    · exact Or.inl h0
  simp only [this, if_true]

/-- A call that returns keeps the focus invariant. -/
theorem WidgetOp.run_focusInv (ct : Rect → Point → Bool) (fuel : Nat) (s s' : State)
    (op : WidgetOp) (hj : FocusInv s.widgets) (hrun : op.run ct fuel s = .ok s') :
    FocusInv s'.widgets := by
  have hint := hj.integrity
  cases op with
  | addChild p c =>
    simp only [WidgetOp.run] at hrun
    cases fuel with
    | zero => rw [addChild_zero] at hrun; cases hrun
    | succ n =>
      cases c with
      | none => rw [addChild_none] at hrun; cases hrun; exact hj
      | some c =>
        by_cases hc : c ∈ (s.widgets p).children
        · rw [addChild_present ct n s p c hc] at hrun; cases hrun; exact hj
        · have hsp := addChild_spec ct (n + 1) s p c hc (fun e => hc ((hint c p).mpr e))
            (fun q _ => hj.nodup q)
          rw [(hsp.1 s' hrun).1, addChildH_eq]
          refine attached_focusInv _ hj p c _ (fun x => ?_) ?_ hc true
          · simp only [List.mem_append, List.mem_singleton]
            exact Or.comm
          · exact List.Nodup.append (hj.nodup p) (List.nodup_singleton c) (by simpa using hc)
  | insertChild p index c =>
    simp only [WidgetOp.run] at hrun
    cases c with
    | none => rw [insertChild_none] at hrun; cases hrun; exact hj
    | some c =>
      by_cases hc : c ∈ (s.widgets p).children
      · rw [insertChild_present ct fuel s p c index hc] at hrun; cases hrun; exact hj
      · by_cases hir : IndexInRange (s.widgets p).children.length index
        · obtain ⟨i, hi, hle⟩ := hir.position
          have hsp := insertChild_spec ct fuel s p c index i hi hle hc
            (fun e => hc ((hint c p).mpr e)) (fun q _ => hj.nodup q)
          rw [(hsp.1 s' hrun).1, insertChildH_eq]
          refine attached_focusInv _ hj p c _ (fun x => List.mem_insertIdx hle) ?_ hc false
          exact (List.perm_insertIdx c (s.widgets p).children hle).nodup_iff.mpr
            (List.nodup_cons.mpr ⟨hc, hj.nodup p⟩)
        · rw [insertChild_out_of_range ct fuel s p c index hc hir] at hrun; cases hrun
  | removeChild p c =>
    simp only [WidgetOp.run] at hrun
    cases fuel with
    | zero => rw [removeChild_zero] at hrun; cases hrun
    | succ n =>
      cases c with
      | none => rw [removeChild_none] at hrun; cases hrun; exact hj
      | some c =>
        by_cases hc : c ∈ (s.widgets p).children
        · have hsp := removeChild_spec ct (n + 1) s p c hc (hj.nodup p)
          rw [(hsp.1 s' hrun).1]
          exact removeChildH_focusInv _ hj p c hc
        · rw [removeChild_absent ct n s p c hc] at hrun; cases hrun; exact hj
  | focusChild p c reason =>
    simp only [WidgetOp.run] at hrun
    rw [((focusChild_spec ct fuel s p c reason).1 s' hrun).1]
    exact focusChildH_focusInv _ hj p c reason
  | focusNextChild p reason =>
    simp only [WidgetOp.run] at hrun
    rw [focusNextChild_eq] at hrun
    split at hrun
    · rw [((focusChild_spec ct fuel s p _ reason).1 s' hrun).1]
      exact focusChildH_focusInv _ hj p _ reason
    · cases hrun; exact hj
  | lockChild p c =>
    simp only [WidgetOp.run] at hrun
    cases c with
    | none => cases hrun; exact hj
    | some c =>
      by_cases hc : c ∈ (s.widgets p).children
      · rw [((lockChild_spec ct fuel s p c hc).1 s' hrun).1]
        exact lockChildH_focusInv _ hj p c hc
      · rw [lockChild_absent ct fuel s p c hc] at hrun; cases hrun
  | unlockChild p c =>
    simp only [WidgetOp.run] at hrun
    cases c with
    | none => cases hrun; exact hj
    | some c =>
      by_cases hc : c ∈ (s.widgets p).children
      · rw [unlockChild_eq s p c hc] at hrun
        cases hrun
        exact unlockChildH_focusInv _ hj p c
      · rw [unlockChild_absent s p c hc] at hrun; cases hrun
  | moveChildToTop p c =>
    simp only [WidgetOp.run] at hrun
    cases c with
    | none => cases hrun; exact hj
    | some c =>
      by_cases hc : c ∈ (s.widgets p).children
      · rw [moveChildToTop_eq s p c hc] at hrun
        cases hrun
        exact moved_focusInv _ hj p c hc
      · rw [moveChildToTop_absent s p c hc] at hrun; cases hrun

theorem fresh_focusInv (h : Heap) (hf : Fresh h) : FocusInv h := by
  refine ⟨?_, ?_, ?_⟩
  · intro w p; simp [(hf p).2.1, (hf w).1]
  · intro p; simp [(hf p).2.1]
  · intro p c hc; simp [(hf p).2.2.1] at hc

theorem focusReachable_focusInv (ct : Rect → Point → Bool) (s : State)
    (hr : FocusReachable ct s) : FocusInv s.widgets := by
  induction hr with
  | init s h => exact fresh_focusInv _ h
  | step s s' op fuel _ hrun ih => exact WidgetOp.run_focusInv ct fuel s s' op ih hrun

theorem sampleState_fresh : Fresh sampleState.widgets := fun _ => ⟨rfl, rfl, rfl, rfl⟩

theorem sampleTree_focusReachable : FocusReachable sampleContains sampleTree :=
  FocusReachable.step sampleState sampleTree (.addChild 1 (some 2)) 10
    (FocusReachable.init _ sampleState_fresh) sampleTree_run

/-- C2 (focus validity).  In every state reached from freshly constructed
widgets by calls of `addChild`, `insertChild`, `removeChild`, `focusChild`,
`focusNextChild`, `lockChild`, `unlockChild` and `moveChildToTop` that
returned, a focused child is a member of the children; and when `c` is the
focused child of `p`, every `removeChild(c)` that returns leaves `p` without
a focused child, and on a well-formed tree the call does return. -/
theorem focus_validity (ct : Rect → Point → Bool) (s : State) (hr : FocusReachable ct s) :
    (∀ p c, (s.widgets p).focusedChild = some c → c ∈ (s.widgets p).children) ∧
    (∀ p c, (s.widgets p).focusedChild = some c →
      (∀ fuel s', removeChild ct fuel s p (some c) = .ok s' →
        (s'.widgets p).focusedChild = none) ∧
      (WellFormed s.widgets →
        ∃ F, ∀ fuel, F ≤ fuel → ∃ s', removeChild ct fuel s p (some c) = .ok s')) := by
  have hj := focusReachable_focusInv ct s hr
  refine ⟨hj.focus, fun p c hpc => ⟨fun fuel s' hrun => ?_, fun hw => ?_⟩⟩
  · have hc := hj.focus p c hpc
    rw [((removeChild_spec ct fuel s p c hc (hj.nodup p)).1 s' hrun).1, removeChildH_focusedChild,
      if_pos ⟨rfl, hpc⟩]
  · exact TreeOp.run_total ct s (.removeChild p (some c)) hw trivial

theorem focus_validity_witness :
    FocusReachable sampleContains sampleTree ∧
    (sampleTree.widgets 1).focusedChild = some 2 ∧
    ((∀ p c, (sampleTree.widgets p).focusedChild = some c → c ∈ (sampleTree.widgets p).children) ∧
    (∀ p c, (sampleTree.widgets p).focusedChild = some c →
      (∀ fuel s', removeChild sampleContains fuel sampleTree p (some c) = .ok s' →
        (s'.widgets p).focusedChild = none) ∧
      (WellFormed sampleTree.widgets →
        ∃ F, ∀ fuel, F ≤ fuel →
          ∃ s', removeChild sampleContains fuel sampleTree p (some c) = .ok s'))) :=
  ⟨sampleTree_focusReachable, by decide,
    focus_validity sampleContains sampleTree sampleTree_focusReachable⟩

theorem insertIdx_eq_take_drop (x : WidgetId) :
    ∀ (i : Nat) (l : List WidgetId), i ≤ l.length → l.insertIdx i x = l.take i ++ x :: l.drop i := by
  intro i
  induction i with
  | zero => intro l _; simp
  | succ i ih =>
    intro l hl
    cases l with
    | nil => simp at hl
    | cons a l =>
      rw [List.insertIdx_succ_cons, ih l (by simpa using hl)]
      simp

theorem insertChildH_children_self (h : Heap) (hint : Integrity h) (p : WidgetId) (i : Nat)
    (x : WidgetId) (hx : x ∉ (h p).children) :
    (insertChildH h p i x p).children = (h p).children.insertIdx i x := by
  rw [insertChildH_eq, attached_children h hint p x _ hx, if_pos rfl]

/-- Index addressing over recorded styles. On a well-formed tree, for a widget
`p` with children `cs` of length `n` and a widget `x` not among them: every
`insertChild(k, x)` that returns leaves the children `take pos cs ++ x :: drop
pos cs`, with `pos = k - 1` when `1 ≤ k ≤ n + 1` and `pos = n + k` when `-n ≤ k
≤ 0`; for three children, index 0 appends, index -1 inserts before the last
element and index 1 inserts at the front; and the call does return (given
enough fuel) when `x` is neither `p` nor an ancestor of `p`. -/
theorem index_addressing_recorded (ct : Rect → Point → Bool) (s : State) (p x : WidgetId) (k : Int)
    (hw : WellFormed s.widgets) (hx : x ∉ (s.widgets p).children) :
    (∀ fuel s', insertChild ct fuel s p k (some x) = .ok s' →
      (1 ≤ k ∧ k ≤ ((s.widgets p).children.length : Int) + 1 →
        (s'.widgets p).children
          = (s.widgets p).children.take (k - 1).toNat
              ++ x :: (s.widgets p).children.drop (k - 1).toNat) ∧
      (-((s.widgets p).children.length : Int) ≤ k ∧ k ≤ 0 →
        (s'.widgets p).children
          = (s.widgets p).children.take (((s.widgets p).children.length : Int) + k).toNat
              ++ x :: (s.widgets p).children.drop
                (((s.widgets p).children.length : Int) + k).toNat) ∧
      (∀ c1 c2 c3, (s.widgets p).children = [c1, c2, c3] →
        (k = 0 → (s'.widgets p).children = [c1, c2, c3, x]) ∧
        (k = -1 → (s'.widgets p).children = [c1, c2, x, c3]) ∧
        (k = 1 → (s'.widgets p).children = [x, c1, c2, c3]))) ∧
    ((1 ≤ k ∧ k ≤ ((s.widgets p).children.length : Int) + 1) ∨
        (-((s.widgets p).children.length : Int) ≤ k ∧ k ≤ 0) →
      (∀ j, up s.widgets j p ≠ some x) →
      ∃ F, ∀ fuel, F ≤ fuel → ∃ s', insertChild ct fuel s p k (some x) = .ok s') := by
  have hint := hw.integrity
  have key : ∀ fuel s', insertChild ct fuel s p k (some x) = .ok s' → ∀ i : Nat,
      (if k ≤ 0 then ((s.widgets p).children.length : Int) + k else k - 1) = i →
      i ≤ (s.widgets p).children.length →
      (s'.widgets p).children = (s.widgets p).children.take i ++ x :: (s.widgets p).children.drop i := by
    intro fuel s' hrun i hi hle
    have hsp := insertChild_spec ct fuel s p x k i hi hle hx
      (fun e => hx ((hint x p).mpr e)) (fun q _ => hw.nodup q)
    rw [(hsp.1 s' hrun).1, insertChildH_children_self _ hint p i x hx,
      insertIdx_eq_take_drop x i _ hle]
  refine ⟨fun fuel s' hrun => ⟨fun hk => ?_, fun hk => ?_, fun c1 c2 c3 hcs => ⟨?_, ?_, ?_⟩⟩,
    fun hk hna => ?_⟩
  · have h1 : ¬ k ≤ 0 := by omega
    refine key fuel s' hrun (k - 1).toNat ?_ ?_
    · rw [if_neg h1]; omega
    · omega
  · refine key fuel s' hrun (((s.widgets p).children.length : Int) + k).toNat ?_ ?_
    · rw [if_pos hk.2]; omega
    · omega
  · intro hk0
    have := key fuel s' hrun 3 (by rw [hk0, hcs]; rfl) (by rw [hcs]; rfl)
    rw [this, hcs]; rfl
  · intro hk1
    have := key fuel s' hrun 2 (by rw [hk1, hcs]; rfl) (by rw [hcs]; simp)
    rw [this, hcs]; rfl
  · intro hk1
    have := key fuel s' hrun 0 (by rw [hk1]; rfl) (Nat.zero_le _)
    rw [this, hcs]; rfl
  · have hir : IndexInRange (s.widgets p).children.length k := by
      unfold IndexInRange
      rcases hk with hk | hk
      · have h1 : ¬ k ≤ 0 := by omega
        rw [if_neg h1]; omega
      · rw [if_pos hk.2]; omega
    exact TreeOp.run_total ct s (.insertChild p k (some x)) hw ⟨hna, hir⟩

theorem sampleTree_wellFormed : WellFormed sampleTree.widgets :=
  reachable_wellFormed sampleContains sampleTree sampleTree_reachable

theorem updateStyle_states (s : State) (w d : WidgetId) :
    ((updateStyle s w).visuals d).states = (s.visuals d).states := by
  unfold updateStyle
  split
  · rfl
  · simp only [applyStyle, State.modifyVisual]
    split <;> rfl

theorem commitStatus_states (s : State) (w : WidgetId) (st : WidgetState) (a b : Bool)
    (d : WidgetId) :
    ((commitStatus s w st a b).visuals d).states
      = if d = w ∧ a ≠ b then (s.visuals d).states.assign a st else (s.visuals d).states := by
  unfold commitStatus
  by_cases hab : a = b
  · simp [hab]
  · have hne : (a != b) = true := by simpa using hab
    simp only [hne, if_true]
    have hcore : ((updateStyle (s.modifyVisual w
        (fun v => { v with states := v.states.assign a st })) w).visuals d).states
        = if d = w ∧ a ≠ b then (s.visuals d).states.assign a st else (s.visuals d).states := by
      rw [updateStyle_states]
      simp only [State.modifyVisual]
      by_cases hd : d = w
      · simp [hd, hab]
      · simp [hd]
    cases st <;> exact hcore

theorem activeChain_unfold (h : Heap) (w : WidgetId) :
    ActiveChain h w ↔
      ((h w).enabled = true ∧
        ∀ q, (h w).parent = some q → (h q).focusedChild = some w ∧ ActiveChain h q) := by
  constructor
  · intro hc
    refine ⟨(hc 0 w rfl).1, fun q hq => ⟨(hc 0 w rfl).2 q hq, fun k v hk => ?_⟩⟩
    exact hc (k + 1) v (by rw [up_of_parent h k w q hq]; exact hk)
  · rintro ⟨he, hq⟩ k v hk
    cases k with
    | zero =>
      cases hk
      exact ⟨he, fun q hp => (hq q hp).1⟩
    | succ k =>
      rw [up_succ_bottom] at hk
      cases hp : (h w).parent with
      | none => rw [hp] at hk; cases hk
      | some q =>
        rw [hp, Option.some_bind] at hk
        exact (hq q hp).2 k v hk

/-- The `ActiveState` walk computes `ActiveChain`. -/
theorem activeWalk_correct (s : State) :
    ∀ (n : Nat) (w : WidgetId) (b : Bool), activeWalk n s w = .ok b →
      (b = true ↔ ActiveChain s.widgets w) := by
  intro n
  induction n with
  | zero => intro w b h; simp [activeWalk] at h
  | succ n ih =>
    intro w b h
    rw [activeWalk] at h
    rw [activeChain_unfold]
    simp only [getParent, isExplicitlyEnabled, getFocusedChild] at h
    cases hp : (s.widgets w).parent with
    | none =>
      simp only [hp] at h
      by_cases he : (s.widgets w).enabled = true
      · simp only [he, Bool.not_true, Bool.or_self, Bool.false_eq_true, if_false] at h
        cases h
        simp [he]
      · simp only [Bool.not_eq_true] at he
        simp only [he, Bool.not_false, Bool.true_or, if_true] at h
        cases h
        simp [he]
    | some q =>
      simp only [hp] at h
      by_cases he : (s.widgets w).enabled = true
      · by_cases hf : (s.widgets q).focusedChild = some w
        · have hb : ((s.widgets q).focusedChild != some w) = false := by simp [hf]
          simp only [he, hb, Bool.not_true, Bool.or_self, Bool.false_eq_true, if_false] at h
          have := ih q b h
          simp [he, hf, this]
        · have hb : ((s.widgets q).focusedChild != some w) = true := by simpa using hf
          simp only [he, hb, Bool.not_true, Bool.or_true, if_true] at h
          cases h
          simp [hf]
      · simp only [Bool.not_eq_true] at he
        simp only [he, Bool.not_false, Bool.true_or, if_true] at h
        cases h
        simp [he]

theorem States.has_assign (m : States) (b : Bool) (st : WidgetState) (hst : st ≠ .defaultState) :
    (m.assign b st).has st = b := by
  cases st <;> first | rfl | exact absurd rfl hst

/-- The children loop of a cascading `updateState`: every bit is unchanged or
right afterwards, and the bits below the children that were visited are
right.  `good` says that a bit agrees with the derived condition `T`. -/
theorem cascade_fold (ct : Rect → Point → Bool) (h : Heap) (m : Point) (st : WidgetState)
    (T : WidgetId → Prop) (n : Nat)
    (ih : ∀ (s : State) (w : WidgetId) (s' : State), s.widgets = h → s.mousePos = m →
      updateState ct n s w st = .ok s' →
      (∀ d, (∃ k, up h k d = some w) → ((s'.visuals d).states.has st = true ↔ T d)) ∧
      (∀ d, (s'.visuals d).states.has st = (s.visuals d).states.has st ∨
        ((s'.visuals d).states.has st = true ↔ T d))) :
    ∀ (l : List WidgetId) (t t' : State), t.widgets = h → t.mousePos = m →
      l.foldlM (fun acc child => updateState ct n acc child st) t = .ok t' →
      (t'.widgets = h ∧ t'.mousePos = m) ∧
      (∀ d, (t'.visuals d).states.has st = (t.visuals d).states.has st ∨
        ((t'.visuals d).states.has st = true ↔ T d)) ∧
      (∀ c ∈ l, ∀ d, (∃ k, up h k d = some c) → ((t'.visuals d).states.has st = true ↔ T d)) := by
  intro l
  induction l with
  | nil =>
    intro t t' ht hm hrun
    simp only [List.foldlM_nil, pure, Except.pure] at hrun
    cases hrun
    exact ⟨⟨ht, hm⟩, fun d => Or.inl rfl, fun c hc => by cases hc⟩
  | cons a l ihl =>
    intro t t' ht hm hrun
    rw [List.foldlM_cons, bind_eq_ok] at hrun
    obtain ⟨u, hu, hrest⟩ := hrun
    have hfu := updateState_frame ct n t a st u hu
    obtain ⟨hdesc, hkeep⟩ := ih t a u ht hm hu
    obtain ⟨hw', hkeep', hdesc'⟩ := ihl u t' (hfu.1.trans ht) (hfu.2.1.trans hm) hrest
    refine ⟨hw', fun d => ?_, fun c hc d hd => ?_⟩
    · rcases hkeep' d with h1 | h1
      · rcases hkeep d with h2 | h2
        · exact Or.inl (h1.trans h2)
        · exact Or.inr (by rw [h1]; exact h2)
      · exact Or.inr h1
    · rcases List.mem_cons.mp hc with rfl | hc
      · rcases hkeep' d with h1 | h1
        · rw [h1]; exact hdesc d hd
        · exact h1
      · exact hdesc' c hc d hd

/-- A cascading `updateState` leaves the requested bit of the widget and of
all its descendants equal to the derived condition `T`. -/
theorem cascade_correct (ct : Rect → Point → Bool) (h : Heap) (hint : Integrity h) (m : Point)
    (st : WidgetState) (T : WidgetId → Prop)
    (hder : ∀ (n : Nat) (s : State) (w : WidgetId) (r : Option (Bool × Bool)),
      s.widgets = h → s.mousePos = m → deriveStatus ct n s w st = .ok r →
      ∃ b, r = some (b, true) ∧ (b = true ↔ T w)) :
    ∀ (n : Nat) (s : State) (w : WidgetId) (s' : State), s.widgets = h → s.mousePos = m →
      updateState ct n s w st = .ok s' →
      (∀ d, (∃ k, up h k d = some w) → ((s'.visuals d).states.has st = true ↔ T d)) ∧
      (∀ d, (s'.visuals d).states.has st = (s.visuals d).states.has st ∨
        ((s'.visuals d).states.has st = true ↔ T d)) := by
  intro n
  induction n with
  | zero => intro s w s' _ _ hrun; simp [updateState] at hrun
  | succ n ih =>
    intro s w s' hs hm hrun
    rw [updateState] at hrun
    cases hd : deriveStatus ct n s w st with
    | error e => rw [hd] at hrun; cases hrun
    | ok r =>
      obtain ⟨b, rfl, hb⟩ := hder n s w r hs hm hd
      have hst : st ≠ .defaultState := by
        intro e
        rw [e] at hd
        cases hd
      rw [hd] at hrun
      simp only [if_true] at hrun
      cases hf : (s.widgets w).children.foldlM
          (fun acc child => updateState ct n acc child st) s with
      | error e => rw [hf] at hrun; cases hrun
      | ok s1 =>
        rw [hf] at hrun
        simp only [Except.ok.injEq] at hrun
        subst hrun
        obtain ⟨_, hkeep, hdesc⟩ :=
          cascade_fold ct h m st T n ih (s.widgets w).children s s1 hs hm hf
        have hstates := commitStatus_states s1 w st b (hasState s w st)
        have hself : ((commitStatus s1 w st b (hasState s w st)).visuals w).states.has st = true
            ↔ T w := by
          rw [hstates w]
          by_cases hne : b ≠ hasState s w st
          · rw [if_pos ⟨rfl, hne⟩, States.has_assign _ _ _ hst]
            exact hb
          · rw [if_neg (fun e => hne e.2)]
            rcases hkeep w with h1 | h1
            · rw [h1]
              simp only [ne_eq, not_not] at hne
              rw [← hb, hne]
              rfl
            · exact h1
        have hother : ∀ d, d ≠ w →
            ((commitStatus s1 w st b (hasState s w st)).visuals d).states.has st
              = (s1.visuals d).states.has st := by
          intro d hdw
          rw [hstates d, if_neg (fun e => hdw e.1)]
        refine ⟨fun d hd => ?_, fun d => ?_⟩
        · by_cases hdw : d = w
          · rw [hdw]; exact hself
          · rw [hother d hdw]
            obtain ⟨k, hk⟩ := hd
            cases k with
            | zero => cases hk; exact absurd rfl hdw
            | succ k =>
              rw [up] at hk
              cases hc : up h k d with
              | none => rw [hc] at hk; cases hk
              | some c =>
                rw [hc, Option.some_bind] at hk
                have hmem : c ∈ (s.widgets w).children := by
                  rw [hs]; exact (hint c w).mpr hk
                exact hdesc c hmem d ⟨k, hc⟩
        · by_cases hdw : d = w
          · rw [hdw]; exact Or.inr hself
          · rw [hother d hdw]
            exact hkeep d

theorem deriveStatus_active (ct : Rect → Point → Bool) (h : Heap) (n : Nat) (s : State)
    (w : WidgetId) (r : Option (Bool × Bool)) (hs : s.widgets = h)
    (hd : deriveStatus ct n s w .activeState = .ok r) :
    ∃ b, r = some (b, true) ∧ (b = true ↔ ActiveChain h w) := by
  simp only [deriveStatus] at hd
  cases hwalk : activeWalk n s w with
  | error e => rw [hwalk] at hd; cases hd
  | ok b =>
    rw [hwalk] at hd
    cases hd
    exact ⟨b, rfl, hs ▸ activeWalk_correct s n w b hwalk⟩

/-- C4 (Active derivation with cascade).  On a well-formed tree, every
`w.updateState(ActiveState)` that returns leaves the tree links unchanged and
the Active bit of `w` and of every descendant `d` of `w` set exactly when
every widget on the parent chain of `d` is explicitly enabled and every
widget on it that has a parent is the focused child of that parent; and the
call does return, given enough fuel. -/
theorem active_derivation (ct : Rect → Point → Bool) (s : State) (w : WidgetId)
    (hw : WellFormed s.widgets) :
    (∀ fuel s', updateState ct fuel s w .activeState = .ok s' →
      s'.widgets = s.widgets ∧
      ∀ d, (∃ k, up s.widgets k d = some w) →
        ((s'.visuals d).states.active = true ↔ ActiveChain s.widgets d)) ∧
    (∃ F, ∀ fuel, F ≤ fuel → ∃ s', updateState ct fuel s w .activeState = .ok s') := by
  constructor
  · intro fuel s' hrun
    refine ⟨(updateState_frame ct fuel s w _ s' hrun).1, ?_⟩
    exact (cascade_correct ct s.widgets hw.integrity s.mousePos .activeState
      (ActiveChain s.widgets)
      (fun n t v r ht _ hd => deriveStatus_active ct s.widgets n t v r ht hd)
      fuel s w s' rfl rfl hrun).1
  · obtain ⟨rk, N, hr⟩ := hw.ranked
    refine ⟨2 * N + 2, fun fuel hf => ?_⟩
    have := hr.1 w
    exact updateState_total ct s.widgets rk N hr .activeState fuel s w rfl (by omega)

theorem active_derivation_witness :
    WellFormed sampleTree.widgets ∧
    ((∀ fuel s', updateState sampleContains fuel sampleTree 1 .activeState = .ok s' →
      s'.widgets = sampleTree.widgets ∧
      ∀ d, (∃ k, up sampleTree.widgets k d = some 1) →
        ((s'.visuals d).states.active = true ↔ ActiveChain sampleTree.widgets d)) ∧
    (∃ F, ∀ fuel, F ≤ fuel →
      ∃ s', updateState sampleContains fuel sampleTree 1 .activeState = .ok s')) :=
  ⟨sampleTree_wellFormed, active_derivation sampleContains sampleTree 1 sampleTree_wellFormed⟩

theorem allEnabled_unfold (h : Heap) (w : WidgetId) :
    AllEnabled h w ↔
      ((h w).enabled = true ∧ ∀ q, (h w).parent = some q → AllEnabled h q) := by
  constructor
  · intro hc
    refine ⟨hc 0 w rfl, fun q hq k v hk => ?_⟩
    exact hc (k + 1) v (by rw [up_of_parent h k w q hq]; exact hk)
  · rintro ⟨he, hq⟩ k v hk
    cases k with
    | zero => cases hk; exact he
    | succ k =>
      rw [up_succ_bottom] at hk
      cases hp : (h w).parent with
      | none => rw [hp] at hk; cases hk
      | some q =>
        rw [hp, Option.some_bind] at hk
        exact hq q hp k v hk

/-- The `DisabledState` walk answers `true` exactly when every widget on the
chain is enabled. -/
theorem disabledWalk_correct (s : State) :
    ∀ (n : Nat) (w : WidgetId) (b : Bool), disabledWalk n s w = .ok b →
      (b = true ↔ AllEnabled s.widgets w) := by
  intro n
  induction n with
  | zero => intro w b h; simp [disabledWalk] at h
  | succ n ih =>
    intro w b h
    rw [disabledWalk] at h
    rw [allEnabled_unfold]
    simp only [getParent, isExplicitlyEnabled] at h
    by_cases he : (s.widgets w).enabled = true
    · simp only [he, Bool.not_true, Bool.false_eq_true, if_false] at h
      cases hp : (s.widgets w).parent with
      | none =>
        simp only [hp] at h
        cases h
        simp [he]
      | some q =>
        simp only [hp] at h
        have := ih q b h
        simp [he, this]
    · simp only [Bool.not_eq_true] at he
      simp only [he, Bool.not_false, if_true] at h
      cases h
      simp [he]

theorem deriveStatus_disabled (ct : Rect → Point → Bool) (h : Heap) (n : Nat) (s : State)
    (w : WidgetId) (r : Option (Bool × Bool)) (hs : s.widgets = h)
    (hd : deriveStatus ct n s w .disabledState = .ok r) :
    ∃ b, r = some (b, true) ∧ (b = true ↔ AllEnabled h w) := by
  simp only [deriveStatus] at hd
  cases hwalk : disabledWalk n s w with
  | error e => rw [hwalk] at hd; cases hd
  | ok b =>
    rw [hwalk] at hd
    cases hd
    exact ⟨b, rfl, hs ▸ disabledWalk_correct s n w b hwalk⟩

/-- What `updateState(DisabledState)` computes: on a well-formed tree the
Disabled bit of the widget and of its descendants is set exactly when every
widget on the parent chain is explicitly enabled. -/
theorem disabled_cascade (ct : Rect → Point → Bool) (s : State) (w : WidgetId)
    (hint : Integrity s.widgets) (fuel : Nat) (s' : State)
    (hrun : updateState ct fuel s w .disabledState = .ok s') :
    ∀ d, (∃ k, up s.widgets k d = some w) →
      ((s'.visuals d).states.disabled = true ↔ AllEnabled s.widgets d) :=
  (cascade_correct ct s.widgets hint s.mousePos .disabledState (AllEnabled s.widgets)
    (fun n t v r ht _ hd => deriveStatus_disabled ct s.widgets n t v r ht hd)
    fuel s w s' rfl rfl hrun).1

/-- C5 (Disabled derivation), the code at a failing input: in the sample
state no widget is explicitly disabled, yet `updateState(DisabledState)` on
widget 1 returns with the Disabled bit of widget 1 set; and once widget 1 is
explicitly disabled the same call returns with the bit clear. -/
theorem disabled_derivation_inverted :
    (∀ v, (sampleState.widgets v).enabled = true) ∧
    (∃ s', updateState sampleContains 3 sampleState 1 .disabledState = .ok s' ∧
      (s'.visuals 1).states.disabled = true) ∧
    (∃ s', updateState sampleContains 3 (setEnabled sampleState 1 false) 1 .disabledState = .ok s' ∧
      ((setEnabled sampleState 1 false).widgets 1).enabled = false ∧
      (s'.visuals 1).states.disabled = false) :=
  ⟨fun _ => rfl, ⟨_, rfl, rfl⟩, ⟨_, rfl, rfl, rfl⟩⟩

theorem enableOnlyH_enabled (h : Heap) (cs : List WidgetId) (only : Option WidgetId)
    (x : WidgetId) :
    (enableOnlyH h cs only x).enabled
      = if x ∈ cs then (only.isNone || only == some x) else (h x).enabled := by
  unfold enableOnlyH
  split <;> rfl

theorem unlockChildH_lockedChildren (h : Heap) (p c x : WidgetId) :
    (unlockChildH h p c x).lockedChildren
      = if x = p then (h p).lockedChildren.erase c else (h x).lockedChildren := by
  unfold unlockChildH
  by_cases hc : c ∈ (h p).lockedChildren
  · simp only [contains_decide, hc, decide_True, if_true]
    rw [enableOnlyH_field (fun d => d.lockedChildren) (fun _ _ => rfl), hmodify_lockedChildren]
    split
    · rename_i hx; rw [hx]
    · rfl
  · simp only [contains_decide, hc, decide_False, Bool.false_eq_true, if_false]
    split
    · rename_i hx; rw [hx, List.erase_of_not_mem hc]
    · rfl

theorem unlockChildH_enabled (h : Heap) (p c x : WidgetId)
    (hc : c ∈ (h p).lockedChildren) :
    (unlockChildH h p c x).enabled
      = if x ∈ (h p).children then
          (((h p).lockedChildren.erase c).head?.isNone ||
            ((h p).lockedChildren.erase c).head? == some x)
        else (h x).enabled := by
  unfold unlockChildH
  simp only [contains_decide, hc, decide_True, if_true]
  rw [enableOnlyH_enabled]
  simp only [hmodify_children, hmodify_lockedChildren, hmodify_enabled, ite_self, if_true]

theorem unlockChildH_not_locked (h : Heap) (p c : WidgetId) (hc : c ∉ (h p).lockedChildren) :
    unlockChildH h p c = h := by
  unfold unlockChildH
  simp only [contains_decide, hc, decide_False, Bool.false_eq_true, if_false]

theorem lockChildH_enabled (h : Heap) (p c x : WidgetId) (hx : x ∈ (h p).children) :
    (lockChildH h p c x).enabled = decide (x = c) := by
  unfold lockChildH
  simp only [hmodify_enabled, ite_self]
  have hch : (unlockChildH h p c p).children = (h p).children := unlockChildH_children h p c p
  have hcore : ((hmodify (enableOnlyH (unlockChildH h p c) ((unlockChildH h p c p).children)
      (some c)) p (fun d => { d with lockedChildren := c :: d.lockedChildren })) x).enabled
      = decide (x = c) := by
    simp only [hmodify_enabled, ite_self]
    rw [enableOnlyH_enabled, hch, if_pos hx]
    by_cases hxc : x = c
    · simp [hxc]
    · have : ¬ c = x := fun e => hxc e.symm
      simp [hxc, this]
  split
  · rw [focusChildH_field (fun d => d.enabled) (fun _ _ => rfl) (fun _ _ => rfl)]
    exact hcore
  · exact hcore

theorem lockChildH_lockedChildren (h : Heap) (p c : WidgetId) :
    (lockChildH h p c p).lockedChildren = c :: (h p).lockedChildren.erase c := by
  unfold lockChildH
  simp only [hmodify_lockedChildren, ite_self]
  have hcore : ((hmodify (enableOnlyH (unlockChildH h p c) ((unlockChildH h p c p).children)
      (some c)) p (fun d => { d with lockedChildren := c :: d.lockedChildren })) p).lockedChildren
      = c :: (h p).lockedChildren.erase c := by
    simp only [hmodify_lockedChildren, if_true]
    rw [enableOnlyH_field (fun d => d.lockedChildren) (fun _ _ => rfl),
      unlockChildH_lockedChildren, if_pos rfl]
  split
  · rw [focusChildH_field (fun d => d.lockedChildren) (fun _ _ => rfl) (fun _ _ => rfl)]
    exact hcore
  · exact hcore

theorem lockChildH_children (h : Heap) (p c x : WidgetId) :
    (lockChildH h p c x).children
      = if x = p then (h p).children.erase c ++ [c] else (h x).children := by
  unfold lockChildH
  simp only [hmodify_children]
  have hcore : ∀ y, ((hmodify (enableOnlyH (unlockChildH h p c) ((unlockChildH h p c p).children)
      (some c)) p (fun d => { d with lockedChildren := c :: d.lockedChildren })) y).children
      = (h y).children := by
    intro y
    simp only [hmodify_children, ite_self]
    rw [enableOnlyH_field (fun d => d.children) (fun _ _ => rfl), unlockChildH_children]
  split
  · rename_i hx
    split
    · rw [focusChildH_field (fun d => d.children) (fun _ _ => rfl) (fun _ _ => rfl), hcore, hx]
    · rw [hcore, hx]
  · split
    · rw [focusChildH_field (fun d => d.children) (fun _ _ => rfl) (fun _ _ => rfl), hcore]
    · rw [hcore]

theorem lockChildH_parent (h : Heap) (p c x : WidgetId) :
    (lockChildH h p c x).parent = (h x).parent := by
  unfold lockChildH
  simp only [hmodify_parent, ite_self]
  have hcore : ((hmodify (enableOnlyH (unlockChildH h p c) ((unlockChildH h p c p).children)
      (some c)) p (fun d => { d with lockedChildren := c :: d.lockedChildren })) x).parent
      = (h x).parent := by
    simp only [hmodify_parent, ite_self]
    rw [enableOnlyH_field (fun d => d.parent) (fun _ _ => rfl), unlockChildH_parent]
  split
  · rw [focusChildH_field (fun d => d.parent) (fun _ _ => rfl) (fun _ _ => rfl)]
    exact hcore
  · exact hcore

theorem lockChildH_cascades (h : Heap) (p c : WidgetId) (n : Nat) (hc : c ∈ (h p).children)
    (hcs : Cascades h n) : Cascades (lockChildH h p c) n := by
  refine hcs.of_links_le (fun w x hx => ?_) (fun w q hq => ?_)
  · rw [lockChildH_children] at hx
    split at hx
    · rename_i hw
      rw [hw]
      exact (mem_erase_append_self _ c x hc).mp hx
    · exact hx
  · rw [lockChildH_parent] at hq
    exact hq

/-- The lock stack over recorded styles. For a widget `p` with an empty lock
stack and two distinct children `a` and `b`: after `lockChild(a)` and
`lockChild(b)`, `b` is the one explicitly enabled child of `p`; after
`unlockChild(b)`, `a` is the one explicitly enabled child and the lock stack is
`[a]`; after `unlockChild(a)` the stack is empty and every child is explicitly
enabled. On a well-formed tree the two `lockChild` calls return, given enough
fuel; the `unlockChild` calls always return. -/
theorem lock_stack_recorded (ct : Rect → Point → Bool) (s : State) (p a b : WidgetId)
    (hw : WellFormed s.widgets) (hl : (s.widgets p).lockedChildren = []) (hab : a ≠ b)
    (ha : a ∈ (s.widgets p).children) (hb : b ∈ (s.widgets p).children) :
    (∀ f1 f2 s1 s2, lockChild ct f1 s p (some a) = .ok s1 →
      lockChild ct f2 s1 p (some b) = .ok s2 →
      (∀ x, x ∈ (s2.widgets p).children ↔ x ∈ (s.widgets p).children) ∧
      (∀ x ∈ (s2.widgets p).children, (s2.widgets x).enabled = decide (x = b)) ∧
      ∃ s3, unlockChild s2 p (some b) = .ok s3 ∧
        (∀ x, x ∈ (s3.widgets p).children ↔ x ∈ (s.widgets p).children) ∧
        (∀ x ∈ (s3.widgets p).children, (s3.widgets x).enabled = decide (x = a)) ∧
        (s3.widgets p).lockedChildren = [a] ∧
        ∃ s4, unlockChild s3 p (some a) = .ok s4 ∧
          (∀ x, x ∈ (s4.widgets p).children ↔ x ∈ (s.widgets p).children) ∧
          (s4.widgets p).lockedChildren = [] ∧
          (∀ x ∈ (s4.widgets p).children, (s4.widgets x).enabled = true)) ∧
    (∃ F, ∀ fuel, F ≤ fuel →
      ∃ s1 s2, lockChild ct fuel s p (some a) = .ok s1 ∧
        lockChild ct fuel s1 p (some b) = .ok s2) := by
  have hmem1 : ∀ x, x ∈ (lockChildH s.widgets p a p).children ↔ x ∈ (s.widgets p).children := by
    intro x
    rw [lockChildH_children, if_pos rfl]
    exact mem_erase_append_self _ a x ha
  have hb1 : b ∈ (lockChildH s.widgets p a p).children := (hmem1 b).mpr hb
  constructor
  · intro f1 f2 s1 s2 h1 h2
    have e1 := ((lockChild_spec ct f1 s p a ha).1 s1 h1).1
    have hb1' : b ∈ (s1.widgets p).children := by rw [e1]; exact hb1
    have e2 := ((lockChild_spec ct f2 s1 p b hb1').1 s2 h2).1
    rw [e1] at e2
    have hmem2 : ∀ x, x ∈ (s2.widgets p).children ↔ x ∈ (s.widgets p).children := by
      intro x
      rw [e2, lockChildH_children, if_pos rfl, mem_erase_append_self _ b x hb1]
      exact hmem1 x
    have hlock1 : (lockChildH s.widgets p a p).lockedChildren = [a] := by
      rw [lockChildH_lockedChildren, hl]; rfl
    have hlock2 : (s2.widgets p).lockedChildren = [b, a] := by
      rw [e2, lockChildH_lockedChildren, hlock1, List.erase_of_not_mem (by simpa using hab.symm)]
    refine ⟨hmem2, fun x hx => ?_, ?_⟩
    · rw [e2]
      exact lockChildH_enabled _ p b x ((hmem1 x).mpr ((hmem2 x).mp hx))
    · have hb2 : b ∈ (s2.widgets p).children := (hmem2 b).mpr hb
      refine ⟨_, unlockChild_eq s2 p b hb2, ?_⟩
      have hbl : b ∈ (s2.widgets p).lockedChildren := by rw [hlock2]; simp
      have hmem3 : ∀ x, x ∈ (unlockChildH s2.widgets p b p).children
          ↔ x ∈ (s.widgets p).children := by
        intro x; rw [unlockChildH_children]; exact hmem2 x
      have hlock3 : (unlockChildH s2.widgets p b p).lockedChildren = [a] := by
        rw [unlockChildH_lockedChildren, if_pos rfl, hlock2]
        simp
      refine ⟨hmem3, fun x hx => ?_, hlock3, ?_⟩
      · show (unlockChildH s2.widgets p b x).enabled = decide (x = a)
        rw [unlockChildH_enabled _ p b x hbl, if_pos ((hmem2 x).mpr ((hmem3 x).mp hx)), hlock2]
        by_cases hxa : x = a
        · simp [hxa]
        · have : ¬ a = x := fun e => hxa e.symm
          simp [hxa, this]
      · have ha3 : a ∈ (unlockChildH s2.widgets p b p).children := (hmem3 a).mpr ha
        refine ⟨_, unlockChild_eq { s2 with widgets := unlockChildH s2.widgets p b } p a ha3, ?_⟩
        have hal : a ∈ (unlockChildH s2.widgets p b p).lockedChildren := by rw [hlock3]; simp
        refine ⟨fun x => ?_, ?_, fun x hx => ?_⟩
        · show x ∈ (unlockChildH (unlockChildH s2.widgets p b) p a p).children ↔ _
          rw [unlockChildH_children]; exact hmem3 x
        · show (unlockChildH (unlockChildH s2.widgets p b) p a p).lockedChildren = []
          rw [unlockChildH_lockedChildren, if_pos rfl, hlock3]
          simp
        · show (unlockChildH (unlockChildH s2.widgets p b) p a x).enabled = true
          have hx' : x ∈ (unlockChildH s2.widgets p b p).children := by
            have : x ∈ (unlockChildH (unlockChildH s2.widgets p b) p a p).children := hx
            rwa [unlockChildH_children] at this
          rw [unlockChildH_enabled _ p a x hal, if_pos hx', hlock3]
          simp
  · obtain ⟨rk, N, hr⟩ := hw.ranked
    refine ⟨2 * N + 2, fun fuel hf => ?_⟩
    have hcs : Cascades s.widgets fuel := ⟨rk, N, hr, by omega⟩
    obtain ⟨s1, h1⟩ := (lockChild_spec ct fuel s p a ha).2 hcs
    have e1 := ((lockChild_spec ct fuel s p a ha).1 s1 h1).1
    have hb1' : b ∈ (s1.widgets p).children := by rw [e1]; exact hb1
    have hcs1 : Cascades s1.widgets fuel := by
      rw [e1]; exact lockChildH_cascades _ p a fuel ha hcs
    obtain ⟨s2, h2⟩ := (lockChild_spec ct fuel s1 p b hb1').2 hcs1
    exact ⟨s1, s2, h1, h2⟩

theorem up_of_root (h : Heap) (w : WidgetId) (hp : (h w).parent = none) (k : Nat) :
    up h k w = if k = 0 then some w else none := by
  cases k with
  | zero => rfl
  | succ k => rw [up_succ_bottom, hp]; rfl

theorem sampleFamily_run :
    (TreeOp.addChild 1 (some 3)).run sampleContains 10 sampleTree = .ok sampleFamily := by
  rfl

theorem sampleFamily_reachable : Reachable sampleContains sampleFamily :=
  Reachable.step sampleTree sampleFamily (.addChild 1 (some 3)) 10 sampleTree_reachable
    (by
      intro k
      rw [up_of_root sampleTree.widgets 1 rfl k]
      split <;> simp)
    sampleFamily_run

theorem sampleFamily_wellFormed : WellFormed sampleFamily.widgets :=
  reachable_wellFormed sampleContains sampleFamily sampleFamily_reachable

theorem find_override (k : String) (c : OTMLNode) :
    ∀ l : List OTMLNode,
      (OTMLNode.override l c).find? (fun d => d.tag == k)
        = if c.tag == k then some c else l.find? (fun d => d.tag == k) := by
  intro l
  induction l with
  | nil =>
    simp only [OTMLNode.override, List.find?_singleton, List.find?_nil]
  | cons d ds ih =>
    simp only [OTMLNode.override]
    by_cases hdc : (d.tag == c.tag) = true
    · rw [if_pos hdc]
      have hdc' : d.tag = c.tag := by simpa using hdc
      by_cases hck : (c.tag == k) = true
      · simp [List.find?_cons, hck]
      · have hdk : (d.tag == k) = false := by rw [hdc']; simpa using hck
        simp [List.find?_cons, hck, hdk]
    · rw [if_neg hdc]
      by_cases hdk : (d.tag == k) = true
      · have hck : ¬ (c.tag == k) = true := by
          intro hck
          apply hdc
          have h1 : d.tag = k := by simpa using hdk
          have h2 : c.tag = k := by simpa using hck
          simp [h1, h2]
        simp [List.find?_cons, hdk, hck]
      · simp only [Bool.not_eq_true] at hdk
        simp only [List.find?_cons, hdk, ih]

theorem find_foldl_override (k : String) :
    ∀ (cs l : List OTMLNode),
      (cs.foldl OTMLNode.override l).find? (fun d => d.tag == k)
        = (cs.reverse.find? (fun d => d.tag == k)).or (l.find? (fun d => d.tag == k)) := by
  intro cs
  induction cs with
  | nil => intro l; simp
  | cons c cs ih =>
    intro l
    rw [List.foldl_cons, ih, find_override, List.reverse_cons, List.find?_append,
      List.find?_singleton]
    cases cs.reverse.find? (fun d => d.tag == k) with
    | some v => simp
    | none =>
      by_cases hck : (c.tag == k) = true
      · simp [hck]
      · simp [hck]

theorem find_reverse_of_unique (k : String) :
    ∀ l : List OTMLNode, (l.map OTMLNode.tag).Nodup →
      l.reverse.find? (fun d => d.tag == k) = l.find? (fun d => d.tag == k) := by
  intro l
  induction l with
  | nil => intro _; rfl
  | cons a l ih =>
    intro hn
    rw [List.map_cons, List.nodup_cons] at hn
    rw [List.reverse_cons, List.find?_append, ih hn.2, List.find?_singleton, List.find?_cons]
    by_cases hak : (a.tag == k) = true
    · have hnone : l.find? (fun d => d.tag == k) = none := by
        rw [List.find?_eq_none]
        intro x hx hxk
        apply hn.1
        have h1 : a.tag = k := by simpa using hak
        have h2 : x.tag = k := by simpa using hxk
        rw [h1, ← h2]
        exact List.mem_map_of_mem _ hx
      simp [hak, hnone]
    · simp only [Bool.not_eq_true] at hak
      simp [hak]

/-- Lookup after `merge`: the declaration of `other` for the key when it has
one, the own declaration otherwise. -/
theorem get_merge (n other : OTMLNode) (hu : other.UniqueTags) (k : String) :
    (n.merge other).get k = (other.get k).or (n.get k) := by
  unfold OTMLNode.merge OTMLNode.get
  show ((other.children.foldl OTMLNode.override n.children).find? (fun d => d.tag == k)) = _
  rw [find_foldl_override, find_reverse_of_unique k _ hu]

theorem get_foldl_merge (k : String) :
    ∀ (blocks : List OTMLNode) (n : OTMLNode), (∀ b ∈ blocks, b.UniqueTags) →
      (blocks.foldl OTMLNode.merge n).get k
        = match blocks.reverse.find? (fun b => (b.get k).isSome) with
          | some b => b.get k
          | none => n.get k := by
  intro blocks
  induction blocks with
  | nil => intro n _; rfl
  | cons b bs ih =>
    intro n hu
    rw [List.foldl_cons, ih (n.merge b) (fun x hx => hu x (List.mem_cons_of_mem _ hx)),
      List.reverse_cons, List.find?_append, List.find?_singleton]
    cases bs.reverse.find? (fun b => (b.get k).isSome) with
    | some v => rfl
    | none =>
      rw [get_merge n b (hu b (List.mem_cons_self _ _))]
      cases hb : b.get k with
      | none => simp
      | some v => simp [hb]

theorem mergeStateStyle_eq (style : OTMLNode) (has : Bool) (t : String) (acc : OTMLNode) :
    mergeStateStyle style has t acc
      = match (if has then style.get t else none) with
        | some block => acc.merge block
        | none => acc := by
  unfold mergeStateStyle
  cases has <;> cases style.get t <;> rfl

theorem foldl_filterMap_merge (f : Bool × String → Option OTMLNode) :
    ∀ (es : List (Bool × String)) (acc : OTMLNode),
      (es.filterMap f).foldl OTMLNode.merge acc
        = es.foldl (fun a e => match f e with
            | some block => a.merge block
            | none => a) acc := by
  intro es
  induction es with
  | nil => intro acc; rfl
  | cons e es ih =>
    intro acc
    rw [List.filterMap_cons, List.foldl_cons]
    cases hf : f e with
    | none => simp only [hf]; exact ih acc
    | some b => simp only [hf, List.foldl_cons]; exact ih _

/-- The snapshot of `updateStyle` is the carried part with the state blocks
merged in order. -/
theorem newStateStyle_eq (style : OTMLNode) (stateStyle : Option OTMLNode) (m : States) :
    newStateStyle style stateStyle m
      = (stateBlocks style m).foldl OTMLNode.merge (carriedStyle style stateStyle) := by
  unfold stateBlocks
  rw [foldl_filterMap_merge]
  simp only [List.foldl_cons, List.foldl_nil, ← mergeStateStyle_eq]
  rfl

theorem stateBlocks_hover_pressed (style : OTMLNode) (m : States) (hb pb : OTMLNode)
    (hh : m.hover = true) (hp : m.pressed = true) (hd : m.disabled = false)
    (hhb : style.get "state.hover" = some hb) (hpb : style.get "state.pressed" = some pb) :
    ∃ front, stateBlocks style m = front ++ [hb, pb] := by
  refine ⟨[(m.has .activeState, "state.active"), (m.has .focusState, "state.focus")].filterMap
    (fun e => if e.1 then style.get e.2 else none), ?_⟩
  unfold stateBlocks
  have h5 : [(m.has .activeState, "state.active"), (m.has .focusState, "state.focus"),
      (m.has .hoverState, "state.hover"), (m.has .pressedState, "state.pressed"),
      (m.has .disabledState, "state.disabled")]
      = [(m.has .activeState, "state.active"), (m.has .focusState, "state.focus")]
        ++ [(true, "state.hover"), (true, "state.pressed"), (false, "state.disabled")] := by
    simp [States.has, hh, hp, hd]
  rw [h5, List.filterMap_append]
  congr 1
  simp [List.filterMap_cons, hhb, hpb]

/-- C7 (style merge priority).  With `merge` a key-wise override and state
blocks whose declarations carry distinct tags: the declaration for key `k`
in the snapshot built by `updateStyle` is the one of the last block, in the
order active, focus, hover, pressed, disabled, whose bit is set and which
defines `k`; with Hover and Pressed set, Disabled clear and both blocks
defining `k`, it is the pressed block's; and `updateStyle` retains the
snapshot as `m_stateStyle` and hands it to `applyStyle`. -/
theorem style_merge_priority (style : OTMLNode) (old : Option OTMLNode) (m : States) (k : String)
    (hu : ∀ b ∈ stateBlocks style m, b.UniqueTags) :
    (∀ b, (stateBlocks style m).reverse.find? (fun b => (b.get k).isSome) = some b →
      (newStateStyle style old m).get k = b.get k) ∧
    (∀ hb pb vp, m.hover = true → m.pressed = true → m.disabled = false →
      style.get "state.hover" = some hb → style.get "state.pressed" = some pb →
      (hb.get k).isSome = true → pb.get k = some vp →
      (newStateStyle style old m).get k = some vp) ∧
    (∀ (s : State) (w : WidgetId), (s.widgets w).style = some style →
      (s.visuals w).stateStyle = old → (s.visuals w).states = m →
      ((updateStyle s w).visuals w).stateStyle = some (newStateStyle style old m) ∧
      ((updateStyle s w).visuals w).applied
        = (s.visuals w).applied ++ [newStateStyle style old m]) := by
  have hgen : ∀ b, (stateBlocks style m).reverse.find? (fun b => (b.get k).isSome) = some b →
      (newStateStyle style old m).get k = b.get k := by
    intro b hb
    rw [newStateStyle_eq, get_foldl_merge k _ _ hu, hb]
  refine ⟨hgen, ?_, ?_⟩
  · intro hb pb vp hh hp hd hhb hpb _ hvp
    obtain ⟨front, hfront⟩ := stateBlocks_hover_pressed style m hb pb hh hp hd hhb hpb
    rw [hgen pb, hvp]
    rw [hfront, List.reverse_append]
    simp [List.find?_cons, hvp]
  · intro s w hs ho hm
    unfold updateStyle
    simp only [hs, ho, hm, applyStyle, State.modifyVisual, if_true]
    simp

theorem sampleStyle_blocks :
    stateBlocks sampleStyle ⟨false, false, true, true, false⟩
      = [.mk "state.hover" "" [.mk "color" "yellow" [], .mk "opacity" "200" []],
         .mk "state.pressed" "" [.mk "color" "red" []]] := by
  rfl

theorem style_merge_priority_witness :
    (∀ b ∈ stateBlocks sampleStyle ⟨false, false, true, true, false⟩, b.UniqueTags) ∧
    (newStateStyle sampleStyle none ⟨false, false, true, true, false⟩).get "color"
      = some (.mk "color" "red" []) := by
  have hu : ∀ b ∈ stateBlocks sampleStyle ⟨false, false, true, true, false⟩, b.UniqueTags := by
    rw [sampleStyle_blocks]
    intro b hb
    simp only [List.mem_cons, List.mem_singleton, List.not_mem_nil, or_false] at hb
    rcases hb with rfl | rfl
    · simp [OTMLNode.UniqueTags, OTMLNode.children, OTMLNode.tag]
    · simp [OTMLNode.UniqueTags, OTMLNode.children, OTMLNode.tag]
  exact ⟨hu, (style_merge_priority sampleStyle none ⟨false, false, true, true, false⟩ "color" hu).2.1
    (.mk "state.hover" "" [.mk "color" "yellow" [], .mk "opacity" "200" []])
    (.mk "state.pressed" "" [.mk "color" "red" []]) (.mk "color" "red" [])
    rfl rfl rfl rfl rfl rfl rfl⟩

theorem filter_of_nodup_unique (p : WidgetId → Bool) (a : WidgetId) :
    ∀ l : List WidgetId, l.Nodup → (∀ x ∈ l, p x = true → x = a) →
      l.filter p = [] ∨ l.filter p = [a] := by
  intro l
  induction l with
  | nil => intro _ _; exact Or.inl rfl
  | cons x l ih =>
    intro hn hp
    rw [List.nodup_cons] at hn
    have ih' := ih hn.2 (fun y hy => hp y (List.mem_cons_of_mem _ hy))
    by_cases hx : p x = true
    · have hxa : x = a := hp x (List.mem_cons_self _ _) hx
      have hnone : l.filter p = [] := by
        rw [List.filter_eq_nil_iff]
        intro y hy hpy
        have hya : y = a := hp y (List.mem_cons_of_mem _ hy) hpy
        apply hn.1
        rw [hxa, ← hya]
        exact hy
      right
      rw [List.filter_cons_of_pos hx, hnone, hxa]
    · rw [List.filter_cons_of_neg hx]
      exact ih'

/-- The backup list of `onMousePress` is empty or holds just the result of
`getChildByPos`. -/
theorem mousePressTargets_cases (ct : Rect → Point → Bool) (s : State) (self : WidgetId)
    (pos : Point) (hnd : (s.widgets self).children.Nodup) :
    mousePressTargets ct s self pos = [] ∨
      ∃ c, mousePressTargets ct s self pos = [c] ∧ getChildByPos ct s self pos = some c := by
  unfold mousePressTargets
  cases hg : getChildByPos ct s self pos with
  | none =>
    left
    rw [List.filter_eq_nil_iff]
    intro x _ hx
    rw [Bool.and_eq_true, Bool.and_eq_true] at hx
    exact absurd hx.2.2 (by simp)
  | some a =>
    refine (filter_of_nodup_unique _ a _ hnd ?_).imp id (fun h => ⟨a, h, rfl⟩)
    intro x _ hx
    rw [Bool.and_eq_true, Bool.and_eq_true] at hx
    simpa using hx.2.2

/-- What `getChildByPos` returns: a child that is explicitly visible and
contains the position, with no such child after it in the list. -/
theorem getChildByPos_some (ct : Rect → Point → Bool) (s : State) (self : WidgetId) (pos : Point)
    (c : WidgetId) (h : getChildByPos ct s self pos = some c) :
    ((s.widgets c).visible = true ∧ ct (s.widgets c).rect pos = true) ∧
    ∃ before after, (s.widgets self).children = before ++ c :: after ∧
      ∀ d ∈ after, ¬ ((s.widgets d).visible = true ∧ ct (s.widgets d).rect pos = true) := by
  unfold getChildByPos at h
  rw [List.find?_eq_some] at h
  obtain ⟨hp, as, bs, hsplit, hbefore⟩ := h
  simp only [isExplicitlyVisible, getRect, Bool.and_eq_true] at hp
  refine ⟨hp, bs.reverse, as.reverse, ?_, fun d hd hpd => ?_⟩
  · have := congrArg List.reverse hsplit
    simpa using this
  · have := hbefore d (List.mem_reverse.mp hd)
    simp [isExplicitlyVisible, getRect, hpd.1, hpd.2] at this

/-- C8 (pointer-down routing).  For a widget whose children sequence lists
no widget twice, every `onMousePress` that returns has called the handler of
at most one child, that child is the result of `getChildByPos` (an
explicitly visible child that contains the position, with no such child
after it in the list), and the value returned is `true` exactly when that
handler answered `true`; with no such call the value is `false`.  On a
well-formed tree with handlers that return, `onMousePress` returns. -/
theorem pointer_down_routing (ct : Rect → Point → Bool)
    (handler : WidgetId → State → Except Fault (Bool × State)) (s : State) (self : WidgetId)
    (pos : Point) (hnd : (s.widgets self).children.Nodup) :
    (∀ fuel r, onMousePressWith ct handler fuel s self pos = .ok r →
      r.offered.length ≤ 1 ∧
      (∀ e ∈ r.offered, getChildByPos ct s self pos = some e.1 ∧
        ∃ t t', handler e.1 t = .ok (e.2, t')) ∧
      (r.handled = true ↔ ∃ e ∈ r.offered, e.2 = true)) ∧
    (∀ c, getChildByPos ct s self pos = some c →
      ((s.widgets c).visible = true ∧ ct (s.widgets c).rect pos = true) ∧
      ∃ before after, (s.widgets self).children = before ++ c :: after ∧
        ∀ d ∈ after, ¬ ((s.widgets d).visible = true ∧ ct (s.widgets d).rect pos = true)) ∧
    ((∀ c t, ∃ r, handler c t = .ok r) → (∃ rk N, Ranked s.widgets rk N) →
      ∃ F, ∀ fuel, F ≤ fuel → ∃ r, onMousePressWith ct handler fuel s self pos = .ok r) := by
  refine ⟨fun fuel r hrun => ?_, fun c hc => getChildByPos_some ct s self pos c hc,
    fun hh hrk => ?_⟩
  · unfold onMousePressWith at hrun
    rcases mousePressTargets_cases ct s self pos hnd with h0 | ⟨c, h1, hg⟩
    · rw [h0] at hrun
      simp only [dispatchPress, Except.ok.injEq] at hrun
      subst hrun
      simp
    · rw [h1] at hrun
      simp only [dispatchPress, bind_eq_ok] at hrun
      obtain ⟨s1, _, r1, hr1, hrest⟩ := hrun
      by_cases hm : r1.1 = true
      · simp only [hm, if_true, Except.ok.injEq] at hrest
        subst hrest
        refine ⟨by simp, fun e he => ?_, ?_⟩
        · simp only [List.nil_append, List.mem_singleton] at he
          subst he
          exact ⟨hg, s1, r1.2, by rw [hr1, ← hm]⟩
        · simp
      · simp only [hm, if_false, List.nil_append, Bool.false_eq_true, Except.ok.injEq] at hrest
        subst hrest
        have hf : r1.1 = false := by simpa using hm
        refine ⟨by simp, fun e he => ?_, ?_⟩
        · simp only [List.mem_singleton] at he
          subst he
          exact ⟨hg, s1, r1.2, by rw [hr1, ← hf]⟩
        · simp [hf]
  · obtain ⟨rk, N, hr⟩ := hrk
    refine ⟨2 * N + 2, fun fuel hf => ?_⟩
    unfold onMousePressWith
    rcases mousePressTargets_cases ct s self pos hnd with h0 | ⟨c, h1, _⟩
    · rw [h0]
      exact ⟨_, rfl⟩
    · rw [h1]
      simp only [dispatchPress]
      have hfocus : ∃ s1, (if isFocusable s c = true then
          focusChild ct fuel s self (some c) .mouseFocusReason else Except.ok s) = .ok s1 := by
        split
        · exact (focusChild_spec ct fuel s self (some c) _).2 ⟨rk, N, hr, by omega⟩
        · exact ⟨s, rfl⟩
      obtain ⟨s1, hs1⟩ := hfocus
      obtain ⟨r1, hr1⟩ := hh c s1
      rw [hs1, ok_bind, hr1, ok_bind]
      by_cases hm : r1.1 = true
      · simp only [hm, if_true]
        exact ⟨_, rfl⟩
      · simp only [hm, if_false, Bool.false_eq_true]
        exact ⟨_, rfl⟩

theorem pointer_down_routing_witness :
    (sampleFamily.widgets 1).children.Nodup ∧
    (∃ r, onMousePressWith sampleContains acceptingHandler 10 sampleFamily 1 ⟨5, 5⟩ = .ok r ∧
      r.handled = true ∧ r.offered = [(3, true)]) ∧
    ((∀ fuel r, onMousePressWith sampleContains acceptingHandler fuel sampleFamily 1 ⟨5, 5⟩ = .ok r →
      r.offered.length ≤ 1 ∧
      (∀ e ∈ r.offered, getChildByPos sampleContains sampleFamily 1 ⟨5, 5⟩ = some e.1 ∧
        ∃ t t', acceptingHandler e.1 t = .ok (e.2, t')) ∧
      (r.handled = true ↔ ∃ e ∈ r.offered, e.2 = true)) ∧
    (∀ c, getChildByPos sampleContains sampleFamily 1 ⟨5, 5⟩ = some c →
      ((sampleFamily.widgets c).visible = true ∧
        sampleContains (sampleFamily.widgets c).rect ⟨5, 5⟩ = true) ∧
      ∃ before after, (sampleFamily.widgets 1).children = before ++ c :: after ∧
        ∀ d ∈ after, ¬ ((sampleFamily.widgets d).visible = true ∧
          sampleContains (sampleFamily.widgets d).rect ⟨5, 5⟩ = true)) ∧
    ((∀ c t, ∃ r, acceptingHandler c t = .ok r) → (∃ rk N, Ranked sampleFamily.widgets rk N) →
      ∃ F, ∀ fuel, F ≤ fuel →
        ∃ r, onMousePressWith sampleContains acceptingHandler fuel sampleFamily 1 ⟨5, 5⟩ = .ok r)) :=
  ⟨by decide, ⟨_, rfl, rfl, rfl⟩,
    pointer_down_routing sampleContains acceptingHandler sampleFamily 1 ⟨5, 5⟩ (by decide)⟩

theorem setRect_same (lu : WidgetId → State → State) (s : State) (w : WidgetId) (r : Rect)
    (hr : r = (s.widgets w).rect) : setRect lu s w r = s := by
  unfold setRect
  simp only [hr, if_true]

theorem updateLayout_keeps (lu : WidgetId → State → State) (w : WidgetId) (hl : LayoutKeeps lu w)
    (t : State) :
    ((updateLayout lu t w).widgets w).rect = (t.widgets w).rect ∧
    ((updateLayout lu t w).widgets w).updateEventScheduled = (t.widgets w).updateEventScheduled ∧
    eventsOf (updateLayout lu t w) w = eventsOf t w := by
  unfold updateLayout
  split
  · exact hl t
  · exact ⟨rfl, rfl, rfl⟩

theorem updateLayout_events (lu : WidgetId → State → State) (w : WidgetId)
    (hq : ∀ t, (lu w t).events = t.events) (t : State) :
    (updateLayout lu t w).events = t.events := by
  unfold updateLayout
  split
  · exact hq t
  · rfl

/-- One `setRect` call that changes the rectangle. -/
theorem setRect_changed (lu : WidgetId → State → State) (s : State) (w : WidgetId) (r : Rect)
    (hl : LayoutKeeps lu w) (hr : r ≠ (s.widgets w).rect) :
    ((setRect lu s w r).widgets w).rect = r ∧
    ((setRect lu s w r).widgets w).updateEventScheduled = true ∧
    eventsOf (setRect lu s w r) w
      = (if (s.widgets w).updateEventScheduled then eventsOf s w
         else eventsOf s w ++ [⟨w, (s.widgets w).rect⟩]) ∧
    ((∀ t, (lu w t).events = t.events) →
      (setRect lu s w r).events
        = (if (s.widgets w).updateEventScheduled then s.events
           else s.events ++ [⟨w, (s.widgets w).rect⟩])) := by
  unfold setRect
  simp only [hr, if_false]
  obtain ⟨h1, h2, h3⟩ := updateLayout_keeps lu w hl
    (s.modify w (fun d => { d with rect := r }))
  have hrect1 : ((s.modify w (fun d => { d with rect := r })).widgets w).rect = r := by
    simp [hmodify_apply]
  have hflag1 : ((s.modify w (fun d => { d with rect := r })).widgets w).updateEventScheduled
      = (s.widgets w).updateEventScheduled := by
    simp [hmodify_apply]
  rw [hflag1] at h2
  rw [hrect1] at h1
  have hev1 : eventsOf (s.modify w (fun d => { d with rect := r })) w = eventsOf s w := rfl
  rw [hev1] at h3
  refine ⟨?_, ?_, ?_, ?_⟩
  · simp only [modify_widgets, hmodify_apply, if_true]
    split <;> exact h1
  · simp [hmodify_apply]
  · rw [h2]
    cases hf : (s.widgets w).updateEventScheduled with
    | true => simpa [eventsOf] using h3
    | false =>
      simp only [Bool.not_false, if_true, Bool.false_eq_true, if_false]
      simp only [eventsOf, modify_events] at h3 ⊢
      rw [List.filter_append, h3]
      simp
  · intro hq
    rw [h2]
    have he := updateLayout_events lu w hq (s.modify w (fun d => { d with rect := r }))
    cases hf : (s.widgets w).updateEventScheduled with
    | true => simpa using he
    | false =>
      simp only [Bool.not_false, if_true, Bool.false_eq_true, if_false, modify_events]
      rw [he]
      rfl

theorem getLast_getD_cons (a : Rect) (l : List Rect) (x y : Rect) :
    ((a :: l).getLast?).getD x = ((a :: l).getLast?).getD y := by
  cases h : (a :: l).getLast? with
  | none => simp at h
  | some v => rfl

/-- Calls made while the flag is set queue nothing. -/
theorem setRects_scheduled (lu : WidgetId → State → State) (w : WidgetId) (hl : LayoutKeeps lu w) :
    ∀ (rects : List Rect) (t : State), (t.widgets w).updateEventScheduled = true →
      ((setRects lu t w rects).widgets w).updateEventScheduled = true ∧
      eventsOf (setRects lu t w rects) w = eventsOf t w ∧
      ((setRects lu t w rects).widgets w).rect = (rects.getLast?).getD (t.widgets w).rect ∧
      ((∀ u, (lu w u).events = u.events) → (setRects lu t w rects).events = t.events) := by
  intro rects
  induction rects with
  | nil => intro t ht; exact ⟨ht, rfl, rfl, fun _ => rfl⟩
  | cons r rs ih =>
    intro t ht
    have hstep : setRects lu t w (r :: rs) = setRects lu (setRect lu t w r) w rs := rfl
    rw [hstep]
    by_cases hr : r = (t.widgets w).rect
    · rw [setRect_same lu t w r hr]
      obtain ⟨h1, h2, h3, h4⟩ := ih t ht
      refine ⟨h1, h2, ?_, h4⟩
      rw [h3]
      cases rs with
      | nil => simp [hr]
      | cons a as => simp [List.getLast?_cons_cons]
    · obtain ⟨c1, c2, c3, c4⟩ := setRect_changed lu t w r hl hr
      obtain ⟨h1, h2, h3, h4⟩ := ih (setRect lu t w r) c2
      rw [ht] at c3 c4
      simp only [if_true] at c3 c4
      refine ⟨h1, h2.trans c3, ?_, fun hq => (h4 hq).trans (c4 hq)⟩
      rw [h3, c1]
      cases rs with
      | nil => simp
      | cons a as =>
        rw [List.getLast?_cons_cons]
        exact getLast_getD_cons a as _ _

/-- C9 (geometry-change coalescing).  For a widget whose update-scheduled
flag is clear and a sequence of `n ≥ 1` `setRect` calls with no dispatcher
run in between, the layout update leaving the widget's own rectangle, flag
and queued events alone: when some call changes the rectangle, exactly one
event of the widget is added to the queue (and nothing else, when the layout
update queues nothing), the flag is set, and running the event clears the
flag and calls `onGeometryUpdate` with the rectangle held before the first
call and the rectangle of the last call; when no call changes the rectangle,
the state, and with it the queue, is unchanged. -/
theorem geometry_coalescing (lu : WidgetId → State → State) (s : State) (w : WidgetId)
    (rects : List Rect) (last : Rect) (hlast : rects.getLast? = some last)
    (hflag : (s.widgets w).updateEventScheduled = false) (hl : LayoutKeeps lu w) :
    ((∃ r ∈ rects, r ≠ (s.widgets w).rect) →
      eventsOf (setRects lu s w rects) w = eventsOf s w ++ [⟨w, (s.widgets w).rect⟩] ∧
      ((∀ t, (lu w t).events = t.events) →
        (setRects lu s w rects).events = s.events ++ [⟨w, (s.widgets w).rect⟩]) ∧
      ((setRects lu s w rects).widgets w).updateEventScheduled = true ∧
      ((setRects lu s w rects).widgets w).rect = last ∧
      (runGeometryEvent (setRects lu s w rects) ⟨w, (s.widgets w).rect⟩).notified
        = (setRects lu s w rects).notified ++ [.geometryUpdate w (s.widgets w).rect last] ∧
      ((runGeometryEvent (setRects lu s w rects) ⟨w, (s.widgets w).rect⟩).widgets
        w).updateEventScheduled = false) ∧
    ((∀ r ∈ rects, r = (s.widgets w).rect) → setRects lu s w rects = s) := by
  have hnone : ∀ rs : List Rect, (∀ r ∈ rs, r = (s.widgets w).rect) → setRects lu s w rs = s := by
    intro rs
    induction rs with
    | nil => intro _; rfl
    | cons r rs ih =>
      intro hall
      have hstep : setRects lu s w (r :: rs) = setRects lu (setRect lu s w r) w rs := rfl
      rw [hstep, setRect_same lu s w r (hall r (List.mem_cons_self _ _))]
      exact ih (fun x hx => hall x (List.mem_cons_of_mem _ hx))
  have hsome : ∀ rs : List Rect, (∃ r ∈ rs, r ≠ (s.widgets w).rect) →
      eventsOf (setRects lu s w rs) w = eventsOf s w ++ [⟨w, (s.widgets w).rect⟩] ∧
      ((∀ t, (lu w t).events = t.events) →
        (setRects lu s w rs).events = s.events ++ [⟨w, (s.widgets w).rect⟩]) ∧
      ((setRects lu s w rs).widgets w).updateEventScheduled = true ∧
      ((setRects lu s w rs).widgets w).rect = (rs.getLast?).getD (s.widgets w).rect := by
    intro rs
    induction rs with
    | nil => rintro ⟨r, hr, _⟩; cases hr
    | cons r rs ih =>
      intro hex
      have hstep : setRects lu s w (r :: rs) = setRects lu (setRect lu s w r) w rs := rfl
      rw [hstep]
      by_cases hr : r = (s.widgets w).rect
      · rw [setRect_same lu s w r hr]
        have hex' : ∃ x ∈ rs, x ≠ (s.widgets w).rect := by
          obtain ⟨x, hx, hne⟩ := hex
          rcases List.mem_cons.mp hx with rfl | hx
          · exact absurd hr hne
          · exact ⟨x, hx, hne⟩
        obtain ⟨h1, h2, h3, h4⟩ := ih hex'
        refine ⟨h1, h2, h3, ?_⟩
        rw [h4]
        obtain ⟨x, hx, _⟩ := hex'
        cases rs with
        | nil => cases hx
        | cons a as => simp [List.getLast?_cons_cons]
      · obtain ⟨c1, c2, c3, c4⟩ := setRect_changed lu s w r hl hr
        obtain ⟨h1, h2, h3, h4⟩ := setRects_scheduled lu w hl rs (setRect lu s w r) c2
        rw [hflag] at c3 c4
        simp only [Bool.false_eq_true, if_false] at c3 c4
        refine ⟨h2.trans c3, fun hq => (h4 hq).trans (c4 hq), h1, ?_⟩
        rw [h3, c1]
        cases rs with
        | nil => simp
        | cons a as =>
          rw [List.getLast?_cons_cons]
          exact getLast_getD_cons a as _ _
  refine ⟨fun hex => ?_, hnone rects⟩
  obtain ⟨h1, h2, h3, h4⟩ := hsome rects hex
  rw [hlast] at h4
  simp only [Option.getD_some] at h4
  refine ⟨h1, h2, h3, h4, ?_, ?_⟩
  · simp only [runGeometryEvent, State.notify, getRect, modify_widgets, hmodify_apply, if_true]
    rw [h4]
    rfl
  · simp [runGeometryEvent, State.notify, hmodify_apply]

theorem idleLayout_keeps (w : WidgetId) : LayoutKeeps idleLayout w :=
  fun _ => ⟨rfl, rfl, rfl⟩

theorem geometry_coalescing_witness :
    sampleRects.getLast? = some ⟨1, 1, 30, 30⟩ ∧
    (sampleState.widgets 1).updateEventScheduled = false ∧
    LayoutKeeps idleLayout 1 ∧
    (setRects idleLayout sampleState 1 sampleRects).events = [⟨1, ⟨0, 0, 10, 10⟩⟩] ∧
    (((∃ r ∈ sampleRects, r ≠ (sampleState.widgets 1).rect) →
      eventsOf (setRects idleLayout sampleState 1 sampleRects) 1
        = eventsOf sampleState 1 ++ [⟨1, (sampleState.widgets 1).rect⟩] ∧
      ((∀ t, (idleLayout 1 t).events = t.events) →
        (setRects idleLayout sampleState 1 sampleRects).events
          = sampleState.events ++ [⟨1, (sampleState.widgets 1).rect⟩]) ∧
      ((setRects idleLayout sampleState 1 sampleRects).widgets 1).updateEventScheduled = true ∧
      ((setRects idleLayout sampleState 1 sampleRects).widgets 1).rect = ⟨1, 1, 30, 30⟩ ∧
      (runGeometryEvent (setRects idleLayout sampleState 1 sampleRects)
          ⟨1, (sampleState.widgets 1).rect⟩).notified
        = (setRects idleLayout sampleState 1 sampleRects).notified
            ++ [.geometryUpdate 1 (sampleState.widgets 1).rect ⟨1, 1, 30, 30⟩] ∧
      ((runGeometryEvent (setRects idleLayout sampleState 1 sampleRects)
          ⟨1, (sampleState.widgets 1).rect⟩).widgets 1).updateEventScheduled = false) ∧
    ((∀ r ∈ sampleRects, r = (sampleState.widgets 1).rect) →
      setRects idleLayout sampleState 1 sampleRects = sampleState)) :=
  ⟨rfl, rfl, idleLayout_keeps 1, by decide,
    geometry_coalescing idleLayout sampleState 1 sampleRects ⟨1, 1, 30, 30⟩ rfl rfl
      (idleLayout_keeps 1)⟩

theorem adoptH_of_root (h : Heap) (self c : WidgetId) (hp : (h c).parent = none) :
    adoptH h self c = hmodify h c (fun d => { d with parent := some self }) := by
  unfold adoptH
  simp only [hp]

theorem addChildH_focusedChild_of_root (h : Heap) (p c : WidgetId) (hp : (h c).parent = none) :
    (addChildH h p c p).focusedChild
      = if (h c).focusable = true ∧ (h c).visible = true ∧ (h c).enabled = true then some c
        else (h p).focusedChild := by
  have hp1 : ((hmodify h p (fun d => { d with children := d.children ++ [c] })) c).parent = none := by
    simp only [hmodify_parent, ite_self]; exact hp
  unfold addChildH attachH
  rw [adoptH_of_root _ p c hp1]
  simp only [registerH, hmodify_focusedChild, ite_self, hmodify_focusable, hmodify_visible,
    hmodify_enabled, Bool.true_and, Bool.and_eq_true]
  by_cases hf : ((h c).focusable = true ∧ (h c).visible = true) ∧ (h c).enabled = true
  · rw [if_pos hf, if_pos ⟨hf.1.1, hf.1.2, hf.2⟩, focusChildH_focusedChild, if_pos]
    refine ⟨rfl, ?_⟩
    simp [hasChildH, contains_decide, hmodify_children]
  · rw [if_neg hf, if_neg (fun e => hf ⟨⟨e.1, e.2.1⟩, e.2.2⟩)]
    simp only [hmodify_focusedChild, ite_self]

/-- The postcondition of `addChild` over recorded styles. On a well-formed
tree, for a widget `c` without parent that is neither `p` nor an ancestor of
`p` and not yet a child of `p`: every `p.addChild(c)` that returns leaves the
children of `p` equal to the previous sequence with `c` appended, the parent of
`c` equal to `p`, `p` with a layout, and the focused child of `p` equal to `c`
when `c` is focusable, explicitly visible and explicitly enabled, unchanged
otherwise; and the call does return, given enough fuel. -/
theorem addChild_postcondition_recorded (ct : Rect → Point → Bool) (s : State) (p c : WidgetId)
    (hw : WellFormed s.widgets) (hroot : (s.widgets c).parent = none)
    (hna : ∀ k, up s.widgets k p ≠ some c) (hnc : c ∉ (s.widgets p).children) :
    (∀ fuel s', addChild ct fuel s p (some c) = .ok s' →
      (s'.widgets p).children = (s.widgets p).children ++ [c] ∧
      (s'.widgets c).parent = some p ∧
      (s'.widgets p).layout.isSome = true ∧
      (s'.widgets p).focusedChild
        = if (s.widgets c).focusable = true ∧ (s.widgets c).visible = true ∧
              (s.widgets c).enabled = true then some c
          else (s.widgets p).focusedChild) ∧
    (∃ F, ∀ fuel, F ≤ fuel → ∃ s', addChild ct fuel s p (some c) = .ok s') := by
  have hint := hw.integrity
  refine ⟨fun fuel s' hrun => ?_, TreeOp.run_total ct s (.addChild p (some c)) hw hna⟩
  have hsp := addChild_spec ct fuel s p c hnc (fun e => hnc ((hint c p).mpr e))
    (fun q _ => hw.nodup q)
  have e := (hsp.1 s' hrun).1
  refine ⟨?_, ?_, ?_, ?_⟩
  · rw [e, addChildH_eq, attached_children _ hint p c _ hnc, if_pos rfl]
  · rw [e, addChildH_eq, attached_parent, if_pos rfl]
  · rw [e, addChildH_eq, attached_layout_isSome, if_pos rfl]
  · rw [e, addChildH_focusedChild_of_root _ p c hroot]

/-- The code of `insertChild` run on a widget with the three children
2, 3, 4: index 0 appends, index -1 inserts before the last child, index 1
inserts at the front, index 2 after the first child, index -3 at the front. -/
theorem insertChild_three_children :
    (sampleTrio.widgets 1).children = [2, 3, 4] ∧
    trioAfterInsert 0 = [2, 3, 4, 5] ∧
    trioAfterInsert (-1) = [2, 3, 5, 4] ∧
    trioAfterInsert 1 = [5, 2, 3, 4] ∧
    trioAfterInsert 2 = [2, 5, 3, 4] ∧
    trioAfterInsert (-3) = [5, 2, 3, 4] ∧
    trioAfterInsert 4 = [2, 3, 4, 5] := by
  refine ⟨rfl, rfl, rfl, rfl, rfl, rfl, rfl⟩

theorem activeWalk_error (s : State) :
    ∀ (n : Nat) (w : WidgetId) (e : Fault), activeWalk n s w = .error e → e = .fuel := by
  intro n
  induction n with
  | zero => intro w e h; simp [activeWalk] at h; exact h.symm
  | succ m ihm =>
    intro w e h
    rw [activeWalk] at h
    split at h
    · cases h
    · split at h
      · rename_i q _
        exact ihm q e h
      · cases h

/-- Inserting a widget into itself: the state cascade over the children
sequence that now lists the widget itself never returns, whatever the fuel. -/
theorem updateState_self_child (ct : Rect → Point → Bool) (p : WidgetId) :
    ∀ (n : Nat) (s : State), (s.widgets p).children = [p] →
      updateState ct n s p .activeState = .error .fuel := by
  intro n
  induction n with
  | zero => intro s _; rfl
  | succ n ih =>
    intro s hs
    rw [updateState]
    simp only [deriveStatus]
    cases hwalk : activeWalk n s p with
    | error e =>
      have := activeWalk_error s n p e hwalk
      subst this
      rfl
    | ok b =>
      simp only [Except.map, hs, List.foldlM_cons, List.foldlM_nil, if_true]
      rw [ih s hs]
      rfl

/-- The recursion of a direct `setParent(p)` on a widget that `p` lists as a
child and that points to `p`: `setParent` calls `removeChild`, then `addChild`,
which calls `setParent` in the same situation again; no amount of fuel lets the
call return. -/
theorem setParent_loop (ct : Rect → Point → Bool) (w p : WidgetId) :
    ∀ (n : Nat) (s : State), (s.widgets w).parent = some p → w ∈ (s.widgets p).children →
      (s.widgets p).children.Nodup → ∀ s', setParent ct n s w (some p) ≠ .ok s' := by
  intro n
  induction n using Nat.strong_induction_on with
  | _ n ih =>
    intro s hp hc hnd s' hrun
    cases n with
    | zero => rw [setParent] at hrun; cases hrun
    | succ n =>
      rw [setParent] at hrun
      have hhas : hasChild s p (some w) = true := by
        simp only [hasChild, contains_decide, hc, decide_True]
      simp only [getParent, hp, hhas, if_true] at hrun
      cases hrem : removeChild ct n s p (some w) with
      | error e => rw [hrem] at hrun; cases hrun
      | ok s1 =>
        rw [hrem, ok_bind] at hrun
        have ho := (removeChild_spec ct n s p w hc hnd).1 s1 hrem
        have hch : (s1.widgets p).children = (s.widgets p).children.erase w := by
          rw [ho.1, removeChildH_children]; simp
        have hnm : w ∉ (s1.widgets p).children := by
          rw [hch]; exact fun hm => (List.Nodup.mem_erase_iff hnd).1 hm |>.1 rfl
        simp only [hasChild, contains_decide, modify_widgets, hmodify_children, ite_self, hnm,
          decide_False, Bool.not_false, if_true] at hrun
        cases n with
        | zero => rw [addChild] at hrun; cases hrun
        | succ m =>
          rw [addChild] at hrun
          simp only [hasChild, contains_decide, modify_widgets, hmodify_children, ite_self, hnm,
            decide_False, Bool.false_eq_true, if_false] at hrun
          obtain ⟨s2, hs2, -⟩ := (bind_eq_ok _ _ _).1 hrun
          refine ih m (by omega) _ ?_ ?_ ?_ s2 hs2
          · simp [modify_widgets, hmodify_parent]
          · simp [modify_widgets, hmodify_children]
          · simp only [modify_widgets, hmodify_children, ite_self, if_true, hch]
            exact nodup_erase_append_self _ _ hnd

theorem focusChild_absent (ct : Rect → Point → Bool) (n : Nat) (s : State) (p x : WidgetId)
    (reason : FocusReason) (hx : x ∉ (s.widgets p).children) :
    focusChild ct n s p (some x) reason = .ok s := by
  unfold focusChild
  simp only [hasChild, contains_decide, hx, decide_False, Option.isSome_some, Bool.not_false,
    Bool.and_self, if_true]

/-- C13 (recoverable misuse is a no-op).  For every widget `p`, every child
`c` of `p`, every widget `x` that is not a child of `p`, every index (in range
or not) and every focus reason: `addChild(null)`, `addChild(c)`,
`insertChild(i, c)`, `insertChild(i, null)`, `removeChild(x)`,
`removeChild(null)` and `focusChild(x, reason)` return, and they return the
state they were called in, so children, parent references, focused children,
lock stacks, layouts and state bits of all widgets are the same.  (A call of
`addChild` or `removeChild` takes one unit of fuel.) -/
theorem misuse_is_noop (ct : Rect → Point → Bool) (s : State) (p c x : WidgetId) (i : Int)
    (reason : FocusReason) (fuel : Nat) (hc : c ∈ (s.widgets p).children)
    (hx : x ∉ (s.widgets p).children) :
    addChild ct (fuel + 1) s p none = .ok s ∧
    addChild ct (fuel + 1) s p (some c) = .ok s ∧
    insertChild ct fuel s p i (some c) = .ok s ∧
    insertChild ct fuel s p i none = .ok s ∧
    removeChild ct (fuel + 1) s p (some x) = .ok s ∧
    removeChild ct (fuel + 1) s p none = .ok s ∧
    focusChild ct fuel s p (some x) reason = .ok s :=
  ⟨addChild_none ct fuel s p, addChild_present ct fuel s p c hc,
    insertChild_present ct fuel s p c i hc, insertChild_none ct fuel s p i,
    removeChild_absent ct fuel s p x hx, removeChild_none ct fuel s p,
    focusChild_absent ct fuel s p x reason hx⟩

theorem misuse_is_noop_witness :
    2 ∈ (sampleTree.widgets 1).children ∧ 3 ∉ (sampleTree.widgets 1).children ∧
    (addChild sampleContains (0 + 1) sampleTree 1 none = .ok sampleTree ∧
    addChild sampleContains (0 + 1) sampleTree 1 (some 2) = .ok sampleTree ∧
    insertChild sampleContains 0 sampleTree 1 7 (some 2) = .ok sampleTree ∧
    insertChild sampleContains 0 sampleTree 1 7 none = .ok sampleTree ∧
    removeChild sampleContains (0 + 1) sampleTree 1 (some 3) = .ok sampleTree ∧
    removeChild sampleContains (0 + 1) sampleTree 1 none = .ok sampleTree ∧
    focusChild sampleContains 0 sampleTree 1 (some 3) .mouseFocusReason = .ok sampleTree) :=
  ⟨by decide, by decide,
    misuse_is_noop sampleContains sampleTree 1 2 3 7 .mouseFocusReason 0 (by decide) (by decide)⟩

theorem getChildByPos_eq (ct : Rect → Point → Bool) (s : State) (w : WidgetId) (pos : Point) :
    getChildByPos ct s w pos = hitTest ct s.widgets w pos := rfl

theorem hoverChain_unfold (ct : Rect → Point → Bool) (h : Heap) (m : Point) (w : WidgetId) :
    HoverChain ct h m w ↔
      (ct (h w).rect m = true ∧
        ∀ q, (h w).parent = some q → hitTest ct h q m = some w ∧ HoverChain ct h m q) := by
  constructor
  · intro hc
    refine ⟨(hc 0 w rfl).1, fun q hq => ⟨(hc 0 w rfl).2 q hq, fun k v hk => ?_⟩⟩
    exact hc (k + 1) v (by rw [up_of_parent h k w q hq]; exact hk)
  · rintro ⟨he, hq⟩ k v hk
    cases k with
    | zero =>
      cases hk
      exact ⟨he, fun q hp => (hq q hp).1⟩
    | succ k =>
      rw [up_succ_bottom] at hk
      cases hp : (h w).parent with
      | none => rw [hp] at hk; cases hk
      | some q =>
        rw [hp, Option.some_bind] at hk
        exact (hq q hp).2 k v hk

/-- The `HoverState` walk computes `HoverChain` at the pointer position. -/
theorem hoverWalk_correct (ct : Rect → Point → Bool) (s : State) :
    ∀ (n : Nat) (w : WidgetId) (b : Bool), hoverWalk ct n s w = .ok b →
      (b = true ↔ HoverChain ct s.widgets s.mousePos w) := by
  intro n
  induction n with
  | zero => intro w b h; simp [hoverWalk] at h
  | succ n ih =>
    intro w b h
    rw [hoverWalk] at h
    rw [hoverChain_unfold]
    simp only [getParent, getRect, getChildByPos_eq] at h
    cases hp : (s.widgets w).parent with
    | none =>
      simp only [hp] at h
      by_cases he : ct (s.widgets w).rect s.mousePos = true
      · simp only [he, Bool.not_true, Bool.or_self, Bool.false_eq_true, if_false] at h
        cases h
        simp [he]
      · simp only [Bool.not_eq_true] at he
        simp only [he, Bool.not_false, Bool.true_or, if_true] at h
        cases h
        simp [he]
    | some q =>
      simp only [hp] at h
      by_cases he : ct (s.widgets w).rect s.mousePos = true
      · by_cases hf : hitTest ct s.widgets q s.mousePos = some w
        · have hb : (some w != hitTest ct s.widgets q s.mousePos) = false := by simp [hf]
          simp only [he, hb, Bool.not_true, Bool.or_self, Bool.false_eq_true, if_false] at h
          have := ih q b h
          simp [he, hf, this]
        · have hb : (some w != hitTest ct s.widgets q s.mousePos) = true := by
            simpa using fun e => hf e.symm
          simp only [he, hb, Bool.not_true, Bool.or_true, if_true] at h
          cases h
          simp [hf]
      · simp only [Bool.not_eq_true] at he
        simp only [he, Bool.not_false, Bool.true_or, if_true] at h
        cases h
        simp [he]

theorem deriveStatus_hover (ct : Rect → Point → Bool) (h : Heap) (m : Point) (n : Nat)
    (s : State) (w : WidgetId) (r : Option (Bool × Bool)) (hs : s.widgets = h)
    (hm : s.mousePos = m) (hd : deriveStatus ct n s w .hoverState = .ok r) :
    ∃ b, r = some (b, true) ∧ (b = true ↔ HoverChain ct h m w) := by
  simp only [deriveStatus] at hd
  cases hwalk : hoverWalk ct n s w with
  | error e => rw [hwalk] at hd; cases hd
  | ok b =>
    rw [hwalk] at hd
    cases hd
    exact ⟨b, rfl, hs ▸ hm ▸ hoverWalk_correct ct s n w b hwalk⟩

/-- The Hover bits after a cascading `updateState(HoverState)`. -/
theorem hover_cascade (ct : Rect → Point → Bool) (s : State) (w : WidgetId)
    (hint : Integrity s.widgets) (fuel : Nat) (s' : State)
    (hrun : updateState ct fuel s w .hoverState = .ok s') :
    ∀ d, (∃ k, up s.widgets k d = some w) →
      ((s'.visuals d).states.hover = true ↔ HoverChain ct s.widgets s.mousePos d) :=
  (cascade_correct ct s.widgets hint s.mousePos .hoverState
    (HoverChain ct s.widgets s.mousePos)
    (fun n t v r ht hm hd => deriveStatus_hover ct s.widgets s.mousePos n t v r ht hm hd)
    fuel s w s' rfl rfl hrun).1

/-- The Hover derivation over recorded styles. On a well-formed tree, every
`w.updateState(HoverState)` that returns leaves the tree unchanged and the
Hover bit of `w` and of every descendant `d` of `w` set exactly when every
widget on the parent chain of `d`, up to and including the parent-less root,
has a rectangle that contains the pointer position and every widget on that
chain that has a parent is the result of its parent's `getChildByPos`; so a
widget on the chain of `w`, the root included, whose rectangle misses the
pointer clears the bit of `w`. The call returns, given enough fuel. -/
theorem hover_derivation_recorded (ct : Rect → Point → Bool) (s : State) (w : WidgetId)
    (hw : WellFormed s.widgets) :
    (∀ fuel s', updateState ct fuel s w .hoverState = .ok s' →
      s'.widgets = s.widgets ∧
      (∀ d, (∃ k, up s.widgets k d = some w) →
        ((s'.visuals d).states.hover = true ↔ HoverChain ct s.widgets s.mousePos d)) ∧
      (∀ k v, up s.widgets k w = some v → ct (s.widgets v).rect s.mousePos = false →
        (s'.visuals w).states.hover = false)) ∧
    (∃ F, ∀ fuel, F ≤ fuel → ∃ s', updateState ct fuel s w .hoverState = .ok s') := by
  constructor
  · intro fuel s' hrun
    have hbits := hover_cascade ct s w hw.integrity fuel s' hrun
    refine ⟨(updateState_frame ct fuel s w _ s' hrun).1, hbits, fun k v hk hv => ?_⟩
    cases hb : (s'.visuals w).states.hover with
    | false => rfl
    | true =>
      have := ((hbits w ⟨0, rfl⟩).1 hb k v hk).1
      rw [hv] at this
      cases this
  · obtain ⟨rk, N, hr⟩ := hw.ranked
    refine ⟨2 * N + 2, fun fuel hf => ?_⟩
    have := hr.1 w
    exact updateState_total ct s.widgets rk N hr .hoverState fuel s w rfl (by omega)

theorem States.has_assign_ne (m : States) (b : Bool) (st st' : WidgetState) (hne : st' ≠ st) :
    (m.assign b st).has st' = m.has st' := by
  cases st <;> cases st' <;> first | rfl | exact absurd rfl hne

theorem commitStatus_other_bits (s : State) (w : WidgetId) (st st' : WidgetState) (a b : Bool)
    (d : WidgetId) (hne : st' ≠ st) :
    ((commitStatus s w st a b).visuals d).states.has st' = (s.visuals d).states.has st' := by
  rw [commitStatus_states]
  split
  · exact States.has_assign_ne _ _ _ _ hne
  · rfl

/-- A call of `updateState(st)` leaves every other bit of every widget as it was. -/
theorem updateState_other_bits (ct : Rect → Point → Bool) :
    ∀ (n : Nat) (s : State) (w : WidgetId) (st : WidgetState) (s' : State),
      updateState ct n s w st = .ok s' → ∀ (d : WidgetId) (st' : WidgetState), st' ≠ st →
        (s'.visuals d).states.has st' = (s.visuals d).states.has st' := by
  intro n
  induction n with
  | zero => intro s w st s' h; simp [updateState] at h
  | succ n ih =>
    intro s w st s' h d st' hne
    rw [updateState] at h
    split at h
    · simp at h
    · simp at h; rw [h]
    · rename_i newStatus updateChildren hd
      split at h
      · simp at h
      · rename_i s1 h1
        simp at h
        subst h
        rw [commitStatus_other_bits _ _ _ _ _ _ _ hne]
        split at h1
        · exact foldlM_keeps
            (fun t => (t.visuals d).states.has st' = (s.visuals d).states.has st') _ _
            (fun c _ t t' ht hstep => (ih t c st t' hstep d st' hne).trans ht) s s1 rfl h1
        · simp at h1; rw [h1]

/-- The call `updateState(FocusState)` in closed form: the Focus bit does not
cascade. -/
theorem updateState_focus_eq (ct : Rect → Point → Bool) (n : Nat) (s : State) (w : WidgetId) :
    updateState ct (n + 1) s w .focusState
      = .ok (commitStatus s w .focusState
          (match getParent s w with
           | some p => getFocusedChild s p == some w
           | none => false) (hasState s w .focusState)) := by
  rw [updateState]
  simp only [deriveStatus, Bool.false_eq_true, if_false]

/-- The Focus bits after `updateState(FocusState)` on `w`: the bit of `w` says
whether `w` is the focused child of its parent, the bits of the other widgets
are unchanged. -/
theorem updateState_focus_bits (ct : Rect → Point → Bool) (n : Nat) (s : State) (w : WidgetId)
    (s' : State) (h : updateState ct n s w .focusState = .ok s') (d : WidgetId) :
    (s'.visuals d).states.focus
      = if d = w then
          (match (s.widgets w).parent with
           | some p => (s.widgets p).focusedChild == some w
           | none => false)
        else (s.visuals d).states.focus := by
  cases n with
  | zero => simp [updateState] at h
  | succ n =>
    rw [updateState_focus_eq] at h
    cases h
    have hs := commitStatus_states s w .focusState
      (match getParent s w with
       | some p => getFocusedChild s p == some w
       | none => false) (hasState s w .focusState) d
    rw [hs]
    simp only [getParent, getFocusedChild, hasState]
    by_cases hd : d = w
    · subst hd
      simp only [true_and, if_true]
      split
      · rfl
      · rename_i hne
        simp only [ne_eq, not_not] at hne
        rw [hne]
        rfl
    · simp [hd]

/-- The Focus bits after the block that `focusChild` runs for one widget. -/
theorem refocus_focus_bits (ct : Rect → Point → Bool) (n : Nat) (t : State) (c : WidgetId)
    (reason : FocusReason) (t' : State) (h : refocus ct n t (some c) reason = .ok t')
    (d : WidgetId) :
    (t'.visuals d).states.focus
      = if d = c then
          (match (t.widgets c).parent with
           | some q => (t.widgets q).focusedChild == some c
           | none => false)
        else (t.visuals d).states.focus := by
  unfold refocus at h
  obtain ⟨a, ha, h2⟩ := (bind_eq_ok _ _ _).1 h
  have hkeep := updateState_other_bits ct n a c .activeState t' h2 d .focusState (by decide)
  have hbit := updateState_focus_bits ct n _ c a ha d
  have e1 : (t'.visuals d).states.focus = (a.visuals d).states.focus := hkeep
  rw [e1, hbit]
  simp only [setLastFocusReason, modify_widgets, modify_visuals, hmodify_parent, ite_self,
    hmodify_focusedChild]

theorem hmodify_lastFocusReason (h : Heap) (w : WidgetId) (f : Widget → Widget) (x : WidgetId) :
    (hmodify h w f x).lastFocusReason
      = if x = w then (f (h x)).lastFocusReason else (h x).lastFocusReason :=
  hmodify_proj (fun d => d.lastFocusReason) h w f x

/-- The reasons recorded by a `focusChild` call that changes the focused
child: the new and the old focused child carry the reason of the call. -/
theorem focusChildH_lastFocusReason (h : Heap) (self c : WidgetId) (reason : FocusReason)
    (hc : c ∈ (h self).children) (hne : (h self).focusedChild ≠ some c) (x : WidgetId) :
    (focusChildH h self (some c) reason x).lastFocusReason
      = if x = c ∨ (h self).focusedChild = some x then reason else (h x).lastFocusReason := by
  unfold focusChildH
  have hg : ((some c).isSome && !hasChildH h self (some c)) = false := by
    simp [hasChildH, contains_decide, hc]
  have hd : (some c != (h self).focusedChild) = true := by
    simpa using fun e => hne e.symm
  rw [hg, hd]
  simp only [Bool.false_eq_true, if_false, if_true]
  cases ho : (h self).focusedChild with
  | none =>
    simp only [refocusH, hmodify_lastFocusReason, ite_self]
    by_cases hx : x = c <;> simp [hx]
  | some o =>
    simp only [refocusH, hmodify_lastFocusReason, ite_self]
    by_cases hx : x = o
    · subst hx; simp
    · by_cases hx2 : x = c
      · simp [hx2]
      · have : ¬ o = x := fun e => hx e.symm
        simp [hx, hx2, this]

theorem focusChild_same (ct : Rect → Point → Bool) (n : Nat) (s : State) (p : WidgetId)
    (child : Option WidgetId) (reason : FocusReason) (hf : (s.widgets p).focusedChild = child) :
    focusChild ct n s p child reason = .ok s := by
  unfold focusChild
  split
  · rfl
  · rw [hf]
    simp

/-- The postcondition of `focusChild` over recorded styles. In a well-formed
tree whose focused child of `p`, if any, is a child of `p`: for every child `c`
of `p` and every reason, when `c` is not the focused child, every
`p.focusChild(c, reason)` that returns makes `c` the focused child of `p`, sets
the Focus bit of `c`, clears the Focus bit of the previously focused child (if
there was one) and records the reason as the last focus reason of both; when
`c` is the focused child already, the call returns the state unchanged; and the
call returns, given enough fuel. -/
theorem focusChild_postcondition_recorded (ct : Rect → Point → Bool) (s : State) (p c : WidgetId)
    (reason : FocusReason) (hw : WellFormed s.widgets)
    (hfv : ∀ o, (s.widgets p).focusedChild = some o → o ∈ (s.widgets p).children)
    (hc : c ∈ (s.widgets p).children) :
    (∀ fuel s', focusChild ct fuel s p (some c) reason = .ok s' →
      ((s.widgets p).focusedChild ≠ some c →
        (s'.widgets p).focusedChild = some c ∧
        (s'.visuals c).states.focus = true ∧
        (s'.widgets c).lastFocusReason = reason ∧
        ∀ o, (s.widgets p).focusedChild = some o →
          (s'.visuals o).states.focus = false ∧ (s'.widgets o).lastFocusReason = reason) ∧
      ((s.widgets p).focusedChild = some c → s' = s)) ∧
    (∃ F, ∀ fuel, F ≤ fuel → ∃ s', focusChild ct fuel s p (some c) reason = .ok s') := by
  constructor
  · intro fuel s' hrun
    constructor
    · intro hne
      have hwid := ((focusChild_spec ct fuel s p (some c) reason).1 s' hrun).1
      have hg : ((some c).isSome && !hasChildH s.widgets p (some c)) = false := by
        simp [hasChildH, contains_decide, hc]
      have hpc : (s.widgets c).parent = some p := (hw.integrity c p).1 hc
      -- the two blocks of the call
      unfold focusChild at hrun
      rw [hasChild_eq, hg] at hrun
      have hd : (some c != (s.widgets p).focusedChild) = true := by
        simpa using fun e => hne e.symm
      simp only [Bool.false_eq_true, if_false, hd, if_true] at hrun
      obtain ⟨s2, h2, h3⟩ := (bind_eq_ok _ _ _).1 hrun
      have hw2 := ((refocus_spec ct fuel _ (some c) reason).1 s2 h2).1
      have hbc : (s2.visuals c).states.focus = true := by
        rw [refocus_focus_bits ct fuel _ c reason s2 h2 c, if_pos rfl]
        simp only [modify_widgets, hmodify_parent, ite_self, hpc, hmodify_focusedChild, if_true,
          beq_self_eq_true]
      refine ⟨?_, ?_, ?_, fun o ho => ⟨?_, ?_⟩⟩
      · rw [hwid, focusChildH_focusedChild, hg]
        simp
      · cases ho : (s.widgets p).focusedChild with
        | none =>
          rw [ho] at h3
          cases h3
          exact hbc
        | some o =>
          rw [ho] at h3
          have hco : c ≠ o := fun e => hne (by rw [ho, e])
          rw [refocus_focus_bits ct fuel s2 o reason s' h3 c, if_neg hco]
          exact hbc
      · rw [hwid, focusChildH_lastFocusReason _ _ _ _ hc hne, if_pos (Or.inl rfl)]
      · rw [ho] at h3
        have hpo : (s.widgets o).parent = some p := (hw.integrity o p).1 (hfv o ho)
        have hco : c ≠ o := fun e => hne (by rw [ho, e])
        rw [refocus_focus_bits ct fuel s2 o reason s' h3 o, if_pos rfl, hw2]
        simp only [refocusH, modify_widgets, hmodify_parent, ite_self, hpo, hmodify_focusedChild,
          if_true]
        simpa using hco
      · rw [hwid, focusChildH_lastFocusReason _ _ _ _ hc hne, if_pos (Or.inr ho)]
    · intro hf
      rw [focusChild_same ct fuel s p (some c) reason hf] at hrun
      cases hrun
      rfl
  · obtain ⟨rk, N, hr⟩ := hw.ranked
    exact ⟨2 * N + 2, fun fuel hf =>
      (focusChild_spec ct fuel s p (some c) reason).2 ⟨rk, N, hr, by omega⟩⟩

theorem indexOf_of_nodup_get : ∀ (l : List WidgetId) (i : Nat) (f : WidgetId), l.Nodup →
    l[i]? = some f → l.indexOf f = i := by
  intro l
  induction l with
  | nil => intro i f _ h; simp at h
  | cons a l ih =>
    intro i f hnd h
    cases i with
    | zero =>
      simp only [List.getElem?_cons_zero, Option.some.injEq] at h
      subst h
      exact List.indexOf_cons_self _ _
    | succ i =>
      simp only [List.getElem?_cons_succ] at h
      have hmem : f ∈ l := List.getElem?_mem h
      have hne : a ≠ f := fun e => (List.nodup_cons.1 hnd).1 (e ▸ hmem)
      rw [List.indexOf_cons_ne _ hne, ih i f (List.nodup_cons.1 hnd).2 h]

theorem rotate_tail_eq_wrapAround (l : List WidgetId) (i : Nat) (f : WidgetId)
    (h : l[i]? = some f) : (l.rotate i).tail = wrapAround l i := by
  have hi : i < l.length := (List.getElem?_eq_some.1 h).1
  rw [List.rotate_eq_drop_append_take (Nat.le_of_lt hi), List.drop_eq_getElem_cons hi]
  rfl

/-- The rotated copy scanned by `focusNextChild` is the wrap-around order. -/
theorem nextFocus_focused (h : Heap) (p : WidgetId) (i : Nat) (f : WidgetId)
    (hnd : (h p).children.Nodup) (hf : (h p).focusedChild = some f)
    (hi : (h p).children[i]? = some f) :
    nextFocus h p = (wrapAround (h p).children i).find? (fun c => (h c).focusable) := by
  unfold nextFocus
  have hmem : f ∈ (h p).children := List.getElem?_mem hi
  simp only [hf, contains_decide, hmem, decide_True, if_true,
    indexOf_of_nodup_get _ i f hnd hi, rotate_tail_eq_wrapAround _ i f hi]

theorem nextFocus_unfocused (h : Heap) (p : WidgetId) (hf : (h p).focusedChild = none) :
    nextFocus h p = (h p).children.find? (fun c => (h c).focusable) := by
  unfold nextFocus
  simp only [hf]

theorem nextFocus_mem (h : Heap) (p t : WidgetId) (ht : nextFocus h p = some t) :
    t ∈ (h p).children := by
  unfold nextFocus at ht
  have hm := List.mem_of_find?_eq_some ht
  cases hf : (h p).focusedChild with
  | none => rw [hf] at hm; exact hm
  | some f =>
    rw [hf] at hm
    simp only at hm
    split at hm
    · exact (List.mem_rotate.1 (List.mem_of_mem_tail hm))
    · exact hm

/-- The focused child after `focusNextChild`, from the target of the scan. -/
theorem focusNextChild_result (ct : Rect → Point → Bool) (fuel : Nat) (s : State) (p : WidgetId)
    (reason : FocusReason) (s' : State) (hrun : focusNextChild ct fuel s p reason = .ok s') :
    (∀ x, (s'.widgets x).children = (s.widgets x).children) ∧
    (s'.widgets p).focusedChild
      = match nextFocus s.widgets p with
        | some t => some t
        | none => (s.widgets p).focusedChild := by
  rw [focusNextChild_eq] at hrun
  cases ht : nextFocus s.widgets p with
  | none =>
    rw [ht] at hrun
    cases hrun
    exact ⟨fun _ => rfl, rfl⟩
  | some t =>
    rw [ht] at hrun
    have hwid := ((focusChild_spec ct fuel s p (some t) reason).1 s' hrun).1
    have hmem := nextFocus_mem _ _ _ ht
    refine ⟨fun x => ?_, ?_⟩
    · rw [hwid]
      exact focusChildH_field (fun d => d.children) (fun _ _ => rfl) (fun _ _ => rfl) _ _ _ _ x
    · rw [hwid, focusChildH_focusedChild]
      simp [hasChildH, contains_decide, hmem]

/-- The postcondition of `focusNextChild` over recorded styles. In a
well-formed tree, every `p.focusNextChild(reason)` that returns keeps the
children sequence of `p` and makes the focused child the first widget with the
focusable flag in the wrap-around order: with the focused child at position `i`
of the children, the children after position `i` followed by those before it;
with no focused child, the children in list order. When no widget in that order
is focusable the focused child is unchanged. The call returns, given enough
fuel. -/
theorem focusNextChild_postcondition_recorded (ct : Rect → Point → Bool) (s : State) (p : WidgetId)
    (reason : FocusReason) (hw : WellFormed s.widgets) :
    (∀ fuel s', focusNextChild ct fuel s p reason = .ok s' →
      (s'.widgets p).children = (s.widgets p).children ∧
      ((s.widgets p).focusedChild = none →
        (s'.widgets p).focusedChild
          = match (s.widgets p).children.find? (fun c => (s.widgets c).focusable) with
            | some t => some t
            | none => none) ∧
      (∀ i f, (s.widgets p).focusedChild = some f → (s.widgets p).children[i]? = some f →
        (s'.widgets p).focusedChild
          = match (wrapAround (s.widgets p).children i).find?
                (fun c => (s.widgets c).focusable) with
            | some t => some t
            | none => some f)) ∧
    (∃ F, ∀ fuel, F ≤ fuel → ∃ s', focusNextChild ct fuel s p reason = .ok s') := by
  constructor
  · intro fuel s' hrun
    obtain ⟨hch, hfc⟩ := focusNextChild_result ct fuel s p reason s' hrun
    refine ⟨hch p, fun hnone => ?_, fun i f hf hi => ?_⟩
    · rw [hfc, nextFocus_unfocused _ _ hnone, hnone]
    · rw [hfc, nextFocus_focused _ _ i f (hw.nodup p) hf hi, hf]
  · obtain ⟨rk, N, hr⟩ := hw.ranked
    refine ⟨2 * N + 2, fun fuel hf => ?_⟩
    rw [focusNextChild_eq]
    cases nextFocus s.widgets p with
    | none => exact ⟨s, rfl⟩
    | some t => exact (focusChild_spec ct fuel s p (some t) reason).2 ⟨rk, N, hr, by omega⟩

theorem sampleTrio_run :
    (TreeOp.addChild 1 (some 4)).run sampleContains 10 sampleFamily = .ok sampleTrio := by
  rfl

theorem sampleTrio_wellFormed : WellFormed sampleTrio.widgets :=
  reachable_wellFormed sampleContains sampleTrio
    (Reachable.step sampleFamily sampleTrio (.addChild 1 (some 4)) 10 sampleFamily_reachable
      (fun k => by
        rw [up_of_root sampleFamily.widgets 1 rfl k]
        split <;> simp)
      sampleTrio_run)

/-- The last statement of `removeChild`: a call that returns ends with the
cascade `child->updateStates()`, run on a state that carries the heap
`removeChildH`. -/
theorem removeChild_tail (ct : Rect → Point → Bool) (n : Nat) (s : State) (self c : WidgetId)
    (hc : c ∈ (s.widgets self).children) (hnd : (s.widgets self).children.Nodup) (s' : State)
    (hrun : removeChild ct n s self (some c) = .ok s') :
    ∃ k t, Outcome s t (removeChildH s.widgets self c) ∧ updateStates ct k t c = .ok s' := by
  have hspec : Spec (removeChild ct n s self (some c)) False
      (fun s' => ∃ k t, Outcome s t (removeChildH s.widgets self c) ∧
        updateStates ct k t c = .ok s') := by
    cases n with
    | zero =>
      rw [removeChild]
      exact Spec.error_intro id
    | succ n =>
      rw [removeChild]
      simp only [contains_decide, hc, decide_True, if_true]
      refine Spec.bind (Q := fun s1 => Outcome s s1 (defocusH s.widgets self c)) ?_
        (fun s1 h1 => ?_)
      · unfold defocusH
        split
        · exact (focusChild_spec ct n s self none _).weaken (fun t => t.elim) (fun _ h => h)
        · exact Spec.ok_intro (Outcome.unchanged s)
      · have hc1 : c ∈ (s1.widgets self).children := by
          rw [h1.1, defocusH_field (fun d => d.children) (fun _ _ => rfl) (fun _ _ => rfl)]
          exact hc
        rw [unlockChild_eq s1 self c hc1, ok_bind, h1.1]
        have hpar : getParent (State.modify
            { s1 with widgets := unlockChildH (defocusH s.widgets self c) self c } self
            (fun d => { d with children := d.children.erase c })) c = (s.widgets c).parent := by
          simp only [getParent, modify_widgets]
          simp only [hmodify_parent, ite_self, unlock_defocus_parent]
        split
        · exact Spec.error_intro id
        · rename_i hne
          rw [hpar] at hne
          simp only [bne_iff_ne, ne_eq, not_not] at hne
          cases n with
          | zero =>
            rw [setParent]
            exact Spec.error_intro id
          | succ m =>
            rw [setParent_none_eq ct m _ c self (by rw [← hne]; exact hpar)
              (by
                simp only [modify_widgets, hmodify_apply, if_true]
                rw [unlock_defocus_children]
                exact hnd.not_mem_erase), ok_bind]
            split
            · exact Spec.error_intro id
            · rename_i l hl
              have hheap : (State.modify (State.modify (State.modify
                  { s1 with widgets := unlockChildH (defocusH s.widgets self c) self c } self
                  (fun d => { d with children := d.children.erase c })) c
                  (fun d => { d with parent := none })) self
                  (fun d => { d with layout := some (l.removeWidget c) })).widgets
                  = removeChildH s.widgets self c := by
                simp only [modify_widgets] at hl ⊢
                unfold removeChildH
                funext x
                simp only [hmodify_apply] at hl ⊢
                by_cases hx : x = self
                · subst hx
                  simp only [if_true] at hl ⊢
                  split at hl <;> simp_all
                · simp [hx]
              exact ⟨fun u hu => ⟨m + 1, _, ⟨hheap, h1.2.1, h1.2.2⟩, hu⟩, fun t => t.elim⟩
  exact hspec.1 s' hrun

/-- The bits of `c` after `c->updateStates()` on a tree with consistent
links: Active follows the chain of enabled focused children, Focus says
whether `c` is the focused child of its parent, Hover follows the chain of
hit tests. -/
theorem updateStates_bits (ct : Rect → Point → Bool) (k : Nat) (t : State) (c : WidgetId)
    (hint : Integrity t.widgets) (s' : State) (hrun : updateStates ct k t c = .ok s') :
    s'.widgets = t.widgets ∧ s'.mousePos = t.mousePos ∧
    ((s'.visuals c).states.active = true ↔ ActiveChain t.widgets c) ∧
    (s'.visuals c).states.focus
      = (match (t.widgets c).parent with
         | some p => (t.widgets p).focusedChild == some c
         | none => false) ∧
    ((s'.visuals c).states.hover = true ↔ HoverChain ct t.widgets t.mousePos c) := by
  unfold updateStates at hrun
  obtain ⟨s1, h1, hrun⟩ := (bind_eq_ok _ _ _).1 hrun
  obtain ⟨s2, h2, hrun⟩ := (bind_eq_ok _ _ _).1 hrun
  obtain ⟨s3, h3, h4⟩ := (bind_eq_ok _ _ _).1 hrun
  have f1 := updateState_frame ct k t c _ s1 h1
  have f2 := updateState_frame ct k s1 c _ s2 h2
  have f3 := updateState_frame ct k s2 c _ s3 h3
  have f4 := updateState_frame ct k s3 c _ s' h4
  have w3 : s3.widgets = t.widgets := f3.1.trans (f2.1.trans f1.1)
  have m3 : s3.mousePos = t.mousePos := f3.2.1.trans (f2.2.1.trans f1.2.1)
  refine ⟨f4.1.trans w3, f4.2.1.trans m3, ?_, ?_, ?_⟩
  · have ha := (cascade_correct ct t.widgets hint t.mousePos .activeState (ActiveChain t.widgets)
      (fun n u v r hu _ hd => deriveStatus_active ct t.widgets n u v r hu hd)
      k t c s1 rfl rfl h1).1 c ⟨0, rfl⟩
    have e : (s'.visuals c).states.active = (s1.visuals c).states.active :=
      (updateState_other_bits ct k s3 c _ s' h4 c .activeState (by decide)).trans
        ((updateState_other_bits ct k s2 c _ s3 h3 c .activeState (by decide)).trans
          (updateState_other_bits ct k s1 c _ s2 h2 c .activeState (by decide)))
    rw [e]
    exact ha
  · have e : (s'.visuals c).states.focus = (s2.visuals c).states.focus :=
      (updateState_other_bits ct k s3 c _ s' h4 c .focusState (by decide)).trans
        (updateState_other_bits ct k s2 c _ s3 h3 c .focusState (by decide))
    rw [e, updateState_focus_bits ct k s1 c s2 h2 c, if_pos rfl, f1.1]
  · have hh := hover_cascade ct s3 c (w3 ▸ hint) k s' h4 c ⟨0, rfl⟩
    rw [w3, m3] at hh
    exact hh

theorem activeChain_root (h : Heap) (c : WidgetId) (hp : (h c).parent = none) :
    ActiveChain h c ↔ (h c).enabled = true := by
  rw [activeChain_unfold, hp]
  simp

theorem hoverChain_root (ct : Rect → Point → Bool) (h : Heap) (m : Point) (c : WidgetId)
    (hp : (h c).parent = none) : HoverChain ct h m c ↔ ct (h c).rect m = true := by
  rw [hoverChain_unfold, hp]
  simp

theorem bool_eq_of_iff {a b : Bool} (h : a = true ↔ b = true) : a = b := by
  cases a <;> cases b <;> simp_all

/-- How a removed child settles, over recorded styles. In a well-formed tree,
every `p.removeChild(c)` on a child `c` of `p` that returns leaves `c` without
parent and with its Focus bit clear; the Active bit of `c` is then its explicit
enabled flag and the Hover bit says whether the rectangle of `c` contains the
pointer position, the widget being the root of its own tree. The call returns,
given enough fuel. -/
theorem removeChild_settles_recorded (ct : Rect → Point → Bool) (s : State) (p c : WidgetId)
    (hw : WellFormed s.widgets) (hc : c ∈ (s.widgets p).children) :
    (∀ fuel s', removeChild ct fuel s p (some c) = .ok s' →
      (s'.widgets c).parent = none ∧
      (s'.visuals c).states.focus = false ∧
      (s'.visuals c).states.active = (s'.widgets c).enabled ∧
      (s'.visuals c).states.hover = ct (s'.widgets c).rect s'.mousePos) ∧
    (∃ F, ∀ fuel, F ≤ fuel → ∃ s', removeChild ct fuel s p (some c) = .ok s') := by
  constructor
  · intro fuel s' hrun
    obtain ⟨k, t, ht, hk⟩ := removeChild_tail ct fuel s p c hc (hw.nodup p) s' hrun
    have hwf := removeChildH_wellFormed s.widgets hw p c hc
    have hint : Integrity t.widgets := by rw [ht.1]; exact hwf.integrity
    obtain ⟨hwid, hm, ha, hf, hh⟩ := updateStates_bits ct k t c hint s' hk
    have hpar : (t.widgets c).parent = none := by
      rw [ht.1, removeChildH_parent, if_pos rfl]
    refine ⟨by rw [hwid]; exact hpar, ?_, ?_, ?_⟩
    · rw [hf, hpar]
    · rw [hwid]
      exact bool_eq_of_iff (ha.trans (activeChain_root _ c hpar))
    · rw [hwid, hm]
      exact bool_eq_of_iff (hh.trans (hoverChain_root ct _ _ c hpar))
  · obtain ⟨rk, N, hr⟩ := hw.ranked
    refine ⟨2 * N + 3, fun fuel hf => ?_⟩
    refine (removeChild_spec ct fuel s p c hc (hw.nodup p)).2
      ⟨(hw.integrity c p).1 hc, hw.layout p (List.ne_nil_of_mem hc), rk, N, hr, by omega⟩

/-- The part shared by `addChild` and `insertChild` ends with the cascade
`child->updateStates()`, run on a state that carries the heap `attachH`. -/
theorem attach_tail (ct : Rect → Point → Bool) (n : Nat) (s s1 : State) (self c : WidgetId)
    (hs1 : Outcome s s1 s1.widgets)
    (hc : c ∈ (s1.widgets self).children) (hpc : (s1.widgets c).parent ≠ some self)
    (hnd : ∀ q, (s1.widgets c).parent = some q → (s1.widgets q).children.Nodup)
    (focus : Bool) (s' : State)
    (hrun : (setParent ct n s1 c (some self) >>= fun s2 =>
        (if focus && (isFocusable s2 c && isExplicitlyVisible s2 c && isExplicitlyEnabled s2 c) then
            focusChild ct n s2 self (some c) .activeFocusReason
          else Except.ok s2) >>= fun s3 =>
        updateStates ct n (registerWithLayout s3 self c) c) = .ok s') :
    ∃ t, Outcome s t (attachH s1.widgets self c focus) ∧ updateStates ct n t c = .ok s' := by
  obtain ⟨s2, h2, hrun⟩ := (bind_eq_ok _ _ _).1 hrun
  obtain ⟨s3, h3, h4⟩ := (bind_eq_ok _ _ _).1 hrun
  have o2 := (adopt_spec ct n s1 self c hc hpc hnd).1 s2 h2
  have o3 : Outcome s1 s3
      (if focus && (((adoptH s1.widgets self c) c).focusable &&
            ((adoptH s1.widgets self c) c).visible && ((adoptH s1.widgets self c) c).enabled) then
        focusChildH (adoptH s1.widgets self c) self (some c) .activeFocusReason
      else adoptH s1.widgets self c) := by
    simp only [isFocusable, isExplicitlyVisible, isExplicitlyEnabled, o2.1] at h3
    split at h3
    · rename_i hg
      rw [if_pos hg]
      have hu := (focusChild_spec ct n s2 self (some c) _).1 s3 h3
      rw [o2.1] at hu
      exact Outcome.followedBy o2 hu
    · rename_i hg
      rw [if_neg hg]
      cases h3
      exact o2
  refine ⟨registerWithLayout s3 self c, ⟨?_, o3.2.1.trans hs1.2.1, o3.2.2.trans hs1.2.2⟩, h4⟩
  unfold attachH
  rw [← o3.1]
  rfl

/-- A call of `insertChild` that returns ends with the cascade on the new
child, run on a state that carries the heap `insertChildH`. -/
theorem insertChild_tail (ct : Rect → Point → Bool) (n : Nat) (s : State) (self c : WidgetId)
    (index : Int) (i : Nat)
    (hidx : (if index ≤ 0 then ((s.widgets self).children.length : Int) + index else index - 1) = i)
    (hi : i ≤ (s.widgets self).children.length)
    (hnc : c ∉ (s.widgets self).children) (hpc : (s.widgets c).parent ≠ some self)
    (hnd : ∀ q, (s.widgets c).parent = some q → (s.widgets q).children.Nodup) (s' : State)
    (hrun : insertChild ct n s self index (some c) = .ok s') :
    ∃ t, Outcome s t (insertChildH s.widgets self i c) ∧ updateStates ct n t c = .ok s' := by
  unfold insertChild at hrun
  simp only [hasChild, contains_decide, hnc, decide_False, Bool.false_eq_true, if_false, hidx]
    at hrun
  have hrange : (!(decide (0 ≤ (i : Int)) && decide ((i : Int) ≤ ((s.widgets self).children.length : Int))))
      = false := by
    simp only [Bool.not_eq_false', Bool.and_eq_true, decide_eq_true_eq]
    exact ⟨Int.natCast_nonneg i, by exact_mod_cast hi⟩
  simp only [hrange, Bool.false_eq_true, if_false, Int.toNat_ofNat] at hrun
  have hpar : ∀ x, ((State.modify s self
      (fun d => { d with children := d.children.insertIdx i c })).widgets x).parent
        = (s.widgets x).parent := by
    intro x; simp only [modify_widgets, hmodify_parent, ite_self]
  have hch : ∀ x, ((State.modify s self
      (fun d => { d with children := d.children.insertIdx i c })).widgets x).children
        = if x = self then (s.widgets x).children.insertIdx i c else (s.widgets x).children := by
    intro x; simp only [modify_widgets, hmodify_children]
  have hne : ∀ q, (s.widgets c).parent = some q → q ≠ self := fun q hq e => hpc (by rw [hq, e])
  have key := attach_tail ct n s
    (State.modify s self (fun d => { d with children := d.children.insertIdx i c }))
    self c ⟨rfl, rfl, rfl⟩
    (by rw [hch, if_pos rfl]; exact (List.mem_insertIdx hi).mpr (Or.inl rfl))
    (by rw [hpar]; exact hpc)
    (fun q hq => by
      rw [hpar] at hq
      rw [hch, if_neg (hne q hq)]
      exact hnd q hq)
    false s'
  simp only [Bool.false_and, Bool.false_eq_true, if_false, ok_bind] at key
  exact key hrun

theorem insertChildH_focusedChild_of_root (h : Heap) (p : WidgetId) (i : Nat) (c : WidgetId)
    (hp : (h c).parent = none) (x : WidgetId) :
    (insertChildH h p i c x).focusedChild = (h x).focusedChild := by
  rw [insertChildH_eq]
  unfold attachH
  have hp1 : ((hmodify h p (fun d => { d with children := (h p).children.insertIdx i c })) c).parent
      = none := by
    rw [hmodify_parent, ite_self]; exact hp
  simp only [Bool.false_and, Bool.false_eq_true, if_false, registerH, adoptH_of_root _ p c hp1,
    hmodify_focusedChild, ite_self]

/-- The code of `insertChild` against `addChild`, over recorded styles. In a
well-formed tree whose focused child of `p`, if any, is a child of `p`, for a
parent-less widget `c` that is not a child of `p`, not `p` and not an ancestor
of `p`, and an index in range: every `p.insertChild(index, c)` that returns
leaves `c` at the position of the index in the children of `p`, with parent
`p`, and `p` with a layout, as `addChild` does apart from the position; but it
leaves the focused child of `p` as it was and the Focus and Active bits of `c`
clear, whatever the flags of `c`, whereas every `p.addChild(c)` that returns
makes a focusable, explicitly visible, explicitly enabled `c` the focused
child. The `insertChild` call returns, given enough fuel. -/
theorem insertChild_no_focus_recorded (ct : Rect → Point → Bool) (s : State) (p c : WidgetId)
    (index : Int) (hw : WellFormed s.widgets)
    (hfv : ∀ o, (s.widgets p).focusedChild = some o → o ∈ (s.widgets p).children)
    (hroot : (s.widgets c).parent = none) (hna : ∀ k, up s.widgets k p ≠ some c)
    (hnc : c ∉ (s.widgets p).children)
    (hir : IndexInRange (s.widgets p).children.length index) :
    (∀ fuel s', insertChild ct fuel s p index (some c) = .ok s' →
      (s'.widgets p).children
        = (s.widgets p).children.insertIdx
            (if index ≤ 0 then ((s.widgets p).children.length : Int) + index
              else index - 1).toNat c ∧
      (s'.widgets c).parent = some p ∧
      (s'.widgets p).layout.isSome = true ∧
      (s'.widgets p).focusedChild = (s.widgets p).focusedChild ∧
      (s'.visuals c).states.focus = false ∧
      (s'.visuals c).states.active = false) ∧
    (∀ fuel s', addChild ct fuel s p (some c) = .ok s' →
      (s.widgets c).focusable = true → (s.widgets c).visible = true →
      (s.widgets c).enabled = true → (s'.widgets p).focusedChild = some c) ∧
    (∃ F, ∀ fuel, F ≤ fuel → ∃ s', insertChild ct fuel s p index (some c) = .ok s') := by
  have hint := hw.integrity
  have hpc : (s.widgets c).parent ≠ some p := fun e => hnc ((hint c p).mpr e)
  obtain ⟨i, hi, hle⟩ := hir.position
  have hfc : (s.widgets p).focusedChild ≠ some c := fun e => hnc (hfv c e)
  refine ⟨fun fuel s' hrun => ?_, fun fuel s' hrun hf hv he => ?_,
    TreeOp.run_total ct s (.insertChild p index (some c)) hw ⟨hna, hir⟩⟩
  · obtain ⟨t, ht, hk⟩ := insertChild_tail ct fuel s p c index i hi hle hnc hpc
      (fun q _ => hw.nodup q) s' hrun
    have hwf := insertChildH_wellFormed s.widgets hw p i hle c hnc hna
    have hint' : Integrity t.widgets := by rw [ht.1]; exact hwf.integrity
    obtain ⟨hwid, -, hact, hfoc, -⟩ := updateStates_bits ct fuel t c hint' s' hk
    have hpar : (t.widgets c).parent = some p := by
      rw [ht.1, insertChildH_eq, attached_parent, if_pos rfl]
    have hfp : (t.widgets p).focusedChild = (s.widgets p).focusedChild := by
      rw [ht.1, insertChildH_focusedChild_of_root _ _ _ _ hroot]
    refine ⟨?_, ?_, ?_, ?_, ?_, ?_⟩
    · rw [hwid, ht.1, insertChildH_children_self _ hint _ _ _ hnc, hi, Int.toNat_ofNat]
    · rw [hwid]; exact hpar
    · rw [hwid, ht.1, insertChildH_eq, attached_layout_isSome, if_pos rfl]
    · rw [hwid]; exact hfp
    · rw [hfoc, hpar]
      simp only [hfp]
      simpa using hfc
    · cases hb : (s'.visuals c).states.active with
      | false => rfl
      | true =>
        have hchain := (activeChain_unfold _ _).1 (hact.1 hb)
        have := (hchain.2 p hpar).1
        rw [hfp] at this
        exact absurd this hfc
  · have hsp := addChild_spec ct fuel s p c hnc hpc (fun q _ => hw.nodup q)
    rw [(hsp.1 s' hrun).1, addChildH_focusedChild_of_root _ p c hroot, if_pos ⟨hf, hv, he⟩]

/-- The backup list of `onMousePress` and `onMouseWheel` from the hit test:
the result of `getChildByPos` when it is explicitly enabled, nothing
otherwise. -/
theorem mousePressTargets_eq (ct : Rect → Point → Bool) (s : State) (self : WidgetId)
    (pos : Point) (hnd : (s.widgets self).children.Nodup) :
    (getChildByPos ct s self pos = none → mousePressTargets ct s self pos = []) ∧
    (∀ c, getChildByPos ct s self pos = some c →
      mousePressTargets ct s self pos = if (s.widgets c).enabled = true then [c] else []) := by
  constructor
  · intro hg
    unfold mousePressTargets
    rw [List.filter_eq_nil_iff]
    intro x _ hx
    rw [hg, Bool.and_eq_true, Bool.and_eq_true] at hx
    exact absurd hx.2.2 (by simp)
  · intro c hg
    obtain ⟨⟨hv, hct⟩, before, after, hsplit, _⟩ := getChildByPos_some ct s self pos c hg
    have hmem : c ∈ (s.widgets self).children := by rw [hsplit]; simp
    rcases mousePressTargets_cases ct s self pos hnd with h0 | ⟨c', h1, hg'⟩
    · rw [h0]
      split
      · rename_i he
        have hin : c ∈ mousePressTargets ct s self pos := by
          unfold mousePressTargets
          rw [List.mem_filter]
          refine ⟨hmem, ?_⟩
          simp [isExplicitlyEnabled, isExplicitlyVisible, getRect, he, hv, hct, hg]
        rw [h0] at hin
        cases hin
      · rfl
    · rw [hg] at hg'
      cases hg'
      rw [h1]
      have hin : c ∈ mousePressTargets ct s self pos := by rw [h1]; simp
      unfold mousePressTargets at hin
      rw [List.mem_filter] at hin
      have he : (s.widgets c).enabled = true := by
        have := hin.2
        simp only [isExplicitlyEnabled, Bool.and_eq_true, Bool.not_eq_true', Bool.or_eq_false_iff,
          Bool.not_eq_false'] at this
        exact this.1.1
      rw [if_pos he]

/-- The children offered an event by the loop of `onMouseWheel` over a backup
list of at most one child. -/
theorem dispatchWheel_offered (handler : WidgetId → State → Except Fault (Bool × State))
    (l : List WidgetId) (hl : l.length ≤ 1) (s : State) (r : Routed)
    (hrun : dispatchWheel handler l [] s = .ok r) : r.offered.map Prod.fst = l := by
  match l, hl with
  | [], _ =>
    simp only [dispatchWheel, Except.ok.injEq] at hrun
    subst hrun
    rfl
  | [c], _ =>
    simp only [dispatchWheel, bind_eq_ok] at hrun
    obtain ⟨r1, _, hrest⟩ := hrun
    by_cases hm : r1.1 = true
    · simp only [hm, if_true, Except.ok.injEq] at hrest
      subst hrest
      rfl
    · simp only [hm, if_false, Bool.false_eq_true, Except.ok.injEq] at hrest
      subst hrest
      rfl
  | _ :: _ :: _, h => simp at h

/-- The children offered an event by the loop of `onMousePress` over a backup
list of at most one child. -/
theorem dispatchPress_offered (ct : Rect → Point → Bool)
    (handler : WidgetId → State → Except Fault (Bool × State)) (fuel : Nat) (self : WidgetId)
    (pos : Point) (l : List WidgetId) (hl : l.length ≤ 1) (s : State) (r : Routed)
    (hrun : dispatchPress ct handler fuel self pos l [] s = .ok r) :
    r.offered.map Prod.fst = l := by
  match l, hl with
  | [], _ =>
    simp only [dispatchPress, Except.ok.injEq] at hrun
    subst hrun
    rfl
  | [c], _ =>
    simp only [dispatchPress, bind_eq_ok] at hrun
    obtain ⟨s1, _, r1, _, hrest⟩ := hrun
    by_cases hm : r1.1 = true
    · simp only [hm, if_true, Except.ok.injEq] at hrest
      subst hrest
      rfl
    · simp only [hm, if_false, Bool.false_eq_true, Except.ok.injEq] at hrest
      subst hrest
      rfl
  | _ :: _ :: _, h => simp at h

theorem mousePressTargets_length (ct : Rect → Point → Bool) (s : State) (self : WidgetId)
    (pos : Point) (hnd : (s.widgets self).children.Nodup) :
    (mousePressTargets ct s self pos).length ≤ 1 := by
  rcases mousePressTargets_cases ct s self pos hnd with h0 | ⟨c, h1, _⟩
  · rw [h0]; simp
  · rw [h1]; simp

/-- When the result of `getChildByPos` is explicitly enabled, it is the last
child in list order among the enabled, visible children that contain the
position. -/
theorem lastEligible_of_enabled (ct : Rect → Point → Bool) (s : State) (self : WidgetId)
    (pos : Point) (c : WidgetId) (hg : getChildByPos ct s self pos = some c)
    (he : (s.widgets c).enabled = true) : lastEligible ct s self pos = some c := by
  obtain ⟨⟨hv, hct⟩, before, after, hsplit, hafter⟩ := getChildByPos_some ct s self pos c hg
  unfold lastEligible
  rw [hsplit, List.filter_append, List.filter_cons]
  have hc : (isExplicitlyEnabled s c && isExplicitlyVisible s c && ct (getRect s c) pos) = true := by
    simp [isExplicitlyEnabled, isExplicitlyVisible, getRect, he, hv, hct]
  have hnil : after.filter (fun child =>
      isExplicitlyEnabled s child && isExplicitlyVisible s child && ct (getRect s child) pos)
      = [] := by
    rw [List.filter_eq_nil_iff]
    intro d hd hp
    simp only [isExplicitlyEnabled, isExplicitlyVisible, getRect, Bool.and_eq_true] at hp
    exact hafter d hd ⟨hp.1.2, hp.2⟩
  rw [if_pos hc, hnil]
  simp

/-- C19 (pointer-down and wheel eligibility), as the code has it.  For a
widget whose children sequence lists no widget twice, the children offered
the event by an `onMousePress` or an `onMouseWheel` that returns are those of
the backup list, and the backup list holds the result of `getChildByPos` (the
last child in list order among the explicitly visible children whose
rectangle contains the position, enabled or not) when that child is
explicitly enabled, and nothing otherwise; an enabled result is the last
child among the enabled, visible children that contain the position.  With
handlers that return, `onMouseWheel` returns, and `onMousePress` returns
on a tree without cycles, given enough fuel. -/
theorem pointer_down_wheel_eligibility (ct : Rect → Point → Bool)
    (handler : WidgetId → State → Except Fault (Bool × State)) (s : State) (self : WidgetId)
    (pos : Point) (hnd : (s.widgets self).children.Nodup) :
    (∀ fuel r, onMousePressWith ct handler fuel s self pos = .ok r →
      r.offered.map Prod.fst = mousePressTargets ct s self pos) ∧
    (∀ r, onMouseWheelWith ct handler s self pos = .ok r →
      r.offered.map Prod.fst = mousePressTargets ct s self pos) ∧
    (getChildByPos ct s self pos = none → mousePressTargets ct s self pos = []) ∧
    (∀ c, getChildByPos ct s self pos = some c →
      (mousePressTargets ct s self pos = if (s.widgets c).enabled = true then [c] else []) ∧
      ((s.widgets c).enabled = true → lastEligible ct s self pos = some c) ∧
      ((s.widgets c).visible = true ∧ ct (s.widgets c).rect pos = true) ∧
      ∃ before after, (s.widgets self).children = before ++ c :: after ∧
        ∀ d ∈ after, ¬ ((s.widgets d).visible = true ∧ ct (s.widgets d).rect pos = true)) ∧
    ((∀ c t, ∃ r, handler c t = .ok r) →
      (∃ r, onMouseWheelWith ct handler s self pos = .ok r) ∧
      ((∃ rk N, Ranked s.widgets rk N) →
        ∃ F, ∀ fuel, F ≤ fuel → ∃ r, onMousePressWith ct handler fuel s self pos = .ok r)) := by
  have hlen := mousePressTargets_length ct s self pos hnd
  refine ⟨fun fuel r hrun => dispatchPress_offered ct handler fuel self pos _ hlen s r hrun,
    fun r hrun => dispatchWheel_offered handler _ hlen s r hrun,
    (mousePressTargets_eq ct s self pos hnd).1,
    fun c hg => ⟨(mousePressTargets_eq ct s self pos hnd).2 c hg,
      lastEligible_of_enabled ct s self pos c hg, getChildByPos_some ct s self pos c hg⟩,
    fun hh => ⟨?_, fun hrk => ?_⟩⟩
  · unfold onMouseWheelWith
    rcases mousePressTargets_cases ct s self pos hnd with h0 | ⟨c, h1, _⟩
    · rw [h0]
      exact ⟨_, rfl⟩
    · rw [h1]
      simp only [dispatchWheel]
      obtain ⟨r1, hr1⟩ := hh c s
      rw [hr1, ok_bind]
      by_cases hm : r1.1 = true
      · simp only [hm, if_true]
        exact ⟨_, rfl⟩
      · simp only [hm, if_false, Bool.false_eq_true]
        exact ⟨_, rfl⟩
  · obtain ⟨rk, N, hr⟩ := hrk
    refine ⟨2 * N + 2, fun fuel hf => ?_⟩
    unfold onMousePressWith
    rcases mousePressTargets_cases ct s self pos hnd with h0 | ⟨c, h1, _⟩
    · rw [h0]
      exact ⟨_, rfl⟩
    · rw [h1]
      simp only [dispatchPress]
      have hfocus : ∃ s1, (if isFocusable s c = true then
          focusChild ct fuel s self (some c) .mouseFocusReason else Except.ok s) = .ok s1 := by
        split
        · exact (focusChild_spec ct fuel s self (some c) _).2 ⟨rk, N, hr, by omega⟩
        · exact ⟨s, rfl⟩
      obtain ⟨s1, hs1⟩ := hfocus
      obtain ⟨r1, hr1⟩ := hh c s1
      rw [hs1, ok_bind, hr1, ok_bind]
      by_cases hm : r1.1 = true
      · simp only [hm, if_true]
        exact ⟨_, rfl⟩
      · simp only [hm, if_false, Bool.false_eq_true]
        exact ⟨_, rfl⟩

theorem pointer_down_wheel_eligibility_witness :
    (sampleFamily.widgets 1).children.Nodup ∧
    ((∀ fuel r,
        onMousePressWith sampleContains acceptingHandler fuel sampleFamily 1 ⟨5, 5⟩ = .ok r →
      r.offered.map Prod.fst = mousePressTargets sampleContains sampleFamily 1 ⟨5, 5⟩) ∧
    (∀ r, onMouseWheelWith sampleContains acceptingHandler sampleFamily 1 ⟨5, 5⟩ = .ok r →
      r.offered.map Prod.fst = mousePressTargets sampleContains sampleFamily 1 ⟨5, 5⟩) ∧
    (getChildByPos sampleContains sampleFamily 1 ⟨5, 5⟩ = none →
      mousePressTargets sampleContains sampleFamily 1 ⟨5, 5⟩ = []) ∧
    (∀ c, getChildByPos sampleContains sampleFamily 1 ⟨5, 5⟩ = some c →
      (mousePressTargets sampleContains sampleFamily 1 ⟨5, 5⟩
        = if (sampleFamily.widgets c).enabled = true then [c] else []) ∧
      ((sampleFamily.widgets c).enabled = true →
        lastEligible sampleContains sampleFamily 1 ⟨5, 5⟩ = some c) ∧
      ((sampleFamily.widgets c).visible = true ∧
        sampleContains (sampleFamily.widgets c).rect ⟨5, 5⟩ = true) ∧
      ∃ before after, (sampleFamily.widgets 1).children = before ++ c :: after ∧
        ∀ d ∈ after, ¬ ((sampleFamily.widgets d).visible = true ∧
          sampleContains (sampleFamily.widgets d).rect ⟨5, 5⟩ = true)) ∧
    ((∀ c t, ∃ r, acceptingHandler c t = .ok r) →
      (∃ r, onMouseWheelWith sampleContains acceptingHandler sampleFamily 1 ⟨5, 5⟩ = .ok r) ∧
      ((∃ rk N, Ranked sampleFamily.widgets rk N) →
        ∃ F, ∀ fuel, F ≤ fuel →
          ∃ r, onMousePressWith sampleContains acceptingHandler fuel sampleFamily 1 ⟨5, 5⟩
            = .ok r))) :=
  ⟨sampleFamily_wellFormed.nodup 1,
    pointer_down_wheel_eligibility sampleContains acceptingHandler sampleFamily 1 ⟨5, 5⟩
      (sampleFamily_wellFormed.nodup 1)⟩

/-- C19 refuted as stated: in `blockedSample` the children 2 and 3 of widget
1 are both explicitly visible and contain the pointer, 2 is explicitly enabled
and the upper child 3 is not, so 2 is the last child that is enabled, visible
and contains the position; `getChildByPos` answers 3, and `onMousePress` and
`onMouseWheel` return without having offered the event to any child. -/
theorem pointer_down_wheel_eligibility_counterexample :
    (blockedSample.widgets 1).children = [2, 3] ∧
    lastEligible sampleContains blockedSample 1 ⟨5, 5⟩ = some 2 ∧
    getChildByPos sampleContains blockedSample 1 ⟨5, 5⟩ = some 3 ∧
    (blockedSample.widgets 3).enabled = false ∧
    (∃ r, onMousePressWith sampleContains acceptingHandler 5 blockedSample 1 ⟨5, 5⟩ = .ok r ∧
      r.offered = [] ∧ r.handled = false) ∧
    (∃ r, onMouseWheelWith sampleContains acceptingHandler blockedSample 1 ⟨5, 5⟩ = .ok r ∧
      r.offered = [] ∧ r.handled = false) :=
  ⟨rfl, rfl, rfl, rfl, ⟨_, rfl, rfl, rfl⟩, ⟨_, rfl, rfl, rfl⟩⟩

theorem KeepsTree.idle (s : State) : KeepsTree s s := fun _ => ⟨rfl, rfl, rfl, id⟩

theorem KeepsTree.next {s t u : State} (h1 : KeepsTree s t) (h2 : KeepsTree t u) :
    KeepsTree s u := fun x =>
  ⟨(h2 x).1.trans (h1 x).1, (h2 x).2.1.trans (h1 x).2.1, (h2 x).2.2.1.trans (h1 x).2.2.1,
    fun h => (h1 x).2.2.2 ((h2 x).2.2.2 h)⟩

theorem hmodify_pressed (h : Heap) (w : WidgetId) (f : Widget → Widget) (x : WidgetId) :
    (hmodify h w f x).pressed = if x = w then (f (h x)).pressed else (h x).pressed :=
  hmodify_proj (fun d => d.pressed) h w f x

/-- The statement `if(child->isPressed()) child->setPressed(false)`: the
child ends up not pressed, the tree is kept. -/
theorem unpress_keeps (t : State) (c : WidgetId) :
    KeepsTree t (if isPressed t c = true then setPressed t c false else t) ∧
    (((if isPressed t c = true then setPressed t c false else t).widgets c).pressed = false) := by
  by_cases hp : isPressed t c = true
  · rw [if_pos hp]
    refine ⟨fun x => ⟨?_, ?_, ?_, ?_⟩, ?_⟩
    · simp only [setPressed, modify_widgets, hmodify_children, ite_self]
    · simp only [setPressed, modify_widgets, hmodify_enabled, ite_self]
    · simp only [setPressed, modify_widgets, hmodify_visible, ite_self]
    · simp only [setPressed, modify_widgets, hmodify_pressed]
      split
      · intro h; cases h
      · exact id
    · simp only [setPressed, modify_widgets, hmodify_pressed, if_true]
  · rw [if_neg hp]
    exact ⟨KeepsTree.idle t, by simpa [isPressed] using hp⟩

/-- The loop of `onMouseRelease` over a backup list: the children offered the
event are a prefix of the list, only the last of them can have answered
"handled", the value returned says whether one did, a run that returns
`false` has gone through the whole list, and every child that was offered the
event ends up not pressed. -/
theorem dispatchRelease_spec (handler : WidgetId → State → Except Fault (Bool × State))
    (hk : HandlerKeepsTree handler) :
    ∀ (l : List WidgetId) (offered : List (WidgetId × Bool)) (s : State) (r : Routed),
      dispatchRelease handler l offered s = .ok r →
      ∃ new, r.offered = offered ++ new ∧
        new.map Prod.fst <+: l ∧
        (∀ i e, new[i]? = some e → e.2 = true → i + 1 = new.length) ∧
        (r.handled = true ↔ ∃ e ∈ new, e.2 = true) ∧
        (r.handled = false → new.map Prod.fst = l) ∧
        (∀ e ∈ new, ∃ t t', handler e.1 t = .ok (e.2, t')) ∧
        (∀ e ∈ new, (r.state.widgets e.1).pressed = false) ∧
        KeepsTree s r.state := by
  intro l
  induction l with
  | nil =>
    intro offered s r hrun
    simp only [dispatchRelease, Except.ok.injEq] at hrun
    subst hrun
    exact ⟨[], by simp, by simp, by simp, by simp, by simp, by simp, by simp, KeepsTree.idle s⟩
  | cons c rest ih =>
    intro offered s r hrun
    simp only [dispatchRelease, bind_eq_ok] at hrun
    obtain ⟨r1, hr1, hrest⟩ := hrun
    have hk1 := hk c s r1 hr1
    obtain ⟨hk2, hp2⟩ := unpress_keeps r1.2 c
    by_cases hm : r1.1 = true
    · simp only [hm, if_true, Except.ok.injEq] at hrest
      subst hrest
      refine ⟨[(c, true)], rfl, ?_, ?_, ?_, ?_, ?_, ?_, hk1.next hk2⟩
      · exact ⟨rest, rfl⟩
      · intro i e he _
        cases i with
        | zero => rfl
        | succ i => simp at he
      · simp
      · simp
      · intro e he
        simp only [List.mem_singleton] at he
        subst he
        exact ⟨s, r1.2, by rw [hr1, ← hm]⟩
      · intro e he
        simp only [List.mem_singleton] at he
        subst he
        exact hp2
    · have hf : r1.1 = false := by simpa using hm
      simp only [hf, Bool.false_eq_true, if_false] at hrest
      obtain ⟨new, ho, hpre, hlast, hh, hall, hans, hpr, hkeep⟩ := ih _ _ r hrest
      refine ⟨(c, false) :: new, ?_, ?_, ?_, ?_, ?_, ?_, ?_, (hk1.next hk2).next hkeep⟩
      · rw [ho]; simp
      · obtain ⟨t, ht⟩ := hpre
        exact ⟨t, by rw [← ht]; rfl⟩
      · intro i e he het
        cases i with
        | zero =>
          simp only [List.getElem?_cons_zero, Option.some.injEq] at he
          subst he
          cases het
        | succ i =>
          simp only [List.getElem?_cons_succ] at he
          have := hlast i e he het
          simp only [List.length_cons]
          omega
      · rw [hh]
        simp
      · intro h
        rw [List.map_cons, hall h]
      · intro e he
        rcases List.mem_cons.1 he with h | h
        · subst h
          exact ⟨s, r1.2, by rw [hr1, ← hf]⟩
        · exact hans e h
      · intro e he
        rcases List.mem_cons.1 he with h | h
        · subst h
          cases hb : (r.state.widgets c).pressed with
          | false => rfl
          | true =>
            have := (hkeep c).2.2.2 hb
            rw [hp2] at this
            cases this
        · exact hpr e h

theorem dispatchRelease_total (handler : WidgetId → State → Except Fault (Bool × State))
    (hh : ∀ c t, ∃ r, handler c t = .ok r) :
    ∀ (l : List WidgetId) (offered : List (WidgetId × Bool)) (s : State),
      ∃ r, dispatchRelease handler l offered s = .ok r := by
  intro l
  induction l with
  | nil => intro offered s; exact ⟨_, rfl⟩
  | cons c rest ih =>
    intro offered s
    obtain ⟨r1, hr1⟩ := hh c s
    simp only [dispatchRelease, hr1, ok_bind]
    by_cases hm : r1.1 = true
    · simp only [hm, if_true]
      exact ⟨_, rfl⟩
    · simp only [hm, Bool.false_eq_true, if_false]
      exact ih _ _

/-- The base implementation of `onMouseRelease` is a handler that keeps the
tree. -/
theorem onMouseRelease_keepsTree (pos : Point) :
    ∀ n, HandlerKeepsTree (fun child t => onMouseRelease n t child pos) := by
  intro n
  induction n with
  | zero =>
    intro c t r h
    simp [onMouseRelease] at h
  | succ n ih =>
    intro c t r h
    simp only [onMouseRelease, onMouseReleaseWith] at h
    cases hd : dispatchRelease (fun child t => onMouseRelease n t child pos)
        (mouseReleaseTargets t c) [] t with
    | error e => rw [hd] at h; cases h
    | ok q =>
      rw [hd] at h
      cases h
      obtain ⟨_, _, _, _, _, _, _, _, hkeep⟩ := dispatchRelease_spec _ ih _ _ _ _ hd
      exact hkeep

theorem mouseReleaseTargets_eq (s : State) (self : WidgetId) :
    mouseReleaseTargets s self
      = (s.widgets self).children.filter (fun c => (s.widgets c).enabled && (s.widgets c).visible) := by
  unfold mouseReleaseTargets
  congr 1
  funext c
  simp only [isExplicitlyEnabled, isExplicitlyVisible]
  cases (s.widgets c).enabled <;> cases (s.widgets c).visible <;> rfl

/-- C20 (pointer-up).  With child handlers that keep the tree (children
sequences, explicit enabled and visible flags) and press no widget, for every
widget and every pointer position: the backup list of `onMouseRelease` holds
the explicitly enabled and explicitly visible children in list order, without
any test of the position; a call that returns has offered the event to a
prefix of that list, in order, only the last child offered can have answered
"handled", the value returned is `true` exactly when one did, and every child
that was offered the event is not pressed afterwards; when the call returns
`false` every child of the backup list was offered the event and no explicitly
enabled and visible child is left pressed.  With handlers that return, the
call returns. -/
theorem pointer_up_routing (handler : Point → WidgetId → State → Except Fault (Bool × State))
    (hk : ∀ pos, HandlerKeepsTree (handler pos)) (s : State) (self : WidgetId) (pos : Point) :
    mouseReleaseTargets s self
      = (s.widgets self).children.filter
          (fun c => (s.widgets c).enabled && (s.widgets c).visible) ∧
    (∀ r, onMouseReleaseWith (handler pos) s self = .ok r →
      r.offered.map Prod.fst <+: mouseReleaseTargets s self ∧
      (∀ i e, r.offered[i]? = some e → e.2 = true → i + 1 = r.offered.length) ∧
      (r.handled = true ↔ ∃ e ∈ r.offered, e.2 = true) ∧
      (∀ e ∈ r.offered, ∃ t t', handler pos e.1 t = .ok (e.2, t')) ∧
      (∀ e ∈ r.offered, (r.state.widgets e.1).pressed = false) ∧
      (r.handled = false →
        r.offered.map Prod.fst = mouseReleaseTargets s self ∧
        ∀ c ∈ (r.state.widgets self).children, (r.state.widgets c).enabled = true →
          (r.state.widgets c).visible = true → (r.state.widgets c).pressed = false)) ∧
    ((∀ c t, ∃ r, handler pos c t = .ok r) →
      ∃ r, onMouseReleaseWith (handler pos) s self = .ok r) := by
  refine ⟨mouseReleaseTargets_eq s self, fun r hrun => ?_,
    fun hh => dispatchRelease_total (handler pos) hh _ _ _⟩
  unfold onMouseReleaseWith at hrun
  obtain ⟨new, ho, hpre, hlast, hh, hall, hans, hpr, hkeep⟩ :=
    dispatchRelease_spec (handler pos) (hk pos) _ _ _ _ hrun
  rw [List.nil_append] at ho
  subst ho
  refine ⟨hpre, hlast, hh, hans, hpr, fun hf => ⟨hall hf, fun c hc he hv => ?_⟩⟩
  have hmem : c ∈ mouseReleaseTargets s self := by
    rw [mouseReleaseTargets_eq, List.mem_filter]
    rw [(hkeep self).1] at hc
    rw [(hkeep c).2.1] at he
    rw [(hkeep c).2.2.1] at hv
    exact ⟨hc, by simp [he, hv]⟩
  rw [← hall hf, List.mem_map] at hmem
  obtain ⟨e, he', hce⟩ := hmem
  rw [← hce]
  exact hpr e he'

theorem pointer_up_routing_witness :
    (∀ pos, HandlerKeepsTree (fun child t => onMouseRelease 2 t child pos)) ∧
    (mouseReleaseTargets pressedSample 1
      = (pressedSample.widgets 1).children.filter
          (fun c => (pressedSample.widgets c).enabled && (pressedSample.widgets c).visible) ∧
    (∀ r, onMouseReleaseWith (fun child t => onMouseRelease 2 t child ⟨50, 50⟩) pressedSample 1
        = .ok r →
      r.offered.map Prod.fst <+: mouseReleaseTargets pressedSample 1 ∧
      (∀ i e, r.offered[i]? = some e → e.2 = true → i + 1 = r.offered.length) ∧
      (r.handled = true ↔ ∃ e ∈ r.offered, e.2 = true) ∧
      (∀ e ∈ r.offered, ∃ t t', onMouseRelease 2 t e.1 ⟨50, 50⟩ = .ok (e.2, t')) ∧
      (∀ e ∈ r.offered, (r.state.widgets e.1).pressed = false) ∧
      (r.handled = false →
        r.offered.map Prod.fst = mouseReleaseTargets pressedSample 1 ∧
        ∀ c ∈ (r.state.widgets 1).children, (r.state.widgets c).enabled = true →
          (r.state.widgets c).visible = true → (r.state.widgets c).pressed = false)) ∧
    ((∀ c t, ∃ r, onMouseRelease 2 t c ⟨50, 50⟩ = .ok r) →
      ∃ r, onMouseReleaseWith (fun child t => onMouseRelease 2 t child ⟨50, 50⟩) pressedSample 1
        = .ok r)) :=
  ⟨fun pos => onMouseRelease_keepsTree pos 2,
    pointer_up_routing (fun pos child t => onMouseRelease 2 t child pos)
      (fun pos => onMouseRelease_keepsTree pos 2) pressedSample 1 ⟨50, 50⟩⟩

/-- The code of `onMouseRelease` run on widget 1 of `pressedSample`, whose
children 2 and 3 are pressed, with the pointer away from both.  With the base
handlers the call returns `false` after offering the event to 2 and to 3, and
neither is pressed afterwards; with handlers that answer "handled" it returns
`true` after offering the event to 2 only, and 3, which was not offered the
event, is still pressed. -/
theorem onMouseRelease_sample :
    (∃ r, onMouseReleaseWith (fun child t => onMouseRelease 2 t child ⟨50, 50⟩) pressedSample 1
        = .ok r ∧
      r.handled = false ∧ r.offered = [(2, false), (3, false)] ∧
      (r.state.widgets 2).pressed = false ∧ (r.state.widgets 3).pressed = false) ∧
    (∃ r, onMouseReleaseWith acceptingHandler pressedSample 1 = .ok r ∧
      r.handled = true ∧ r.offered = [(2, true)] ∧
      (r.state.widgets 2).pressed = false ∧ (r.state.widgets 3).pressed = true) :=
  ⟨⟨_, rfl, rfl, rfl, rfl, rfl⟩, ⟨_, rfl, rfl, rfl, rfl, rfl⟩⟩

theorem OnlyFuel.of_ok {α : Type} (a : α) : OnlyFuel (Except.ok a : Except Fault α) :=
  fun _ h => by cases h

theorem OnlyFuel.of_fuel {α : Type} : OnlyFuel (Except.error .fuel : Except Fault α) :=
  fun _ h => by cases h; rfl

theorem OnlyFuel.of_bind {α β : Type} {x : Except Fault α} {f : α → Except Fault β}
    (hx : OnlyFuel x) (hf : ∀ a, x = .ok a → OnlyFuel (f a)) : OnlyFuel (x >>= f) := by
  cases hxa : x with
  | error e =>
    intro e' h
    rw [error_bind] at h
    cases h
    exact hx e hxa
  | ok a =>
    rw [ok_bind]
    exact hf a hxa

theorem OnlyFuel.of_map {α β : Type} {x : Except Fault α} (f : α → β) (hx : OnlyFuel x) :
    OnlyFuel (x.map f) := by
  cases hxa : x with
  | error e =>
    intro e' h
    cases h
    exact hx e hxa
  | ok a => exact fun _ h => by cases h

theorem activeWalk_onlyFuel (s : State) : ∀ (n : Nat) (w : WidgetId), OnlyFuel (activeWalk n s w) := by
  intro n
  induction n with
  | zero => intro w; rw [activeWalk]; exact OnlyFuel.of_fuel
  | succ n ih =>
    intro w
    rw [activeWalk]
    split
    · exact OnlyFuel.of_ok _
    · split
      · exact ih _
      · exact OnlyFuel.of_ok _

theorem hoverWalk_onlyFuel (ct : Rect → Point → Bool) (s : State) :
    ∀ (n : Nat) (w : WidgetId), OnlyFuel (hoverWalk ct n s w) := by
  intro n
  induction n with
  | zero => intro w; rw [hoverWalk]; exact OnlyFuel.of_fuel
  | succ n ih =>
    intro w
    rw [hoverWalk]
    split
    · exact OnlyFuel.of_ok _
    · split
      · exact ih _
      · exact OnlyFuel.of_ok _

theorem disabledWalk_onlyFuel (s : State) :
    ∀ (n : Nat) (w : WidgetId), OnlyFuel (disabledWalk n s w) := by
  intro n
  induction n with
  | zero => intro w; rw [disabledWalk]; exact OnlyFuel.of_fuel
  | succ n ih =>
    intro w
    rw [disabledWalk]
    split
    · exact OnlyFuel.of_ok _
    · split
      · exact ih _
      · exact OnlyFuel.of_ok _

theorem deriveStatus_onlyFuel (ct : Rect → Point → Bool) (n : Nat) (s : State) (w : WidgetId)
    (st : WidgetState) : OnlyFuel (deriveStatus ct n s w st) := by
  cases st <;> simp only [deriveStatus]
  · exact OnlyFuel.of_ok _
  · exact OnlyFuel.of_map _ (activeWalk_onlyFuel s n w)
  · exact OnlyFuel.of_ok _
  · exact OnlyFuel.of_map _ (hoverWalk_onlyFuel ct s n w)
  · exact OnlyFuel.of_ok _
  · exact OnlyFuel.of_map _ (disabledWalk_onlyFuel s n w)

theorem foldlM_onlyFuel {α : Type} (f : State → α → Except Fault State)
    (l : List α) (hf : ∀ a ∈ l, ∀ s, OnlyFuel (f s a)) : ∀ s, OnlyFuel (l.foldlM f s) := by
  induction l with
  | nil => intro s; exact OnlyFuel.of_ok _
  | cons a l ih =>
    intro s
    rw [List.foldlM_cons]
    exact OnlyFuel.of_bind (hf a (List.mem_cons_self _ _) s)
      (fun t _ => ih (fun b hb => hf b (List.mem_cons_of_mem _ hb)) t)

/-- The state cascade raises no assertion and dereferences no null pointer. -/
theorem updateState_onlyFuel (ct : Rect → Point → Bool) :
    ∀ (n : Nat) (s : State) (w : WidgetId) (st : WidgetState),
      OnlyFuel (updateState ct n s w st) := by
  intro n
  induction n with
  | zero => intro s w st; rw [updateState]; exact OnlyFuel.of_fuel
  | succ n ih =>
    intro s w st e h
    rw [updateState] at h
    split at h
    · rename_i e' hd
      cases h
      exact deriveStatus_onlyFuel ct n s w st _ hd
    · cases h
    · split at h
      · rename_i e' hc
        cases h
        split at hc
        · exact foldlM_onlyFuel _ _ (fun c _ t => ih t c st) s _ hc
        · cases hc
      · cases h

theorem updateStates_onlyFuel (ct : Rect → Point → Bool) (n : Nat) (s : State) (w : WidgetId) :
    OnlyFuel (updateStates ct n s w) := by
  unfold updateStates
  exact OnlyFuel.of_bind (updateState_onlyFuel ct n s w _) (fun s1 _ =>
    OnlyFuel.of_bind (updateState_onlyFuel ct n s1 w _) (fun s2 _ =>
      OnlyFuel.of_bind (updateState_onlyFuel ct n s2 w _) (fun s3 _ =>
        updateState_onlyFuel ct n s3 w _)))

theorem refocus_onlyFuel (ct : Rect → Point → Bool) (n : Nat) (s : State) (w : Option WidgetId)
    (reason : FocusReason) : OnlyFuel (refocus ct n s w reason) := by
  cases w with
  | none => exact OnlyFuel.of_ok _
  | some c =>
    simp only [refocus]
    exact OnlyFuel.of_bind (updateState_onlyFuel ct n _ c _)
      (fun a _ => updateState_onlyFuel ct n a c _)

theorem focusChild_onlyFuel (ct : Rect → Point → Bool) (n : Nat) (s : State) (self : WidgetId)
    (child : Option WidgetId) (reason : FocusReason) :
    OnlyFuel (focusChild ct n s self child reason) := by
  unfold focusChild
  split
  · exact OnlyFuel.of_ok _
  · split
    · exact OnlyFuel.of_bind (refocus_onlyFuel ct n _ _ _)
        (fun s2 _ => refocus_onlyFuel ct n s2 _ _)
    · exact OnlyFuel.of_ok _

/-- On a child whose parent reference is right and whose parent owns a
layout, `removeChild` raises no assertion and dereferences no null pointer. -/
theorem removeChild_onlyFuel (ct : Rect → Point → Bool) (n : Nat) (s : State) (self c : WidgetId)
    (hc : c ∈ (s.widgets self).children) (hnd : (s.widgets self).children.Nodup)
    (hp : (s.widgets c).parent = some self) (hl : (s.widgets self).layout.isSome = true) :
    OnlyFuel (removeChild ct n s self (some c)) := by
  cases n with
  | zero =>
    rw [removeChild]
    exact OnlyFuel.of_fuel
  | succ n =>
    rw [removeChild]
    simp only [contains_decide, hc, decide_True, if_true]
    refine OnlyFuel.of_bind ?_ (fun s1 h1 => ?_)
    · split
      · exact focusChild_onlyFuel ct n s self none _
      · exact OnlyFuel.of_ok _
    · have o1 : Outcome s s1 (defocusH s.widgets self c) := by
        unfold defocusH
        split at h1
        · rename_i hf
          rw [if_pos hf]
          exact (focusChild_spec ct n s self none _).1 s1 h1
        · rename_i hf
          rw [if_neg hf]
          cases h1
          exact Outcome.unchanged s
      have hc1 : c ∈ (s1.widgets self).children := by
        rw [o1.1, defocusH_field (fun d => d.children) (fun _ _ => rfl) (fun _ _ => rfl)]
        exact hc
      rw [unlockChild_eq s1 self c hc1, ok_bind, o1.1]
      have hpar : getParent (State.modify
          { s1 with widgets := unlockChildH (defocusH s.widgets self c) self c } self
          (fun d => { d with children := d.children.erase c })) c = (s.widgets c).parent := by
        simp only [getParent, modify_widgets]
        simp only [hmodify_parent, ite_self, unlock_defocus_parent]
      split
      · rename_i hne
        rw [hpar, hp] at hne
        simp at hne
      · cases n with
        | zero =>
          rw [setParent]
          exact OnlyFuel.of_fuel
        | succ m =>
          rw [setParent_none_eq ct m _ c self (by rw [← hp]; exact hpar)
            (by
              simp only [modify_widgets, hmodify_apply, if_true]
              rw [unlock_defocus_children]
              exact hnd.not_mem_erase), ok_bind]
          have hlay : ((State.modify (State.modify
              { s1 with widgets := unlockChildH (defocusH s.widgets self c) self c } self
              (fun d => { d with children := d.children.erase c })) c
              (fun d => { d with parent := none })).widgets self).layout
              = (s.widgets self).layout := by
            simp only [modify_widgets]
            simp only [hmodify_layout, ite_self, unlock_defocus_layout]
          split
          · rename_i hnone
            rw [hlay] at hnone
            rw [hnone] at hl
            simp at hl
          · exact updateStates_onlyFuel ct _ _ _

/-- The recursion of a direct `setParent(p)` on a widget attached to `p`,
when `p` owns a layout: every amount of fuel is used up. -/
theorem setParent_loop_fuel (ct : Rect → Point → Bool) (w p : WidgetId) :
    ∀ (n : Nat) (s : State), (s.widgets w).parent = some p → w ∈ (s.widgets p).children →
      (s.widgets p).children.Nodup → (s.widgets p).layout.isSome = true →
      setParent ct n s w (some p) = .error .fuel := by
  intro n
  induction n using Nat.strong_induction_on with
  | _ n ih =>
    intro s hp hc hnd hl
    cases n with
    | zero => rw [setParent]
    | succ n =>
      rw [setParent]
      have hhas : hasChild s p (some w) = true := by
        simp only [hasChild, contains_decide, hc, decide_True]
      simp only [getParent, hp, hhas, if_true]
      cases hrem : removeChild ct n s p (some w) with
      | error e =>
        rw [removeChild_onlyFuel ct n s p w hc hnd hp hl e hrem]
        rfl
      | ok s1 =>
        rw [ok_bind]
        have ho := (removeChild_spec ct n s p w hc hnd).1 s1 hrem
        have hch : (s1.widgets p).children = (s.widgets p).children.erase w := by
          rw [ho.1, removeChildH_children]; simp
        have hl1 : (s1.widgets p).layout.isSome = true := by
          rw [ho.1, removeChildH_layout, if_pos rfl]
          cases hlay : (s.widgets p).layout with
          | none => rw [hlay] at hl; cases hl
          | some l => rfl
        have hnm : w ∉ (s1.widgets p).children := by
          rw [hch]; exact fun hm => (List.Nodup.mem_erase_iff hnd).1 hm |>.1 rfl
        simp only [hasChild, contains_decide, modify_widgets, hmodify_children, ite_self, hnm,
          decide_False, Bool.not_false, if_true]
        cases n with
        | zero => rw [addChild]
        | succ m =>
          rw [addChild]
          simp only [hasChild, contains_decide, modify_widgets, hmodify_children, ite_self, hnm,
            decide_False, Bool.false_eq_true, if_false]
          rw [ih m (by omega) _ ?_ ?_ ?_ ?_]
          · rfl
          · simp [modify_widgets, hmodify_parent]
          · simp [modify_widgets, hmodify_children]
          · simp only [modify_widgets, hmodify_children, ite_self, if_true, hch]
            exact nodup_erase_append_self _ _ hnd
          · simp only [modify_widgets, hmodify_layout, ite_self]
            exact hl1

/-- The direct call `w.setParent(p)` on a parent that owns a layout and does
not list `w`, in a tree with consistent links: every amount of fuel is used
up. -/
theorem setParent_attach_fuel (ct : Rect → Point → Bool) (s : State) (w p : WidgetId)
    (hint : Integrity s.widgets) (hnd : NodupChildren s.widgets) (hlp : LayoutPresent s.widgets)
    (hnc : w ∉ (s.widgets p).children) (hl : (s.widgets p).layout.isSome = true) :
    ∀ fuel, setParent ct fuel s w (some p) = .error .fuel := by
  intro fuel
  cases fuel with
  | zero => rw [setParent]
  | succ n =>
    rw [setParent]
    have hfin : ∀ s1 : State, (s1.widgets p).children = (s.widgets p).children →
        (s1.widgets p).layout.isSome = true →
        (let s3 := State.modify (State.modify s1 w (fun d => { d with parent := none })) w
            (fun d => { d with parent := some p })
          if (!hasChild s3 p (some w)) = true then addChild ct n s3 p (some w)
          else Except.ok s3) = .error .fuel := by
      intro s1 hch hl1
      have hnm : w ∉ (s1.widgets p).children := by rw [hch]; exact hnc
      simp only [hasChild, contains_decide, modify_widgets, hmodify_children, ite_self, hnm,
        decide_False, Bool.not_false, if_true]
      cases n with
      | zero => rw [addChild]
      | succ m =>
        rw [addChild]
        simp only [hasChild, contains_decide, modify_widgets, hmodify_children, ite_self, hnm,
          decide_False, Bool.false_eq_true, if_false]
        rw [setParent_loop_fuel ct w p m _ ?_ ?_ ?_ ?_]
        · rfl
        · simp [modify_widgets, hmodify_parent]
        · simp [modify_widgets, hmodify_children]
        · simp only [modify_widgets, hmodify_children, ite_self, if_true, hch]
          exact List.Nodup.append (hnd p) (List.nodup_singleton w)
            (by
              intro a ha hb
              rw [List.mem_singleton] at hb
              subst hb
              exact hnc ha)
        · simp only [modify_widgets, hmodify_layout, ite_self]
          exact hl1
    cases hq : getParent s w with
    | none =>
      simp only [ok_bind]
      exact hfin s rfl hl
    | some q =>
      simp only [getParent] at hq
      have hcq : w ∈ (s.widgets q).children := (hint w q).2 hq
      have hhas : hasChild s q (some w) = true := by
        simp only [hasChild, contains_decide, hcq, decide_True]
      simp only [hhas, if_true]
      have hqp : p ≠ q := fun e => hnc (e ▸ hcq)
      cases hrem : removeChild ct n s q (some w) with
      | error e =>
        rw [removeChild_onlyFuel ct n s q w hcq (hnd q) hq
          (hlp q (List.ne_nil_of_mem hcq)) e hrem]
        rfl
      | ok s1 =>
        rw [ok_bind]
        have ho := (removeChild_spec ct n s q w hcq (hnd q)).1 s1 hrem
        refine hfin s1 ?_ ?_
        · rw [ho.1, removeChildH_children, if_neg hqp]
        · rw [ho.1, removeChildH_layout, if_neg hqp]
          exact hl

/-- C11 (idempotent `setParent`), refuted on the code.  For a widget `w`
whose parent is `p` and which `p` lists as a child (once), the direct call
`w.setParent(p)` never returns, whatever the fuel: it removes `w` from `p`,
writes the parent reference back and calls `p.addChild(w)`, whose
`w.setParent(p)` finds `w` attached to `p` again.  When `p` owns a layout, as
a parent that got its children from `addChild` does, no assertion fails on
the way: the recursion uses up every amount of fuel. -/
theorem setParent_same_parent_never_returns (ct : Rect → Point → Bool) (s : State)
    (w p : WidgetId) (hp : (s.widgets w).parent = some p) (hc : w ∈ (s.widgets p).children)
    (hnd : (s.widgets p).children.Nodup) :
    (∀ fuel s', setParent ct fuel s w (some p) ≠ .ok s') ∧
    ((s.widgets p).layout.isSome = true →
      ∀ fuel, setParent ct fuel s w (some p) = .error .fuel) :=
  ⟨fun fuel => setParent_loop ct w p fuel s hp hc hnd,
    fun hl fuel => setParent_loop_fuel ct w p fuel s hp hc hnd hl⟩

theorem setParent_same_parent_never_returns_witness :
    (sampleTree.widgets 2).parent = some 1 ∧ 2 ∈ (sampleTree.widgets 1).children ∧
    (sampleTree.widgets 1).children.Nodup ∧
    ((∀ fuel s', setParent sampleContains fuel sampleTree 2 (some 1) ≠ .ok s') ∧
    ((sampleTree.widgets 1).layout.isSome = true →
      ∀ fuel, setParent sampleContains fuel sampleTree 2 (some 1) = .error .fuel)) :=
  ⟨rfl, by decide, by decide,
    setParent_same_parent_never_returns sampleContains sampleTree 2 1 rfl (by decide)
      (by decide)⟩

/-- C12 (`setParent` attaches), refuted on the code.  In a tree whose
children sequences list no widget twice, the direct call `w.setParent(p)` on
a parent `p` that does not list `w` never returns, whatever the fuel: after
the old parent dropped `w`, the parent reference is set to `p` first and
`p.addChild(w)` then calls `w.setParent(p)` on a widget that is attached to
`p`, which removes it and starts over.  In a tree with consistent links whose
parents own layouts, with `p` owning a layout, no assertion fails on the way:
the recursion uses up every amount of fuel. -/
theorem setParent_attach_never_returns (ct : Rect → Point → Bool) (s : State) (w p : WidgetId)
    (hnd : NodupChildren s.widgets) (hnc : w ∉ (s.widgets p).children) :
    (∀ fuel s', setParent ct fuel s w (some p) ≠ .ok s') ∧
    (Integrity s.widgets → LayoutPresent s.widgets → (s.widgets p).layout.isSome = true →
      ∀ fuel, setParent ct fuel s w (some p) = .error .fuel) := by
  refine ⟨fun fuel s' hrun => ?_,
    fun hint hlp hl => setParent_attach_fuel ct s w p hint hnd hlp hnc hl⟩
  cases fuel with
  | zero => rw [setParent] at hrun; cases hrun
  | succ n =>
    rw [setParent] at hrun
    obtain ⟨s1, hs1, hrun⟩ := (bind_eq_ok _ _ _).1 hrun
    have hch : (s1.widgets p).children = (s.widgets p).children := by
      cases hq : getParent s w with
      | none => rw [hq] at hs1; cases hs1; rfl
      | some q =>
        rw [hq] at hs1
        simp only [hasChild, contains_decide, decide_eq_true_eq] at hs1
        by_cases hcq : w ∈ (s.widgets q).children
        · rw [if_pos hcq] at hs1
          have ho := (removeChild_spec ct n s q w hcq (hnd q)).1 s1 hs1
          have hqp : p ≠ q := fun e => hnc (e ▸ hcq)
          rw [ho.1, removeChildH_children, if_neg hqp]
        · rw [if_neg hcq] at hs1; cases hs1; rfl
    have hnm : w ∉ (s1.widgets p).children := by rw [hch]; exact hnc
    simp only [hasChild, contains_decide, modify_widgets, hmodify_children, ite_self, hnm,
      decide_False, Bool.not_false, if_true] at hrun
    cases n with
    | zero => rw [addChild] at hrun; cases hrun
    | succ m =>
      rw [addChild] at hrun
      simp only [hasChild, contains_decide, modify_widgets, hmodify_children, ite_self, hnm,
        decide_False, Bool.false_eq_true, if_false] at hrun
      obtain ⟨s2, hs2, -⟩ := (bind_eq_ok _ _ _).1 hrun
      refine setParent_loop ct w p m _ ?_ ?_ ?_ s2 hs2
      · simp [modify_widgets, hmodify_parent]
      · simp [modify_widgets, hmodify_children]
      · simp only [modify_widgets, hmodify_children, ite_self, if_true, hch]
        exact List.Nodup.append (hnd p) (List.nodup_singleton w)
          (by
            intro a ha hb
            rw [List.mem_singleton] at hb
            subst hb
            exact hnc ha)

theorem setParent_attach_never_returns_witness :
    NodupChildren sampleTree.widgets ∧ 3 ∉ (sampleTree.widgets 1).children ∧
    (sampleTree.widgets 1).layout.isSome = true ∧
    (∀ k, up sampleTree.widgets k 1 ≠ some 3) ∧
    ((∀ fuel s', setParent sampleContains fuel sampleTree 3 (some 1) ≠ .ok s') ∧
    (Integrity sampleTree.widgets → LayoutPresent sampleTree.widgets →
      (sampleTree.widgets 1).layout.isSome = true →
      ∀ fuel, setParent sampleContains fuel sampleTree 3 (some 1) = .error .fuel)) :=
  ⟨sampleTree_wellFormed.nodup, by decide, rfl,
    fun k => by
      rw [up_of_root sampleTree.widgets 1 rfl k]
      split <;> simp,
    setParent_attach_never_returns sampleContains sampleTree 3 1 sampleTree_wellFormed.nodup
      (by decide)⟩

/-- The code of `setParent` run on the sample tree (widget 1 with the child
2): re-parenting the child 2 to its parent 1 and attaching the detached
widget 3 to 1 both use up the fuel. -/
theorem setParent_direct_sample :
    setParent sampleContains 7 sampleTree 2 (some 1) = .error .fuel ∧
    setParent sampleContains 9 sampleTree 3 (some 1) = .error .fuel :=
  ⟨rfl, rfl⟩

theorem and_byte (x : Nat) (hx : x < 256) : x &&& 0xff = x := by
  have h := Nat.and_pow_two_sub_one_eq_mod x 8
  have e : (2 : Nat) ^ 8 - 1 = 0xff := by norm_num
  rw [e] at h
  rw [h]
  omega

/-- The packed word is the sum of the shifted channels. -/
theorem Color.pack_eq (r g b a : Nat) (hr : r < 256) (hg : g < 256) (hb : b < 256)
    (ha : a < 256) : Color.pack r g b a = a * 2 ^ 24 + b * 2 ^ 16 + g * 2 ^ 8 + r := by
  unfold Color.pack
  rw [and_byte a ha, and_byte b hb, and_byte g hg, and_byte r hr]
  simp only [Nat.shiftLeft_eq]
  have h1 : g * 2 ^ 8 ||| r = g * 2 ^ 8 + r := by
    have := Nat.mul_add_lt_is_or (show r < 2 ^ 8 by omega) g
    rw [Nat.mul_comm] at this
    rw [this]
  have h2 : b * 2 ^ 16 ||| (g * 2 ^ 8 + r) = b * 2 ^ 16 + (g * 2 ^ 8 + r) := by
    have := Nat.mul_add_lt_is_or (show g * 2 ^ 8 + r < 2 ^ 16 by omega) b
    rw [Nat.mul_comm] at this
    rw [this]
  have h3 : a * 2 ^ 24 ||| (b * 2 ^ 16 + (g * 2 ^ 8 + r))
      = a * 2 ^ 24 + (b * 2 ^ 16 + (g * 2 ^ 8 + r)) := by
    have := Nat.mul_add_lt_is_or (show b * 2 ^ 16 + (g * 2 ^ 8 + r) < 2 ^ 24 by omega) a
    rw [Nat.mul_comm] at this
    rw [this]
  rw [Nat.lor_assoc, Nat.lor_assoc, h1, h2, h3]
  omega

theorem Color.channels_of_word (r g b a : Nat) (hr : r < 256) (hg : g < 256) (hb : b < 256)
    (ha : a < 256) (c : Color) (hc : c.color = a * 2 ^ 24 + b * 2 ^ 16 + g * 2 ^ 8 + r) :
    c.r = r ∧ c.g = g ∧ c.b = b ∧ c.a = a := by
  have e : (0xFF : Nat) = 2 ^ 8 - 1 := by norm_num
  simp only [Color.r, Color.g, Color.b, Color.a, hc, Nat.shiftRight_eq_div_pow, e,
    Nat.and_pow_two_sub_one_eq_mod]
  refine ⟨?_, ?_, ?_, ?_⟩ <;> omega

/-- C23 (Color channel round trip).  For all bytes `r`, `g`, `b`, `a`: the
colour `Color(r, g, b, a)` has `r() = r`, `g() = g`, `b() = b`, `a() = a` and
the word `rgba() = a * 2^24 + b * 2^16 + g * 2^8 + r`, which is below `2^32`;
`Color(r, g, b)` has `a() = 255`; and the same holds for any colour after
`setRGBA(r, g, b, a)`. -/
theorem color_round_trip (r g b a : Nat) (hr : r < 256) (hg : g < 256) (hb : b < 256)
    (ha : a < 256) (c : Color) :
    ((Color.ofRGBA r g b a).r = r ∧ (Color.ofRGBA r g b a).g = g ∧
      (Color.ofRGBA r g b a).b = b ∧ (Color.ofRGBA r g b a).a = a) ∧
    (Color.ofRGBA r g b a).rgba = a * 2 ^ 24 + b * 2 ^ 16 + g * 2 ^ 8 + r ∧
    (Color.ofRGBA r g b a).rgba < 2 ^ 32 ∧
    ((Color.ofRGB r g b).a = 255 ∧ (Color.ofRGB r g b).r = r ∧ (Color.ofRGB r g b).g = g ∧
      (Color.ofRGB r g b).b = b) ∧
    ((c.setRGBA r g b a).r = r ∧ (c.setRGBA r g b a).g = g ∧ (c.setRGBA r g b a).b = b ∧
      (c.setRGBA r g b a).a = a) ∧
    (c.setRGBA r g b a).rgba = a * 2 ^ 24 + b * 2 ^ 16 + g * 2 ^ 8 + r := by
  have hw := Color.pack_eq r g b a hr hg hb ha
  have hw255 := Color.pack_eq r g b 0xFF hr hg hb (by norm_num)
  have h255 := Color.channels_of_word r g b 0xFF hr hg hb (by norm_num) (Color.ofRGB r g b) hw255
  refine ⟨Color.channels_of_word r g b a hr hg hb ha _ hw, hw, ?_,
    ⟨h255.2.2.2, h255.1, h255.2.1, h255.2.2.1⟩,
    Color.channels_of_word r g b a hr hg hb ha _ hw, hw⟩
  show Color.pack r g b a < 2 ^ 32
  rw [hw]
  omega

theorem color_round_trip_witness :
    (0x12 : Nat) < 256 ∧ (0xAB : Nat) < 256 ∧ (0xFF : Nat) < 256 ∧ (0x80 : Nat) < 256 ∧
    (((Color.ofRGBA 0x12 0xAB 0xFF 0x80).r = 0x12 ∧ (Color.ofRGBA 0x12 0xAB 0xFF 0x80).g = 0xAB ∧
      (Color.ofRGBA 0x12 0xAB 0xFF 0x80).b = 0xFF ∧ (Color.ofRGBA 0x12 0xAB 0xFF 0x80).a = 0x80) ∧
    (Color.ofRGBA 0x12 0xAB 0xFF 0x80).rgba = 0x80 * 2 ^ 24 + 0xFF * 2 ^ 16 + 0xAB * 2 ^ 8 + 0x12 ∧
    (Color.ofRGBA 0x12 0xAB 0xFF 0x80).rgba < 2 ^ 32 ∧
    ((Color.ofRGB 0x12 0xAB 0xFF).a = 255 ∧ (Color.ofRGB 0x12 0xAB 0xFF).r = 0x12 ∧
      (Color.ofRGB 0x12 0xAB 0xFF).g = 0xAB ∧ (Color.ofRGB 0x12 0xAB 0xFF).b = 0xFF) ∧
    (((⟨0xDEADBEEF⟩ : Color).setRGBA 0x12 0xAB 0xFF 0x80).r = 0x12 ∧
      ((⟨0xDEADBEEF⟩ : Color).setRGBA 0x12 0xAB 0xFF 0x80).g = 0xAB ∧
      ((⟨0xDEADBEEF⟩ : Color).setRGBA 0x12 0xAB 0xFF 0x80).b = 0xFF ∧
      ((⟨0xDEADBEEF⟩ : Color).setRGBA 0x12 0xAB 0xFF 0x80).a = 0x80) ∧
    ((⟨0xDEADBEEF⟩ : Color).setRGBA 0x12 0xAB 0xFF 0x80).rgba
      = 0x80 * 2 ^ 24 + 0xFF * 2 ^ 16 + 0xAB * 2 ^ 8 + 0x12) :=
  ⟨by decide, by decide, by decide, by decide,
    color_round_trip 0x12 0xAB 0xFF 0x80 (by decide) (by decide) (by decide) (by decide)
      ⟨0xDEADBEEF⟩⟩

/-- The code of `Color` run on sample bytes: the word of `Color(0x12, 0xAB,
0xFF, 0x80)` is `0x80FFAB12`. -/
theorem color_sample :
    (Color.ofRGBA 0x12 0xAB 0xFF 0x80).rgba = 0x80FFAB12 ∧
    (Color.ofRGBA 0x12 0xAB 0xFF 0x80).g = 0xAB ∧ (Color.ofRGB 1 2 3).a = 0xFF := by
  decide

/-- What `getChildByIndex` answers on a children sequence with `x` at
position `i`, for an index that the conversion maps to `i`. -/
theorem getChildByIndex_at (s : State) (p x : WidgetId) (l r : List WidgetId) (j : Int)
    (hch : (s.widgets p).children = l ++ x :: r)
    (hj : (if j ≤ 0 then ((l ++ x :: r).length : Int) + j else j - 1) = (l.length : Int)) :
    getChildByIndex s p j = some x := by
  unfold getChildByIndex
  simp only [hch, hj]
  have h1 : (decide ((0 : Int) ≤ (l.length : Int)) &&
      decide ((l.length : Int) < ((l ++ x :: r).length : Int))) = true := by
    simp only [Bool.and_eq_true, decide_eq_true_eq]
    refine ⟨Int.natCast_nonneg _, ?_⟩
    rw [List.length_append, List.length_cons]
    omega
  rw [if_pos h1, Int.toNat_ofNat, List.getElem?_append_right (Nat.le_refl _), Nat.sub_self]
  exact List.getElem?_cons_zero

theorem getChildByIndex_zero (s : State) (p : WidgetId) : getChildByIndex s p 0 = none := by
  unfold getChildByIndex
  simp

theorem getChildByIndex_outside (s : State) (p : WidgetId) (j : Int)
    (hj : j < -((s.widgets p).children.length : Int) ∨
      ((s.widgets p).children.length : Int) < j) : getChildByIndex s p j = none := by
  unfold getChildByIndex
  have h : (decide (0 ≤ (if j ≤ 0 then ((s.widgets p).children.length : Int) + j else j - 1)) &&
      decide ((if j ≤ 0 then ((s.widgets p).children.length : Int) + j else j - 1)
        < ((s.widgets p).children.length : Int))) = false := by
    rw [Bool.and_eq_false_iff]
    by_cases h0 : j ≤ 0
    · rw [if_pos h0]
      left
      simp only [decide_eq_false_iff_not]
      omega
    · rw [if_neg h0]
      right
      simp only [decide_eq_false_iff_not]
      omega
  simp only [h, Bool.false_eq_true, if_false]

/-- Lookup after insert over recorded styles. On a well-formed tree, for a
widget `p` with `n` children and a widget `x` not among them: after every
`insertChild(k, x)` that returns, `getChildByIndex(k)` answers `x` when `1 ≤ k
≤ n + 1` and `getChildByIndex(k - 1)` answers `x` when `-n ≤ k ≤ 0`; the call
returns (given enough fuel) when `x` is neither `p` nor an ancestor of `p`. For
every widget `getChildByIndex(0)` answers null, and so does
`getChildByIndex(j)` for every `j` outside `[-m, m]`, `m` being the number of
children. -/
theorem lookup_after_insert_recorded (ct : Rect → Point → Bool) (s : State) (p x : WidgetId) (k : Int)
    (hw : WellFormed s.widgets) (hx : x ∉ (s.widgets p).children) :
    (∀ fuel s', insertChild ct fuel s p k (some x) = .ok s' →
      (1 ≤ k ∧ k ≤ ((s.widgets p).children.length : Int) + 1 →
        getChildByIndex s' p k = some x) ∧
      (-((s.widgets p).children.length : Int) ≤ k ∧ k ≤ 0 →
        getChildByIndex s' p (k - 1) = some x)) ∧
    ((1 ≤ k ∧ k ≤ ((s.widgets p).children.length : Int) + 1) ∨
        (-((s.widgets p).children.length : Int) ≤ k ∧ k ≤ 0) →
      (∀ j, up s.widgets j p ≠ some x) →
      ∃ F, ∀ fuel, F ≤ fuel → ∃ s', insertChild ct fuel s p k (some x) = .ok s') ∧
    (∀ (t : State) (q : WidgetId), getChildByIndex t q 0 = none) ∧
    (∀ (t : State) (q : WidgetId) (j : Int),
      j < -((t.widgets q).children.length : Int) ∨ ((t.widgets q).children.length : Int) < j →
      getChildByIndex t q j = none) := by
  have hint := hw.integrity
  have key : ∀ fuel s', insertChild ct fuel s p k (some x) = .ok s' → ∀ i : Nat,
      (if k ≤ 0 then ((s.widgets p).children.length : Int) + k else k - 1) = i →
      i ≤ (s.widgets p).children.length →
      (s'.widgets p).children = (s.widgets p).children.take i ++ x :: (s.widgets p).children.drop i := by
    intro fuel s' hrun i hi hle
    have hsp := insertChild_spec ct fuel s p x k i hi hle hx
      (fun e => hx ((hint x p).mpr e)) (fun q _ => hw.nodup q)
    rw [(hsp.1 s' hrun).1, insertChildH_children_self _ hint p i x hx,
      insertIdx_eq_take_drop x i _ hle]
  refine ⟨fun fuel s' hrun => ⟨fun hk => ?_, fun hk => ?_⟩, fun hk hna => ?_,
    getChildByIndex_zero, getChildByIndex_outside⟩
  · have h1 : ¬ k ≤ 0 := by omega
    have hle : (k - 1).toNat ≤ (s.widgets p).children.length := by omega
    have hch := key fuel s' hrun (k - 1).toNat (by rw [if_neg h1]; omega) hle
    refine getChildByIndex_at s' p x _ _ k hch ?_
    rw [if_neg h1, List.length_take, Nat.min_eq_left hle]
    omega
  · have hle : (((s.widgets p).children.length : Int) + k).toNat
        ≤ (s.widgets p).children.length := by omega
    have hch := key fuel s' hrun _ (by rw [if_pos hk.2]; omega) hle
    refine getChildByIndex_at s' p x _ _ (k - 1) hch ?_
    have h0 : k - 1 ≤ 0 := by omega
    rw [if_pos h0, List.length_append, List.length_cons, List.length_take, List.length_drop,
      Nat.min_eq_left hle]
    omega
  · have hir : IndexInRange (s.widgets p).children.length k := by
      unfold IndexInRange
      rcases hk with hk | hk
      · have h1 : ¬ k ≤ 0 := by omega
        rw [if_neg h1]; omega
      · rw [if_pos hk.2]; omega
    exact TreeOp.run_total ct s (.insertChild p k (some x)) hw ⟨hna, hir⟩

/-- The code of `getChildByIndex` run on the children 2, 3, 4 of widget 1:
positive indices count from the front, negative ones from the end, 0 and the
indices beyond the count answer null. -/
theorem getChildByIndex_sample :
    getChildByIndex sampleTrio 1 1 = some 2 ∧ getChildByIndex sampleTrio 1 3 = some 4 ∧
    getChildByIndex sampleTrio 1 (-1) = some 4 ∧ getChildByIndex sampleTrio 1 (-3) = some 2 ∧
    getChildByIndex sampleTrio 1 0 = none ∧ getChildByIndex sampleTrio 1 4 = none ∧
    getChildByIndex sampleTrio 1 (-4) = none :=
  ⟨rfl, rfl, rfl, rfl, rfl, rfl, rfl⟩

/-- A heap with the children, parents and layouts of a well-formed heap is
well formed. -/
theorem WellFormed.of_fields {h h' : Heap} (hw : WellFormed h)
    (hc : ∀ w, (h' w).children = (h w).children) (hp : ∀ w, (h' w).parent = (h w).parent)
    (hl : ∀ w, (h' w).layout = (h w).layout) : WellFormed h' := by
  obtain ⟨rk, N, hr⟩ := hw.ranked
  refine ⟨fun w p => ?_, fun p => ?_, fun p hne => ?_, rk, N, hr.1, fun p c hcp => ?_,
    fun w p hwp => ?_⟩
  · rw [hc, hp]; exact hw.integrity w p
  · rw [hc]; exact hw.nodup p
  · rw [hl]; rw [hc] at hne; exact hw.layout p hne
  · rw [hc] at hcp; exact hr.2.1 p c hcp
  · rw [hp] at hwp; exact hr.2.2 w p hwp

theorem blockedSample_wellFormed : WellFormed blockedSample.widgets :=
  sampleFamily_wellFormed.of_fields
    (fun w => by simp only [blockedSample, setEnabled, modify_widgets, hmodify_children, ite_self])
    (fun w => by simp only [blockedSample, setEnabled, modify_widgets, hmodify_parent, ite_self])
    (fun w => by simp only [blockedSample, setEnabled, modify_widgets, hmodify_layout, ite_self])

/-- Locking then unlocking over recorded styles. For a widget `p` with an empty
lock stack and a child `c`, whatever the explicit enabled flags of the
children: after every `lockChild(c)` that returns, `unlockChild(c)` returns
too, and then the lock stack of `p` is empty again, `p` has the same children
and every child of `p` is explicitly enabled, also one that was explicitly
disabled before the lock. On a well-formed tree `lockChild(c)` returns, given
enough fuel. -/
theorem lock_unlock_enables_all_recorded (ct : Rect → Point → Bool) (s : State) (p c : WidgetId)
    (hw : WellFormed s.widgets) (hl : (s.widgets p).lockedChildren = [])
    (hc : c ∈ (s.widgets p).children) :
    (∀ fuel s1, lockChild ct fuel s p (some c) = .ok s1 →
      ∃ s2, unlockChild s1 p (some c) = .ok s2 ∧
        (s2.widgets p).lockedChildren = [] ∧
        (∀ x, x ∈ (s2.widgets p).children ↔ x ∈ (s.widgets p).children) ∧
        (∀ x ∈ (s.widgets p).children, (s2.widgets x).enabled = true)) ∧
    (∃ F, ∀ fuel, F ≤ fuel → ∃ s1, lockChild ct fuel s p (some c) = .ok s1) := by
  have hmem1 : ∀ x, x ∈ (lockChildH s.widgets p c p).children ↔ x ∈ (s.widgets p).children := by
    intro x
    rw [lockChildH_children, if_pos rfl]
    exact mem_erase_append_self _ c x hc
  have hlock1 : (lockChildH s.widgets p c p).lockedChildren = [c] := by
    rw [lockChildH_lockedChildren, hl]; rfl
  constructor
  · intro fuel s1 h1
    have e1 := ((lockChild_spec ct fuel s p c hc).1 s1 h1).1
    have hc1 : c ∈ (s1.widgets p).children := by rw [e1]; exact (hmem1 c).mpr hc
    have hcl : c ∈ (s1.widgets p).lockedChildren := by rw [e1, hlock1]; simp
    refine ⟨_, unlockChild_eq s1 p c hc1, ?_, fun x => ?_, fun x hx => ?_⟩
    · show (unlockChildH s1.widgets p c p).lockedChildren = []
      rw [unlockChildH_lockedChildren, if_pos rfl, e1, hlock1]
      simp
    · show x ∈ (unlockChildH s1.widgets p c p).children ↔ _
      rw [unlockChildH_children, e1]
      exact hmem1 x
    · show (unlockChildH s1.widgets p c x).enabled = true
      have hx1 : x ∈ (s1.widgets p).children := by rw [e1]; exact (hmem1 x).mpr hx
      rw [unlockChildH_enabled _ p c x hcl, if_pos hx1, e1, hlock1]
      simp
  · obtain ⟨rk, N, hr⟩ := hw.ranked
    exact ⟨2 * N + 2, fun fuel hf => (lockChild_spec ct fuel s p c hc).2 ⟨rk, N, hr, by omega⟩⟩

theorem removeChildH_lockedChildren (h : Heap) (p c x : WidgetId) :
    (removeChildH h p c x).lockedChildren
      = if x = p then (h p).lockedChildren.erase c else (h x).lockedChildren := by
  simp only [removeChildH, hmodify_lockedChildren, ite_self]
  rw [unlockChildH_lockedChildren]
  split
  · rw [defocusH_field (fun d => d.lockedChildren) (fun _ _ => rfl) (fun _ _ => rfl)]
  · rw [defocusH_field (fun d => d.lockedChildren) (fun _ _ => rfl) (fun _ _ => rfl)]

theorem adoptH_lockedChildren (h : Heap) (self c x : WidgetId) :
    (adoptH h self c x).lockedChildren
      = if (h c).parent = some x ∧ c ∈ (h x).children then (h x).lockedChildren.erase c
        else (h x).lockedChildren := by
  unfold adoptH
  simp only [hmodify_lockedChildren, ite_self]
  cases hp : (h c).parent with
  | none => simp
  | some q =>
    simp only [contains_decide, decide_eq_true_eq, Option.some.injEq]
    by_cases hq : c ∈ (h q).children
    · simp only [hq, if_true, removeChildH_lockedChildren]
      by_cases hx : x = q
      · subst hx; simp [hq]
      · have : ¬ q = x := fun e => hx e.symm
        simp [hx, this]
    · simp only [hq, if_false]
      by_cases hx : q = x
      · subst hx; simp [hq]
      · simp [hx]

theorem attachH_lockedChildren (h : Heap) (self c : WidgetId) (focus : Bool) (x : WidgetId) :
    (attachH h self c focus x).lockedChildren = (adoptH h self c x).lockedChildren := by
  unfold attachH
  simp only [registerH, hmodify_lockedChildren, ite_self]
  split
  · exact focusChildH_field (fun d => d.lockedChildren) (fun _ _ => rfl) (fun _ _ => rfl)
      _ _ _ _ x
  · rfl

/-- The lock stacks after the part shared by `addChild` and `insertChild`:
the old parent of the child drops it from its lock stack, the other stacks
are as before. -/
theorem attached_lockedChildren (h : Heap) (hint : Integrity h) (p c : WidgetId)
    (l : List WidgetId) (hnc : c ∉ (h p).children) (focus : Bool) (x : WidgetId) :
    (attachH (hmodify h p (fun d => { d with children := l })) p c focus x).lockedChildren
      = if (h c).parent = some x then (h x).lockedChildren.erase c else (h x).lockedChildren := by
  rw [attachH_lockedChildren, adoptH_lockedChildren]
  simp only [hmodify_parent, hmodify_children, hmodify_lockedChildren, ite_self]
  by_cases hcx : (h c).parent = some x
  · have hxp : x ≠ p := fun e => hnc ((hint c p).mpr (e ▸ hcx))
    have hmem : c ∈ (h x).children := (hint c x).mpr hcx
    simp [hcx, hxp, hmem]
  · simp [hcx]

theorem nodup_erase_mem {l : List WidgetId} (hnd : l.Nodup) {c x : WidgetId}
    (hx : x ∈ l.erase c) : x ≠ c ∧ x ∈ l :=
  (hnd.mem_erase_iff).1 hx

theorem attached_lockValid (h : Heap) (hj : FocusInv h) (hk : LockValid h) (p c : WidgetId)
    (l : List WidgetId) (hl : ∀ x, x ∈ l ↔ (x = c ∨ x ∈ (h p).children))
    (hnc : c ∉ (h p).children) (focus : Bool) :
    LockValid (attachH (hmodify h p (fun d => { d with children := l })) p c focus) := by
  have hint := hj.integrity
  intro w
  rw [attached_lockedChildren h hint p c l hnc, attached_children h hint p c l hnc]
  by_cases hwp : w = p
  · subst hwp
    have hcw : ¬ (h c).parent = some w := fun e => hnc ((hint c w).mpr e)
    rw [if_neg hcw, if_pos rfl]
    exact ⟨(hk w).1, fun x hx => (hl x).mpr (Or.inr ((hk w).2 x hx))⟩
  · rw [if_neg hwp]
    split
    · refine ⟨(hk w).1.erase c, fun x hx => ?_⟩
      obtain ⟨hxc, hxl⟩ := nodup_erase_mem (hk w).1 hx
      exact (List.mem_erase_of_ne hxc).mpr ((hk w).2 x hxl)
    · exact hk w

theorem removeChildH_lockValid (h : Heap) (hk : LockValid h) (p c : WidgetId) :
    LockValid (removeChildH h p c) := by
  intro w
  rw [removeChildH_lockedChildren, removeChildH_children]
  split
  · rename_i hw
    subst hw
    refine ⟨(hk w).1.erase c, fun x hx => ?_⟩
    obtain ⟨hxc, hxl⟩ := nodup_erase_mem (hk w).1 hx
    exact (List.mem_erase_of_ne hxc).mpr ((hk w).2 x hxl)
  · exact hk w

theorem focusChildH_lockValid (h : Heap) (hk : LockValid h) (p : WidgetId)
    (child : Option WidgetId) (reason : FocusReason) :
    LockValid (focusChildH h p child reason) := by
  intro w
  rw [focusChildH_field (fun d => d.lockedChildren) (fun _ _ => rfl) (fun _ _ => rfl),
    focusChildH_field (fun d => d.children) (fun _ _ => rfl) (fun _ _ => rfl)]
  exact hk w

theorem unlockChildH_lockValid (h : Heap) (hk : LockValid h) (p c : WidgetId) :
    LockValid (unlockChildH h p c) := by
  intro w
  rw [unlockChildH_lockedChildren, unlockChildH_children]
  split
  · rename_i hw
    subst hw
    exact ⟨(hk w).1.erase c, fun x hx => (hk w).2 x (List.mem_of_mem_erase hx)⟩
  · exact hk w

theorem moved_lockValid (h : Heap) (hk : LockValid h) (p c : WidgetId)
    (hc : c ∈ (h p).children) :
    LockValid (hmodify h p (fun d => { d with children := d.children.erase c ++ [c] })) := by
  intro w
  rw [hmodify_lockedChildren, hmodify_children]
  simp only [ite_self]
  refine ⟨(hk w).1, fun x hx => ?_⟩
  split
  · rename_i hw
    subst hw
    exact (mem_erase_append_self _ c x hc).mpr ((hk w).2 x hx)
  · exact (hk w).2 x hx

theorem lockChildH_lockedChildren_at (h : Heap) (p c x : WidgetId) :
    (lockChildH h p c x).lockedChildren
      = if x = p then c :: (h p).lockedChildren.erase c else (h x).lockedChildren := by
  by_cases hx : x = p
  · subst hx
    rw [if_pos rfl, lockChildH_lockedChildren]
  · rw [if_neg hx]
    unfold lockChildH
    simp only [hmodify_lockedChildren, hx, if_false]
    have h3 : ((hmodify (enableOnlyH (unlockChildH h p c) ((unlockChildH h p c p).children)
        (some c)) p (fun d => { d with lockedChildren := c :: d.lockedChildren })) x).lockedChildren
        = (h x).lockedChildren := by
      rw [hmodify_lockedChildren, if_neg hx,
        enableOnlyH_field (fun d => d.lockedChildren) (fun _ _ => rfl),
        unlockChildH_lockedChildren, if_neg hx]
    split
    · rw [focusChildH_field (fun d => d.lockedChildren) (fun _ _ => rfl) (fun _ _ => rfl)]
      exact h3
    · exact h3

theorem lockChildH_lockValid (h : Heap) (hk : LockValid h) (p c : WidgetId)
    (hc : c ∈ (h p).children) : LockValid (lockChildH h p c) := by
  intro w
  rw [lockChildH_lockedChildren_at, lockChildH_children]
  split
  · rename_i hw
    subst hw
    refine ⟨List.nodup_cons.mpr ⟨(hk w).1.not_mem_erase, (hk w).1.erase c⟩, fun x hx => ?_⟩
    rw [mem_erase_append_self _ c x hc]
    rcases List.mem_cons.1 hx with e | hx'
    · rw [e]; exact hc
    · exact (hk w).2 x (List.mem_of_mem_erase hx')
  · exact hk w

/-- A call that returns keeps the lock stacks valid. -/
theorem WidgetOp.run_lockValid (ct : Rect → Point → Bool) (fuel : Nat) (s s' : State)
    (op : WidgetOp) (hj : FocusInv s.widgets) (hk : LockValid s.widgets)
    (hrun : op.run ct fuel s = .ok s') : LockValid s'.widgets := by
  have hint := hj.integrity
  cases op with
  | addChild p c =>
    simp only [WidgetOp.run] at hrun
    cases fuel with
    | zero => rw [addChild_zero] at hrun; cases hrun
    | succ n =>
      cases c with
      | none => rw [addChild_none] at hrun; cases hrun; exact hk
      | some c =>
        by_cases hc : c ∈ (s.widgets p).children
        · rw [addChild_present ct n s p c hc] at hrun; cases hrun; exact hk
        · have hsp := addChild_spec ct (n + 1) s p c hc (fun e => hc ((hint c p).mpr e))
            (fun q _ => hj.nodup q)
          rw [(hsp.1 s' hrun).1, addChildH_eq]
          refine attached_lockValid _ hj hk p c _ (fun x => ?_) hc true
          simp only [List.mem_append, List.mem_singleton]
          exact Or.comm
  | insertChild p index c =>
    simp only [WidgetOp.run] at hrun
    cases c with
    | none => rw [insertChild_none] at hrun; cases hrun; exact hk
    | some c =>
      by_cases hc : c ∈ (s.widgets p).children
      · rw [insertChild_present ct fuel s p c index hc] at hrun; cases hrun; exact hk
      · by_cases hir : IndexInRange (s.widgets p).children.length index
        · obtain ⟨i, hi, hle⟩ := hir.position
          have hsp := insertChild_spec ct fuel s p c index i hi hle hc
            (fun e => hc ((hint c p).mpr e)) (fun q _ => hj.nodup q)
          rw [(hsp.1 s' hrun).1, insertChildH_eq]
          exact attached_lockValid _ hj hk p c _ (fun x => List.mem_insertIdx hle) hc false
        · rw [insertChild_out_of_range ct fuel s p c index hc hir] at hrun; cases hrun
  | removeChild p c =>
    simp only [WidgetOp.run] at hrun
    cases fuel with
    | zero => rw [removeChild_zero] at hrun; cases hrun
    | succ n =>
      cases c with
      | none => rw [removeChild_none] at hrun; cases hrun; exact hk
      | some c =>
        by_cases hc : c ∈ (s.widgets p).children
        · have hsp := removeChild_spec ct (n + 1) s p c hc (hj.nodup p)
          rw [(hsp.1 s' hrun).1]
          exact removeChildH_lockValid _ hk p c
        · rw [removeChild_absent ct n s p c hc] at hrun; cases hrun; exact hk
  | focusChild p c reason =>
    simp only [WidgetOp.run] at hrun
    rw [((focusChild_spec ct fuel s p c reason).1 s' hrun).1]
    exact focusChildH_lockValid _ hk p c reason
  | focusNextChild p reason =>
    simp only [WidgetOp.run] at hrun
    rw [focusNextChild_eq] at hrun
    split at hrun
    · rw [((focusChild_spec ct fuel s p _ reason).1 s' hrun).1]
      exact focusChildH_lockValid _ hk p _ reason
    · cases hrun; exact hk
  | lockChild p c =>
    simp only [WidgetOp.run] at hrun
    cases c with
    | none => cases hrun; exact hk
    | some c =>
      by_cases hc : c ∈ (s.widgets p).children
      · rw [((lockChild_spec ct fuel s p c hc).1 s' hrun).1]
        exact lockChildH_lockValid _ hk p c hc
      · rw [lockChild_absent ct fuel s p c hc] at hrun; cases hrun
  | unlockChild p c =>
    simp only [WidgetOp.run] at hrun
    cases c with
    | none => cases hrun; exact hk
    | some c =>
      by_cases hc : c ∈ (s.widgets p).children
      · rw [unlockChild_eq s p c hc] at hrun
        cases hrun
        exact unlockChildH_lockValid _ hk p c
      · rw [unlockChild_absent s p c hc] at hrun; cases hrun
  | moveChildToTop p c =>
    simp only [WidgetOp.run] at hrun
    cases c with
    | none => cases hrun; exact hk
    | some c =>
      by_cases hc : c ∈ (s.widgets p).children
      · rw [moveChildToTop_eq s p c hc] at hrun
        cases hrun
        exact moved_lockValid _ hk p c hc
      · rw [moveChildToTop_absent s p c hc] at hrun; cases hrun

theorem focusReachable_lockValid (ct : Rect → Point → Bool) (s : State)
    (hr : FocusReachable ct s) : LockValid s.widgets := by
  induction hr with
  | init s h =>
    intro p
    rw [(h p).2.2.2]
    exact ⟨List.nodup_nil, fun l hl => by cases hl⟩
  | step s s' op fuel hs hrun ih =>
    exact WidgetOp.run_lockValid ct fuel s s' op (focusReachable_focusInv ct s hs) ih hrun

/-- C22 (lock-stack membership).  In every state reached from freshly
constructed widgets by calls of `addChild`, `insertChild`, `removeChild`,
`lockChild`, `unlockChild` and `moveChildToTop` (and of `focusChild` and
`focusNextChild`) that returned, so that none of their assertions failed,
every entry of the lock stack of a widget `p` is a child of `p` and occurs in
the stack exactly once; and every `removeChild(c)` that returns leaves `c`
out of the lock stack of `p`, a call which does return on a child `c` of `p`
in a well-formed tree, given enough fuel. -/
theorem lock_stack_membership (ct : Rect → Point → Bool) (s : State)
    (hr : FocusReachable ct s) :
    (∀ p l, l ∈ (s.widgets p).lockedChildren →
      l ∈ (s.widgets p).children ∧ (s.widgets p).lockedChildren.count l = 1) ∧
    (∀ p c fuel s', removeChild ct fuel s p (some c) = .ok s' →
      c ∉ (s'.widgets p).lockedChildren) ∧
    (∀ p c, c ∈ (s.widgets p).children → WellFormed s.widgets →
      ∃ F, ∀ fuel, F ≤ fuel → ∃ s', removeChild ct fuel s p (some c) = .ok s') := by
  have hj := focusReachable_focusInv ct s hr
  have hk := focusReachable_lockValid ct s hr
  refine ⟨fun p l hl => ⟨(hk p).2 l hl, List.count_eq_one_of_mem (hk p).1 hl⟩,
    fun p c fuel s' hrun => ?_,
    fun p c _ hw => TreeOp.run_total ct s (.removeChild p (some c)) hw trivial⟩
  cases fuel with
  | zero => rw [removeChild_zero] at hrun; cases hrun
  | succ n =>
    by_cases hc : c ∈ (s.widgets p).children
    · rw [((removeChild_spec ct (n + 1) s p c hc (hj.nodup p)).1 s' hrun).1,
        removeChildH_lockedChildren, if_pos rfl]
      exact (hk p).1.not_mem_erase
    · rw [removeChild_absent ct n s p c hc] at hrun
      cases hrun
      exact fun hl => hc ((hk p).2 c hl)

theorem lockedSample_focusReachable : FocusReachable sampleContains lockedSample :=
  FocusReachable.step sampleFamily lockedSample (.lockChild 1 (some 2)) 10
    (FocusReachable.step sampleTree sampleFamily (.addChild 1 (some 3)) 10
      sampleTree_focusReachable sampleFamily_run)
    (by rfl)

theorem lock_stack_membership_witness :
    FocusReachable sampleContains lockedSample ∧ (lockedSample.widgets 1).lockedChildren = [2] ∧
    ((∀ p l, l ∈ (lockedSample.widgets p).lockedChildren →
      l ∈ (lockedSample.widgets p).children ∧
        (lockedSample.widgets p).lockedChildren.count l = 1) ∧
    (∀ p c fuel s', removeChild sampleContains fuel lockedSample p (some c) = .ok s' →
      c ∉ (s'.widgets p).lockedChildren) ∧
    (∀ p c, c ∈ (lockedSample.widgets p).children → WellFormed lockedSample.widgets →
      ∃ F, ∀ fuel, F ≤ fuel →
        ∃ s', removeChild sampleContains fuel lockedSample p (some c) = .ok s')) :=
  ⟨lockedSample_focusReachable, rfl,
    lock_stack_membership sampleContains lockedSample lockedSample_focusReachable⟩

/-- The code of `removeChild` run on the locked child 2 of `lockedSample`:
the lock stack of widget 1 is empty afterwards and the remaining child 3 is
explicitly enabled again. -/
theorem removeChild_locked_sample :
    (lockedSample.widgets 1).lockedChildren = [2] ∧ (lockedSample.widgets 3).enabled = false ∧
    ∃ s', removeChild sampleContains 6 lockedSample 1 (some 2) = .ok s' ∧
      (s'.widgets 1).lockedChildren = [] ∧ (s'.widgets 1).children = [3] ∧
      (s'.widgets 3).enabled = true :=
  ⟨rfl, rfl, _, rfl, rfl, rfl, rfl⟩

/-- An exception leaves the state as the declaration found it: every branch
of the loop reads its argument and runs its checks before it changes the
widget. -/
theorem applyDeclaration_raised (env : StyleEnv) (s : State) (w : WidgetId) (node : OTMLNode)
    (t : State) (what : String) (h : applyDeclaration env s w node = .raised t what) : t = s := by
  unfold applyDeclaration at h
  split at h
  · split at h
    · cases h
    · cases h; rfl
  · split at h
    · split at h
      · cases h
      · split at h
        · cases h
        · split at h <;> cases h
    · split at h
      · unfold applyAnchor at h
        split at h
        · cases h; rfl
        · split at h
          · cases h
          · split at h
            · cases h; rfl
            · simp only [] at h
              split at h
              · cases h
              · split at h
                · cases h
                · split at h
                  · split at h
                    · cases h; rfl
                    · split at h
                      · cases h; rfl
                      · cases h
                  · cases h; rfl
      · cases h

/-- The two ways in which a declaration stops the program: a `layout`
declaration on a widget that owns a layout, and an anchor on a widget whose
parent owns no layout. -/
theorem applyDeclaration_fatal (env : StyleEnv) (s : State) (w : WidgetId) (node : OTMLNode)
    (f : Fault) (h : applyDeclaration env s w node = .fatal f) :
    (node.tag = "layout" ∧ (s.widgets w).layout.isSome = true ∧ f = .assertion) ∨
    (startsWith node.tag.data "anchors.".data = true ∧
      ∃ p, (s.widgets w).parent = some p ∧ (s.widgets p).layout = none ∧ f = .nullDeref) := by
  unfold applyDeclaration at h
  split at h
  · split at h <;> cases h
  · split at h
    · rename_i htag
      split at h
      · rename_i hl
        cases h
        exact Or.inl ⟨by simpa using htag, hl, rfl⟩
      · split at h
        · cases h
        · split at h <;> cases h
    · split at h
      · rename_i hst
        unfold applyAnchor at h
        split at h
        · cases h
        · rename_i p hp
          split at h
          · rename_i hl
            cases h
            exact Or.inr ⟨hst, p, hp, hl, rfl⟩
          · split at h
            · cases h
            · simp only [] at h
              split at h
              · cases h
              · split at h
                · cases h
                · split at h
                  · split at h
                    · cases h
                    · split at h <;> cases h
                  · cases h
      · cases h

theorem applyDeclarations_done_append (env : StyleEnv) (w : WidgetId) :
    ∀ (pre post : List OTMLNode) (s t : State), applyDeclarations env w pre s = .done t →
      applyDeclarations env w (pre ++ post) s = applyDeclarations env w post t := by
  intro pre
  induction pre with
  | nil =>
    intro post s t h
    simp only [applyDeclarations] at h
    cases h
    rfl
  | cons d pre ih =>
    intro post s t h
    rw [List.cons_append]
    simp only [applyDeclarations] at h ⊢
    cases hd : applyDeclaration env s w d with
    | done s1 =>
      rw [hd] at h
      exact ih post s1 t h
    | raised s1 what => rw [hd] at h; cases h
    | fatal f => rw [hd] at h; cases h

/-- Where a run of the loop that does not return stopped: the declarations
before that one were applied, in order, and that declaration threw or stopped
the program in the state they left. -/
theorem applyDeclarations_stops (env : StyleEnv) (w : WidgetId) :
    ∀ (l : List OTMLNode) (s : State) (r : StyleResult), applyDeclarations env w l s = r →
      (∀ u, r ≠ .done u) →
      ∃ pre decl post t, l = pre ++ decl :: post ∧ applyDeclarations env w pre s = .done t ∧
        applyDeclaration env t w decl = r := by
  intro l
  induction l with
  | nil =>
    intro s r h hn
    simp only [applyDeclarations] at h
    exact absurd h.symm (hn s)
  | cons d l ih =>
    intro s r h hn
    simp only [applyDeclarations] at h
    cases hd : applyDeclaration env s w d with
    | done s1 =>
      rw [hd] at h
      obtain ⟨pre, decl, post, t, hl, hpre, hdecl⟩ := ih s1 r h hn
      refine ⟨d :: pre, decl, post, t, by rw [hl]; rfl, ?_, hdecl⟩
      simp only [applyDeclarations, hd]
      exact hpre
    | raised s1 what =>
      rw [hd] at h
      exact ⟨[], d, l, s, rfl, rfl, by rw [hd]; exact h⟩
    | fatal f =>
      rw [hd] at h
      exact ⟨[], d, l, s, rfl, rfl, by rw [hd]; exact h⟩

/-- A tag that starts with `anchors.` is none of the tags of the branches
before the anchors branch. -/
theorem simpleDeclaration_anchors (env : StyleEnv) (tag : String)
    (h : startsWith tag.data "anchors.".data = true) :
    simpleDeclaration env tag = none ∧ (tag == "layout") = false := by
  have hne : ∀ t : String, startsWith t.data "anchors.".data = false → (tag == t) = false := by
    intro t ht
    rw [beq_eq_false_iff_ne]
    intro e
    rw [e, ht] at h
    cases h
  refine ⟨?_, hne "layout" (by decide)⟩
  unfold simpleDeclaration
  simp only [hne "image" (by decide), hne "border-image" (by decide), hne "font" (by decide),
    hne "color" (by decide), hne "background-color" (by decide), hne "opacity" (by decide),
    hne "focusable" (by decide), hne "size" (by decide), hne "width" (by decide),
    hne "height" (by decide), hne "size fixed" (by decide), hne "position" (by decide),
    hne "x" (by decide), hne "y" (by decide), hne "margin.left" (by decide),
    hne "margin.right" (by decide), hne "margin.top" (by decide),
    hne "margin.bottom" (by decide), Bool.false_eq_true, if_false]

theorem applyDeclaration_anchors (env : StyleEnv) (s : State) (w : WidgetId) (node : OTMLNode)
    (h : startsWith node.tag.data "anchors.".data = true) :
    applyDeclaration env s w node = applyAnchor env s w node := by
  unfold applyDeclaration
  rw [(simpleDeclaration_anchors env node.tag h).1]
  simp only [(simpleDeclaration_anchors env node.tag h).2, h, Bool.false_eq_true, if_false,
    if_true]

/-- An anchor on a widget without parent throws. -/
theorem applyDeclaration_no_parent (env : StyleEnv) (s : State) (w : WidgetId) (node : OTMLNode)
    (h : startsWith node.tag.data "anchors.".data = true) (hp : (s.widgets w).parent = none) :
    applyDeclaration env s w node
      = .raised s "cannot create anchor, there is no parent widget!" := by
  rw [applyDeclaration_anchors env s w node h]
  unfold applyAnchor
  simp only [getParent, hp]

/-- An edge anchor whose value does not split on `.` into exactly two parts
throws, on a widget whose parent uses an anchor layout. -/
theorem applyDeclaration_bad_description (env : StyleEnv) (s : State) (w p : WidgetId)
    (l : Layout) (node : OTMLNode)
    (h : startsWith node.tag.data "anchors.".data = true) (hp : (s.widgets w).parent = some p)
    (hl : (s.widgets p).layout = some l) (hv : l.vertical = false)
    (hfill : String.mk (node.tag.data.drop 8) ≠ "fill")
    (hcenter : String.mk (node.tag.data.drop 8) ≠ "centerIn")
    (hsplit : (splitOnDot node.value.data).length ≠ 2) :
    applyDeclaration env s w node = .raised s "invalid anchor description" := by
  rw [applyDeclaration_anchors env s w node h]
  unfold applyAnchor
  have h1 : (String.mk (node.tag.data.drop 8) == "fill") = false := by
    rw [beq_eq_false_iff_ne]; exact hfill
  have h2 : (String.mk (node.tag.data.drop 8) == "centerIn") = false := by
    rw [beq_eq_false_iff_ne]; exact hcenter
  simp only [getParent, hp, hl, hv, h1, h2, Bool.false_eq_true, if_false]
  split
  · rename_i a b hs
    rw [hs] at hsplit
    exact absurd rfl hsplit
  · rfl

/-- How `applyStyle` ends, for every widget, every declaration node and all
collaborators: when `onStyleApply` throws at a declaration, the declarations
before it having been applied in list order on top of the `id` declaration,
`applyStyle` returns normally with exactly that state, the throwing
declaration and the declarations after it having changed nothing; when no
declaration throws or stops the program it returns the state after all of
them; every state it returns is one of these two.  It does not return in two
cases only: a `layout` declaration reaches a widget that owns a layout (the
assertion fails), or an anchor reaches a widget whose parent owns no layout at
all, where `parent->getLayout()->asUIAnchorLayout()` dereferences a null
pointer before the test `if(!anchorLayout)` is reached; a node without
`layout` and anchor declarations is always applied with a normal return.  An
anchor on a widget without parent throws, and so does an edge anchor whose
value does not split on `.` into exactly two parts. -/
theorem applyStyleWith_outcomes (env : StyleEnv) (s : State) (w : WidgetId) (node : OTMLNode) :
    (∀ pre decl post t t' what, node.children = pre ++ decl :: post →
      applyDeclarations env w pre (applyId env s w node) = .done t →
      applyDeclaration env t w decl = .raised t' what →
      t' = t ∧ applyStyleWith env s w node = .ok t) ∧
    (∀ t, applyDeclarations env w node.children (applyId env s w node) = .done t →
      applyStyleWith env s w node = .ok t) ∧
    (∀ s', applyStyleWith env s w node = .ok s' →
      applyDeclarations env w node.children (applyId env s w node) = .done s' ∨
      ∃ pre decl post what, node.children = pre ++ decl :: post ∧
        applyDeclarations env w pre (applyId env s w node) = .done s' ∧
        applyDeclaration env s' w decl = .raised s' what) ∧
    (∀ f, applyStyleWith env s w node = .error f →
      ∃ pre decl post t, node.children = pre ++ decl :: post ∧
        applyDeclarations env w pre (applyId env s w node) = .done t ∧
        ((decl.tag = "layout" ∧ (t.widgets w).layout.isSome = true ∧ f = .assertion) ∨
          (startsWith decl.tag.data "anchors.".data = true ∧
            ∃ p, (t.widgets w).parent = some p ∧ (t.widgets p).layout = none ∧
              f = .nullDeref))) ∧
    ((∀ decl ∈ node.children,
        decl.tag ≠ "layout" ∧ startsWith decl.tag.data "anchors.".data = false) →
      ∃ s', applyStyleWith env s w node = .ok s') ∧
    (∀ t decl, startsWith decl.tag.data "anchors.".data = true → (t.widgets w).parent = none →
      applyDeclaration env t w decl
        = .raised t "cannot create anchor, there is no parent widget!") ∧
    (∀ t decl p l, startsWith decl.tag.data "anchors.".data = true →
      (t.widgets w).parent = some p → (t.widgets p).layout = some l → l.vertical = false →
      String.mk (decl.tag.data.drop 8) ≠ "fill" → String.mk (decl.tag.data.drop 8) ≠ "centerIn" →
      (splitOnDot decl.value.data).length ≠ 2 →
      applyDeclaration env t w decl = .raised t "invalid anchor description") := by
  have hfault : ∀ f, applyStyleWith env s w node = .error f →
      ∃ pre decl post t, node.children = pre ++ decl :: post ∧
        applyDeclarations env w pre (applyId env s w node) = .done t ∧
        applyDeclaration env t w decl = .fatal f := by
    intro f h
    unfold applyStyleWith onStyleApplyWith at h
    cases hr : applyDeclarations env w node.children (applyId env s w node) with
    | done u => rw [hr] at h; cases h
    | raised u what => rw [hr] at h; cases h
    | fatal g =>
      rw [hr] at h
      cases h
      exact applyDeclarations_stops env w _ _ _ hr (fun u e => by cases e)
  refine ⟨fun pre decl post t t' what hch hpre hdecl => ?_, fun t hall => ?_, fun s' h => ?_,
    fun f h => ?_, fun hno => ?_,
    fun t decl hst hp => applyDeclaration_no_parent env t w decl hst hp,
    fun t decl p l hst hp hl hv hf hc hsp =>
      applyDeclaration_bad_description env t w p l decl hst hp hl hv hf hc hsp⟩
  · have ht := applyDeclaration_raised env t w decl t' what hdecl
    refine ⟨ht, ?_⟩
    unfold applyStyleWith onStyleApplyWith
    rw [hch, applyDeclarations_done_append env w pre (decl :: post) _ t hpre]
    simp only [applyDeclarations, hdecl, ht]
  · unfold applyStyleWith onStyleApplyWith
    rw [hall]
  · unfold applyStyleWith onStyleApplyWith at h
    cases hr : applyDeclarations env w node.children (applyId env s w node) with
    | done u =>
      rw [hr] at h
      cases h
      exact Or.inl rfl
    | raised u what =>
      rw [hr] at h
      cases h
      obtain ⟨pre, decl, post, t, hl, hpre, hdecl⟩ :=
        applyDeclarations_stops env w _ _ _ hr (fun u e => by cases e)
      have ht := applyDeclaration_raised env t w decl _ what hdecl
      rw [ht] at hdecl ⊢
      exact Or.inr ⟨pre, decl, post, what, hl, hpre, hdecl⟩
    | fatal g => rw [hr] at h; cases h
  · obtain ⟨pre, decl, post, t, hl, hpre, hdecl⟩ := hfault f h
    exact ⟨pre, decl, post, t, hl, hpre, applyDeclaration_fatal env t w decl f hdecl⟩
  · cases hr : applyStyleWith env s w node with
    | ok s' => exact ⟨s', rfl⟩
    | error f =>
      obtain ⟨pre, decl, post, t, hl, _, hdecl⟩ := hfault f hr
      have hmem : decl ∈ node.children := by rw [hl]; simp
      rcases applyDeclaration_fatal env t w decl f hdecl with ⟨htag, _, _⟩ | ⟨hst, _⟩
      · exact absurd htag (hno decl hmem).1
      · rw [(hno decl hmem).2] at hst
        cases hst

/-- C21 refuted as stated: widget 1 of the sample tree owns the layout that
`addChild` created, `layoutStyle` holds a `layout` declaration, and
`applyStyle(layoutStyle)` on widget 1 stops at the assertion `!m_layout`
instead of returning. -/
theorem style_errors_contained_counterexample :
    (sampleTree.widgets 1).layout.isSome = true ∧
    layoutStyle.children = [.mk "layout" "anchor" []] ∧
    applyStyleWith sampleEnv sampleTree 1 layoutStyle = .error .assertion :=
  ⟨rfl, rfl, rfl⟩

/-- The code of `applyStyle` run on the child 2 of the sample tree with
`brokenStyle`: the second declaration throws, the call returns, the widget
has the id and the first declaration (not focusable), and the third
declaration was not applied. -/
theorem applyStyle_sample :
    (sampleTree.widgets 2).focusable = true ∧
    ∃ s', applyStyleWith sampleEnv sampleTree 2 brokenStyle = .ok s' ∧
      (s'.widgets 2).focusable = false ∧
      (s'.visuals 2).applied = (sampleTree.visuals 2).applied ++ [.mk "id" "okButton" []] ∧
      applyDeclaration sampleEnv s' 2 (.mk "anchors.left" "parent" [])
        = .raised s' "invalid anchor description" :=
  ⟨rfl, _, rfl, rfl, rfl, rfl⟩

theorem Agree.itself (s : State) : Agree s s := ⟨rfl, rfl, fun _ => rfl⟩

theorem Agree.modified {t s : State} (h : Agree t s) (w : WidgetId) (f : Widget → Widget) :
    Agree (t.modify w f) (s.modify w f) :=
  ⟨by rw [modify_widgets, modify_widgets, h.1], h.2.1, h.2.2⟩

theorem Agree.chain {a b c : State} (h1 : Agree a b) (h2 : Agree b c) : Agree a c :=
  ⟨h1.1.trans h2.1, h1.2.1.trans h2.2.1, fun d => (h1.2.2 d).trans (h2.2.2 d)⟩

theorem Agree.of_widgets {t s : State} (h : Agree t s) (k : Heap) :
    Agree { t with widgets := k } { s with widgets := k } := ⟨rfl, h.2.1, h.2.2⟩

theorem Agree.hasChild {t s : State} (h : Agree t s) (w : WidgetId) (c : Option WidgetId) :
    hasChild t w c = hasChild s w c := by
  rw [hasChild_eq, hasChild_eq, h.1]

theorem Agree.getParent {t s : State} (h : Agree t s) (w : WidgetId) :
    getParent t w = getParent s w := by
  simp only [UI.getParent, h.1]

theorem Agree.isFocusable {t s : State} (h : Agree t s) (w : WidgetId) :
    isFocusable t w = isFocusable s w := by
  simp only [UI.isFocusable, h.1]

theorem Agree.isExplicitlyVisible {t s : State} (h : Agree t s) (w : WidgetId) :
    isExplicitlyVisible t w = isExplicitlyVisible s w := by
  simp only [UI.isExplicitlyVisible, h.1]

theorem Agree.isExplicitlyEnabled {t s : State} (h : Agree t s) (w : WidgetId) :
    isExplicitlyEnabled t w = isExplicitlyEnabled s w := by
  simp only [UI.isExplicitlyEnabled, h.1]

theorem Agree.hasState {t s : State} (h : Agree t s) (w : WidgetId) (st : WidgetState) :
    hasState t w st = hasState s w st := by
  simp only [UI.hasState, h.2.2 w]

theorem Agree.deriveStatus {t s : State} (h : Agree t s) (ct : Rect → Point → Bool) (n : Nat)
    (w : WidgetId) (st : WidgetState) : deriveStatus ct n t w st = deriveStatus ct n s w st := by
  cases st <;>
    simp only [UI.deriveStatus, activeWalk_congr s t h.1, hoverWalk_congr ct s t h.1 h.2.1,
      disabledWalk_congr s t h.1, UI.getParent, getFocusedChild, h.1]

theorem HasStyles.hmodify {σ : WidgetId → Option OTMLNode} {h : Heap} (hs : HasStyles σ h)
    (w : WidgetId) (f : Widget → Widget) (hf : ∀ d, (f d).style = d.style) :
    HasStyles σ (hmodify h w f) := by
  intro x
  rw [hmodify_apply]
  split
  · rw [hf]; exact hs x
  · exact hs x

theorem HasStyles.unrestyled {σ : WidgetId → Option OTMLNode} {s : State}
    (hs : HasStyles σ s.widgets) (w : WidgetId) (f : Widget → Widget)
    (hf : ∀ d, (f d).style = d.style) : HasStyles σ (s.modify w f).widgets :=
  HasStyles.hmodify hs w f hf

theorem Tracks.both_ok {σ : WidgetId → Option OTMLNode} {t s : State} (h : Agree t s)
    (hs : HasStyles σ s.widgets) : Tracks σ (.ok t) (.ok s) := ⟨h, hs⟩

theorem Tracks.both_error {σ : WidgetId → Option OTMLNode} (e : Fault) :
    Tracks σ (.error e) (.error e) := rfl

theorem Tracks.both_bind {σ : WidgetId → Option OTMLNode} {x y : Except Fault State}
    {F G : State → Except Fault State} (hx : Tracks σ x y)
    (hf : ∀ t s, Agree t s → HasStyles σ s.widgets → Tracks σ (F t) (G s)) :
    Tracks σ (x >>= F) (y >>= G) := by
  cases x with
  | error e =>
    cases y with
    | error f => exact hx
    | ok s => exact hx.elim
  | ok t =>
    cases y with
    | error f => exact hx.elim
    | ok s => exact hf t s hx.1 hx.2

theorem Tracks.both_ite {σ : WidgetId → Option OTMLNode} (c : Prop) [Decidable c]
    {a b a' b' : Except Fault State} (h1 : c → Tracks σ a a') (h2 : ¬c → Tracks σ b b') :
    Tracks σ (if c then a else b) (if c then a' else b') := by
  by_cases h : c
  · rw [if_pos h, if_pos h]; exact h1 h
  · rw [if_neg h, if_neg h]; exact h2 h

theorem Tracks.ok_left {σ : WidgetId → Option OTMLNode} {x y : Except Fault State}
    (h : Tracks σ x y) {t : State} (hx : x = .ok t) : ∃ s, y = .ok s ∧ Agree t s := by
  subst hx
  cases y with
  | error f => exact h.elim
  | ok s => exact ⟨s, rfl, h.1⟩

theorem Tracks.ok_right {σ : WidgetId → Option OTMLNode} {x y : Except Fault State}
    (h : Tracks σ x y) {s : State} (hy : y = .ok s) : ∃ t, x = .ok t ∧ Agree t s := by
  subst hy
  cases x with
  | error f => exact h.elim
  | ok t => exact ⟨t, rfl, h.1⟩

theorem Tracks.error_left {σ : WidgetId → Option OTMLNode} {x y : Except Fault State}
    (h : Tracks σ x y) {e : Fault} (hx : x = .error e) : y = .error e := by
  subst hx
  cases y with
  | error f => exact congrArg _ (Eq.symm h)
  | ok s => exact h.elim

theorem Tracks.error_right {σ : WidgetId → Option OTMLNode} {x y : Except Fault State}
    (h : Tracks σ x y) {e : Fault} (hy : y = .error e) : x = .error e := by
  subst hy
  cases x with
  | error f => exact congrArg _ h
  | ok s => exact h.elim

theorem Tracks.both_foldlM {σ : WidgetId → Option OTMLNode} {α : Type}
    (f g : State → α → Except Fault State) (l : List α)
    (hf : ∀ a ∈ l, ∀ t s, Agree t s → HasStyles σ s.widgets → Tracks σ (f t a) (g s a)) :
    ∀ t s, Agree t s → HasStyles σ s.widgets → Tracks σ (l.foldlM f t) (l.foldlM g s) := by
  induction l with
  | nil => intro t s h hs; exact Tracks.both_ok h hs
  | cons a l ih =>
    intro t s h hs
    rw [List.foldlM_cons, List.foldlM_cons]
    exact Tracks.both_bind (hf a (List.mem_cons_self _ _) t s h hs)
      (fun t1 s1 h1 hs1 => ih (fun b hb => hf b (List.mem_cons_of_mem _ hb)) t1 s1 h1 hs1)

/-- Under quiet style application `updateStyle` over applied styles ends like
`updateStyle` over recorded styles. -/
theorem updateStyleWith_tracks (env : StyleEnv) (σ : WidgetId → Option OTMLNode)
    (hq : StyleQuiet env σ) (t s : State) (w : WidgetId) (h : Agree t s)
    (hs : HasStyles σ s.widgets) :
    Tracks σ (updateStyleWith env t w) (.ok (updateStyle s w)) := by
  unfold updateStyleWith updateStyle
  rw [h.1]
  cases hst : (s.widgets w).style with
  | none => exact Tracks.both_ok h hs
  | some style =>
    simp only []
    obtain ⟨t', ht', ha⟩ := hq w style ((hs w).symm.trans hst) t (t.visuals w).stateStyle
      (t.visuals w).states
    rw [ht']
    refine Tracks.both_ok ⟨?_, ?_, fun d => ?_⟩ hs
    · exact ha.1.trans h.1
    · exact ha.2.1.trans h.2.1
    · have := (ha.2.2 d).trans (h.2.2 d)
      simp only [State.modifyVisual, applyStyle]
      split <;> exact this

theorem commitStatusWith_tracks (env : StyleEnv) (σ : WidgetId → Option OTMLNode)
    (hq : StyleQuiet env σ) (t s : State) (w : WidgetId) (st : WidgetState) (a b : Bool)
    (h : Agree t s) (hs : HasStyles σ s.widgets) :
    Tracks σ (commitStatusWith env t w st a b) (.ok (commitStatus s w st a b)) := by
  unfold commitStatusWith commitStatus
  by_cases hab : (a != b) = true
  · rw [if_pos hab, if_pos hab]
    have h1 : Agree (t.modifyVisual w (fun v => { v with states := v.states.assign a st }))
        (s.modifyVisual w (fun v => { v with states := v.states.assign a st })) := by
      refine ⟨h.1, h.2.1, fun d => ?_⟩
      simp only [State.modifyVisual]
      split
      · rw [h.2.2 d]
      · exact h.2.2 d
    have hk := updateStyleWith_tracks env σ hq _ _ w h1 hs
    cases hu : updateStyleWith env (t.modifyVisual w
        (fun v => { v with states := v.states.assign a st })) w with
    | error e => rw [hu] at hk; exact hk.elim
    | ok t2 =>
      rw [hu] at hk
      have hk1 : Agree t2 (updateStyle (s.modifyVisual w
          (fun v => { v with states := v.states.assign a st })) w) := hk.1
      have hs2 := hk.2
      simp only [hu]
      cases st <;> simp only []
      · exact Tracks.both_ok hk1 hs2
      · exact Tracks.both_ok hk1 hs2
      · rw [hk1.1]
        exact Tracks.both_ok ⟨hk1.1, hk1.2.1, hk1.2.2⟩ hs2
      · exact Tracks.both_ok ⟨hk1.1, hk1.2.1, hk1.2.2⟩ hs2
      · exact Tracks.both_ok hk1 hs2
      · exact Tracks.both_ok hk1 hs2
  · rw [if_neg hab, if_neg hab]
    exact Tracks.both_ok h hs

/-- Under quiet style application the state cascade over applied styles ends
like the cascade over recorded styles. -/
theorem updateStateWith_tracks (env : StyleEnv) (ct : Rect → Point → Bool)
    (σ : WidgetId → Option OTMLNode) (hq : StyleQuiet env σ) :
    ∀ (n : Nat) (t s : State) (w : WidgetId) (st : WidgetState), Agree t s →
      HasStyles σ s.widgets →
      Tracks σ (updateStateWith env ct n t w st) (updateState ct n s w st) := by
  intro n
  induction n with
  | zero => intro t s w st _ _; exact Tracks.both_error _
  | succ n ih =>
    intro t s w st h hs
    rw [updateStateWith, updateState, h.deriveStatus, h.hasState, h.1]
    cases hd : deriveStatus ct n s w st with
    | error e => exact Tracks.both_error _
    | ok r =>
      cases r with
      | none => exact Tracks.both_ok h hs
      | some r =>
        obtain ⟨newStatus, updateChildren⟩ := r
        simp only []
        have hfold : Tracks σ
            (if updateChildren = true then
              (s.widgets w).children.foldlM
                (fun acc child => updateStateWith env ct n acc child st) t
             else .ok t)
            (if updateChildren = true then
              (s.widgets w).children.foldlM (fun acc child => updateState ct n acc child st) s
             else .ok s) :=
          Tracks.both_ite _
            (fun _ => Tracks.both_foldlM _ _ _ (fun c _ t1 s1 h1 hs1 => ih t1 s1 c st h1 hs1) t s h hs)
            (fun _ => Tracks.both_ok h hs)
        revert hfold
        generalize (if updateChildren = true then
              (s.widgets w).children.foldlM
                (fun acc child => updateStateWith env ct n acc child st) t
             else Except.ok t) = x
        generalize (if updateChildren = true then
              (s.widgets w).children.foldlM (fun acc child => updateState ct n acc child st) s
             else Except.ok s) = y
        intro hfold
        cases x with
        | error e =>
          cases y with
          | error f => exact hfold
          | ok s1 => exact hfold.elim
        | ok t1 =>
          cases y with
          | error f => exact hfold.elim
          | ok s1 => exact commitStatusWith_tracks env σ hq t1 s1 w st _ _ hfold.1 hfold.2

theorem updateStatesWith_tracks (env : StyleEnv) (ct : Rect → Point → Bool)
    (σ : WidgetId → Option OTMLNode) (hq : StyleQuiet env σ) (n : Nat) (t s : State)
    (w : WidgetId) (h : Agree t s) (hs : HasStyles σ s.widgets) :
    Tracks σ (updateStatesWith env ct n t w) (updateStates ct n s w) := by
  unfold updateStatesWith updateStates
  exact Tracks.both_bind (updateStateWith_tracks env ct σ hq n t s w _ h hs) (fun t1 s1 h1 hs1 =>
    Tracks.both_bind (updateStateWith_tracks env ct σ hq n t1 s1 w _ h1 hs1) (fun t2 s2 h2 hs2 =>
      Tracks.both_bind (updateStateWith_tracks env ct σ hq n t2 s2 w _ h2 hs2) (fun t3 s3 h3 hs3 =>
        updateStateWith_tracks env ct σ hq n t3 s3 w _ h3 hs3)))

theorem refocusWith_tracks (env : StyleEnv) (ct : Rect → Point → Bool)
    (σ : WidgetId → Option OTMLNode) (hq : StyleQuiet env σ) (n : Nat) (t s : State)
    (w : Option WidgetId) (reason : FocusReason) (h : Agree t s) (hs : HasStyles σ s.widgets) :
    Tracks σ (refocusWith env ct n t w reason) (refocus ct n s w reason) := by
  cases w with
  | none => exact Tracks.both_ok h hs
  | some c =>
    simp only [refocusWith, refocus]
    exact Tracks.both_bind
      (updateStateWith_tracks env ct σ hq n _ _ c _ (h.modified _ _)
        (hs.unrestyled _ _ (by intro _; rfl)))
      (fun t1 s1 h1 hs1 => updateStateWith_tracks env ct σ hq n t1 s1 c _ h1 hs1)

theorem focusChildWith_tracks (env : StyleEnv) (ct : Rect → Point → Bool)
    (σ : WidgetId → Option OTMLNode) (hq : StyleQuiet env σ) (n : Nat) (t s : State)
    (self : WidgetId) (child : Option WidgetId) (reason : FocusReason) (h : Agree t s)
    (hs : HasStyles σ s.widgets) :
    Tracks σ (focusChildWith env ct n t self child reason)
      (focusChild ct n s self child reason) := by
  unfold focusChildWith focusChild
  rw [h.hasChild, h.1]
  refine Tracks.both_ite _ (fun _ => Tracks.both_ok h hs) (fun _ => Tracks.both_ite _ (fun _ => ?_)
    (fun _ => Tracks.both_ok h hs))
  exact Tracks.both_bind
    (refocusWith_tracks env ct σ hq n _ _ child reason (h.modified _ _)
      (hs.unrestyled _ _ (by intro _; rfl)))
    (fun t1 s1 h1 hs1 => refocusWith_tracks env ct σ hq n t1 s1 _ reason h1 hs1)
theorem Agree.afterEnableOnly {t s : State} (h : Agree t s) (l : List WidgetId)
    (only : Option WidgetId) : Agree (enableOnly t l only) (enableOnly s l only) := by
  rw [enableOnly_eq, enableOnly_eq, h.1]
  exact h.of_widgets _

theorem HasStyles.ofEnableOnly {σ : WidgetId → Option OTMLNode} {s : State}
    (hs : HasStyles σ s.widgets) (l : List WidgetId) (only : Option WidgetId) :
    HasStyles σ (enableOnly s l only).widgets := by
  rw [enableOnly_eq]
  intro x
  show (enableOnlyH s.widgets l only x).style = σ x
  rw [enableOnlyH_field (fun d => d.style) (fun _ _ => rfl)]
  exact hs x

theorem unlockChild_tracks (σ : WidgetId → Option OTMLNode) (t s : State) (self : WidgetId)
    (child : Option WidgetId) (h : Agree t s) (hs : HasStyles σ s.widgets) :
    Tracks σ (unlockChild t self child) (unlockChild s self child) := by
  cases child with
  | none => exact Tracks.both_ok h hs
  | some c =>
    simp only [unlockChild]
    rw [h.hasChild, h.1]
    refine Tracks.both_ite _ (fun _ => Tracks.both_error _) (fun _ => Tracks.both_ite _
      (fun _ => Tracks.both_ok h hs) (fun _ => ?_))
    simp only [modify_widgets, h.1]
    exact Tracks.both_ok ((h.modified _ _).afterEnableOnly _ _)
      (HasStyles.ofEnableOnly (hs.unrestyled _ _ (by intro _; rfl)) _ _)

theorem moveChildToTop_tracks (σ : WidgetId → Option OTMLNode) (t s : State) (self : WidgetId)
    (child : Option WidgetId) (h : Agree t s) (hs : HasStyles σ s.widgets) :
    Tracks σ (moveChildToTop t self child) (moveChildToTop s self child) := by
  cases child with
  | none => exact Tracks.both_ok h hs
  | some c =>
    simp only [moveChildToTop]
    rw [h.1]
    exact Tracks.both_ite _ (fun _ => Tracks.both_error _)
      (fun _ => Tracks.both_ok (h.modified _ _) (hs.unrestyled _ _ (by intro _; rfl)))

theorem lockChildWith_tracks (env : StyleEnv) (ct : Rect → Point → Bool)
    (σ : WidgetId → Option OTMLNode) (hq : StyleQuiet env σ) (n : Nat) (t s : State)
    (self : WidgetId) (child : Option WidgetId) (h : Agree t s) (hs : HasStyles σ s.widgets) :
    Tracks σ (lockChildWith env ct n t self child) (lockChild ct n s self child) := by
  cases child with
  | none => exact Tracks.both_ok h hs
  | some c =>
    simp only [lockChildWith, lockChild]
    rw [h.hasChild]
    refine Tracks.both_ite _ (fun _ => Tracks.both_error _) (fun _ => ?_)
    refine Tracks.both_bind (unlockChild_tracks σ t s self (some c) h hs) (fun t1 s1 h1 hs1 => ?_)
    simp only [h1.1]
    have h3 := (h1.afterEnableOnly (s1.widgets self).children (some c)).modified self
      (fun d => { d with lockedChildren := c :: d.lockedChildren })
    have hs3 : HasStyles σ ((enableOnly s1 (s1.widgets self).children (some c)).modify self
        (fun d => { d with lockedChildren := c :: d.lockedChildren })).widgets :=
      (HasStyles.ofEnableOnly hs1 _ _).unrestyled _ _ (by intro _; rfl)
    rw [h3.isFocusable]
    exact Tracks.both_bind
      (Tracks.both_ite _ (fun _ => focusChildWith_tracks env ct σ hq n _ _ self _ _ h3 hs3)
        (fun _ => Tracks.both_ok h3 hs3))
      (fun t4 s4 h4 hs4 => moveChildToTop_tracks σ t4 s4 self (some c) h4 hs4)

theorem focusNextChildWith_tracks (env : StyleEnv) (ct : Rect → Point → Bool)
    (σ : WidgetId → Option OTMLNode) (hq : StyleQuiet env σ) (n : Nat) (t s : State)
    (self : WidgetId) (reason : FocusReason) (h : Agree t s) (hs : HasStyles σ s.widgets) :
    Tracks σ (focusNextChildWith env ct n t self reason) (focusNextChild ct n s self reason) := by
  show Tracks σ
    (match nextFocus t.widgets self with
      | some toFocus => focusChildWith env ct n t self (some toFocus) reason
      | none => .ok t)
    (match nextFocus s.widgets self with
      | some toFocus => focusChild ct n s self (some toFocus) reason
      | none => .ok s)
  rw [h.1]
  cases nextFocus s.widgets self with
  | none => exact Tracks.both_ok h hs
  | some c => exact focusChildWith_tracks env ct σ hq n t s self _ reason h hs

/-- Under quiet style application the tree operations over applied styles end
like the operations over recorded styles. -/
theorem treeWith_tracks (env : StyleEnv) (ct : Rect → Point → Bool)
    (σ : WidgetId → Option OTMLNode) (hq : StyleQuiet env σ) :
    ∀ (n : Nat) (t s : State), Agree t s → HasStyles σ s.widgets →
      ∀ (self : WidgetId) (x : Option WidgetId),
        Tracks σ (setParentWith env ct n t self x) (setParent ct n s self x) ∧
        Tracks σ (addChildWith env ct n t self x) (addChild ct n s self x) ∧
        Tracks σ (removeChildWith env ct n t self x) (removeChild ct n s self x) := by
  intro n
  induction n with
  | zero =>
    intro t s _ _ self x
    refine ⟨?_, ?_, ?_⟩
    · rw [setParentWith, setParent]; exact Tracks.both_error _
    · rw [addChildWith, addChild]; exact Tracks.both_error _
    · rw [removeChildWith, removeChild]; exact Tracks.both_error _
  | succ n ih =>
    intro t s h hs self x
    refine ⟨?_, ?_, ?_⟩
    · rw [setParentWith, setParent, h.getParent]
      refine Tracks.both_bind ?_ (fun t1 s1 h1 hs1 => ?_)
      · cases getParent s self with
        | none => exact Tracks.both_ok h hs
        | some old =>
          simp only []
          rw [h.hasChild]
          exact Tracks.both_ite _ (fun _ => (ih t s h hs old (some self)).2.2)
            (fun _ => Tracks.both_ok h hs)
      · cases x with
        | none => exact Tracks.both_ok (h1.modified _ _) (hs1.unrestyled _ _ (by intro _; rfl))
        | some p =>
          simp only []
          have h3 := (h1.modified self (fun d => { d with parent := none })).modified self
            (fun d => { d with parent := some p })
          have hs3 : HasStyles σ ((s1.modify self (fun d => { d with parent := none })).modify
              self (fun d => { d with parent := some p })).widgets :=
            (hs1.unrestyled _ _ (by intro _; rfl)).unrestyled _ _ (by intro _; rfl)
          rw [h3.hasChild]
          exact Tracks.both_ite _ (fun _ => (ih _ _ h3 hs3 p (some self)).2.1)
            (fun _ => Tracks.both_ok h3 hs3)
    · cases x with
      | none => rw [addChildWith, addChild]; exact Tracks.both_ok h hs
      | some c =>
        rw [addChildWith, addChild]
        simp only []
        rw [h.hasChild]
        refine Tracks.both_ite _ (fun _ => Tracks.both_ok h hs) (fun _ => ?_)
        refine Tracks.both_bind (ih _ _ (h.modified _ _) (hs.unrestyled _ _ (by intro _; rfl)) c
          (some self)).1 (fun t2 s2 h2 hs2 => ?_)
        rw [h2.isFocusable, h2.isExplicitlyVisible, h2.isExplicitlyEnabled]
        refine Tracks.both_bind
          (Tracks.both_ite _ (fun _ => focusChildWith_tracks env ct σ hq n t2 s2 self _ _ h2 hs2)
            (fun _ => Tracks.both_ok h2 hs2))
          (fun t3 s3 h3 hs3 => ?_)
        exact updateStatesWith_tracks env ct σ hq n _ _ c (h3.modified _ _)
          (hs3.unrestyled _ _ (by intro _; rfl))
    · cases x with
      | none => rw [removeChildWith, removeChild]; exact Tracks.both_ok h hs
      | some c =>
        rw [removeChildWith, removeChild]
        simp only [h.1]
        refine Tracks.both_ite _ (fun _ => ?_) (fun _ => Tracks.both_ok h hs)
        refine Tracks.both_bind
          (Tracks.both_ite _ (fun _ => focusChildWith_tracks env ct σ hq n t s self _ _ h hs)
            (fun _ => Tracks.both_ok h hs))
          (fun t1 s1 h1 hs1 => ?_)
        refine Tracks.both_bind (unlockChild_tracks σ t1 s1 self (some c) h1 hs1)
          (fun t2 s2 h2 hs2 => ?_)
        have h3 := h2.modified self (fun d => { d with children := d.children.erase c })
        have hs3 : HasStyles σ (s2.modify self
            (fun d => { d with children := d.children.erase c })).widgets :=
          hs2.unrestyled _ _ (by intro _; rfl)
        rw [h3.getParent]
        refine Tracks.both_ite _ (fun _ => Tracks.both_error _) (fun _ => ?_)
        refine Tracks.both_bind (ih _ _ h3 hs3 c none).1 (fun t4 s4 h4 hs4 => ?_)
        rw [h4.1]
        cases (s4.widgets self).layout with
        | none => exact Tracks.both_error _
        | some l =>
          exact updateStatesWith_tracks env ct σ hq n _ _ c (h4.modified _ _)
            (hs4.unrestyled _ _ (by intro _; rfl))

theorem insertChildWith_tracks (env : StyleEnv) (ct : Rect → Point → Bool)
    (σ : WidgetId → Option OTMLNode) (hq : StyleQuiet env σ) (n : Nat) (t s : State)
    (self : WidgetId) (index : Int) (child : Option WidgetId) (h : Agree t s)
    (hs : HasStyles σ s.widgets) :
    Tracks σ (insertChildWith env ct n t self index child)
      (insertChild ct n s self index child) := by
  cases child with
  | none => exact Tracks.both_ok h hs
  | some c =>
    simp only [insertChildWith, insertChild]
    rw [h.hasChild, h.1]
    refine Tracks.both_ite _ (fun _ => Tracks.both_ok h hs) (fun _ => Tracks.both_ite _
      (fun _ => Tracks.both_error _) (fun _ => ?_))
    refine Tracks.both_bind (treeWith_tracks env ct σ hq n _ _ (h.modified _ _)
      (hs.unrestyled _ _ (by intro _; rfl)) c (some self)).1 (fun t2 s2 h2 hs2 => ?_)
    exact updateStatesWith_tracks env ct σ hq n _ _ c (h2.modified _ _)
      (hs2.unrestyled _ _ (by intro _; rfl))

theorem Tracks.styles {σ : WidgetId → Option OTMLNode} {x y : Except Fault State}
    (h : Tracks σ x y) {s : State} (hy : y = .ok s) : HasStyles σ s.widgets := by
  subst hy
  cases x with
  | error f => exact h.elim
  | ok t => exact h.2

/-- Widgets without style meet the condition on style application:
`updateStyle` returns before it builds a snapshot. -/
theorem styleQuiet_unstyled (env : StyleEnv) (h : Heap) (hu : ∀ w, (h w).style = none) :
    StyleQuiet env (fun w => (h w).style) := by
  intro w node hn
  have hn' : (h w).style = some node := hn
  rw [hu w] at hn'
  cases hn'

theorem sampleState_unstyled : ∀ w, (sampleState.widgets w).style = none := fun _ => rfl

/-- The tree operations over recorded styles keep every widget of an unstyled
heap unstyled. -/
theorem tree_unstyled (ct : Rect → Point → Bool) (n : Nat) (s : State)
    (hu : ∀ w, (s.widgets w).style = none) (self : WidgetId) (x : Option WidgetId) :
    (∀ s', addChild ct n s self x = .ok s' → ∀ w, (s'.widgets w).style = none) ∧
    (∀ s', removeChild ct n s self x = .ok s' → ∀ w, (s'.widgets w).style = none) := by
  have hq : StyleQuiet sampleEnv (fun _ => none) := fun w node hn => by cases hn
  have hk := treeWith_tracks sampleEnv ct (fun _ => none) hq n s s (Agree.itself s) hu self x
  exact ⟨fun s' h => hk.2.1.styles h, fun s' h => hk.2.2.styles h⟩

theorem sampleTree_unstyled : ∀ w, (sampleTree.widgets w).style = none :=
  (tree_unstyled sampleContains 10 sampleState sampleState_unstyled 1 (some 2)).1 sampleTree rfl

theorem sampleFamily_unstyled : ∀ w, (sampleFamily.widgets w).style = none :=
  (tree_unstyled sampleContains 10 sampleTree sampleTree_unstyled 1 (some 3)).1 sampleFamily rfl

/-- A widget that lists itself as a child: the Active cascade visits the
widget from itself and never returns, whatever the fuel. -/
theorem updateState_own_child (ct : Rect → Point → Bool) (p : WidgetId) :
    ∀ (n : Nat) (s : State), p ∈ (s.widgets p).children →
      ∀ s', updateState ct n s p .activeState ≠ .ok s' := by
  intro n
  induction n with
  | zero => intro s _ s' h; rw [updateState] at h; cases h
  | succ n ih =>
    intro s hp s' hrun
    rw [updateState] at hrun
    simp only [deriveStatus] at hrun
    cases hwalk : activeWalk n s p with
    | error e => rw [hwalk] at hrun; cases hrun
    | ok b =>
      rw [hwalk] at hrun
      simp only [Except.map, if_true] at hrun
      obtain ⟨l1, l2, hsplit⟩ := List.append_of_mem hp
      cases hfold : (s.widgets p).children.foldlM
          (fun acc child => updateState ct n acc child .activeState) s with
      | error e => rw [hfold] at hrun; cases hrun
      | ok s1 =>
        rw [hsplit, List.foldlM_append] at hfold
        obtain ⟨a, ha, hrest⟩ := (bind_eq_ok _ _ _).1 hfold
        rw [List.foldlM_cons] at hrest
        obtain ⟨b', hb', -⟩ := (bind_eq_ok _ _ _).1 hrest
        have hwa : a.widgets = s.widgets :=
          foldlM_keeps (fun t => t.widgets = s.widgets) _ l1
            (fun c _ t t' ht hstep => ((updateState_frame ct n t c _ t' hstep).1).trans ht)
            s a rfl ha
        exact ih a (by rw [hwa]; exact hp) b' hb'

/-- Inserting a parent-less widget below itself: `insertChild` lists the widget
among its own children, and the state cascade that ends the call never
returns, whatever the fuel. -/
theorem insertChild_into_itself (ct : Rect → Point → Bool) (s : State) (p : WidgetId)
    (k : Int) (hroot : (s.widgets p).parent = none) (hnc : p ∉ (s.widgets p).children) :
    ∀ fuel s', insertChild ct fuel s p k (some p) ≠ .ok s' := by
  intro fuel s' hrun
  unfold insertChild at hrun
  simp only [hasChild, contains_decide, hnc, decide_False, Bool.false_eq_true, if_false] at hrun
  generalize (if k ≤ 0 then ((s.widgets p).children.length : Int) + k else k - 1) = idx at hrun
  split at hrun
  · cases hrun
  · rename_i hrange
    obtain ⟨s2, h2, h3⟩ := (bind_eq_ok _ _ _).1 hrun
    cases fuel with
    | zero => rw [setParent] at h2; cases h2
    | succ n =>
      have hmem : p ∈ (s.widgets p).children.insertIdx idx.toNat p := by
        refine (List.mem_insertIdx ?_).2 (Or.inl rfl)
        simp only [Bool.not_eq_true, Bool.not_eq_false, Bool.and_eq_true, decide_eq_true_eq,
          Bool.not_eq_eq_eq_not, not_and, Bool.not_true] at hrange
        omega
      rw [setParent] at h2
      simp only [getParent, modify_widgets, hmodify_parent, ite_self, hroot, ok_bind, hasChild,
        contains_decide, hmodify_children, if_true, hmem, decide_True, Bool.not_true,
        Bool.false_eq_true, if_false] at h2
      cases h2
      unfold updateStates at h3
      obtain ⟨a, ha, -⟩ := (bind_eq_ok _ _ _).1 h3
      refine updateState_own_child ct p (n + 1) _ ?_ a ha
      simp only [registerWithLayout, modify_widgets, hmodify_children, ite_self, if_true]
      exact hmem

theorem mem_override (c : OTMLNode) :
    ∀ (l : List OTMLNode) (d : OTMLNode), d ∈ OTMLNode.override l c → d = c ∨ d ∈ l := by
  intro l
  induction l with
  | nil =>
    intro d hd
    simp only [OTMLNode.override, List.mem_singleton] at hd
    exact Or.inl hd
  | cons a l ih =>
    intro d hd
    simp only [OTMLNode.override] at hd
    split at hd
    · rcases List.mem_cons.1 hd with h | h
      · exact Or.inl h
      · exact Or.inr (List.mem_cons_of_mem _ h)
    · rcases List.mem_cons.1 hd with h | h
      · exact Or.inr (h ▸ List.mem_cons_self _ _)
      · rcases ih d h with h1 | h1
        · exact Or.inl h1
        · exact Or.inr (List.mem_cons_of_mem _ h1)

theorem mem_foldl_override :
    ∀ (cs l : List OTMLNode) (d : OTMLNode), d ∈ cs.foldl OTMLNode.override l → d ∈ cs ∨ d ∈ l := by
  intro cs
  induction cs with
  | nil => intro l d hd; exact Or.inr hd
  | cons c cs ih =>
    intro l d hd
    rw [List.foldl_cons] at hd
    rcases ih _ d hd with h | h
    · exact Or.inl (List.mem_cons_of_mem _ h)
    · rcases mem_override c l d h with h1 | h1
      · exact Or.inl (h1 ▸ List.mem_cons_self _ _)
      · exact Or.inr h1

theorem mem_foldl_merge :
    ∀ (blocks : List OTMLNode) (n : OTMLNode) (d : OTMLNode),
      d ∈ (blocks.foldl OTMLNode.merge n).children →
        (∃ b ∈ blocks, d ∈ b.children) ∨ d ∈ n.children := by
  intro blocks
  induction blocks with
  | nil => intro n d hd; exact Or.inr hd
  | cons b blocks ih =>
    intro n d hd
    rw [List.foldl_cons] at hd
    rcases ih _ d hd with ⟨b', hb', hd'⟩ | h
    · exact Or.inl ⟨b', List.mem_cons_of_mem _ hb', hd'⟩
    · rcases mem_foldl_override b.children n.children d h with h1 | h1
      · exact Or.inl ⟨b, List.mem_cons_self _ _, h1⟩
      · exact Or.inr h1

theorem mem_carriedStyle (style : OTMLNode) (old : Option OTMLNode) (d : OTMLNode)
    (hd : d ∈ (carriedStyle style old).children) : d ∈ style.children := by
  cases old with
  | none => simp [carriedStyle, OTMLNode.create, OTMLNode.children] at hd
  | some o =>
    simp only [carriedStyle] at hd
    have key : ∀ (l : List OTMLNode) (acc : OTMLNode),
        (∀ x ∈ acc.children, x ∈ style.children) →
        ∀ x ∈ (l.foldl (fun acc node =>
            match style.get node.tag with
            | some otherNode => acc.addChild otherNode.clone
            | none => acc) acc).children, x ∈ style.children := by
      intro l
      induction l with
      | nil => intro acc hacc x hx; exact hacc x hx
      | cons a l ih =>
        intro acc hacc x hx
        rw [List.foldl_cons] at hx
        refine ih _ ?_ x hx
        intro y hy
        cases hg : style.get a.tag with
        | none => rw [hg] at hy; exact hacc y hy
        | some other =>
          rw [hg] at hy
          simp only [OTMLNode.addChild, OTMLNode.children, OTMLNode.clone, List.mem_append,
            List.mem_singleton] at hy
          rcases hy with h | h
          · exact hacc y h
          · rw [h]; exact List.mem_of_find?_eq_some hg
    exact key o.children OTMLNode.create
      (fun x hx => by simp [OTMLNode.create, OTMLNode.children] at hx) d hd

theorem mem_stateBlocks (style : OTMLNode) (m : States) (b : OTMLNode)
    (hb : b ∈ stateBlocks style m) : b ∈ style.children := by
  simp only [stateBlocks, List.mem_filterMap] at hb
  obtain ⟨e, -, he⟩ := hb
  split at he
  · exact List.mem_of_find?_eq_some he
  · cases he

/-- Every declaration of a snapshot built by `updateStyle` is a declaration of
the base style or of one of its blocks. -/
theorem mem_newStateStyle (style : OTMLNode) (old : Option OTMLNode) (m : States)
    (d : OTMLNode) (hd : d ∈ (newStateStyle style old m).children) :
    d ∈ style.children ∨ ∃ b ∈ style.children, d ∈ b.children := by
  rw [newStateStyle_eq] at hd
  rcases mem_foldl_merge _ _ d hd with ⟨b, hb, hdb⟩ | h
  · exact Or.inr ⟨b, mem_stateBlocks style m b hb, hdb⟩
  · exact Or.inl (mem_carriedStyle style old d h)

theorem applyDeclaration_inert (t : State) (self : WidgetId) (node : OTMLNode)
    (h : node.tag ∈ inertTags) : applyDeclaration sampleEnv t self node = .done t := by
  obtain ⟨tg, v, cs⟩ := node
  simp only [inertTags, OTMLNode.tag, List.mem_cons, List.mem_singleton, List.not_mem_nil,
    or_false] at h
  rcases h with h | h | h | h | h <;> subst h <;> rfl

theorem applyDeclarations_inert (self : WidgetId) :
    ∀ (l : List OTMLNode) (t : State), (∀ d ∈ l, d.tag ∈ inertTags) →
      applyDeclarations sampleEnv self l t = .done t := by
  intro l
  induction l with
  | nil => intro t _; rfl
  | cons a l ih =>
    intro t h
    rw [applyDeclarations, applyDeclaration_inert t self a (h a (List.mem_cons_self _ _))]
    exact ih t (fun d hd => h d (List.mem_cons_of_mem _ hd))

/-- A snapshot whose declarations all carry inert tags is applied by the
sample collaborators without any change of the state. -/
theorem applyStyleWith_inert (t : State) (self : WidgetId) (node : OTMLNode)
    (h : ∀ d ∈ node.children, d.tag ∈ inertTags) :
    applyStyleWith sampleEnv t self node = .ok t := by
  have hid : node.get "id" = none := by
    unfold OTMLNode.get
    rw [List.find?_eq_none]
    intro d hd
    have : ∀ k ∈ inertTags, ¬ ((k == "id") = true) := by decide
    exact this d.tag (h d hd)
  simp only [applyStyleWith, onStyleApplyWith, applyId, hid,
    applyDeclarations_inert self node.children t h]

/-- The style `sampleStyle` is applied quietly by the sample collaborators,
whatever the state bits and the previous snapshot. -/
theorem sampleStyle_quiet (t : State) (self : WidgetId) (old : Option OTMLNode) (m : States) :
    applyStyleWith sampleEnv t self (newStateStyle sampleStyle old m) = .ok t := by
  refine applyStyleWith_inert t self _ (fun d hd => ?_)
  have hall : ∀ b ∈ sampleStyle.children, b.tag ∈ inertTags ∧ ∀ c ∈ b.children, c.tag ∈ inertTags := by
    decide
  rcases mem_newStateStyle sampleStyle old m d hd with h | ⟨b, hb, hdb⟩
  · exact (hall d h).1
  · exact (hall b hb).2 d hdb

/-- The condition on style application holds for the sample collaborators
when one widget carries `sampleStyle` and the other widgets carry no style. -/
theorem painted_quiet (x : WidgetId) (s : State) (hu : ∀ w, (s.widgets w).style = none) :
    StyleQuiet sampleEnv (fun w => ((painted x s).widgets w).style) := by
  intro w node hn t old m
  have hn' : ((painted x s).widgets w).style = some node := hn
  simp only [painted, modify_widgets, hmodify_apply] at hn'
  split at hn'
  · cases hn'
    exact ⟨t, sampleStyle_quiet t w old m, Agree.itself t⟩
  · rw [hu w] at hn'
    cases hn'

theorem painted_wellFormed (x : WidgetId) (s : State) (hw : WellFormed s.widgets) :
    WellFormed (painted x s).widgets :=
  hw.of_fields
    (fun w => by simp only [painted, modify_widgets, hmodify_children, ite_self])
    (fun w => by simp only [painted, modify_widgets, hmodify_parent, ite_self])
    (fun w => by simp only [painted, modify_widgets, hmodify_layout, ite_self])

theorem setLayout_parentLayout (w : WidgetId) (t : State) (l : Layout) (h : ParentLayout w t) :
    ParentLayout w (setLayout t w l) := by
  intro p hp
  simp only [setLayout, modify_widgets, hmodify_parent, ite_self] at hp
  simp only [setLayout, modify_widgets, hmodify_apply]
  split
  · rfl
  · exact h p hp

/-- A declaration that is applied leaves the parent of the widget with its
layout, when the collaborators do. -/
theorem applyDeclaration_parentLayout (env : StyleEnv) (w : WidgetId)
    (henv : env.KeepsParentLayout w) (t r : State) (node : OTMLNode)
    (ht : ParentLayout w t) (h : applyDeclaration env t w node = .done r) :
    ParentLayout w r := by
  unfold applyDeclaration at h
  split at h
  · rename_i declared hd
    split at h
    · rename_i setter hs
      cases h
      exact henv.2.1 _ declared node setter t hd hs ht
    · cases h
  · split at h
    · split at h
      · cases h
      · split at h
        · cases h; exact setLayout_parentLayout w t _ ht
        · split at h <;> cases h
          · exact setLayout_parentLayout w t _ ht
          · exact ht
    · split at h
      · unfold applyAnchor at h
        split at h
        · cases h
        · split at h
          · cases h
          · split at h
            · cases h
            · simp only [] at h
              split at h
              · cases h; exact henv.2.2.1 _ _ t ht
              · split at h
                · cases h; exact henv.2.2.2.1 _ _ t ht
                · split at h
                  · split at h
                    · cases h
                    · split at h
                      · cases h
                      · cases h; exact henv.2.2.2.2 _ _ _ _ t ht
                  · cases h
      · cases h; exact ht

theorem applyDeclarations_parentLayout (env : StyleEnv) (w : WidgetId)
    (henv : env.KeepsParentLayout w) :
    ∀ (l : List OTMLNode) (t r : State), ParentLayout w t →
      applyDeclarations env w l t = .done r → ParentLayout w r := by
  intro l
  induction l with
  | nil => intro t r ht h; simp only [applyDeclarations] at h; cases h; exact ht
  | cons a l ih =>
    intro t r ht h
    rw [applyDeclarations] at h
    cases ha : applyDeclaration env t w a with
    | done t1 =>
      rw [ha] at h
      exact ih t1 r (applyDeclaration_parentLayout env w henv t t1 a ht ha) h
    | raised t1 what => rw [ha] at h; cases h
    | fatal f => rw [ha] at h; cases h

theorem applyId_parentLayout (env : StyleEnv) (w : WidgetId) (henv : env.KeepsParentLayout w)
    (s : State) (node : OTMLNode) (hs : ParentLayout w s) :
    ParentLayout w (applyId env s w node) := by
  unfold applyId
  split
  · exact henv.1 _ s hs
  · exact hs

/-- A `layout` declaration on a widget that owns a layout stops the program
at `assert(!m_layout)`. -/
theorem applyDeclaration_layout (env : StyleEnv) (t : State) (w : WidgetId) (node : OTMLNode)
    (htag : node.tag = "layout") (hl : (t.widgets w).layout.isSome = true) :
    applyDeclaration env t w node = .fatal .assertion := by
  unfold applyDeclaration
  rw [htag]
  have h1 : simpleDeclaration env "layout" = none := rfl
  rw [h1]
  simp only [hl, if_true]
  rfl

/-- The setter that the tag dispatch of `onStyleApply` selects is one of the
eighteen setters of the collaborators. -/
theorem simpleDeclaration_cases (env : StyleEnv) (tag : String) (d : Declared)
    (h : simpleDeclaration env tag = some d) :
    d ∈ [env.setImage, env.setBorderImage, env.setFont, env.setForegroundColor,
      env.setBackgroundColor, env.setOpacity, env.setFocusable, env.resize, env.setWidth,
      env.setHeight, env.setSizeFixed, env.moveTo, env.setX, env.setY, env.setMarginLeft,
      env.setMarginRight, env.setMarginTop, env.setMarginBottom] := by
  unfold simpleDeclaration at h
  by_cases h0 : (tag == "image") = true
  · rw [if_pos h0] at h
    cases h
    exact List.mem_cons_self _ _
  rw [if_neg h0] at h
  by_cases h1 : (tag == "border-image") = true
  · rw [if_pos h1] at h
    cases h
    exact List.mem_cons_of_mem _ (List.mem_cons_self _ _)
  rw [if_neg h1] at h
  by_cases h2 : (tag == "font") = true
  · rw [if_pos h2] at h
    cases h
    exact List.mem_cons_of_mem _ (List.mem_cons_of_mem _ (List.mem_cons_self _ _))
  rw [if_neg h2] at h
  by_cases h3 : (tag == "color") = true
  · rw [if_pos h3] at h
    cases h
    exact List.mem_cons_of_mem _ (List.mem_cons_of_mem _ (List.mem_cons_of_mem _ (List.mem_cons_self _ _)))
  rw [if_neg h3] at h
  by_cases h4 : (tag == "background-color") = true
  · rw [if_pos h4] at h
    cases h
    exact List.mem_cons_of_mem _ (List.mem_cons_of_mem _ (List.mem_cons_of_mem _ (List.mem_cons_of_mem _ (List.mem_cons_self _ _))))
  rw [if_neg h4] at h
  by_cases h5 : (tag == "opacity") = true
  · rw [if_pos h5] at h
    cases h
    exact List.mem_cons_of_mem _ (List.mem_cons_of_mem _ (List.mem_cons_of_mem _ (List.mem_cons_of_mem _ (List.mem_cons_of_mem _ (List.mem_cons_self _ _)))))
  rw [if_neg h5] at h
  by_cases h6 : (tag == "focusable") = true
  · rw [if_pos h6] at h
    cases h
    exact List.mem_cons_of_mem _ (List.mem_cons_of_mem _ (List.mem_cons_of_mem _ (List.mem_cons_of_mem _ (List.mem_cons_of_mem _ (List.mem_cons_of_mem _ (List.mem_cons_self _ _))))))
  rw [if_neg h6] at h
  by_cases h7 : (tag == "size") = true
  · rw [if_pos h7] at h
    cases h
    exact List.mem_cons_of_mem _ (List.mem_cons_of_mem _ (List.mem_cons_of_mem _ (List.mem_cons_of_mem _ (List.mem_cons_of_mem _ (List.mem_cons_of_mem _ (List.mem_cons_of_mem _ (List.mem_cons_self _ _)))))))
  rw [if_neg h7] at h
  by_cases h8 : (tag == "width") = true
  · rw [if_pos h8] at h
    cases h
    exact List.mem_cons_of_mem _ (List.mem_cons_of_mem _ (List.mem_cons_of_mem _ (List.mem_cons_of_mem _ (List.mem_cons_of_mem _ (List.mem_cons_of_mem _ (List.mem_cons_of_mem _ (List.mem_cons_of_mem _ (List.mem_cons_self _ _))))))))
  rw [if_neg h8] at h
  by_cases h9 : (tag == "height") = true
  · rw [if_pos h9] at h
    cases h
    exact List.mem_cons_of_mem _ (List.mem_cons_of_mem _ (List.mem_cons_of_mem _ (List.mem_cons_of_mem _ (List.mem_cons_of_mem _ (List.mem_cons_of_mem _ (List.mem_cons_of_mem _ (List.mem_cons_of_mem _ (List.mem_cons_of_mem _ (List.mem_cons_self _ _)))))))))
  rw [if_neg h9] at h
  by_cases h10 : (tag == "size fixed") = true
  · rw [if_pos h10] at h
    cases h
    exact List.mem_cons_of_mem _ (List.mem_cons_of_mem _ (List.mem_cons_of_mem _ (List.mem_cons_of_mem _ (List.mem_cons_of_mem _ (List.mem_cons_of_mem _ (List.mem_cons_of_mem _ (List.mem_cons_of_mem _ (List.mem_cons_of_mem _ (List.mem_cons_of_mem _ (List.mem_cons_self _ _))))))))))
  rw [if_neg h10] at h
  by_cases h11 : (tag == "position") = true
  · rw [if_pos h11] at h
    cases h
    exact List.mem_cons_of_mem _ (List.mem_cons_of_mem _ (List.mem_cons_of_mem _ (List.mem_cons_of_mem _ (List.mem_cons_of_mem _ (List.mem_cons_of_mem _ (List.mem_cons_of_mem _ (List.mem_cons_of_mem _ (List.mem_cons_of_mem _ (List.mem_cons_of_mem _ (List.mem_cons_of_mem _ (List.mem_cons_self _ _)))))))))))
  rw [if_neg h11] at h
  by_cases h12 : (tag == "x") = true
  · rw [if_pos h12] at h
    cases h
    exact List.mem_cons_of_mem _ (List.mem_cons_of_mem _ (List.mem_cons_of_mem _ (List.mem_cons_of_mem _ (List.mem_cons_of_mem _ (List.mem_cons_of_mem _ (List.mem_cons_of_mem _ (List.mem_cons_of_mem _ (List.mem_cons_of_mem _ (List.mem_cons_of_mem _ (List.mem_cons_of_mem _ (List.mem_cons_of_mem _ (List.mem_cons_self _ _))))))))))))
  rw [if_neg h12] at h
  by_cases h13 : (tag == "y") = true
  · rw [if_pos h13] at h
    cases h
    exact List.mem_cons_of_mem _ (List.mem_cons_of_mem _ (List.mem_cons_of_mem _ (List.mem_cons_of_mem _ (List.mem_cons_of_mem _ (List.mem_cons_of_mem _ (List.mem_cons_of_mem _ (List.mem_cons_of_mem _ (List.mem_cons_of_mem _ (List.mem_cons_of_mem _ (List.mem_cons_of_mem _ (List.mem_cons_of_mem _ (List.mem_cons_of_mem _ (List.mem_cons_self _ _)))))))))))))
  rw [if_neg h13] at h
  by_cases h14 : (tag == "margin.left") = true
  · rw [if_pos h14] at h
    cases h
    exact List.mem_cons_of_mem _ (List.mem_cons_of_mem _ (List.mem_cons_of_mem _ (List.mem_cons_of_mem _ (List.mem_cons_of_mem _ (List.mem_cons_of_mem _ (List.mem_cons_of_mem _ (List.mem_cons_of_mem _ (List.mem_cons_of_mem _ (List.mem_cons_of_mem _ (List.mem_cons_of_mem _ (List.mem_cons_of_mem _ (List.mem_cons_of_mem _ (List.mem_cons_of_mem _ (List.mem_cons_self _ _))))))))))))))
  rw [if_neg h14] at h
  by_cases h15 : (tag == "margin.right") = true
  · rw [if_pos h15] at h
    cases h
    exact List.mem_cons_of_mem _ (List.mem_cons_of_mem _ (List.mem_cons_of_mem _ (List.mem_cons_of_mem _ (List.mem_cons_of_mem _ (List.mem_cons_of_mem _ (List.mem_cons_of_mem _ (List.mem_cons_of_mem _ (List.mem_cons_of_mem _ (List.mem_cons_of_mem _ (List.mem_cons_of_mem _ (List.mem_cons_of_mem _ (List.mem_cons_of_mem _ (List.mem_cons_of_mem _ (List.mem_cons_of_mem _ (List.mem_cons_self _ _)))))))))))))))
  rw [if_neg h15] at h
  by_cases h16 : (tag == "margin.top") = true
  · rw [if_pos h16] at h
    cases h
    exact List.mem_cons_of_mem _ (List.mem_cons_of_mem _ (List.mem_cons_of_mem _ (List.mem_cons_of_mem _ (List.mem_cons_of_mem _ (List.mem_cons_of_mem _ (List.mem_cons_of_mem _ (List.mem_cons_of_mem _ (List.mem_cons_of_mem _ (List.mem_cons_of_mem _ (List.mem_cons_of_mem _ (List.mem_cons_of_mem _ (List.mem_cons_of_mem _ (List.mem_cons_of_mem _ (List.mem_cons_of_mem _ (List.mem_cons_of_mem _ (List.mem_cons_self _ _))))))))))))))))
  rw [if_neg h16] at h
  by_cases h17 : (tag == "margin.bottom") = true
  · rw [if_pos h17] at h
    cases h
    exact List.mem_cons_of_mem _ (List.mem_cons_of_mem _ (List.mem_cons_of_mem _ (List.mem_cons_of_mem _ (List.mem_cons_of_mem _ (List.mem_cons_of_mem _ (List.mem_cons_of_mem _ (List.mem_cons_of_mem _ (List.mem_cons_of_mem _ (List.mem_cons_of_mem _ (List.mem_cons_of_mem _ (List.mem_cons_of_mem _ (List.mem_cons_of_mem _ (List.mem_cons_of_mem _ (List.mem_cons_of_mem _ (List.mem_cons_of_mem _ (List.mem_cons_of_mem _ (List.mem_cons_self _ _)))))))))))))))))
  rw [if_neg h17] at h
  cases h

/-- The sample collaborators keep the parent of every widget with its
layout: they set the focusable flag and the applied-log only. -/
theorem sampleEnv_keepsParentLayout (w : WidgetId) : sampleEnv.KeepsParentLayout w := by
  refine ⟨fun v t ht => ht, ?_, fun p v t ht => ht, fun p v t ht => ht,
    fun p a h e t ht => ht⟩
  intro tag declared node setter t hd hs ht
  have hidle : idleDeclared node = .ok setter → ParentLayout w (setter w t) := by
    intro h
    cases h
    exact ht
  have hflag : ∀ b : Bool, ParentLayout w (t.modify w (fun d => { d with focusable := b })) := by
    intro b p hp
    simp only [modify_widgets, hmodify_parent, ite_self] at hp
    simp only [modify_widgets, hmodify_layout, ite_self]
    exact ht p hp
  have hfocus : sampleEnv.setFocusable node = .ok setter → ParentLayout w (setter w t) := by
    intro h
    simp only [sampleEnv] at h
    by_cases h1 : (node.value == "true") = true
    · rw [if_pos h1] at h
      cases h
      exact hflag true
    · rw [if_neg h1] at h
      by_cases h2 : (node.value == "false") = true
      · rw [if_pos h2] at h
        cases h
        exact hflag false
      · rw [if_neg h2] at h
        cases h
  have hm := simpleDeclaration_cases sampleEnv tag declared hd
  simp only [List.mem_cons, List.mem_singleton, List.not_mem_nil, or_false] at hm
  rcases hm with h | h | h | h | h | h | h | h | h | h | h | h | h | h | h | h | h | h <;>
    subst h <;> first | exact hidle hs | exact hfocus hs

theorem hoverSample_unstyled : ∀ w, (hoverSample.widgets w).style = none := fun w => by
  show ((hmodify sampleTree.widgets 1 _) w).style = none
  exact (hmodify_field (fun d => d.style) _ _ _ (by intro _; rfl) w).trans (sampleTree_unstyled w)

theorem hoverSample_wellFormed : WellFormed hoverSample.widgets :=
  sampleTree_wellFormed.of_fields
    (fun w => by simp only [hoverSample, modify_widgets, hmodify_children, ite_self])
    (fun w => by simp only [hoverSample, modify_widgets, hmodify_parent, ite_self])
    (fun w => by simp only [hoverSample, modify_widgets, hmodify_layout, ite_self])

theorem sampleTrio_unstyled : ∀ w, (sampleTrio.widgets w).style = none :=
  (tree_unstyled sampleContains 10 sampleFamily sampleFamily_unstyled 1 (some 4)).1 sampleTrio rfl

theorem Grows.grow_eq {α : Type} (x : Except Fault α) : Grows x x := fun _ h _ => h

theorem Grows.grow_fuel {α : Type} (y : Except Fault α) : Grows (.error .fuel) y :=
  fun _ h hr => absurd h.symm hr

theorem Grows.grow_bind {α β : Type} {x y : Except Fault α} {F G : α → Except Fault β}
    (hx : Grows x y) (hf : ∀ a, Grows (F a) (G a)) : Grows (x >>= F) (y >>= G) := by
  intro r h hr
  cases x with
  | error e =>
    rw [error_bind] at h
    have he : e ≠ .fuel := by
      intro he
      rw [he] at h
      exact hr h.symm
    rw [hx (.error e) rfl (by intro h'; cases h'; exact he rfl), error_bind]
    exact h
  | ok a =>
    rw [ok_bind] at h
    rw [hx (.ok a) rfl (by intro he; cases he), ok_bind]
    exact hf a r h hr

theorem Grows.grow_map {α β : Type} {x y : Except Fault α} (f : α → β) (hx : Grows x y) :
    Grows (x.map f) (y.map f) := by
  intro r h hr
  cases x with
  | error e =>
    have he : e ≠ .fuel := by
      intro he
      rw [he] at h
      exact hr h.symm
    rw [hx (.error e) rfl (by intro h'; cases h'; exact he rfl)]
    exact h
  | ok a =>
    rw [hx (.ok a) rfl (by intro he; cases he)]
    exact h

theorem Grows.grow_ite {α : Type} (c : Prop) [Decidable c] {a b a' b' : Except Fault α}
    (h1 : c → Grows a a') (h2 : ¬c → Grows b b') :
    Grows (if c then a else b) (if c then a' else b') := by
  by_cases h : c
  · rw [if_pos h, if_pos h]; exact h1 h
  · rw [if_neg h, if_neg h]; exact h2 h

theorem Grows.grow_foldlM {α : Type} (f g : State → α → Except Fault State) (l : List α)
    (hf : ∀ a ∈ l, ∀ s, Grows (f s a) (g s a)) : ∀ s, Grows (l.foldlM f s) (l.foldlM g s) := by
  induction l with
  | nil => intro s; exact Grows.grow_eq _
  | cons a l ih =>
    intro s
    rw [List.foldlM_cons, List.foldlM_cons]
    exact Grows.grow_bind (hf a (List.mem_cons_self _ _) s)
      (fun t => ih (fun b hb => hf b (List.mem_cons_of_mem _ hb)) t)

theorem activeWalk_grows (s : State) :
    ∀ (n m : Nat) (w : WidgetId), n ≤ m → Grows (activeWalk n s w) (activeWalk m s w) := by
  intro n
  induction n with
  | zero => intro m w _; rw [activeWalk]; exact Grows.grow_fuel _
  | succ n ih =>
    intro m w hm
    cases m with
    | zero => omega
    | succ m =>
      intro r hx hr
      rw [activeWalk] at hx
      rw [activeWalk]
      revert r
      show Grows _ _
      refine Grows.grow_ite _ (fun _ => Grows.grow_eq _) (fun _ => ?_)
      cases getParent s w with
      | none => exact Grows.grow_eq _
      | some p => exact ih m p (by omega)

theorem hoverWalk_grows (ct : Rect → Point → Bool) (s : State) :
    ∀ (n m : Nat) (w : WidgetId), n ≤ m → Grows (hoverWalk ct n s w) (hoverWalk ct m s w) := by
  intro n
  induction n with
  | zero => intro m w _; rw [hoverWalk]; exact Grows.grow_fuel _
  | succ n ih =>
    intro m w hm
    cases m with
    | zero => omega
    | succ m =>
      intro r hx hr
      rw [hoverWalk] at hx
      rw [hoverWalk]
      revert r
      show Grows _ _
      refine Grows.grow_ite _ (fun _ => Grows.grow_eq _) (fun _ => ?_)
      cases getParent s w with
      | none => exact Grows.grow_eq _
      | some p => exact ih m p (by omega)

theorem disabledWalk_grows (s : State) :
    ∀ (n m : Nat) (w : WidgetId), n ≤ m → Grows (disabledWalk n s w) (disabledWalk m s w) := by
  intro n
  induction n with
  | zero => intro m w _; rw [disabledWalk]; exact Grows.grow_fuel _
  | succ n ih =>
    intro m w hm
    cases m with
    | zero => omega
    | succ m =>
      intro r hx hr
      rw [disabledWalk] at hx
      rw [disabledWalk]
      revert r
      show Grows _ _
      refine Grows.grow_ite _ (fun _ => Grows.grow_eq _) (fun _ => ?_)
      cases getParent s w with
      | none => exact Grows.grow_eq _
      | some p => exact ih m p (by omega)

theorem deriveStatus_grows (ct : Rect → Point → Bool) (s : State) (n m : Nat) (w : WidgetId)
    (st : WidgetState) (hm : n ≤ m) :
    Grows (deriveStatus ct n s w st) (deriveStatus ct m s w st) := by
  cases st <;> simp only [deriveStatus]
  · exact Grows.grow_eq _
  · exact Grows.grow_map _ (activeWalk_grows s n m w hm)
  · exact Grows.grow_eq _
  · exact Grows.grow_map _ (hoverWalk_grows ct s n m w hm)
  · exact Grows.grow_eq _
  · exact Grows.grow_map _ (disabledWalk_grows s n m w hm)

/-- Case analysis on a call in front of its continuation: when the call with
more fuel ends like the call with less, a fault is handed on as it is and the
continuations after a return agree in the same way, so do the two runs. -/
theorem Grows.grow_cases {α β : Type} {x y : Except Fault α} (hx : Grows x y)
    (K L : Except Fault α → Except Fault β)
    (hK : ∀ e, K (.error e) = .error e) (hL : ∀ e, L (.error e) = .error e)
    (hok : ∀ a, Grows (K (.ok a)) (L (.ok a))) : Grows (K x) (L y) := by
  intro r h hr
  cases x with
  | error e =>
    rw [hK] at h
    have he : e ≠ .fuel := by
      intro he
      rw [he] at h
      exact hr h.symm
    rw [hx (.error e) rfl (by intro h'; cases h'; exact he rfl), hL]
    exact h
  | ok a =>
    rw [hx (.ok a) rfl (by intro he; cases he)]
    exact hok a r h hr

/-- More fuel does not change how the state cascade ends, once it does not
end for lack of fuel. -/
theorem updateStateWith_grows (env : StyleEnv) (ct : Rect → Point → Bool) :
    ∀ (n m : Nat) (s : State) (w : WidgetId) (st : WidgetState), n ≤ m →
      Grows (updateStateWith env ct n s w st) (updateStateWith env ct m s w st) := by
  intro n
  induction n with
  | zero => intro m s w st _; rw [updateStateWith]; exact Grows.grow_fuel _
  | succ n ih =>
    intro m s w st hm
    cases m with
    | zero => omega
    | succ m =>
      intro r hx hr
      rw [updateStateWith] at hx
      rw [updateStateWith]
      revert r
      show Grows _ _
      refine Grows.grow_cases (deriveStatus_grows ct s n m w st (by omega))
        (fun z => match z with
          | .error e => .error e
          | .ok none => .ok s
          | .ok (some (newStatus, updateChildren)) =>
            match (if updateChildren then
                     (s.widgets w).children.foldlM
                       (fun acc child => updateStateWith env ct n acc child st) s
                   else .ok s) with
            | .error e => .error e
            | .ok s1 => commitStatusWith env s1 w st newStatus (hasState s w st))
        (fun z => match z with
          | .error e => .error e
          | .ok none => .ok s
          | .ok (some (newStatus, updateChildren)) =>
            match (if updateChildren then
                     (s.widgets w).children.foldlM
                       (fun acc child => updateStateWith env ct m acc child st) s
                   else .ok s) with
            | .error e => .error e
            | .ok s1 => commitStatusWith env s1 w st newStatus (hasState s w st))
        (fun _ => rfl) (fun _ => rfl) (fun v => ?_)
      cases v with
      | none => exact Grows.grow_eq _
      | some v =>
        obtain ⟨newStatus, updateChildren⟩ := v
        refine Grows.grow_cases
          (Grows.grow_ite _
            (fun _ => Grows.grow_foldlM _ _ _ (fun c _ t => ih m t c st (by omega)) s)
            (fun _ => Grows.grow_eq _))
          (fun z => match z with
            | .error e => .error e
            | .ok s1 => commitStatusWith env s1 w st newStatus (hasState s w st))
          (fun z => match z with
            | .error e => .error e
            | .ok s1 => commitStatusWith env s1 w st newStatus (hasState s w st))
          (fun _ => rfl) (fun _ => rfl) (fun a => Grows.grow_eq _)

theorem updateStatesWith_grows (env : StyleEnv) (ct : Rect → Point → Bool) (n m : Nat)
    (s : State) (w : WidgetId) (hm : n ≤ m) :
    Grows (updateStatesWith env ct n s w) (updateStatesWith env ct m s w) := by
  unfold updateStatesWith
  exact Grows.grow_bind (updateStateWith_grows env ct n m s w _ hm) (fun s1 =>
    Grows.grow_bind (updateStateWith_grows env ct n m s1 w _ hm) (fun s2 =>
      Grows.grow_bind (updateStateWith_grows env ct n m s2 w _ hm) (fun s3 =>
        updateStateWith_grows env ct n m s3 w _ hm)))

theorem refocusWith_grows (env : StyleEnv) (ct : Rect → Point → Bool) (n m : Nat) (s : State)
    (w : Option WidgetId) (reason : FocusReason) (hm : n ≤ m) :
    Grows (refocusWith env ct n s w reason) (refocusWith env ct m s w reason) := by
  cases w with
  | none => exact Grows.grow_eq _
  | some c =>
    simp only [refocusWith]
    exact Grows.grow_bind (updateStateWith_grows env ct n m _ c _ hm)
      (fun a => updateStateWith_grows env ct n m a c _ hm)

theorem focusChildWith_grows (env : StyleEnv) (ct : Rect → Point → Bool) (n m : Nat) (s : State)
    (self : WidgetId) (child : Option WidgetId) (reason : FocusReason) (hm : n ≤ m) :
    Grows (focusChildWith env ct n s self child reason)
      (focusChildWith env ct m s self child reason) := by
  unfold focusChildWith
  refine Grows.grow_ite _ (fun _ => Grows.grow_eq _) (fun _ => Grows.grow_ite _ (fun _ => ?_)
    (fun _ => Grows.grow_eq _))
  exact Grows.grow_bind (refocusWith_grows env ct n m _ child reason hm)
    (fun s2 => refocusWith_grows env ct n m s2 _ reason hm)

theorem lockChildWith_grows (env : StyleEnv) (ct : Rect → Point → Bool) (n m : Nat) (s : State)
    (self : WidgetId) (child : Option WidgetId) (hm : n ≤ m) :
    Grows (lockChildWith env ct n s self child) (lockChildWith env ct m s self child) := by
  cases child with
  | none => exact Grows.grow_eq _
  | some c =>
    simp only [lockChildWith]
    refine Grows.grow_ite _ (fun _ => Grows.grow_eq _) (fun _ => ?_)
    refine Grows.grow_bind (Grows.grow_eq _) (fun s1 => ?_)
    exact Grows.grow_bind
      (Grows.grow_ite _ (fun _ => focusChildWith_grows env ct n m _ self _ _ hm)
        (fun _ => Grows.grow_eq _))
      (fun s4 => Grows.grow_eq _)

theorem focusNextChildWith_grows (env : StyleEnv) (ct : Rect → Point → Bool) (n m : Nat)
    (s : State) (self : WidgetId) (reason : FocusReason) (hm : n ≤ m) :
    Grows (focusNextChildWith env ct n s self reason)
      (focusNextChildWith env ct m s self reason) := by
  show Grows
    (match nextFocus s.widgets self with
      | some toFocus => focusChildWith env ct n s self (some toFocus) reason
      | none => .ok s)
    (match nextFocus s.widgets self with
      | some toFocus => focusChildWith env ct m s self (some toFocus) reason
      | none => .ok s)
  cases nextFocus s.widgets self with
  | none => exact Grows.grow_eq _
  | some c => exact focusChildWith_grows env ct n m s self _ reason hm

/-- More fuel does not change how the tree operations end, once they do not
end for lack of fuel. -/
theorem treeWith_grows (env : StyleEnv) (ct : Rect → Point → Bool) :
    ∀ (n m : Nat), n ≤ m → ∀ (s : State) (self : WidgetId) (x : Option WidgetId),
      Grows (setParentWith env ct n s self x) (setParentWith env ct m s self x) ∧
      Grows (addChildWith env ct n s self x) (addChildWith env ct m s self x) ∧
      Grows (removeChildWith env ct n s self x) (removeChildWith env ct m s self x) := by
  intro n
  induction n with
  | zero =>
    intro m _ s self x
    refine ⟨?_, ?_, ?_⟩
    · rw [setParentWith]; exact Grows.grow_fuel _
    · rw [addChildWith]; exact Grows.grow_fuel _
    · rw [removeChildWith]; exact Grows.grow_fuel _
  | succ n ih =>
    intro m hm s self x
    cases m with
    | zero => omega
    | succ m =>
      have hnm : n ≤ m := by omega
      refine ⟨?_, ?_, ?_⟩
      · intro r hx hr
        rw [setParentWith] at hx
        rw [setParentWith]
        revert r
        show Grows _ _
        refine Grows.grow_bind ?_ (fun s1 => ?_)
        · cases getParent s self with
          | none => exact Grows.grow_eq _
          | some old =>
            exact Grows.grow_ite _ (fun _ => (ih m hnm s old (some self)).2.2)
              (fun _ => Grows.grow_eq _)
        · cases x with
          | none => exact Grows.grow_eq _
          | some p =>
            exact Grows.grow_ite _ (fun _ => (ih m hnm _ p (some self)).2.1)
              (fun _ => Grows.grow_eq _)
      · cases x with
        | none => rw [addChildWith, addChildWith]; exact Grows.grow_eq _
        | some c =>
          intro r hx hr
          rw [addChildWith] at hx
          rw [addChildWith]
          revert r
          show Grows _ _
          refine Grows.grow_ite _ (fun _ => Grows.grow_eq _) (fun _ => ?_)
          refine Grows.grow_bind (ih m hnm _ c (some self)).1 (fun s2 => ?_)
          refine Grows.grow_bind
            (Grows.grow_ite _ (fun _ => focusChildWith_grows env ct n m s2 self _ _ hnm)
              (fun _ => Grows.grow_eq _))
            (fun s3 => updateStatesWith_grows env ct n m _ c hnm)
      · cases x with
        | none => rw [removeChildWith, removeChildWith]; exact Grows.grow_eq _
        | some c =>
          intro r hx hr
          rw [removeChildWith] at hx
          rw [removeChildWith]
          revert r
          show Grows _ _
          refine Grows.grow_ite _ (fun _ => ?_) (fun _ => Grows.grow_eq _)
          refine Grows.grow_bind
            (Grows.grow_ite _ (fun _ => focusChildWith_grows env ct n m s self _ _ hnm)
              (fun _ => Grows.grow_eq _))
            (fun s1 => ?_)
          refine Grows.grow_bind (Grows.grow_eq _) (fun s2 => ?_)
          refine Grows.grow_ite _ (fun _ => Grows.grow_eq _) (fun _ => ?_)
          refine Grows.grow_bind (ih m hnm _ c none).1 (fun s4 => ?_)
          cases (s4.widgets self).layout with
          | none => exact Grows.grow_eq _
          | some l => exact updateStatesWith_grows env ct n m _ c hnm

theorem insertChildWith_grows (env : StyleEnv) (ct : Rect → Point → Bool) (n m : Nat)
    (s : State) (self : WidgetId) (index : Int) (child : Option WidgetId) (hm : n ≤ m) :
    Grows (insertChildWith env ct n s self index child)
      (insertChildWith env ct m s self index child) := by
  cases child with
  | none => exact Grows.grow_eq _
  | some c =>
    simp only [insertChildWith]
    refine Grows.grow_ite _ (fun _ => Grows.grow_eq _) (fun _ => Grows.grow_ite _
      (fun _ => Grows.grow_eq _) (fun _ => ?_))
    exact Grows.grow_bind (treeWith_grows env ct n m hm _ c (some self)).1
      (fun s2 => updateStatesWith_grows env ct n m _ c hm)

/-- A call that stops at a fault other than lack of fuel returns for no
amount of fuel, and stops at that fault for every larger amount. -/
theorem Grows.never_returns {α : Type} (f : Nat → Except Fault α)
    (hf : ∀ n m, n ≤ m → Grows (f n) (f m)) (N : Nat) (e : Fault) (hN : f N = .error e)
    (he : e ≠ .fuel) :
    (∀ fuel a, f fuel ≠ .ok a) ∧ ∀ fuel, N ≤ fuel → f fuel = .error e := by
  have hup : ∀ fuel, N ≤ fuel → f fuel = .error e := fun fuel h =>
    hf N fuel h (.error e) hN (by intro h'; cases h'; exact he rfl)
  refine ⟨fun fuel a ha => ?_, hup⟩
  rcases Nat.le_total fuel N with h | h
  · have := hf fuel N h (.ok a) ha (by intro h'; cases h')
    rw [hN] at this
    cases this
  · rw [hup fuel h] at ha
    cases ha

/-- C3 (index addressing), amended.  On a well-formed tree whose style
application neither alters the tree nor stops the program, for a widget `p`
with children `cs` of length `n` and a widget `x` not among them that is
neither `p` nor an ancestor of `p`: every `insertChild(k, x)` that returns
leaves the children `take pos cs ++ x :: drop pos cs`, with `pos = k - 1` when
`1 ≤ k ≤ n + 1` and `pos = n + k` when `-n ≤ k ≤ 0`; for three children,
index 0 appends, index -1 inserts before the last element and index 1 inserts
at the front; and for an index in one of the two ranges the call returns,
given enough fuel. -/
theorem index_addressing (env : StyleEnv) (ct : Rect → Point → Bool) (s : State)
    (p x : WidgetId) (k : Int) (hq : StyleQuiet env (fun w => (s.widgets w).style))
    (hw : WellFormed s.widgets) (hx : x ∉ (s.widgets p).children)
    (hna : ∀ j, up s.widgets j p ≠ some x) :
    (∀ fuel s', insertChildWith env ct fuel s p k (some x) = .ok s' →
      (1 ≤ k ∧ k ≤ ((s.widgets p).children.length : Int) + 1 →
        (s'.widgets p).children
          = (s.widgets p).children.take (k - 1).toNat
              ++ x :: (s.widgets p).children.drop (k - 1).toNat) ∧
      (-((s.widgets p).children.length : Int) ≤ k ∧ k ≤ 0 →
        (s'.widgets p).children
          = (s.widgets p).children.take (((s.widgets p).children.length : Int) + k).toNat
              ++ x :: (s.widgets p).children.drop
                (((s.widgets p).children.length : Int) + k).toNat) ∧
      (∀ c1 c2 c3, (s.widgets p).children = [c1, c2, c3] →
        (k = 0 → (s'.widgets p).children = [c1, c2, c3, x]) ∧
        (k = -1 → (s'.widgets p).children = [c1, c2, x, c3]) ∧
        (k = 1 → (s'.widgets p).children = [x, c1, c2, c3]))) ∧
    ((1 ≤ k ∧ k ≤ ((s.widgets p).children.length : Int) + 1) ∨
        (-((s.widgets p).children.length : Int) ≤ k ∧ k ≤ 0) →
      ∃ F, ∀ fuel, F ≤ fuel → ∃ s', insertChildWith env ct fuel s p k (some x) = .ok s') := by
  have hk := fun fuel => insertChildWith_tracks env ct _ hq fuel s s p k (some x)
    (Agree.itself s) (fun _ => rfl)
  have old := index_addressing_recorded ct s p x k hw hx
  refine ⟨fun fuel t' hrun => ?_, fun hr => ?_⟩
  · obtain ⟨s', hs', ha⟩ := (hk fuel).ok_left hrun
    rw [ha.1]
    exact old.1 fuel s' hs'
  · obtain ⟨F, hF⟩ := old.2 hr hna
    refine ⟨F, fun fuel hf => ?_⟩
    obtain ⟨s', hs'⟩ := hF fuel hf
    obtain ⟨t', ht', -⟩ := (hk fuel).ok_right hs'
    exact ⟨t', ht'⟩

theorem index_addressing_witness :
    StyleQuiet sampleEnv (fun w => ((painted 3 sampleTree).widgets w).style) ∧
    WellFormed (painted 3 sampleTree).widgets ∧
    3 ∉ ((painted 3 sampleTree).widgets 1).children ∧
    (∀ j, up (painted 3 sampleTree).widgets j 1 ≠ some 3) ∧
    ((∀ fuel s',
      insertChildWith sampleEnv sampleContains fuel (painted 3 sampleTree) 1 1 (some 3) = .ok s' →
      ((1 : Int) ≤ 1 ∧ (1 : Int) ≤ (((painted 3 sampleTree).widgets 1).children.length : Int) + 1 →
        (s'.widgets 1).children
          = ((painted 3 sampleTree).widgets 1).children.take ((1 : Int) - 1).toNat
              ++ 3 :: ((painted 3 sampleTree).widgets 1).children.drop ((1 : Int) - 1).toNat) ∧
      (-(((painted 3 sampleTree).widgets 1).children.length : Int) ≤ 1 ∧ (1 : Int) ≤ 0 →
        (s'.widgets 1).children
          = ((painted 3 sampleTree).widgets 1).children.take
                ((((painted 3 sampleTree).widgets 1).children.length : Int) + 1).toNat
              ++ 3 :: ((painted 3 sampleTree).widgets 1).children.drop
                ((((painted 3 sampleTree).widgets 1).children.length : Int) + 1).toNat) ∧
      (∀ c1 c2 c3, ((painted 3 sampleTree).widgets 1).children = [c1, c2, c3] →
        ((1 : Int) = 0 → (s'.widgets 1).children = [c1, c2, c3, 3]) ∧
        ((1 : Int) = -1 → (s'.widgets 1).children = [c1, c2, 3, c3]) ∧
        ((1 : Int) = 1 → (s'.widgets 1).children = [3, c1, c2, c3]))) ∧
    (((1 : Int) ≤ 1 ∧ (1 : Int) ≤ (((painted 3 sampleTree).widgets 1).children.length : Int) + 1) ∨
        (-(((painted 3 sampleTree).widgets 1).children.length : Int) ≤ 1 ∧ (1 : Int) ≤ 0) →
      ∃ F, ∀ fuel, F ≤ fuel →
        ∃ s', insertChildWith sampleEnv sampleContains fuel (painted 3 sampleTree) 1 1 (some 3)
          = .ok s')) :=
  have hna : ∀ j, up (painted 3 sampleTree).widgets j 1 ≠ some 3 := fun j => by
    rw [up_of_root (painted 3 sampleTree).widgets 1 rfl j]
    split <;> simp
  ⟨painted_quiet 3 sampleTree sampleTree_unstyled, painted_wellFormed 3 _ sampleTree_wellFormed,
    by decide, hna,
    index_addressing sampleEnv sampleContains (painted 3 sampleTree) 1 3 1
      (painted_quiet 3 sampleTree sampleTree_unstyled)
      (painted_wellFormed 3 _ sampleTree_wellFormed) (by decide) hna⟩

/-- C3 refuted as stated: the root 1 of the sample tree is not among its own
children and the index 1 is in range, but `insertChild(1, 1)` lists the widget
below itself and no amount of fuel lets the call return, with widgets that
carry no style and so under any style collaborators. -/
theorem index_addressing_counterexample :
    WellFormed sampleTree.widgets ∧ (1 : WidgetId) ∉ (sampleTree.widgets 1).children ∧
    ((1 : Int) ≤ 1 ∧ (1 : Int) ≤ ((sampleTree.widgets 1).children.length : Int) + 1) ∧
    (∀ w, (sampleTree.widgets w).style = none) ∧
    ∀ env fuel s', insertChildWith env sampleContains fuel sampleTree 1 1 (some 1) ≠ .ok s' := by
  refine ⟨sampleTree_wellFormed, by decide, by decide, sampleTree_unstyled,
    fun env fuel t' hrun => ?_⟩
  obtain ⟨s', hs', -⟩ := (insertChildWith_tracks env sampleContains _
    (styleQuiet_unstyled env _ sampleTree_unstyled) fuel sampleTree sampleTree 1 1 (some 1)
    (Agree.itself _) (fun _ => rfl)).ok_left hrun
  exact insertChild_into_itself sampleContains sampleTree 1 1 rfl (by decide) fuel s' hs'

/-- The code of `insertChild(1, 3)` run on the sample tree whose widget 3
carries `sampleStyle`: the call applies the `state.disabled` block of the style
when the Disabled bit of 3 flips, and returns with 3 in front of 2. -/
theorem insertChildWith_sample :
    ∃ s', insertChildWith sampleEnv sampleContains 10 (painted 3 sampleTree) 1 1 (some 3) = .ok s' ∧
      (s'.widgets 1).children = [3, 2] ∧
      (s'.visuals 3).stateStyle = some (.mk "" "" [.mk "color" "gray" []]) :=
  ⟨_, rfl, rfl, rfl⟩

/-- C25 (lookup after insert), amended.  On a well-formed tree whose style
application neither alters the tree nor stops the program, for a widget `p`
with `n` children and a widget `x` not among them that is neither `p` nor an
ancestor of `p`: after every `insertChild(k, x)` that returns,
`getChildByIndex(k)` answers `x` when `1 ≤ k ≤ n + 1` and
`getChildByIndex(k - 1)` answers `x` when `-n ≤ k ≤ 0`, and for `k` in one of
the two ranges the call returns, given enough fuel.  For every widget
`getChildByIndex(0)` answers null, and so does `getChildByIndex(j)` for every
`j` outside `[-m, m]`, `m` being the number of children. -/
theorem lookup_after_insert (env : StyleEnv) (ct : Rect → Point → Bool) (s : State)
    (p x : WidgetId) (k : Int) (hq : StyleQuiet env (fun w => (s.widgets w).style))
    (hw : WellFormed s.widgets) (hx : x ∉ (s.widgets p).children)
    (hna : ∀ j, up s.widgets j p ≠ some x) :
    (∀ fuel s', insertChildWith env ct fuel s p k (some x) = .ok s' →
      (1 ≤ k ∧ k ≤ ((s.widgets p).children.length : Int) + 1 →
        getChildByIndex s' p k = some x) ∧
      (-((s.widgets p).children.length : Int) ≤ k ∧ k ≤ 0 →
        getChildByIndex s' p (k - 1) = some x)) ∧
    ((1 ≤ k ∧ k ≤ ((s.widgets p).children.length : Int) + 1) ∨
        (-((s.widgets p).children.length : Int) ≤ k ∧ k ≤ 0) →
      ∃ F, ∀ fuel, F ≤ fuel → ∃ s', insertChildWith env ct fuel s p k (some x) = .ok s') ∧
    (∀ (t : State) (q : WidgetId), getChildByIndex t q 0 = none) ∧
    (∀ (t : State) (q : WidgetId) (j : Int),
      j < -((t.widgets q).children.length : Int) ∨ ((t.widgets q).children.length : Int) < j →
      getChildByIndex t q j = none) := by
  have hk := fun fuel => insertChildWith_tracks env ct _ hq fuel s s p k (some x)
    (Agree.itself s) (fun _ => rfl)
  have old := lookup_after_insert_recorded ct s p x k hw hx
  refine ⟨fun fuel t' hrun => ?_, fun hr => ?_, old.2.2.1, old.2.2.2⟩
  · obtain ⟨s', hs', ha⟩ := (hk fuel).ok_left hrun
    have hg : ∀ j, getChildByIndex t' p j = getChildByIndex s' p j := fun j => by
      simp only [getChildByIndex, ha.1]
    rw [hg, hg]
    exact old.1 fuel s' hs'
  · obtain ⟨F, hF⟩ := old.2.1 hr hna
    refine ⟨F, fun fuel hf => ?_⟩
    obtain ⟨s', hs'⟩ := hF fuel hf
    obtain ⟨t', ht', -⟩ := (hk fuel).ok_right hs'
    exact ⟨t', ht'⟩

theorem lookup_after_insert_witness :
    StyleQuiet sampleEnv (fun w => ((painted 5 sampleTrio).widgets w).style) ∧
    WellFormed (painted 5 sampleTrio).widgets ∧
    5 ∉ ((painted 5 sampleTrio).widgets 1).children ∧
    (∀ j, up (painted 5 sampleTrio).widgets j 1 ≠ some 5) ∧
    ((∀ fuel s',
      insertChildWith sampleEnv sampleContains fuel (painted 5 sampleTrio) 1 (-1) (some 5) = .ok s' →
      (1 ≤ (-1 : Int) ∧
          (-1 : Int) ≤ (((painted 5 sampleTrio).widgets 1).children.length : Int) + 1 →
        getChildByIndex s' 1 (-1) = some 5) ∧
      (-(((painted 5 sampleTrio).widgets 1).children.length : Int) ≤ -1 ∧ (-1 : Int) ≤ 0 →
        getChildByIndex s' 1 (-1 - 1) = some 5)) ∧
    ((1 ≤ (-1 : Int) ∧ (-1 : Int) ≤ (((painted 5 sampleTrio).widgets 1).children.length : Int) + 1) ∨
        (-(((painted 5 sampleTrio).widgets 1).children.length : Int) ≤ -1 ∧ (-1 : Int) ≤ 0) →
      ∃ F, ∀ fuel, F ≤ fuel →
        ∃ s', insertChildWith sampleEnv sampleContains fuel (painted 5 sampleTrio) 1 (-1) (some 5)
          = .ok s') ∧
    (∀ (t : State) (q : WidgetId), getChildByIndex t q 0 = none) ∧
    (∀ (t : State) (q : WidgetId) (j : Int),
      j < -((t.widgets q).children.length : Int) ∨ ((t.widgets q).children.length : Int) < j →
      getChildByIndex t q j = none)) :=
  have hna : ∀ j, up (painted 5 sampleTrio).widgets j 1 ≠ some 5 := fun j => by
    rw [up_of_root (painted 5 sampleTrio).widgets 1 rfl j]
    split <;> simp
  ⟨painted_quiet 5 sampleTrio sampleTrio_unstyled, painted_wellFormed 5 _ sampleTrio_wellFormed,
    by decide, hna,
    lookup_after_insert sampleEnv sampleContains (painted 5 sampleTrio) 1 5 (-1)
      (painted_quiet 5 sampleTrio sampleTrio_unstyled)
      (painted_wellFormed 5 _ sampleTrio_wellFormed) (by decide) hna⟩

/-- C25 refuted as stated: the root 1 of the sample family has the two
children 2 and 3 and is not among them, so `insertChild(-1, 1)` is a call the
claim covers, with `getChildByIndex(-2)` to answer 1 afterwards; the call
lists the widget below itself and no amount of fuel lets it return, with
widgets that carry no style and so under any style collaborators. -/
theorem lookup_after_insert_counterexample :
    WellFormed sampleFamily.widgets ∧ (sampleFamily.widgets 1).children = [2, 3] ∧
    (1 : WidgetId) ∉ (sampleFamily.widgets 1).children ∧
    (-((sampleFamily.widgets 1).children.length : Int) ≤ -1 ∧ (-1 : Int) ≤ 0) ∧
    (∀ w, (sampleFamily.widgets w).style = none) ∧
    ∀ env fuel s',
      insertChildWith env sampleContains fuel sampleFamily 1 (-1) (some 1) ≠ .ok s' := by
  refine ⟨sampleFamily_wellFormed, rfl, by decide, by decide, sampleFamily_unstyled,
    fun env fuel t' hrun => ?_⟩
  obtain ⟨s', hs', -⟩ := (insertChildWith_tracks env sampleContains _
    (styleQuiet_unstyled env _ sampleFamily_unstyled) fuel sampleFamily sampleFamily 1 (-1)
    (some 1) (Agree.itself _) (fun _ => rfl)).ok_left hrun
  exact insertChild_into_itself sampleContains sampleFamily 1 (-1) rfl (by decide) fuel s' hs'

/-- C10 (`addChild` postcondition), amended.  On a well-formed tree whose
style application neither alters the tree nor stops the program, for a widget
`c` without parent that is neither `p` nor an ancestor of `p` and not yet a
child of `p`: every `p.addChild(c)` that returns leaves the children of `p`
equal to the previous sequence with `c` appended, the parent of `c` equal to
`p`, `p` with a layout, and the focused child of `p` equal to `c` when `c` is
focusable, explicitly visible and explicitly enabled, unchanged otherwise;
and the call does return, given enough fuel. -/
theorem addChild_postcondition (env : StyleEnv) (ct : Rect → Point → Bool) (s : State)
    (p c : WidgetId) (hq : StyleQuiet env (fun w => (s.widgets w).style))
    (hw : WellFormed s.widgets) (hroot : (s.widgets c).parent = none)
    (hna : ∀ k, up s.widgets k p ≠ some c) (hnc : c ∉ (s.widgets p).children) :
    (∀ fuel s', addChildWith env ct fuel s p (some c) = .ok s' →
      (s'.widgets p).children = (s.widgets p).children ++ [c] ∧
      (s'.widgets c).parent = some p ∧
      (s'.widgets p).layout.isSome = true ∧
      (s'.widgets p).focusedChild
        = if (s.widgets c).focusable = true ∧ (s.widgets c).visible = true ∧
              (s.widgets c).enabled = true then some c
          else (s.widgets p).focusedChild) ∧
    (∃ F, ∀ fuel, F ≤ fuel → ∃ s', addChildWith env ct fuel s p (some c) = .ok s') := by
  have hk := fun fuel => (treeWith_tracks env ct _ hq fuel s s (Agree.itself s) (fun _ => rfl)
    p (some c)).2.1
  have old := addChild_postcondition_recorded ct s p c hw hroot hna hnc
  refine ⟨fun fuel t' hrun => ?_, ?_⟩
  · obtain ⟨s', hs', ha⟩ := (hk fuel).ok_left hrun
    rw [ha.1]
    exact old.1 fuel s' hs'
  · obtain ⟨F, hF⟩ := old.2
    refine ⟨F, fun fuel hf => ?_⟩
    obtain ⟨s', hs'⟩ := hF fuel hf
    obtain ⟨t', ht', -⟩ := (hk fuel).ok_right hs'
    exact ⟨t', ht'⟩

theorem addChild_postcondition_witness :
    StyleQuiet sampleEnv (fun w => ((painted 3 sampleTree).widgets w).style) ∧
    WellFormed (painted 3 sampleTree).widgets ∧ ((painted 3 sampleTree).widgets 3).parent = none ∧
    (∀ k, up (painted 3 sampleTree).widgets k 1 ≠ some 3) ∧
    3 ∉ ((painted 3 sampleTree).widgets 1).children ∧
    ((∀ fuel s', addChildWith sampleEnv sampleContains fuel (painted 3 sampleTree) 1 (some 3) = .ok s' →
      (s'.widgets 1).children = ((painted 3 sampleTree).widgets 1).children ++ [3] ∧
      (s'.widgets 3).parent = some 1 ∧
      (s'.widgets 1).layout.isSome = true ∧
      (s'.widgets 1).focusedChild
        = if ((painted 3 sampleTree).widgets 3).focusable = true ∧
              ((painted 3 sampleTree).widgets 3).visible = true ∧
              ((painted 3 sampleTree).widgets 3).enabled = true then some 3
          else ((painted 3 sampleTree).widgets 1).focusedChild) ∧
    (∃ F, ∀ fuel, F ≤ fuel →
      ∃ s', addChildWith sampleEnv sampleContains fuel (painted 3 sampleTree) 1 (some 3) = .ok s')) :=
  have hna : ∀ k, up (painted 3 sampleTree).widgets k 1 ≠ some 3 := fun k => by
    rw [up_of_root (painted 3 sampleTree).widgets 1 rfl k]
    split <;> simp
  ⟨painted_quiet 3 sampleTree sampleTree_unstyled, painted_wellFormed 3 _ sampleTree_wellFormed,
    rfl, hna, by decide,
    addChild_postcondition sampleEnv sampleContains (painted 3 sampleTree) 1 3
      (painted_quiet 3 sampleTree sampleTree_unstyled)
      (painted_wellFormed 3 _ sampleTree_wellFormed) rfl hna (by decide)⟩

/-- C10 refuted as stated: in the detached sample state, widget 2 owns a
layout and carries a style whose `state.focus` block declares a layout;
widget 2 has no parent, is not widget 1, not an ancestor of 1 and not a child
of 1, but `1.addChild(2)` does not return, whatever the fuel: the Focus bit of
2 flips, `updateStyle` applies the block and `onStyleApply` stops at
`assert(!m_layout)`. -/
theorem addChild_postcondition_counterexample :
    ((styled sampleState).widgets 2).parent = none ∧
    (2 : WidgetId) ∉ ((styled sampleState).widgets 1).children ∧
    ((styled sampleState).widgets 1).parent = none ∧
    ((styled sampleState).widgets 2).style = some stateLayoutStyle ∧
    ((styled sampleState).widgets 2).layout = some Layout.anchor ∧
    addChildWith sampleEnv sampleContains 10 (styled sampleState) 1 (some 2) = .error .assertion ∧
    ∀ fuel s', addChildWith sampleEnv sampleContains fuel (styled sampleState) 1 (some 2) ≠ .ok s' :=
  ⟨rfl, by decide, rfl, rfl, rfl, rfl,
    (Grows.never_returns
      (fun n => addChildWith sampleEnv sampleContains n (styled sampleState) 1 (some 2))
      (fun n m h => (treeWith_grows sampleEnv sampleContains n m h _ 1 (some 2)).2.1)
      10 .assertion rfl (by intro h; cases h)).1⟩

/-- C15 (`insertChild` against `addChild`), as the code has it.  In a
well-formed tree whose style application neither alters the tree nor stops the
program and whose focused child of `p`, if any, is a child of `p`, for a
parent-less widget `c` that is not a child of `p`, not `p` and not an ancestor
of `p`, and an index in range: every `p.insertChild(index, c)` that returns
leaves `c` at the position of the index in the children of `p`, with parent
`p`, and `p` with a layout, as `addChild` does apart from the position; but it
leaves the focused child of `p` as it was and the Focus and Active bits of `c`
clear, whatever the flags of `c`, whereas every `p.addChild(c)` that returns
makes a focusable, explicitly visible, explicitly enabled `c` the focused
child.  Both calls return, given enough fuel. -/
theorem insertChild_no_focus (env : StyleEnv) (ct : Rect → Point → Bool) (s : State)
    (p c : WidgetId) (index : Int) (hq : StyleQuiet env (fun w => (s.widgets w).style))
    (hw : WellFormed s.widgets)
    (hfv : ∀ o, (s.widgets p).focusedChild = some o → o ∈ (s.widgets p).children)
    (hroot : (s.widgets c).parent = none) (hna : ∀ k, up s.widgets k p ≠ some c)
    (hnc : c ∉ (s.widgets p).children)
    (hir : IndexInRange (s.widgets p).children.length index) :
    (∀ fuel s', insertChildWith env ct fuel s p index (some c) = .ok s' →
      (s'.widgets p).children
        = (s.widgets p).children.insertIdx
            (if index ≤ 0 then ((s.widgets p).children.length : Int) + index
              else index - 1).toNat c ∧
      (s'.widgets c).parent = some p ∧
      (s'.widgets p).layout.isSome = true ∧
      (s'.widgets p).focusedChild = (s.widgets p).focusedChild ∧
      (s'.visuals c).states.focus = false ∧
      (s'.visuals c).states.active = false) ∧
    (∀ fuel s', addChildWith env ct fuel s p (some c) = .ok s' →
      (s.widgets c).focusable = true → (s.widgets c).visible = true →
      (s.widgets c).enabled = true → (s'.widgets p).focusedChild = some c) ∧
    (∃ F, ∀ fuel, F ≤ fuel →
      (∃ s', insertChildWith env ct fuel s p index (some c) = .ok s') ∧
      ∃ s', addChildWith env ct fuel s p (some c) = .ok s') := by
  have hk := fun fuel => insertChildWith_tracks env ct _ hq fuel s s p index (some c)
    (Agree.itself s) (fun _ => rfl)
  have ha := fun fuel => (treeWith_tracks env ct _ hq fuel s s (Agree.itself s) (fun _ => rfl)
    p (some c)).2.1
  have old := insertChild_no_focus_recorded ct s p c index hw hfv hroot hna hnc hir
  refine ⟨fun fuel t' hrun => ?_, fun fuel t' hrun => ?_, ?_⟩
  · obtain ⟨s', hs', hag⟩ := (hk fuel).ok_left hrun
    rw [hag.1, hag.2.2]
    exact old.1 fuel s' hs'
  · obtain ⟨s', hs', hag⟩ := (ha fuel).ok_left hrun
    rw [hag.1]
    exact old.2.1 fuel s' hs'
  · obtain ⟨F, hF⟩ := old.2.2
    obtain ⟨G, hG⟩ := (addChild_postcondition_recorded ct s p c hw hroot hna hnc).2
    refine ⟨max F G, fun fuel hf => ⟨?_, ?_⟩⟩
    · obtain ⟨s', hs'⟩ := hF fuel (le_trans (le_max_left _ _) hf)
      obtain ⟨t', ht', -⟩ := (hk fuel).ok_right hs'
      exact ⟨t', ht'⟩
    · obtain ⟨s', hs'⟩ := hG fuel (le_trans (le_max_right _ _) hf)
      obtain ⟨t', ht', -⟩ := (ha fuel).ok_right hs'
      exact ⟨t', ht'⟩

theorem insertChild_no_focus_witness :
    StyleQuiet sampleEnv (fun w => ((painted 3 sampleTree).widgets w).style) ∧
    WellFormed (painted 3 sampleTree).widgets ∧
    (∀ o, ((painted 3 sampleTree).widgets 1).focusedChild = some o →
      o ∈ ((painted 3 sampleTree).widgets 1).children) ∧
    ((painted 3 sampleTree).widgets 3).parent = none ∧
    (∀ k, up (painted 3 sampleTree).widgets k 1 ≠ some 3) ∧
    3 ∉ ((painted 3 sampleTree).widgets 1).children ∧
    IndexInRange ((painted 3 sampleTree).widgets 1).children.length 1 ∧
    ((∀ fuel s',
      insertChildWith sampleEnv sampleContains fuel (painted 3 sampleTree) 1 1 (some 3) = .ok s' →
      (s'.widgets 1).children
        = ((painted 3 sampleTree).widgets 1).children.insertIdx
            (if (1 : Int) ≤ 0 then (((painted 3 sampleTree).widgets 1).children.length : Int) + 1
              else 1 - 1).toNat 3 ∧
      (s'.widgets 3).parent = some 1 ∧
      (s'.widgets 1).layout.isSome = true ∧
      (s'.widgets 1).focusedChild = ((painted 3 sampleTree).widgets 1).focusedChild ∧
      (s'.visuals 3).states.focus = false ∧
      (s'.visuals 3).states.active = false) ∧
    (∀ fuel s', addChildWith sampleEnv sampleContains fuel (painted 3 sampleTree) 1 (some 3) = .ok s' →
      ((painted 3 sampleTree).widgets 3).focusable = true →
      ((painted 3 sampleTree).widgets 3).visible = true →
      ((painted 3 sampleTree).widgets 3).enabled = true → (s'.widgets 1).focusedChild = some 3) ∧
    (∃ F, ∀ fuel, F ≤ fuel →
      (∃ s', insertChildWith sampleEnv sampleContains fuel (painted 3 sampleTree) 1 1 (some 3)
        = .ok s') ∧
      ∃ s', addChildWith sampleEnv sampleContains fuel (painted 3 sampleTree) 1 (some 3) = .ok s')) :=
  have hfv : ∀ o, ((painted 3 sampleTree).widgets 1).focusedChild = some o →
      o ∈ ((painted 3 sampleTree).widgets 1).children := fun o ho => by
    have h2 : ((painted 3 sampleTree).widgets 1).focusedChild = some 2 := rfl
    rw [h2] at ho
    cases ho
    decide
  have hna : ∀ k, up (painted 3 sampleTree).widgets k 1 ≠ some 3 := fun k => by
    rw [up_of_root (painted 3 sampleTree).widgets 1 rfl k]
    split <;> simp
  have hir : IndexInRange ((painted 3 sampleTree).widgets 1).children.length 1 := by
    unfold IndexInRange
    decide
  ⟨painted_quiet 3 sampleTree sampleTree_unstyled, painted_wellFormed 3 _ sampleTree_wellFormed,
    hfv, rfl, hna, by decide, hir,
    insertChild_no_focus sampleEnv sampleContains (painted 3 sampleTree) 1 3 1
      (painted_quiet 3 sampleTree sampleTree_unstyled)
      (painted_wellFormed 3 _ sampleTree_wellFormed) hfv rfl hna (by decide) hir⟩

/-- The code of `insertChild` and of `addChild` run on the same input: on the
sample tree (widget 1 with the focused child 2), for the detached widget 3,
which is focusable, explicitly visible and explicitly enabled, `insertChild(0, 3)`
and `addChild(3)` both return with the children 2, 3 of widget 1; after
`addChild` the focused child of 1 is 3 and the Focus bit of 3 is set and that of
2 clear, after `insertChild` the focused child is still 2, the Focus bit of 3
is clear and that of 2 set. -/
theorem insertChild_against_addChild_sample :
    ((sampleTree.widgets 3).focusable = true ∧ (sampleTree.widgets 3).visible = true ∧
      (sampleTree.widgets 3).enabled = true) ∧
    (∃ a, addChildWith sampleEnv sampleContains 6 sampleTree 1 (some 3) = .ok a ∧
      (a.widgets 1).children = [2, 3] ∧ (a.widgets 1).focusedChild = some 3 ∧
      (a.visuals 3).states.focus = true ∧ (a.visuals 3).states.active = true ∧
      (a.visuals 2).states.focus = false) ∧
    (∃ b, insertChildWith sampleEnv sampleContains 6 sampleTree 1 0 (some 3) = .ok b ∧
      (b.widgets 1).children = [2, 3] ∧ (b.widgets 1).focusedChild = some 2 ∧
      (b.visuals 3).states.focus = false ∧ (b.visuals 3).states.active = false ∧
      (b.visuals 2).states.focus = true) :=
  ⟨⟨rfl, rfl, rfl⟩, ⟨_, rfl, rfl, rfl, rfl, rfl, rfl⟩, ⟨_, rfl, rfl, rfl, rfl, rfl, rfl⟩⟩

/-- C14 (removed child settles detached), as the code has it.  In a
well-formed tree whose style application neither alters the tree nor stops the
program, every `p.removeChild(c)` on a child `c` of `p` that returns leaves
`c` without parent and with its Focus bit clear; the Active bit of `c` is then
its explicit enabled flag and the Hover bit says whether the rectangle of `c`
contains the pointer position, the widget being the root of its own tree.  The
call returns, given enough fuel. -/
theorem removeChild_settles (env : StyleEnv) (ct : Rect → Point → Bool) (s : State)
    (p c : WidgetId) (hq : StyleQuiet env (fun w => (s.widgets w).style))
    (hw : WellFormed s.widgets) (hc : c ∈ (s.widgets p).children) :
    (∀ fuel s', removeChildWith env ct fuel s p (some c) = .ok s' →
      (s'.widgets c).parent = none ∧
      (s'.visuals c).states.focus = false ∧
      (s'.visuals c).states.active = (s'.widgets c).enabled ∧
      (s'.visuals c).states.hover = ct (s'.widgets c).rect s'.mousePos) ∧
    (∃ F, ∀ fuel, F ≤ fuel → ∃ s', removeChildWith env ct fuel s p (some c) = .ok s') := by
  have hk := fun fuel => (treeWith_tracks env ct _ hq fuel s s (Agree.itself s) (fun _ => rfl)
    p (some c)).2.2
  have old := removeChild_settles_recorded ct s p c hw hc
  refine ⟨fun fuel t' hrun => ?_, ?_⟩
  · obtain ⟨s', hs', hag⟩ := (hk fuel).ok_left hrun
    rw [hag.1, hag.2.1, hag.2.2]
    exact old.1 fuel s' hs'
  · obtain ⟨F, hF⟩ := old.2
    refine ⟨F, fun fuel hf => ?_⟩
    obtain ⟨s', hs'⟩ := hF fuel hf
    obtain ⟨t', ht', -⟩ := (hk fuel).ok_right hs'
    exact ⟨t', ht'⟩

theorem removeChild_settles_witness :
    StyleQuiet sampleEnv (fun w => ((painted 2 sampleTree).widgets w).style) ∧
    WellFormed (painted 2 sampleTree).widgets ∧ 2 ∈ ((painted 2 sampleTree).widgets 1).children ∧
    ((∀ fuel s', removeChildWith sampleEnv sampleContains fuel (painted 2 sampleTree) 1 (some 2)
        = .ok s' →
      (s'.widgets 2).parent = none ∧
      (s'.visuals 2).states.focus = false ∧
      (s'.visuals 2).states.active = (s'.widgets 2).enabled ∧
      (s'.visuals 2).states.hover = sampleContains (s'.widgets 2).rect s'.mousePos) ∧
    (∃ F, ∀ fuel, F ≤ fuel →
      ∃ s', removeChildWith sampleEnv sampleContains fuel (painted 2 sampleTree) 1 (some 2)
        = .ok s')) :=
  ⟨painted_quiet 2 sampleTree sampleTree_unstyled, painted_wellFormed 2 _ sampleTree_wellFormed,
    by decide,
    removeChild_settles sampleEnv sampleContains (painted 2 sampleTree) 1 2
      (painted_quiet 2 sampleTree sampleTree_unstyled)
      (painted_wellFormed 2 _ sampleTree_wellFormed) (by decide)⟩

/-- C14 refuted as stated: removing the enabled child 2, whose rectangle
contains the pointer, from widget 1 of the sample tree returns a state in
which 2 has no parent and its Focus bit is clear, but its Active bit and its
Hover bit are set. -/
theorem removeChild_settles_counterexample :
    (sampleTree.widgets 2).enabled = true ∧
    sampleContains (sampleTree.widgets 2).rect sampleTree.mousePos = true ∧
    ∃ s', removeChildWith sampleEnv sampleContains 6 sampleTree 1 (some 2) = .ok s' ∧
      (s'.widgets 2).parent = none ∧ (s'.visuals 2).states.focus = false ∧
      (s'.visuals 2).states.active = true ∧ (s'.visuals 2).states.hover = true :=
  ⟨rfl, rfl, _, rfl, rfl, rfl, rfl, rfl⟩

theorem focusChildWith_same (env : StyleEnv) (ct : Rect → Point → Bool) (n : Nat) (s : State)
    (p : WidgetId) (child : Option WidgetId) (reason : FocusReason)
    (hf : (s.widgets p).focusedChild = child) :
    focusChildWith env ct n s p child reason = .ok s := by
  unfold focusChildWith
  split
  · rfl
  · rw [hf]
    simp

/-- C16 (`focusChild` postcondition), amended.  In a well-formed tree whose
style application neither alters the tree nor stops the program and whose
focused child of `p`, if any, is a child of `p`: for every child `c` of `p`
and every reason, when `c` is not the focused child, every
`p.focusChild(c, reason)` that returns makes `c` the focused child of `p`, sets
the Focus bit of `c`, clears the Focus bit of the previously focused child (if
there was one) and records the reason as the last focus reason of both; when
`c` is the focused child already, the call returns the state unchanged; and
the call returns, given enough fuel. -/
theorem focusChild_postcondition (env : StyleEnv) (ct : Rect → Point → Bool) (s : State)
    (p c : WidgetId) (reason : FocusReason)
    (hq : StyleQuiet env (fun w => (s.widgets w).style)) (hw : WellFormed s.widgets)
    (hfv : ∀ o, (s.widgets p).focusedChild = some o → o ∈ (s.widgets p).children)
    (hc : c ∈ (s.widgets p).children) :
    (∀ fuel s', focusChildWith env ct fuel s p (some c) reason = .ok s' →
      ((s.widgets p).focusedChild ≠ some c →
        (s'.widgets p).focusedChild = some c ∧
        (s'.visuals c).states.focus = true ∧
        (s'.widgets c).lastFocusReason = reason ∧
        ∀ o, (s.widgets p).focusedChild = some o →
          (s'.visuals o).states.focus = false ∧ (s'.widgets o).lastFocusReason = reason) ∧
      ((s.widgets p).focusedChild = some c → s' = s)) ∧
    (∃ F, ∀ fuel, F ≤ fuel → ∃ s', focusChildWith env ct fuel s p (some c) reason = .ok s') := by
  have hk := fun fuel => focusChildWith_tracks env ct _ hq fuel s s p (some c) reason
    (Agree.itself s) (fun _ => rfl)
  have old := focusChild_postcondition_recorded ct s p c reason hw hfv hc
  refine ⟨fun fuel t' hrun => ⟨fun hne => ?_, fun he => ?_⟩, ?_⟩
  · obtain ⟨s', hs', hag⟩ := (hk fuel).ok_left hrun
    have h := (old.1 fuel s' hs').1 hne
    rw [hag.1, hag.2.2]
    refine ⟨h.1, h.2.1, h.2.2.1, fun o ho => ?_⟩
    rw [hag.2.2]
    exact h.2.2.2 o ho
  · rw [focusChildWith_same env ct fuel s p (some c) reason he] at hrun
    cases hrun
    rfl
  · obtain ⟨F, hF⟩ := old.2
    refine ⟨F, fun fuel hf => ?_⟩
    obtain ⟨s', hs'⟩ := hF fuel hf
    obtain ⟨t', ht', -⟩ := (hk fuel).ok_right hs'
    exact ⟨t', ht'⟩

theorem focusChild_postcondition_witness :
    StyleQuiet sampleEnv (fun w => ((painted 2 sampleFamily).widgets w).style) ∧
    WellFormed (painted 2 sampleFamily).widgets ∧
    (∀ o, ((painted 2 sampleFamily).widgets 1).focusedChild = some o →
      o ∈ ((painted 2 sampleFamily).widgets 1).children) ∧
    2 ∈ ((painted 2 sampleFamily).widgets 1).children ∧
    ((painted 2 sampleFamily).widgets 1).focusedChild = some 3 ∧
    ((∀ fuel s',
      focusChildWith sampleEnv sampleContains fuel (painted 2 sampleFamily) 1 (some 2)
        .tabFocusReason = .ok s' →
      (((painted 2 sampleFamily).widgets 1).focusedChild ≠ some 2 →
        (s'.widgets 1).focusedChild = some 2 ∧
        (s'.visuals 2).states.focus = true ∧
        (s'.widgets 2).lastFocusReason = .tabFocusReason ∧
        ∀ o, ((painted 2 sampleFamily).widgets 1).focusedChild = some o →
          (s'.visuals o).states.focus = false ∧
            (s'.widgets o).lastFocusReason = .tabFocusReason) ∧
      (((painted 2 sampleFamily).widgets 1).focusedChild = some 2 →
        s' = painted 2 sampleFamily)) ∧
    (∃ F, ∀ fuel, F ≤ fuel →
      ∃ s', focusChildWith sampleEnv sampleContains fuel (painted 2 sampleFamily) 1 (some 2)
        .tabFocusReason = .ok s')) :=
  have hfv : ∀ o, ((painted 2 sampleFamily).widgets 1).focusedChild = some o →
      o ∈ ((painted 2 sampleFamily).widgets 1).children := fun o ho => by
    have h3 : ((painted 2 sampleFamily).widgets 1).focusedChild = some 3 := rfl
    rw [h3] at ho
    cases ho
    decide
  ⟨painted_quiet 2 sampleFamily sampleFamily_unstyled,
    painted_wellFormed 2 _ sampleFamily_wellFormed, hfv, by decide, rfl,
    focusChild_postcondition sampleEnv sampleContains (painted 2 sampleFamily) 1 2 .tabFocusReason
      (painted_quiet 2 sampleFamily sampleFamily_unstyled)
      (painted_wellFormed 2 _ sampleFamily_wellFormed) hfv (by decide)⟩

theorem strayFocus_wellFormed : WellFormed strayFocus.widgets :=
  (reachable_wellFormed sampleContains
    (resultOr sampleFamily (addChild sampleContains 10 sampleFamily 5 (some 4)))
    (Reachable.step sampleFamily _ (.addChild 5 (some 4)) 10 sampleFamily_reachable
      (fun k => by
        rw [up_of_root sampleFamily.widgets 5 rfl k]
        split <;> simp)
      rfl)).of_fields
    (fun w => by simp only [strayFocus, modify_widgets, hmodify_children, ite_self])
    (fun w => by simp only [strayFocus, modify_widgets, hmodify_parent, ite_self])
    (fun w => by simp only [strayFocus, modify_widgets, hmodify_layout, ite_self])

/-- C16 refuted as stated, in two ways.  In the sample family (widget 1 with
the children 2 and 3, 3 focused) widget 2 owns a layout and carries a style
whose `state.focus` block declares a layout; `1.focusChild(2)` does not return,
whatever the fuel: the Focus bit of 2 flips, `updateStyle` applies the block and
`onStyleApply` stops at `assert(!m_layout)`.  And in `strayFocus`, a tree with agreeing parent
references and children sequences in which the focused child 4 of widget 1 is
a child of widget 5, `1.focusChild(2)` returns with 2 focused and the Focus bit
of the previously focused child 4 still set. -/
theorem focusChild_postcondition_counterexample :
    ((2 : WidgetId) ∈ ((styled sampleFamily).widgets 1).children ∧
      ((styled sampleFamily).widgets 1).focusedChild = some 3 ∧
      ((styled sampleFamily).widgets 2).parent = some 1 ∧
      ((styled sampleFamily).widgets 3).parent = some 1 ∧
      ((styled sampleFamily).widgets 2).style = some stateLayoutStyle ∧
      ((styled sampleFamily).widgets 2).layout = some Layout.anchor ∧
      focusChildWith sampleEnv sampleContains 10 (styled sampleFamily) 1 (some 2)
        .activeFocusReason = .error .assertion ∧
      ∀ fuel s', focusChildWith sampleEnv sampleContains fuel (styled sampleFamily) 1 (some 2)
        .activeFocusReason ≠ .ok s') ∧
    (WellFormed strayFocus.widgets ∧ (2 : WidgetId) ∈ (strayFocus.widgets 1).children ∧
      (strayFocus.widgets 1).focusedChild = some 4 ∧
      (∀ w, (strayFocus.widgets w).style = none) ∧
      ∃ s', focusChildWith sampleEnv sampleContains 10 strayFocus 1 (some 2) .activeFocusReason
          = .ok s' ∧
        (s'.widgets 1).focusedChild = some 2 ∧ (s'.visuals 2).states.focus = true ∧
        (s'.visuals 4).states.focus = true) :=
  ⟨⟨by decide, rfl, rfl, rfl, rfl, rfl, rfl,
      (Grows.never_returns
        (fun n => focusChildWith sampleEnv sampleContains n (styled sampleFamily) 1 (some 2)
          .activeFocusReason)
        (fun n m h => focusChildWith_grows sampleEnv sampleContains n m _ 1 _ _ h)
        10 .assertion rfl (by intro h; cases h)).1⟩,
    strayFocus_wellFormed, by decide, rfl,
    fun w => (hmodify_field (fun d => d.style) _ _ _ (by intro _; rfl) w).trans
      ((tree_unstyled sampleContains 10 sampleFamily sampleFamily_unstyled 5 (some 4)).1 _ rfl w),
    _, rfl, rfl, rfl, rfl⟩

/-- C17 (`focusNextChild`), amended.  In a well-formed tree whose style
application neither alters the tree nor stops the program, every
`p.focusNextChild(reason)` that returns keeps the children sequence of `p`
and makes the focused child the first widget with the focusable flag in the
wrap-around order: with the focused child at position `i` of the children,
the children after position `i` followed by those before it; with no focused
child, the children in list order.  When no widget in that order is
focusable the focused child is unchanged.  The call returns, given enough
fuel. -/
theorem focusNextChild_postcondition (env : StyleEnv) (ct : Rect → Point → Bool) (s : State)
    (p : WidgetId) (reason : FocusReason) (hq : StyleQuiet env (fun w => (s.widgets w).style))
    (hw : WellFormed s.widgets) :
    (∀ fuel s', focusNextChildWith env ct fuel s p reason = .ok s' →
      (s'.widgets p).children = (s.widgets p).children ∧
      ((s.widgets p).focusedChild = none →
        (s'.widgets p).focusedChild
          = match (s.widgets p).children.find? (fun c => (s.widgets c).focusable) with
            | some t => some t
            | none => none) ∧
      (∀ i f, (s.widgets p).focusedChild = some f → (s.widgets p).children[i]? = some f →
        (s'.widgets p).focusedChild
          = match (wrapAround (s.widgets p).children i).find?
                (fun c => (s.widgets c).focusable) with
            | some t => some t
            | none => some f)) ∧
    (∃ F, ∀ fuel, F ≤ fuel → ∃ s', focusNextChildWith env ct fuel s p reason = .ok s') := by
  have hk := fun fuel => focusNextChildWith_tracks env ct _ hq fuel s s p reason
    (Agree.itself s) (fun _ => rfl)
  have old := focusNextChild_postcondition_recorded ct s p reason hw
  refine ⟨fun fuel t' hrun => ?_, ?_⟩
  · obtain ⟨s', hs', hag⟩ := (hk fuel).ok_left hrun
    rw [hag.1]
    exact old.1 fuel s' hs'
  · obtain ⟨F, hF⟩ := old.2
    refine ⟨F, fun fuel hf => ?_⟩
    obtain ⟨s', hs'⟩ := hF fuel hf
    obtain ⟨t', ht', -⟩ := (hk fuel).ok_right hs'
    exact ⟨t', ht'⟩

theorem focusNextChild_postcondition_witness :
    StyleQuiet sampleEnv (fun w => ((painted 2 sampleTrio).widgets w).style) ∧
    WellFormed (painted 2 sampleTrio).widgets ∧
    ((painted 2 sampleTrio).widgets 1).children = [2, 3, 4] ∧
    ((painted 2 sampleTrio).widgets 1).focusedChild = some 4 ∧
    wrapAround ((painted 2 sampleTrio).widgets 1).children 2 = [] ++ [2, 3] ∧
    ((∀ fuel s',
      focusNextChildWith sampleEnv sampleContains fuel (painted 2 sampleTrio) 1 .tabFocusReason
        = .ok s' →
      (s'.widgets 1).children = ((painted 2 sampleTrio).widgets 1).children ∧
      (((painted 2 sampleTrio).widgets 1).focusedChild = none →
        (s'.widgets 1).focusedChild
          = match ((painted 2 sampleTrio).widgets 1).children.find?
                (fun c => ((painted 2 sampleTrio).widgets c).focusable) with
            | some t => some t
            | none => none) ∧
      (∀ i f, ((painted 2 sampleTrio).widgets 1).focusedChild = some f →
        ((painted 2 sampleTrio).widgets 1).children[i]? = some f →
        (s'.widgets 1).focusedChild
          = match (wrapAround ((painted 2 sampleTrio).widgets 1).children i).find?
                (fun c => ((painted 2 sampleTrio).widgets c).focusable) with
            | some t => some t
            | none => some f)) ∧
    (∃ F, ∀ fuel, F ≤ fuel →
      ∃ s', focusNextChildWith sampleEnv sampleContains fuel (painted 2 sampleTrio) 1
        .tabFocusReason = .ok s')) :=
  ⟨painted_quiet 2 sampleTrio sampleTrio_unstyled, painted_wellFormed 2 _ sampleTrio_wellFormed,
    rfl, rfl, rfl,
    focusNextChild_postcondition sampleEnv sampleContains (painted 2 sampleTrio) 1 .tabFocusReason
      (painted_quiet 2 sampleTrio sampleTrio_unstyled)
      (painted_wellFormed 2 _ sampleTrio_wellFormed)⟩

/-- C17 refuted as stated: in the sample family (widget 1 with the children
2 and 3, 3 focused) widget 2 owns a layout and carries a style whose
`state.focus` block declares a layout; 2 is the first focusable widget in the
wrap-around order, and `1.focusNextChild()` does not return, whatever the
fuel: the Focus bit of 2 flips, `updateStyle` applies the block and `onStyleApply` stops at
`assert(!m_layout)`. -/
theorem focusNextChild_postcondition_counterexample :
    ((styled sampleFamily).widgets 1).children = [2, 3] ∧
    ((styled sampleFamily).widgets 1).focusedChild = some 3 ∧
    wrapAround ((styled sampleFamily).widgets 1).children 1 = [2] ∧
    ((styled sampleFamily).widgets 2).focusable = true ∧
    ((styled sampleFamily).widgets 2).style = some stateLayoutStyle ∧
    ((styled sampleFamily).widgets 2).layout = some Layout.anchor ∧
    focusNextChildWith sampleEnv sampleContains 10 (styled sampleFamily) 1 .tabFocusReason
      = .error .assertion ∧
    ∀ fuel s', focusNextChildWith sampleEnv sampleContains fuel (styled sampleFamily) 1
      .tabFocusReason ≠ .ok s' :=
  ⟨rfl, rfl, rfl, rfl, rfl, rfl, rfl,
    (Grows.never_returns
      (fun n => focusNextChildWith sampleEnv sampleContains n (styled sampleFamily) 1
        .tabFocusReason)
      (fun n m h => focusNextChildWith_grows sampleEnv sampleContains n m _ 1 _ h)
      10 .assertion rfl (by intro h; cases h)).1⟩

/-- C18 (Hover derivation), as the code has it.  On a well-formed tree whose
style application neither alters the tree nor stops the program, every
`w.updateState(HoverState)` that returns leaves the tree unchanged and the
Hover bit of `w` and of every descendant `d` of `w` set exactly when every
widget on the parent chain of `d`, up to and including the parent-less root,
has a rectangle that contains the pointer position and every widget on that
chain that has a parent is the result of its parent's `getChildByPos`; so a
widget on the chain of `w`, the root included, whose rectangle misses the
pointer clears the bit of `w`.  The call returns, given enough fuel. -/
theorem hover_derivation (env : StyleEnv) (ct : Rect → Point → Bool) (s : State) (w : WidgetId)
    (hq : StyleQuiet env (fun x => (s.widgets x).style)) (hw : WellFormed s.widgets) :
    (∀ fuel s', updateStateWith env ct fuel s w .hoverState = .ok s' →
      s'.widgets = s.widgets ∧
      (∀ d, (∃ k, up s.widgets k d = some w) →
        ((s'.visuals d).states.hover = true ↔ HoverChain ct s.widgets s.mousePos d)) ∧
      (∀ k v, up s.widgets k w = some v → ct (s.widgets v).rect s.mousePos = false →
        (s'.visuals w).states.hover = false)) ∧
    (∃ F, ∀ fuel, F ≤ fuel → ∃ s', updateStateWith env ct fuel s w .hoverState = .ok s') := by
  have hk := fun fuel => updateStateWith_tracks env ct _ hq fuel s s w .hoverState
    (Agree.itself s) (fun _ => rfl)
  have old := hover_derivation_recorded ct s w hw
  refine ⟨fun fuel t' hrun => ?_, ?_⟩
  · obtain ⟨s', hs', hag⟩ := (hk fuel).ok_left hrun
    have h := old.1 fuel s' hs'
    refine ⟨hag.1.trans h.1, fun d hd => ?_, fun k v hv hm => ?_⟩
    · rw [hag.2.2]; exact h.2.1 d hd
    · rw [hag.2.2]; exact h.2.2 k v hv hm
  · obtain ⟨F, hF⟩ := old.2
    refine ⟨F, fun fuel hf => ?_⟩
    obtain ⟨s', hs'⟩ := hF fuel hf
    obtain ⟨t', ht', -⟩ := (hk fuel).ok_right hs'
    exact ⟨t', ht'⟩

theorem hover_derivation_witness :
    StyleQuiet sampleEnv (fun x => ((painted 2 hoverSample).widgets x).style) ∧
    WellFormed (painted 2 hoverSample).widgets ∧
    ((∀ fuel s',
      updateStateWith sampleEnv sampleContains fuel (painted 2 hoverSample) 2 .hoverState = .ok s' →
      s'.widgets = (painted 2 hoverSample).widgets ∧
      (∀ d, (∃ k, up (painted 2 hoverSample).widgets k d = some 2) →
        ((s'.visuals d).states.hover = true ↔
          HoverChain sampleContains (painted 2 hoverSample).widgets
            (painted 2 hoverSample).mousePos d)) ∧
      (∀ k v, up (painted 2 hoverSample).widgets k 2 = some v →
        sampleContains ((painted 2 hoverSample).widgets v).rect (painted 2 hoverSample).mousePos
          = false →
        (s'.visuals 2).states.hover = false)) ∧
    (∃ F, ∀ fuel, F ≤ fuel →
      ∃ s', updateStateWith sampleEnv sampleContains fuel (painted 2 hoverSample) 2 .hoverState
        = .ok s')) :=
  ⟨painted_quiet 2 hoverSample hoverSample_unstyled,
    painted_wellFormed 2 _ hoverSample_wellFormed,
    hover_derivation sampleEnv sampleContains (painted 2 hoverSample) 2
      (painted_quiet 2 hoverSample hoverSample_unstyled)
      (painted_wellFormed 2 _ hoverSample_wellFormed)⟩

/-- C18 refuted as stated: in `hoverSample` the rectangle of the child 2
contains the pointer and 2 is the result of `getChildByPos` of its parent 1,
which has no parent; the rectangle of the root 1 does not contain the pointer,
and `updateState(HoverState)` on 2 returns with the Hover bit of 2 clear. -/
theorem hover_derivation_counterexample :
    HitChain sampleContains hoverSample.widgets hoverSample.mousePos 2 ∧
    (hoverSample.widgets 2).parent = some 1 ∧ (hoverSample.widgets 1).parent = none ∧
    sampleContains (hoverSample.widgets 1).rect hoverSample.mousePos = false ∧
    ∃ s', updateStateWith sampleEnv sampleContains 3 hoverSample 2 .hoverState = .ok s' ∧
      (s'.visuals 2).states.hover = false := by
  refine ⟨⟨rfl, fun k v hk q hq => ?_⟩, rfl, rfl, rfl, _, rfl, rfl⟩
  cases k with
  | zero =>
    cases hk
    have hp : (hoverSample.widgets 2).parent = some 1 := rfl
    have hq1 : q = 1 := Option.some.inj (hq.symm.trans hp)
    subst hq1
    rfl
  | succ k =>
    rw [up_of_parent hoverSample.widgets k 2 1 rfl, up_of_root hoverSample.widgets 1 rfl k] at hk
    split at hk
    · cases hk
      cases hq
    · cases hk

theorem blockedSample_unstyled : ∀ w, (blockedSample.widgets w).style = none := fun w =>
  (hmodify_field (fun d => d.style) _ _ _ (by intro _; rfl) w).trans (sampleFamily_unstyled w)

/-- C6 (lock stack), amended.  When style application neither alters the
tree nor stops the program, for a widget `p` with an empty lock stack and two
distinct children `a` and `b`: after `lockChild(a)` and `lockChild(b)`, `b` is
the one explicitly enabled child of `p`; after `unlockChild(b)`, `a` is the one
explicitly enabled child and the lock stack is `[a]`; after `unlockChild(a)`
the stack is empty and every child is explicitly enabled.  On a well-formed
tree the two `lockChild` calls return, given enough fuel; the `unlockChild`
calls always return. -/
theorem lock_stack (env : StyleEnv) (ct : Rect → Point → Bool) (s : State) (p a b : WidgetId)
    (hq : StyleQuiet env (fun w => (s.widgets w).style))
    (hw : WellFormed s.widgets) (hl : (s.widgets p).lockedChildren = []) (hab : a ≠ b)
    (ha : a ∈ (s.widgets p).children) (hb : b ∈ (s.widgets p).children) :
    (∀ f1 f2 s1 s2, lockChildWith env ct f1 s p (some a) = .ok s1 →
      lockChildWith env ct f2 s1 p (some b) = .ok s2 →
      (∀ x, x ∈ (s2.widgets p).children ↔ x ∈ (s.widgets p).children) ∧
      (∀ x ∈ (s2.widgets p).children, (s2.widgets x).enabled = decide (x = b)) ∧
      ∃ s3, unlockChild s2 p (some b) = .ok s3 ∧
        (∀ x, x ∈ (s3.widgets p).children ↔ x ∈ (s.widgets p).children) ∧
        (∀ x ∈ (s3.widgets p).children, (s3.widgets x).enabled = decide (x = a)) ∧
        (s3.widgets p).lockedChildren = [a] ∧
        ∃ s4, unlockChild s3 p (some a) = .ok s4 ∧
          (∀ x, x ∈ (s4.widgets p).children ↔ x ∈ (s.widgets p).children) ∧
          (s4.widgets p).lockedChildren = [] ∧
          (∀ x ∈ (s4.widgets p).children, (s4.widgets x).enabled = true)) ∧
    (∃ F, ∀ fuel, F ≤ fuel →
      ∃ s1 s2, lockChildWith env ct fuel s p (some a) = .ok s1 ∧
        lockChildWith env ct fuel s1 p (some b) = .ok s2) := by
  have old := lock_stack_recorded ct s p a b hw hl hab ha hb
  have k1 := fun fuel => lockChildWith_tracks env ct _ hq fuel s s p (some a)
    (Agree.itself s) (fun _ => rfl)
  constructor
  · intro f1 f2 t1 t2 h1 h2
    obtain ⟨s1, hs1, a1⟩ := (k1 f1).ok_left h1
    have k2 := lockChildWith_tracks env ct _ hq f2 t1 s1 p (some b) a1 ((k1 f1).styles hs1)
    obtain ⟨s2, hs2, a2⟩ := k2.ok_left h2
    obtain ⟨hm2, he2, s3, hs3, hm3, he3, hl3, s4, hs4, hm4, hl4, he4⟩ :=
      old.1 f1 f2 s1 s2 hs1 hs2
    have k3 := unlockChild_tracks _ t2 s2 p (some b) a2 (k2.styles hs2)
    obtain ⟨t3, ht3, a3⟩ := k3.ok_right hs3
    have k4 := unlockChild_tracks _ t3 s3 p (some a) a3 (k3.styles hs3)
    obtain ⟨t4, ht4, a4⟩ := k4.ok_right hs4
    refine ⟨?_, ?_, t3, ht3, ?_, ?_, ?_, t4, ht4, ?_, ?_, ?_⟩
    · rw [a2.1]; exact hm2
    · rw [a2.1]; exact he2
    · rw [a3.1]; exact hm3
    · rw [a3.1]; exact he3
    · rw [a3.1]; exact hl3
    · rw [a4.1]; exact hm4
    · rw [a4.1]; exact hl4
    · rw [a4.1]; exact he4
  · obtain ⟨F, hF⟩ := old.2
    refine ⟨F, fun fuel hf => ?_⟩
    obtain ⟨s1, s2, hs1, hs2⟩ := hF fuel hf
    obtain ⟨t1, ht1, a1⟩ := (k1 fuel).ok_right hs1
    have k2 := lockChildWith_tracks env ct _ hq fuel t1 s1 p (some b) a1 ((k1 fuel).styles hs1)
    obtain ⟨t2, ht2, -⟩ := k2.ok_right hs2
    exact ⟨t1, t2, ht1, ht2⟩

theorem lock_stack_witness :
    StyleQuiet sampleEnv (fun w => ((painted 2 sampleFamily).widgets w).style) ∧
    WellFormed (painted 2 sampleFamily).widgets ∧
    ((painted 2 sampleFamily).widgets 1).lockedChildren = [] ∧
    (2 : WidgetId) ≠ 3 ∧ 2 ∈ ((painted 2 sampleFamily).widgets 1).children ∧
    3 ∈ ((painted 2 sampleFamily).widgets 1).children ∧
    ((∀ f1 f2 s1 s2,
      lockChildWith sampleEnv sampleContains f1 (painted 2 sampleFamily) 1 (some 2) = .ok s1 →
      lockChildWith sampleEnv sampleContains f2 s1 1 (some 3) = .ok s2 →
      (∀ x, x ∈ (s2.widgets 1).children ↔ x ∈ ((painted 2 sampleFamily).widgets 1).children) ∧
      (∀ x ∈ (s2.widgets 1).children, (s2.widgets x).enabled = decide (x = 3)) ∧
      ∃ s3, unlockChild s2 1 (some 3) = .ok s3 ∧
        (∀ x, x ∈ (s3.widgets 1).children ↔ x ∈ ((painted 2 sampleFamily).widgets 1).children) ∧
        (∀ x ∈ (s3.widgets 1).children, (s3.widgets x).enabled = decide (x = 2)) ∧
        (s3.widgets 1).lockedChildren = [2] ∧
        ∃ s4, unlockChild s3 1 (some 2) = .ok s4 ∧
          (∀ x, x ∈ (s4.widgets 1).children ↔
            x ∈ ((painted 2 sampleFamily).widgets 1).children) ∧
          (s4.widgets 1).lockedChildren = [] ∧
          (∀ x ∈ (s4.widgets 1).children, (s4.widgets x).enabled = true)) ∧
    (∃ F, ∀ fuel, F ≤ fuel →
      ∃ s1 s2,
        lockChildWith sampleEnv sampleContains fuel (painted 2 sampleFamily) 1 (some 2) = .ok s1 ∧
        lockChildWith sampleEnv sampleContains fuel s1 1 (some 3) = .ok s2)) :=
  ⟨painted_quiet 2 sampleFamily sampleFamily_unstyled,
    painted_wellFormed 2 _ sampleFamily_wellFormed, rfl, by decide, by decide, by decide,
    lock_stack sampleEnv sampleContains (painted 2 sampleFamily) 1 2 3
      (painted_quiet 2 sampleFamily sampleFamily_unstyled)
      (painted_wellFormed 2 _ sampleFamily_wellFormed) rfl (by decide) (by decide) (by decide)⟩

/-- C6 refuted as stated: in the sample family widget 1 has an empty lock
stack and the two children 2 and 3; widget 2 owns a layout and carries a style
whose `state.focus` block declares a layout.  `1.lockChild(2)` does not
return, whatever the fuel: it focuses 2, the Focus bit of 2 flips, `updateStyle` applies the block and
`onStyleApply` stops at `assert(!m_layout)`. -/
theorem lock_stack_counterexample :
    ((styled sampleFamily).widgets 1).lockedChildren = [] ∧
    ((styled sampleFamily).widgets 1).children = [2, 3] ∧
    ((styled sampleFamily).widgets 2).focusable = true ∧
    ((styled sampleFamily).widgets 2).style = some stateLayoutStyle ∧
    ((styled sampleFamily).widgets 2).layout = some Layout.anchor ∧
    lockChildWith sampleEnv sampleContains 10 (styled sampleFamily) 1 (some 2)
      = .error .assertion ∧
    ∀ fuel s', lockChildWith sampleEnv sampleContains fuel (styled sampleFamily) 1 (some 2)
      ≠ .ok s' :=
  ⟨rfl, rfl, rfl, rfl, rfl, rfl,
    (Grows.never_returns
      (fun n => lockChildWith sampleEnv sampleContains n (styled sampleFamily) 1 (some 2))
      (fun n m h => lockChildWith_grows sampleEnv sampleContains n m _ 1 _ h)
      10 .assertion rfl (by intro h; cases h)).1⟩

/-- C24 (locking then unlocking does not restore the enabled flags),
amended.  When style application neither alters the tree nor stops the
program, for a widget `p` with an empty lock stack and a child `c`, whatever
the explicit enabled flags of the children: after every `lockChild(c)` that
returns, `unlockChild(c)` returns too, and then the lock stack of `p` is empty
again, `p` has the same children and every child of `p` is explicitly enabled,
also one that was explicitly disabled before the lock.  On a well-formed tree
`lockChild(c)` returns, given enough fuel. -/
theorem lock_unlock_enables_all (env : StyleEnv) (ct : Rect → Point → Bool) (s : State)
    (p c : WidgetId) (hq : StyleQuiet env (fun w => (s.widgets w).style))
    (hw : WellFormed s.widgets) (hl : (s.widgets p).lockedChildren = [])
    (hc : c ∈ (s.widgets p).children) :
    (∀ fuel s1, lockChildWith env ct fuel s p (some c) = .ok s1 →
      ∃ s2, unlockChild s1 p (some c) = .ok s2 ∧
        (s2.widgets p).lockedChildren = [] ∧
        (∀ x, x ∈ (s2.widgets p).children ↔ x ∈ (s.widgets p).children) ∧
        (∀ x ∈ (s.widgets p).children, (s2.widgets x).enabled = true)) ∧
    (∃ F, ∀ fuel, F ≤ fuel → ∃ s1, lockChildWith env ct fuel s p (some c) = .ok s1) := by
  have old := lock_unlock_enables_all_recorded ct s p c hw hl hc
  have k1 := fun fuel => lockChildWith_tracks env ct _ hq fuel s s p (some c)
    (Agree.itself s) (fun _ => rfl)
  constructor
  · intro fuel t1 h1
    obtain ⟨s1, hs1, a1⟩ := (k1 fuel).ok_left h1
    obtain ⟨s2, hs2, hl2, hm2, he2⟩ := old.1 fuel s1 hs1
    have k2 := unlockChild_tracks _ t1 s1 p (some c) a1 ((k1 fuel).styles hs1)
    obtain ⟨t2, ht2, a2⟩ := k2.ok_right hs2
    refine ⟨t2, ht2, ?_, ?_, ?_⟩
    · rw [a2.1]; exact hl2
    · rw [a2.1]; exact hm2
    · rw [a2.1]; exact he2
  · obtain ⟨F, hF⟩ := old.2
    refine ⟨F, fun fuel hf => ?_⟩
    obtain ⟨s1, hs1⟩ := hF fuel hf
    obtain ⟨t1, ht1, -⟩ := (k1 fuel).ok_right hs1
    exact ⟨t1, ht1⟩

theorem lock_unlock_enables_all_witness :
    StyleQuiet sampleEnv (fun w => ((painted 2 blockedSample).widgets w).style) ∧
    WellFormed (painted 2 blockedSample).widgets ∧
    ((painted 2 blockedSample).widgets 1).lockedChildren = [] ∧
    2 ∈ ((painted 2 blockedSample).widgets 1).children ∧
    ((painted 2 blockedSample).widgets 3).enabled = false ∧
    ((∀ fuel s1,
      lockChildWith sampleEnv sampleContains fuel (painted 2 blockedSample) 1 (some 2) = .ok s1 →
      ∃ s2, unlockChild s1 1 (some 2) = .ok s2 ∧
        (s2.widgets 1).lockedChildren = [] ∧
        (∀ x, x ∈ (s2.widgets 1).children ↔ x ∈ ((painted 2 blockedSample).widgets 1).children) ∧
        (∀ x ∈ ((painted 2 blockedSample).widgets 1).children, (s2.widgets x).enabled = true)) ∧
    (∃ F, ∀ fuel, F ≤ fuel →
      ∃ s1, lockChildWith sampleEnv sampleContains fuel (painted 2 blockedSample) 1 (some 2)
        = .ok s1)) :=
  ⟨painted_quiet 2 blockedSample blockedSample_unstyled,
    painted_wellFormed 2 _ blockedSample_wellFormed, rfl, by decide, rfl,
    lock_unlock_enables_all sampleEnv sampleContains (painted 2 blockedSample) 1 2
      (painted_quiet 2 blockedSample blockedSample_unstyled)
      (painted_wellFormed 2 _ blockedSample_wellFormed) rfl (by decide)⟩

/-- C24 refuted as stated: in the sample family with child 3 disabled, widget
1 has an empty lock stack, and its child 2 owns a layout and carries a style
whose `state.focus` block declares a layout.  `1.lockChild(2)` does not return,
whatever the fuel, so no `unlockChild(2)` follows: the call focuses 2, the Focus bit of 2 flips,
`updateStyle` applies the block and `onStyleApply` stops at `assert(!m_layout)`. -/
theorem lock_unlock_enables_all_counterexample :
    ((styled blockedSample).widgets 1).lockedChildren = [] ∧
    (2 : WidgetId) ∈ ((styled blockedSample).widgets 1).children ∧
    ((styled blockedSample).widgets 3).enabled = false ∧
    ((styled blockedSample).widgets 2).focusable = true ∧
    ((styled blockedSample).widgets 2).style = some stateLayoutStyle ∧
    ((styled blockedSample).widgets 2).layout = some Layout.anchor ∧
    lockChildWith sampleEnv sampleContains 10 (styled blockedSample) 1 (some 2)
      = .error .assertion ∧
    ∀ fuel s', lockChildWith sampleEnv sampleContains fuel (styled blockedSample) 1 (some 2)
      ≠ .ok s' :=
  ⟨rfl, by decide, rfl, rfl, rfl, rfl, rfl,
    (Grows.never_returns
      (fun n => lockChildWith sampleEnv sampleContains n (styled blockedSample) 1 (some 2))
      (fun n m h => lockChildWith_grows sampleEnv sampleContains n m _ 1 _ h)
      10 .assertion rfl (by intro h; cases h)).1⟩

/-- C21 (style errors are contained and partial), amended.  For a widget
whose parent, if it has one, owns a layout, every declaration node and
collaborators that leave the parent with its layout: when `onStyleApply` throws
at a declaration, the declarations before it having been applied in list order
on top of the `id` declaration, `applyStyle` returns normally with exactly that
state, the throwing declaration and the declarations after it having changed
nothing; when no declaration throws or stops the program it returns the state
after all of them; every state it returns is one of these two.  It does not
return exactly when a `layout` declaration reaches a widget that owns a
layout, where the assertion `!m_layout` stops the program; a node without
`layout` declaration is always applied with a normal return.  An anchor on a
widget without parent throws, and so does an edge anchor whose value does not
split on `.` into exactly two parts. -/
theorem style_errors_contained (env : StyleEnv) (s : State) (w : WidgetId) (node : OTMLNode)
    (henv : env.KeepsParentLayout w) (hpl : ParentLayout w s) :
    (∀ pre decl post t t' what, node.children = pre ++ decl :: post →
      applyDeclarations env w pre (applyId env s w node) = .done t →
      applyDeclaration env t w decl = .raised t' what →
      t' = t ∧ applyStyleWith env s w node = .ok t) ∧
    (∀ t, applyDeclarations env w node.children (applyId env s w node) = .done t →
      applyStyleWith env s w node = .ok t) ∧
    (∀ s', applyStyleWith env s w node = .ok s' →
      applyDeclarations env w node.children (applyId env s w node) = .done s' ∨
      ∃ pre decl post what, node.children = pre ++ decl :: post ∧
        applyDeclarations env w pre (applyId env s w node) = .done s' ∧
        applyDeclaration env s' w decl = .raised s' what) ∧
    (∀ f, applyStyleWith env s w node = .error f →
      f = .assertion ∧
      ∃ pre decl post t, node.children = pre ++ decl :: post ∧
        applyDeclarations env w pre (applyId env s w node) = .done t ∧
        decl.tag = "layout" ∧ (t.widgets w).layout.isSome = true) ∧
    (∀ pre decl post t, node.children = pre ++ decl :: post →
      applyDeclarations env w pre (applyId env s w node) = .done t →
      decl.tag = "layout" → (t.widgets w).layout.isSome = true →
      applyStyleWith env s w node = .error .assertion) ∧
    ((∀ decl ∈ node.children, decl.tag ≠ "layout") →
      ∃ s', applyStyleWith env s w node = .ok s') ∧
    (∀ t decl, startsWith decl.tag.data "anchors.".data = true → (t.widgets w).parent = none →
      applyDeclaration env t w decl
        = .raised t "cannot create anchor, there is no parent widget!") ∧
    (∀ t decl p l, startsWith decl.tag.data "anchors.".data = true →
      (t.widgets w).parent = some p → (t.widgets p).layout = some l → l.vertical = false →
      String.mk (decl.tag.data.drop 8) ≠ "fill" → String.mk (decl.tag.data.drop 8) ≠ "centerIn" →
      (splitOnDot decl.value.data).length ≠ 2 →
      applyDeclaration env t w decl = .raised t "invalid anchor description") := by
  have old := applyStyleWith_outcomes env s w node
  have hfault : ∀ f, applyStyleWith env s w node = .error f →
      f = .assertion ∧
      ∃ pre decl post t, node.children = pre ++ decl :: post ∧
        applyDeclarations env w pre (applyId env s w node) = .done t ∧
        decl.tag = "layout" ∧ (t.widgets w).layout.isSome = true := by
    intro f hf
    obtain ⟨pre, decl, post, t, hch, hpre, hcase⟩ := old.2.2.2.1 f hf
    have ht : ParentLayout w t :=
      applyDeclarations_parentLayout env w henv pre _ t (applyId_parentLayout env w henv s node hpl)
        hpre
    rcases hcase with ⟨htag, hl, hfa⟩ | ⟨_, p, hp, hnone, _⟩
    · exact ⟨hfa, pre, decl, post, t, hch, hpre, htag, hl⟩
    · have := ht p hp
      rw [hnone] at this
      cases this
  refine ⟨old.1, old.2.1, old.2.2.1, hfault, fun pre decl post t hch hpre htag hl => ?_,
    fun hno => ?_, old.2.2.2.2.2.1, old.2.2.2.2.2.2⟩
  · unfold applyStyleWith onStyleApplyWith
    rw [hch, applyDeclarations_done_append env w pre (decl :: post) _ t hpre]
    simp only [applyDeclarations, applyDeclaration_layout env t w decl htag hl]
  · cases hr : applyStyleWith env s w node with
    | ok s' => exact ⟨s', rfl⟩
    | error f =>
      obtain ⟨-, pre, decl, post, t, hch, -, htag, -⟩ := hfault f hr
      have hmem : decl ∈ node.children := by rw [hch]; simp
      exact absurd htag (hno decl hmem)

theorem style_errors_contained_witness :
    sampleEnv.KeepsParentLayout 2 ∧ ParentLayout 2 sampleTree ∧
    ((∀ pre decl post t t' what, brokenStyle.children = pre ++ decl :: post →
      applyDeclarations sampleEnv 2 pre (applyId sampleEnv sampleTree 2 brokenStyle) = .done t →
      applyDeclaration sampleEnv t 2 decl = .raised t' what →
      t' = t ∧ applyStyleWith sampleEnv sampleTree 2 brokenStyle = .ok t) ∧
    (∀ t, applyDeclarations sampleEnv 2 brokenStyle.children
        (applyId sampleEnv sampleTree 2 brokenStyle) = .done t →
      applyStyleWith sampleEnv sampleTree 2 brokenStyle = .ok t) ∧
    (∀ s', applyStyleWith sampleEnv sampleTree 2 brokenStyle = .ok s' →
      applyDeclarations sampleEnv 2 brokenStyle.children
          (applyId sampleEnv sampleTree 2 brokenStyle) = .done s' ∨
      ∃ pre decl post what, brokenStyle.children = pre ++ decl :: post ∧
        applyDeclarations sampleEnv 2 pre (applyId sampleEnv sampleTree 2 brokenStyle)
          = .done s' ∧
        applyDeclaration sampleEnv s' 2 decl = .raised s' what) ∧
    (∀ f, applyStyleWith sampleEnv sampleTree 2 brokenStyle = .error f →
      f = .assertion ∧
      ∃ pre decl post t, brokenStyle.children = pre ++ decl :: post ∧
        applyDeclarations sampleEnv 2 pre (applyId sampleEnv sampleTree 2 brokenStyle) = .done t ∧
        decl.tag = "layout" ∧ (t.widgets 2).layout.isSome = true) ∧
    (∀ pre decl post t, brokenStyle.children = pre ++ decl :: post →
      applyDeclarations sampleEnv 2 pre (applyId sampleEnv sampleTree 2 brokenStyle) = .done t →
      decl.tag = "layout" → (t.widgets 2).layout.isSome = true →
      applyStyleWith sampleEnv sampleTree 2 brokenStyle = .error .assertion) ∧
    ((∀ decl ∈ brokenStyle.children, decl.tag ≠ "layout") →
      ∃ s', applyStyleWith sampleEnv sampleTree 2 brokenStyle = .ok s') ∧
    (∀ t decl, startsWith decl.tag.data "anchors.".data = true → (t.widgets 2).parent = none →
      applyDeclaration sampleEnv t 2 decl
        = .raised t "cannot create anchor, there is no parent widget!") ∧
    (∀ t decl p l, startsWith decl.tag.data "anchors.".data = true →
      (t.widgets 2).parent = some p → (t.widgets p).layout = some l → l.vertical = false →
      String.mk (decl.tag.data.drop 8) ≠ "fill" → String.mk (decl.tag.data.drop 8) ≠ "centerIn" →
      (splitOnDot decl.value.data).length ≠ 2 →
      applyDeclaration sampleEnv t 2 decl = .raised t "invalid anchor description")) :=
  have hpl : ParentLayout 2 sampleTree := fun p hp => by
    have h1 : (sampleTree.widgets 2).parent = some 1 := rfl
    rw [h1] at hp
    cases hp
    rfl
  ⟨sampleEnv_keepsParentLayout 2, hpl,
    style_errors_contained sampleEnv sampleTree 2 brokenStyle (sampleEnv_keepsParentLayout 2) hpl⟩

end UI
